import Mathlib

/-! Portable dumper (`src/pdumper.c`): loader, relocation records and
tables, and where the writer starts objects.

A shallow embedding of the parts of `pdumper.c` that decide the properties
below.  C integers are `Int`/`Nat`; bit-fields and unsigned conversions are
written with an explicit `%`.  Calls into the operating system (open, fstat,
read, mmap, calloc) are inputs of the model, gathered in `load_env`.
-/

namespace Pdumper

/-! ## Scalars and small helpers -/

/-- `DUMP_OFF_MAX`: `dump_off` is `int_least32_t`. -/
def DUMP_OFF_MAX : Int := 2 ^ 31 - 1

/-- `DUMP_OFF_MIN`. -/
def DUMP_OFF_MIN : Int := -(2 ^ 31)

/-- Conversion of a C integer to an unsigned type of `w` bits. -/
def to_unsigned (w : Nat) (x : Int) : Nat := (x % 2 ^ w).toNat

/-- Conversion of a C integer to a signed two's complement type of `w` bits
(the implementation-defined narrowing every supported compiler performs). -/
def to_signed (w : Nat) (x : Int) : Int :=
  (x + 2 ^ (w - 1)) % 2 ^ w - 2 ^ (w - 1)

/-- `divide_round_up (size_t x, size_t y)`: `(x + y - 1) / y` in `size_t`
arithmetic of `w` bits. -/
def divide_round_up (w : Nat) (x y : Nat) : Nat := ((x + y - 1) % 2 ^ w) / y

/-- `dump_get_max_page_size`. -/
def dump_get_max_page_size : Int := 64 * 1024

/-- Modelled from the spec: the `ROUNDUP (x, y)` macro of `lisp.h`, which is
not part of the sources at hand; "round `discardable_start` up to worst-case
page size", for a power of two `y`. -/
def ROUNDUP (x y : Int) : Int := (y - 1 + x) / y * y

/-- `memcmp (a, b, n)` on byte arrays; a byte beyond the end of a list reads
as 0.  The sign of the result is that of the first differing pair. -/
def memcmp (a b : List Nat) : Nat → Int
  | 0 => 0
  | n + 1 =>
    if a.headD 0 = b.headD 0 then memcmp a.tail b.tail n
    else (a.headD 0 : Int) - (b.headD 0 : Int)

/-- The array `dump_magic[16]`: the fourteen characters of "DUMPEDGNUEMACS"
followed by two zero bytes. -/
def dump_magic : List Nat :=
  [68, 85, 77, 80, 69, 68, 71, 78, 85, 69, 77, 65, 67, 83, 0, 0]

/-- `sizeof (dump_magic)`. -/
def sizeof_dump_magic : Nat := 16

/-- The character '!' that marks an incomplete dump. -/
def magic_incomplete : Nat := 33

/-! ## Header and loader state -/

/-- `enum reloc_phase` (without the fake `RELOC_NUM_PHASES`). -/
inductive reloc_phase
  | EARLY_RELOCS
  | LATE_RELOCS
  | VERY_LATE_RELOCS
  deriving DecidableEq, Repr

/-- `struct dump_table_locator`. -/
structure dump_table_locator where
  offset : Int
  nr_entries : Int
  deriving DecidableEq, Repr

/-- `struct dump_header`. -/
structure dump_header where
  magic : List Nat
  fingerprint : List Nat
  dump_relocs : reloc_phase → dump_table_locator
  object_starts : dump_table_locator
  emacs_relocs : dump_table_locator
  discardable_start : Int
  cold_start : Int
  hash_list : Int

/-- `struct dump_bitset`: the words and their number. -/
structure dump_bitset where
  bits : List Nat
  number_words : Nat
  deriving DecidableEq, Repr

/-- Modelled from the spec: `enum pdumper_load_result` of `pdumper.h`, which
is not part of the sources at hand.  "Statuses: Success, FileNotFound,
BadFileType, VersionMismatch, FailedDump, OOM, Error(errno)"; the last one is
`PDUMPER_LOAD_ERROR + errno`. -/
inductive pdumper_load_result
  | PDUMPER_LOAD_SUCCESS
  | PDUMPER_LOAD_FILE_NOT_FOUND
  | PDUMPER_LOAD_BAD_FILE_TYPE
  | PDUMPER_LOAD_FAILED_DUMP
  | PDUMPER_LOAD_OOM
  | PDUMPER_LOAD_VERSION_MISMATCH
  | PDUMPER_LOAD_ERROR (errno : Int)
  deriving DecidableEq, Repr

open pdumper_load_result

/-- The process-wide state the loader writes: `dump_public`, `dump_private`,
`gflags.dumped_with_pdumper`, `initialized`, and the two hook tables (only
their lengths matter here). -/
structure loader_state where
  dump_public_start : Nat
  dump_public_end : Nat
  header : dump_header
  mark_bits : dump_bitset
  last_mark_bits : dump_bitset
  load_time : Int
  dump_filename : Option String
  dumped_with_pdumper : Bool
  is_initialized : Bool
  nr_dump_hooks : Nat
  nr_dump_late_hooks : Nat

/-- What the platform and the operating system hand to one call of
`pdumper_load`. -/
structure load_env where
  /-- Width of `intptr_t`, `uintptr_t` and `size_t`. -/
  ptr_width : Nat
  /-- `sizeof (struct dump_header)`. -/
  sizeof_header : Nat
  /-- The array `fingerprint` of the running binary. -/
  fingerprint : List Nat
  USE_LSB_TAG : Bool
  /-- The value of `~VALMASK`. -/
  not_VALMASK : Nat
  GCALIGNMENT : Nat
  DUMP_BITSET_WORD_WIDTH : Nat
  ENOENT : Int
  ENOTDIR : Int
  /-- The name passed as `dump_filename`. -/
  dump_filename : String
  /-- `none` when `emacs_open_noquit` returned a descriptor, else `errno`. -/
  open_errno : Option Int
  /-- Whether `sys_fstat` succeeded. -/
  fstat_ok : Bool
  /-- The field `stat.st_size`. -/
  st_size : Nat
  /-- The value `dump_read_all` returned for the header. -/
  bytes_read : Int
  /-- The content of `header_buf` after `dump_read_all`. -/
  header : dump_header
  /-- The function `dump_mmap_contiguous` on the (size, offset) pairs of the
  three sections: the address of the hot mapping, or `none` on failure. -/
  mmap_contiguous : List (Int × Int) → Option Nat
  /-- Whether `calloc` in `dump_bitsets_init` returned memory. -/
  calloc_ok : Bool
  /-- The time the load took. -/
  load_time : Int

/-- `INTPTR_MAX` of the platform. -/
def load_env.INTPTR_MAX (env : load_env) : Nat := 2 ^ (env.ptr_width - 1) - 1

/-- `DUMP_RELOCATION_ALIGNMENT = 1 << DUMP_RELOC_ALIGNMENT_BITS`. -/
def DUMP_RELOCATION_ALIGNMENT : Nat := 4

/-- `DUMP_ALIGNMENT = max (GCALIGNMENT, DUMP_RELOCATION_ALIGNMENT)`. -/
def DUMP_ALIGNMENT (GCALIGNMENT : Nat) : Nat :=
  max GCALIGNMENT DUMP_RELOCATION_ALIGNMENT

/-- `dump_bitsets_init`: two bitsets of `words_needed` words, the first all
zero (calloc), the second all ones (memset with `UCHAR_MAX`); `none` when
`calloc` fails. -/
def dump_bitsets_init (ptr_width word_width : Nat) (calloc_ok : Bool)
    (number_bits : Nat) : Option (dump_bitset × dump_bitset) :=
  let words_needed := divide_round_up ptr_width number_bits word_width
  if !calloc_ok then none
  else some (⟨List.replicate words_needed 0, words_needed⟩,
             ⟨List.replicate words_needed (2 ^ word_width - 1), words_needed⟩)

/-- The steps of a load that act on the dump or call back into Emacs, in the
order in which `pdumper_load` performs them. -/
inductive load_event
  /-- `dump_do_dump_relocation` on entry `i` of the table of `phase`. -/
  | dump_reloc (phase : reloc_phase) (i : Nat)
  /-- `dump_do_emacs_relocation` on entry `i` of the emacs relocation table. -/
  | emacs_reloc (i : Nat)
  /-- `dump_mmap_discard_contents (&sections[DS_DISCARDABLE])`. -/
  | discard
  /-- The call `dump_hooks[i] ()`. -/
  | hook (i : Nat)
  /-- The call `dump_late_hooks[i] ()`. -/
  | late_hook (i : Nat)
  deriving DecidableEq, Repr

/-- `dump_do_all_dump_reloc_for_phase`: entries `0 .. nr_entries - 1` of the
table of `phase`, in index order. -/
def dump_do_all_dump_reloc_for_phase (header : dump_header)
    (phase : reloc_phase) : List load_event :=
  (List.range (header.dump_relocs phase).nr_entries.toNat).map
    (load_event.dump_reloc phase)

/-- `dump_do_all_emacs_relocations`. -/
def dump_do_all_emacs_relocations (header : dump_header) : List load_event :=
  (List.range header.emacs_relocs.nr_entries.toNat).map load_event.emacs_reloc

/-- The steps `pdumper_load` performs after the point of no return. -/
def load_steps (header : dump_header) (s : loader_state) : List load_event :=
  dump_do_all_dump_reloc_for_phase header reloc_phase.EARLY_RELOCS
    ++ dump_do_all_emacs_relocations header
    ++ [load_event.discard]
    ++ (List.range s.nr_dump_hooks).map load_event.hook
    ++ dump_do_all_dump_reloc_for_phase header reloc_phase.LATE_RELOCS
    ++ dump_do_all_dump_reloc_for_phase header reloc_phase.VERY_LATE_RELOCS
    ++ (List.range s.nr_dump_late_hooks).map load_event.late_hook

/-- `pdumper_load`: the status returned, the loader state afterwards and the
steps performed.  Every `goto out` is a return with the value `err` has at
that point and the state as it is then. -/
def pdumper_load (env : load_env) (s : loader_state) :
    pdumper_load_result × loader_state × List load_event :=
  match env.open_errno with
  | some errno =>
    (if errno = env.ENOENT ∨ errno = env.ENOTDIR then PDUMPER_LOAD_FILE_NOT_FOUND
     else PDUMPER_LOAD_ERROR errno, s, [])
  | none =>
  if !env.fstat_ok then (PDUMPER_LOAD_FILE_NOT_FOUND, s, [])
  else if env.st_size > env.INTPTR_MAX then (PDUMPER_LOAD_BAD_FILE_TYPE, s, [])
  else
  let dump_size : Nat := env.st_size
  if dump_size < env.sizeof_header then (PDUMPER_LOAD_BAD_FILE_TYPE, s, [])
  else if to_unsigned env.ptr_width env.bytes_read < env.sizeof_header then
    (PDUMPER_LOAD_BAD_FILE_TYPE, s, [])
  else
  let header := env.header
  if memcmp header.magic dump_magic sizeof_dump_magic ≠ 0 then
    if header.magic.headD 0 = magic_incomplete
        ∧ memcmp (dump_magic.headD 0 :: header.magic.tail) dump_magic
            sizeof_dump_magic = 0 then
      (PDUMPER_LOAD_FAILED_DUMP, s, [])
    else (PDUMPER_LOAD_BAD_FILE_TYPE, s, [])
  else if memcmp header.fingerprint env.fingerprint env.fingerprint.length ≠ 0 then
    (PDUMPER_LOAD_VERSION_MISMATCH, s, [])
  else
  let dump_filename_copy := env.dump_filename
  let adj_discardable_start := ROUNDUP header.discardable_start dump_get_max_page_size
  let sections : List (Int × Int) :=
    [(adj_discardable_start, 0),
     (header.cold_start - adj_discardable_start, adj_discardable_start),
     ((dump_size : Int) - header.cold_start, header.cold_start)]
  match env.mmap_contiguous sections with
  | none => (PDUMPER_LOAD_OOM, s, [])
  | some dump_base =>
  if !env.USE_LSB_TAG
      ∧ Nat.land ((dump_base + dump_size) % 2 ^ env.ptr_width) env.not_VALMASK ≠ 0 then
    (PDUMPER_LOAD_ERROR 0, s, [])
  else
  let mark_bits_needed :=
    divide_round_up env.ptr_width (to_unsigned env.ptr_width header.discardable_start)
      (DUMP_ALIGNMENT env.GCALIGNMENT)
  match dump_bitsets_init env.ptr_width env.DUMP_BITSET_WORD_WIDTH env.calloc_ok
      mark_bits_needed with
  | none => (PDUMPER_LOAD_ERROR 0, s, [])
  | some mark_bits =>
  -- Point of no return.
  let s1 : loader_state :=
    { s with
      dumped_with_pdumper := true
      header := header
      mark_bits := mark_bits.1
      last_mark_bits := mark_bits.2
      dump_public_start := dump_base
      dump_public_end := (dump_base + dump_size) % 2 ^ env.ptr_width }
  let steps := load_steps header s1
  (PDUMPER_LOAD_SUCCESS,
   { s1 with
     is_initialized := true
     load_time := env.load_time
     dump_filename := some dump_filename_copy },
   steps)

/-- The place of a step in the order the loader's phases are listed in:
early dump relocations, emacs relocations, the discard, early hooks, late
dump relocations, very late dump relocations, late hooks. -/
def load_event.rank : load_event → Nat
  | .dump_reloc .EARLY_RELOCS _ => 0
  | .emacs_reloc _ => 1
  | .discard => 2
  | .hook _ => 3
  | .dump_reloc .LATE_RELOCS _ => 4
  | .dump_reloc .VERY_LATE_RELOCS _ => 5
  | .late_hook _ => 6

/-- The index of a step within its phase: table index or registration
index. -/
def load_event.index : load_event → Nat
  | .dump_reloc _ i => i
  | .emacs_reloc i => i
  | .discard => 0
  | .hook i => i
  | .late_hook i => i

/-- Step `a` comes before step `b`: an earlier phase, or the same phase and a
smaller index. -/
def load_event.before (a b : load_event) : Prop :=
  a.rank < b.rank ∨ (a.rank = b.rank ∧ a.index < b.index)

/-! ### Concrete inputs for the loader -/

/-- A header with the given magic and fingerprint, a hot section of 4096
bytes and a cold section starting at 65536. -/
def sample_header (magic fingerprint : List Nat) : dump_header :=
  { magic := magic
    fingerprint := fingerprint
    dump_relocs := fun p =>
      match p with
      | .EARLY_RELOCS => ⟨131072, 2⟩
      | .LATE_RELOCS => ⟨131080, 1⟩
      | .VERY_LATE_RELOCS => ⟨131084, 1⟩
    object_starts := ⟨131088, 3⟩
    emacs_relocs := ⟨131100, 2⟩
    discardable_start := 4096
    cold_start := 65536
    hash_list := 0 }

/-- A fingerprint of 32 bytes, all equal to `b`. -/
def sample_fingerprint (b : Nat) : List Nat := List.replicate 32 b

/-- An environment in which the file opens, `fstat` succeeds, the header is
read in full, mapping and allocation succeed; the running binary has
fingerprint `sample_fingerprint 7`. -/
def sample_env (ptr_width st_size : Nat) (header : dump_header) : load_env :=
  { ptr_width := ptr_width
    sizeof_header := 100
    fingerprint := sample_fingerprint 7
    USE_LSB_TAG := true
    not_VALMASK := 0
    GCALIGNMENT := 8
    DUMP_BITSET_WORD_WIDTH := 64
    ENOENT := 2
    ENOTDIR := 20
    dump_filename := "emacs.pdmp"
    open_errno := none
    fstat_ok := true
    st_size := st_size
    bytes_read := 100
    header := header
    mmap_contiguous := fun _ => some 1048576
    calloc_ok := true
    load_time := 0 }

/-- The loader state of a process that has not loaded a dump, with two early
hooks and one late hook registered. -/
def sample_state : loader_state :=
  { dump_public_start := 0
    dump_public_end := 0
    header := sample_header [] []
    mark_bits := ⟨[], 0⟩
    last_mark_bits := ⟨[], 0⟩
    load_time := 0
    dump_filename := none
    dumped_with_pdumper := false
    is_initialized := false
    nr_dump_hooks := 2
    nr_dump_late_hooks := 1 }

/-! ## Dump relocation records -/

/-- `DUMP_RELOC_TYPE_BITS`. -/
def DUMP_RELOC_TYPE_BITS : Nat := 5

/-- `DUMP_RELOC_ALIGNMENT_BITS`. -/
def DUMP_RELOC_ALIGNMENT_BITS : Nat := 2

/-- `DUMP_OFF_WIDTH`. -/
def DUMP_OFF_WIDTH : Nat := 32

/-- `DUMP_RELOC_OFFSET_BITS = DUMP_OFF_WIDTH - DUMP_RELOC_TYPE_BITS`. -/
def DUMP_RELOC_OFFSET_BITS : Nat := DUMP_OFF_WIDTH - DUMP_RELOC_TYPE_BITS

/-- `RELOC_DUMP_TO_EMACS_PTR_RAW`, the first value of `enum dump_reloc_type`. -/
def RELOC_DUMP_TO_EMACS_PTR_RAW : Nat := 0

/-- `RELOC_DUMP_TO_DUMP_PTR_RAW`. -/
def RELOC_DUMP_TO_DUMP_PTR_RAW : Nat := 1

/-- `RELOC_NATIVE_COMP_UNIT`. -/
def RELOC_NATIVE_COMP_UNIT : Nat := 2

/-- `RELOC_NATIVE_SUBR`. -/
def RELOC_NATIVE_SUBR : Nat := 3

/-- `RELOC_BIGNUM`. -/
def RELOC_BIGNUM : Nat := 4

/-- `RELOC_DUMP_TO_DUMP_LV`. -/
def RELOC_DUMP_TO_DUMP_LV : Nat := 5

/-- `RELOC_DUMP_TO_EMACS_LV = RELOC_DUMP_TO_DUMP_LV + 8`. -/
def RELOC_DUMP_TO_EMACS_LV : Nat := RELOC_DUMP_TO_DUMP_LV + 8

/-- `struct dump_reloc`: `raw_offset` is an unsigned bit-field of
`DUMP_RELOC_OFFSET_BITS` bits, `type` one of `DUMP_RELOC_TYPE_BITS` bits. -/
structure dump_reloc where
  raw_offset : Nat
  type : Nat
  deriving DecidableEq, Repr, Inhabited

/-- `dump_reloc_set_type`: the store into the bit-field keeps the low
`DUMP_RELOC_TYPE_BITS` bits. -/
def dump_reloc_set_type (reloc : dump_reloc) (type : Nat) : dump_reloc :=
  { reloc with type := type % 2 ^ DUMP_RELOC_TYPE_BITS }

/-- `dump_reloc_get_offset`: `reloc.raw_offset << DUMP_RELOC_ALIGNMENT_BITS`. -/
def dump_reloc_get_offset (reloc : dump_reloc) : Int :=
  ((reloc.raw_offset <<< DUMP_RELOC_ALIGNMENT_BITS : Nat) : Int)

/-- `dump_reloc_set_offset`: store `offset >> DUMP_RELOC_ALIGNMENT_BITS` into
the bit-field and signal an error when reading it back gives another offset. -/
def dump_reloc_set_offset (reloc : dump_reloc) (offset : Int) : Except String dump_reloc :=
  let reloc1 : dump_reloc :=
    { reloc with
      raw_offset := to_unsigned DUMP_RELOC_OFFSET_BITS (offset / 2 ^ DUMP_RELOC_ALIGNMENT_BITS) }
  if dump_reloc_get_offset reloc1 ≠ offset then
    Except.error "dump relocation out of range"
  else Except.ok reloc1

/-! ## Searching a relocation table -/

/-- The offset of entry `i` of a table, `dump_reloc_get_offset (relocs[i])`. -/
def reloc_offset_at (relocs : List dump_reloc) (i : Nat) : Int :=
  dump_reloc_get_offset (relocs.getD i default)

/-- The loop of `dump_find_relocation` on `idx_left`, `idx_right` and `found`
(an index into the table, `none` for `NULL`).  The first argument bounds the
number of iterations; `none` is returned when it is used up. -/
def dump_find_relocation_loop (relocs : List dump_reloc) (key : Int) :
    Nat → Nat → Nat → Option Nat → Option (Option Nat)
  | 0, _, _, _ => none
  | fuel + 1, idx_left, idx_right, found =>
    if idx_left < idx_right then
      let idx_mid := idx_left + (idx_right - idx_left) / 2
      if key > reloc_offset_at relocs idx_mid then
        dump_find_relocation_loop relocs key fuel (idx_mid + 1) idx_right found
      else
        if idx_mid ≤ idx_left ∨ key > reloc_offset_at relocs (idx_mid - 1) then
          some (some idx_mid)
        else
          dump_find_relocation_loop relocs key fuel idx_left idx_mid (some idx_mid)
    else some found

/-- `dump_find_relocation` on a table of `relocs.length` entries: the index
of the entry found, `some none` for `NULL`. -/
def dump_find_relocation (relocs : List dump_reloc) (key : Int) : Option (Option Nat) :=
  dump_find_relocation_loop relocs key (relocs.length + 1) 0 relocs.length none

/-! ## Mark bitsets and object-type lookup -/

/-- Modelled from the spec: the constant `PDUMPER_NO_OBJECT` of `pdumper.h`,
which is not part of the sources at hand: the answer "no object starts
here", a negative number and so different from every Lisp type. -/
def PDUMPER_NO_OBJECT : Int := -1

/-- `dump_bitset__bit_slot`: the word that holds bit `bit_number`; `none`
when the `eassert (word_number < bitset->number_words)` fails. -/
def dump_bitset__bit_slot (word_width : Nat) (bitset : dump_bitset) (bit_number : Nat) :
    Option Nat :=
  let word_number := bit_number / word_width
  if word_number < bitset.number_words then bitset.bits[word_number]? else none

/-- `dump_bitset_bit_set_p`: `(*slot & (1 << bit_number % width)) != 0`. -/
def dump_bitset_bit_set_p (word_width : Nat) (bitset : dump_bitset) (bit_number : Nat) :
    Option Bool :=
  (dump_bitset__bit_slot word_width bitset bit_number).map fun slot =>
    decide (slot &&& (1 <<< (bit_number % word_width)) ≠ 0)

/-- The type stored in entry `i` of a table, `relocs[i].type`. -/
def reloc_type_at (relocs : List dump_reloc) (i : Nat) : Int :=
  ((relocs.getD i default).type : Int)

/-- `pdumper_find_object_type_impl` for the object at dump offset `offset`
(`obj - dump_public.start`), with the object-start table of the loaded dump
given as a list.  `none` stands for a failed assertion in the bitset. -/
def pdumper_find_object_type_impl (GCALIGNMENT word_width : Nat) (s : loader_state)
    (object_starts : List dump_reloc) (offset : Int) : Option Int :=
  if offset % (DUMP_ALIGNMENT GCALIGNMENT : Int) ≠ 0 then some PDUMPER_NO_OBJECT
  else
    let bitno := offset / (DUMP_ALIGNMENT GCALIGNMENT : Int)
    let lookup : Option Int :=
      (dump_find_relocation object_starts offset).map fun reloc =>
        match reloc with
        | some i =>
          if reloc_offset_at object_starts i = offset then reloc_type_at object_starts i
          else PDUMPER_NO_OBJECT
        | none => PDUMPER_NO_OBJECT
    if offset < s.header.discardable_start then
      match dump_bitset_bit_set_p word_width s.last_mark_bits bitno.toNat with
      | none => none
      | some false => some PDUMPER_NO_OBJECT
      | some true => lookup
    else lookup

/-! ## Relocation descriptors and `drain_reloc_list` -/

/-- What the writer needs to know of a Lisp object that is the target of a
relocation: `XTYPE`, whether it is a built-in symbol, the offset in Emacs of
`dump_object_emacs_ptr` (`none` for `NULL`), and the offset
`dump_recall_object` has for it. -/
structure lisp_target where
  xtype : Int
  builtin_symbol : Bool
  emacs_ptr : Option Int
  recalled : Int
  deriving DecidableEq, Repr

/-- An element of a relocation descriptor: a Lisp integer or an object. -/
inductive lisp_value
  | fixnum (n : Int)
  | object (target : lisp_target)
  deriving DecidableEq, Repr

/-- A relocation descriptor is a Lisp list, `(TYPE OFFSET . REST)`. -/
abbrev lisp_reloc := List lisp_value

/-- `dump_pop`: the head of the list and the rest; an error on `nil`. -/
def dump_pop (w : lisp_reloc) : Except String (lisp_value × lisp_reloc) :=
  match w with
  | [] => Except.error "wrong-type-argument"
  | v :: rest => Except.ok (v, rest)

/-- `intmax_t_from_lisp`, also `XFIXNUM`: the integer in a Lisp integer. -/
def intmax_t_from_lisp (v : lisp_value) : Except String Int :=
  match v with
  | lisp_value.fixnum n => Except.ok n
  | lisp_value.object _ => Except.error "wrong-type-argument"

/-- `dump_off_from_lisp`: the integer of the Lisp value as a `dump_off`.  A
value outside `DUMP_OFF_MIN` .. `DUMP_OFF_MAX` fails the `eassert`; without
`ENABLE_CHECKING` the conversion to `dump_off` does not keep such a value,
and the model stops there too. -/
def dump_off_from_lisp (v : lisp_value) : Except String Int := do
  let n ← intmax_t_from_lisp v
  if DUMP_OFF_MIN ≤ n ∧ n ≤ DUMP_OFF_MAX then Except.ok n else Except.error "eassert"

/-- `dump_off_to_lisp`. -/
def dump_off_to_lisp (n : Int) : lisp_value := lisp_value.fixnum n

/-- The offset a descriptor is sorted by, `XCAR (XCDR (a))`; 0 stands in
when the descriptor has no such integer. -/
def lisp_reloc_offset (a : lisp_reloc) : Int :=
  match a with
  | _ :: lisp_value.fixnum n :: _ => n
  | _ => 0

/-- `Fdump_emacs_portable__sort_predicate`: `a_offset < b_offset`. -/
def Fdump_emacs_portable__sort_predicate (a b : lisp_reloc) : Bool :=
  decide (lisp_reloc_offset a < lisp_reloc_offset b)

/-- Modelled from the spec: `Fsort` of `fns.c`, which is not part of the
sources at hand, called with a "less than" predicate: the list "sorted by
ascending" key, elements that the predicate does not order keeping their
relative order (a stable sort). -/
def Fsort (l : List lisp_reloc) (pred : lisp_reloc → lisp_reloc → Bool) : List lisp_reloc :=
  l.insertionSort (fun a b => pred b a = false)

/-- `dump_decode_dump_reloc`. -/
def dump_decode_dump_reloc (lreloc : lisp_reloc) : Except String dump_reloc := do
  let (v1, lreloc1) ← dump_pop lreloc
  let type ← intmax_t_from_lisp v1
  let reloc := dump_reloc_set_type default (to_unsigned 32 type)
  let (v2, _) ← dump_pop lreloc1
  let offset ← dump_off_from_lisp v2
  dump_reloc_set_offset reloc offset

/-- `dump_emit_dump_reloc`: the record written to the table. -/
def dump_emit_dump_reloc (lreloc : lisp_reloc) : Except String dump_reloc :=
  dump_decode_dump_reloc lreloc

/-- `RELOC_EMACS_COPY_FROM_DUMP`, the first value of `enum emacs_reloc_type`. -/
def RELOC_EMACS_COPY_FROM_DUMP : Int := 0

/-- `RELOC_EMACS_IMMEDIATE`. -/
def RELOC_EMACS_IMMEDIATE : Int := 1

/-- `RELOC_EMACS_DUMP_PTR_RAW`. -/
def RELOC_EMACS_DUMP_PTR_RAW : Int := 2

/-- `RELOC_EMACS_EMACS_PTR_RAW`. -/
def RELOC_EMACS_EMACS_PTR_RAW : Int := 3

/-- `RELOC_EMACS_DUMP_LV`. -/
def RELOC_EMACS_DUMP_LV : Int := 4

/-- `RELOC_EMACS_EMACS_LV`. -/
def RELOC_EMACS_EMACS_LV : Int := 5

/-- `EMACS_RELOC_TYPE_BITS`. -/
def EMACS_RELOC_TYPE_BITS : Nat := 3

/-- `EMACS_RELOC_LENGTH_BITS = DUMP_OFF_WIDTH - EMACS_RELOC_TYPE_BITS`. -/
def EMACS_RELOC_LENGTH_BITS : Nat := DUMP_OFF_WIDTH - EMACS_RELOC_TYPE_BITS

/-- `struct emacs_reloc`; `length` is a signed bit-field of
`EMACS_RELOC_LENGTH_BITS` bits, and `u` is the union of `dump_offset`,
`emacs_offset2` and `immediate`. -/
structure emacs_reloc where
  type : Int
  length : Int
  emacs_offset : Int
  u : Int
  deriving DecidableEq, Repr

/-- `dump_check_dump_off`; `end_heap` is `ctx->end_heap`, `none` when `ctx`
is `NULL`.  With `ENABLE_CHECKING` a failed `eassert` stops the dump. -/
def dump_check_dump_off (ENABLE_CHECKING : Bool) (end_heap : Option Int) (dump_offset : Int) :
    Except String Unit :=
  if ENABLE_CHECKING ∧ ¬ dump_offset > 0 then Except.error "eassert"
  else
    match end_heap with
    | none => Except.ok ()
    | some ctx_end_heap =>
      if ENABLE_CHECKING ∧ ¬ dump_offset < ctx_end_heap then Except.error "eassert"
      else Except.ok ()

/-- `dump_check_emacs_off`. -/
def dump_check_emacs_off (ENABLE_CHECKING : Bool) (emacs_off : Int) : Except String Unit :=
  if ENABLE_CHECKING ∧ ¬ |emacs_off| ≤ 60 * 1024 * 1024 then Except.error "eassert"
  else Except.ok ()

/-- `decode_emacs_reloc`; `end_heap` is `ctx->end_heap`, `none` when `ctx`
is `NULL`.  With `ENABLE_CHECKING` a failed `eassert` stops the dump.  The
model also stops, with or without `ENABLE_CHECKING`, where the C goes on
with a value it has no meaning for: a target that is a fixnum, a target of
`RELOC_EMACS_EMACS_LV` that is not in Emacs, a `RELOC_EMACS_DUMP_LV` decoded
without a context, and a type that is none of the six. -/
def decode_emacs_reloc (ENABLE_CHECKING : Bool) (end_heap : Option Int) (lreloc : lisp_reloc) :
    Except String emacs_reloc := do
  let (v1, lreloc1) ← dump_pop lreloc
  let type ← intmax_t_from_lisp v1
  let (v2, lreloc2) ← dump_pop lreloc1
  let emacs_offset ← dump_off_from_lisp v2
  dump_check_emacs_off ENABLE_CHECKING emacs_offset
  let (reloc, lreloc_rest) ←
    (if type = RELOC_EMACS_COPY_FROM_DUMP then do
      let (v3, lreloc3) ← dump_pop lreloc2
      let dump_offset ← dump_off_from_lisp v3
      dump_check_dump_off ENABLE_CHECKING end_heap dump_offset
      let (v4, lreloc4) ← dump_pop lreloc3
      let length ← dump_off_from_lisp v4
      if to_signed EMACS_RELOC_LENGTH_BITS length ≠ length then
        Except.error "relocation copy length too large"
      else
        Except.ok
          (⟨type, to_signed EMACS_RELOC_LENGTH_BITS length, emacs_offset, dump_offset⟩, lreloc4)
    else if type = RELOC_EMACS_IMMEDIATE then do
      let (v3, lreloc3) ← dump_pop lreloc2
      let value ← intmax_t_from_lisp v3
      let (v4, lreloc4) ← dump_pop lreloc3
      let size ← dump_off_from_lisp v4
      if ENABLE_CHECKING ∧ to_signed EMACS_RELOC_LENGTH_BITS size ≠ size then
        Except.error "eassert"
      else
        Except.ok (⟨type, to_signed EMACS_RELOC_LENGTH_BITS size, emacs_offset, value⟩, lreloc4)
    else if type = RELOC_EMACS_EMACS_PTR_RAW then do
      let (v3, lreloc3) ← dump_pop lreloc2
      let emacs_offset2 ← dump_off_from_lisp v3
      dump_check_emacs_off ENABLE_CHECKING emacs_offset2
      Except.ok (⟨type, 0, emacs_offset, emacs_offset2⟩, lreloc3)
    else if type = RELOC_EMACS_DUMP_PTR_RAW then do
      let (v3, lreloc3) ← dump_pop lreloc2
      let dump_offset ← dump_off_from_lisp v3
      dump_check_dump_off ENABLE_CHECKING end_heap dump_offset
      Except.ok (⟨type, 0, emacs_offset, dump_offset⟩, lreloc3)
    else if type = RELOC_EMACS_DUMP_LV ∨ type = RELOC_EMACS_EMACS_LV then do
      let (v3, lreloc3) ← dump_pop lreloc2
      match v3 with
      | lisp_value.fixnum _ => Except.error "eassert"
      | lisp_value.object target_value =>
        let tag_type := target_value.xtype
        if ENABLE_CHECKING
            ∧ (target_value.builtin_symbol = true
              ∨ to_signed EMACS_RELOC_LENGTH_BITS tag_type ≠ tag_type) then
          Except.error "eassert"
        else
        let length := to_signed EMACS_RELOC_LENGTH_BITS tag_type
        if type = RELOC_EMACS_EMACS_LV then
          match target_value.emacs_ptr with
          | none => Except.error "eassert"
          | some emacs_offset2 => Except.ok (⟨type, length, emacs_offset, emacs_offset2⟩, lreloc3)
        else
          if end_heap = none then Except.error "eassume"
          else if ENABLE_CHECKING ∧ target_value.emacs_ptr ≠ none then Except.error "eassert"
          else if target_value.recalled ≤ 0 then
            Except.error "relocation target was not dumped"
          else do
            dump_check_dump_off ENABLE_CHECKING end_heap target_value.recalled
            Except.ok (⟨type, length, emacs_offset, target_value.recalled⟩, lreloc3)
    else Except.error "not reached" : Except String (emacs_reloc × lisp_reloc))
  -- We should have consumed the whole relocation descriptor.
  if ENABLE_CHECKING ∧ lreloc_rest ≠ [] then Except.error "eassert" else Except.ok reloc

/-- `dump_emit_emacs_reloc`: the record written to the table, decoded with
the context, whose `end_heap` is the second argument.  The flag
`pack_objects`, which its `eassert` tests, is set by `drain_reloc_list`. -/
def dump_emit_emacs_reloc (ENABLE_CHECKING : Bool) (end_heap : Int) (lreloc : lisp_reloc) :
    Except String emacs_reloc :=
  decode_emacs_reloc ENABLE_CHECKING (some end_heap) lreloc

/-- The block of `dump_merge_emacs_relocs` under `#ifdef ENABLE_CHECKING`:
the offsets `XCAR (XCDR (lreloc))` of the two descriptors and the `eassert`s
that the first is not above and not equal to the second. -/
def dump_merge_emacs_relocs_check (lreloc_a lreloc_b : lisp_reloc) : Except String Unit := do
  let (_, cdr_a) ← dump_pop lreloc_a
  let (car_cdr_a, _) ← dump_pop cdr_a
  let off_a ← dump_off_from_lisp car_cdr_a
  let (_, cdr_b) ← dump_pop lreloc_b
  let (car_cdr_b, _) ← dump_pop cdr_b
  let off_b ← dump_off_from_lisp car_cdr_b
  if off_a ≤ off_b ∧ off_a < off_b then Except.ok () else Except.error "eassert"

/-- `dump_merge_emacs_relocs`; `none` is `Qnil`.  With `ENABLE_CHECKING` the
two `eassert`s on the order of the offsets stop the dump.  The descriptors
are decoded without a context. -/
def dump_merge_emacs_relocs (ENABLE_CHECKING : Bool) (lreloc_a lreloc_b : lisp_reloc) :
    Except String (Option lisp_reloc) := do
  let _ ←
    (if ENABLE_CHECKING then dump_merge_emacs_relocs_check lreloc_a lreloc_b else Except.ok ())
  let (ta, _) ← dump_pop lreloc_a
  let type_a ← intmax_t_from_lisp ta
  let (tb, _) ← dump_pop lreloc_b
  let type_b ← intmax_t_from_lisp tb
  if type_a ≠ RELOC_EMACS_COPY_FROM_DUMP ∨ type_b ≠ RELOC_EMACS_COPY_FROM_DUMP then
    Except.ok none
  else
  let reloc_a ← decode_emacs_reloc ENABLE_CHECKING none lreloc_a
  let reloc_b ← decode_emacs_reloc ENABLE_CHECKING none lreloc_b
  if reloc_a.emacs_offset + reloc_a.length ≠ reloc_b.emacs_offset then Except.ok none
  else if reloc_a.u + reloc_a.length ≠ reloc_b.u then Except.ok none
  else
  let new_length := reloc_a.length + reloc_b.length
  if to_signed EMACS_RELOC_LENGTH_BITS new_length ≠ new_length then Except.ok none
  else
    Except.ok (some
      [lisp_value.fixnum RELOC_EMACS_COPY_FROM_DUMP,
       dump_off_to_lisp reloc_a.emacs_offset,
       dump_off_to_lisp reloc_a.u,
       dump_off_to_lisp (to_signed EMACS_RELOC_LENGTH_BITS new_length)])

/-- The loops of `drain_reloc_list` over the sorted list.  The first
argument is the variable `reloc` of the outer loop once it has been popped
(`none` before the first pop); the inner loop replaces it by the merged
descriptor as long as the merger returns one, then the handler emits it. -/
def drain_relocs {α : Type} (handler : lisp_reloc → Except String α)
    (merger : Option (lisp_reloc → lisp_reloc → Except String (Option lisp_reloc))) :
    Option lisp_reloc → List lisp_reloc → Except String (List α)
  | none, [] => Except.ok []
  | none, reloc :: relocs => drain_relocs handler merger (some reloc) relocs
  | some reloc, [] => do
    let entry ← handler reloc
    Except.ok [entry]
  | some reloc, next :: relocs =>
    match merger with
    | none => do
      let entry ← handler reloc
      let entries ← drain_relocs handler merger (some next) relocs
      Except.ok (entry :: entries)
    | some merge => do
      let merged ← merge reloc next
      match merged with
      | some m => drain_relocs handler merger (some m) relocs
      | none =>
        let entry ← handler reloc
        let entries ← drain_relocs handler merger (some next) relocs
        Except.ok (entry :: entries)

/-- `drain_reloc_list`: reverse the accumulated list, sort it with
`Fdump_emacs_portable__sort_predicate`, and emit the table. -/
def drain_reloc_list {α : Type} (handler : lisp_reloc → Except String α)
    (merger : Option (lisp_reloc → lisp_reloc → Except String (Option lisp_reloc)))
    (reloc_list : List lisp_reloc) : Except String (List α) :=
  let list_reversed := reloc_list.reverse
  let relocs := Fsort list_reversed Fdump_emacs_portable__sort_predicate
  drain_relocs handler merger none relocs

/-- The table `Fdump_emacs_portable` emits for the list of emacs relocation
descriptors; `end_heap` is `ctx->end_heap`. -/
def drain_emacs_relocs (ENABLE_CHECKING : Bool) (end_heap : Int) (reloc_list : List lisp_reloc) :
    Except String (List emacs_reloc) :=
  drain_reloc_list (dump_emit_emacs_reloc ENABLE_CHECKING end_heap)
    (some (dump_merge_emacs_relocs ENABLE_CHECKING)) reloc_list

/-- Three emacs relocation descriptors as the writer pushes them, the last
pushed first: two `RELOC_EMACS_COPY_FROM_DUMP` of adjacent ranges and one
`RELOC_EMACS_IMMEDIATE`. -/
def sample_emacs_relocs : List lisp_reloc :=
  [[.fixnum 0, .fixnum 16, .fixnum 108, .fixnum 4],
   [.fixnum 0, .fixnum 8, .fixnum 100, .fixnum 8],
   [.fixnum 1, .fixnum 0, .fixnum 77, .fixnum 4]]

/-! ## Pointers into the Emacs image -/

/-- The running Emacs as the relocation code sees it: the pointer width, the
address `emacs_basis ()`, and what `lisp.h` (not part of the sources at hand)
supplies to build a `Lisp_Object` from an address. -/
structure host where
  ptr_width : Nat
  emacs_basis : Nat
  Lisp_Symbol : Int
  make_lisp_ptr : Nat → Int → Nat
  make_lisp_symbol : Nat → Nat
  /-- What the cases `RELOC_NATIVE_COMP_UNIT`, `RELOC_NATIVE_SUBR` and
  `RELOC_BIGNUM` do to the loaded dump. -/
  other_relocation : dump_reloc → (Int → Nat) → (Int → Nat)

/-- `emacs_ptr_at`: `emacs_basis () + offset` in `uintptr_t`. -/
def emacs_ptr_at (h : host) (offset : Int) : Nat :=
  to_unsigned h.ptr_width ((h.emacs_basis : Int) + offset)

/-- `ptrdiff_t_to_dump_off`: the cast to `dump_off`. -/
def ptrdiff_t_to_dump_off (value : Int) : Int := to_signed DUMP_OFF_WIDTH value

/-- `emacs_offset`: the difference of the two addresses read as `intptr_t`,
as a `dump_off`. -/
def emacs_offset (h : host) (emacs_ptr : Nat) : Int :=
  let emacs_ptr_value := to_signed h.ptr_width emacs_ptr
  let emacs_ptr_relative :=
    to_signed h.ptr_width (emacs_ptr_value - to_signed h.ptr_width h.emacs_basis)
  ptrdiff_t_to_dump_off emacs_ptr_relative

/-! ## Fixups -/

/-- An element of a fixup: a Lisp integer, or a Lisp object, given by the
number that names it. -/
inductive fixup_value
  | fixnum (n : Int)
  | object (id : Nat)
  deriving DecidableEq, Repr

/-- A fixup is a Lisp list, `(TYPE OFFSET ARG)`. -/
abbrev lisp_fixup := List fixup_value

/-- `DUMP_FIXUP_LISP_OBJECT`. -/
def DUMP_FIXUP_LISP_OBJECT : Int := 0

/-- `DUMP_FIXUP_LISP_OBJECT_RAW`. -/
def DUMP_FIXUP_LISP_OBJECT_RAW : Int := 1

/-- `DUMP_FIXUP_PTR_DUMP_RAW`. -/
def DUMP_FIXUP_PTR_DUMP_RAW : Int := 2

/-- `DUMP_FIXUP_BIGNUM_DATA`. -/
def DUMP_FIXUP_BIGNUM_DATA : Int := 3

/-! ## The dump context -/

/-- `struct dump_flags`. -/
structure dump_flags where
  dump_object_contents : Bool
  record_object_starts : Bool
  pack_objects : Bool
  assert_already_seen : Bool
  defer_hash_tables : Bool
  defer_symbols : Bool
  defer_cold_objects : Bool
  defer_copied_objects : Bool
  deriving DecidableEq, Repr

/-- `struct dump_context`, without the output bytes: the write offset, the
flags, the map from objects (named by a number) to remembered offsets, and the
lists the writer accumulates. -/
structure dump_context where
  offset : Int
  obj_offset : Int
  flags : dump_flags
  objects_dumped : Nat → Int
  /-- The map `symbol_aux`; `none` is `Qnil`. -/
  symbol_aux : Option (Nat → Int)
  dump_relocs : reloc_phase → List lisp_reloc
  object_starts : List lisp_reloc
  emacs_relocs : List lisp_reloc
  fixups : List lisp_fixup
  /-- Pairs of a cold operation and the object it is for. -/
  cold_queue : List (Int × Nat)
  copied_queue : List Nat
  deferred_symbols : List Nat
  hash_tables : List Nat
  deferred_hash_tables : List Nat

/-- `DUMP_OBJECT_IS_RUNTIME_MAGIC`. -/
def DUMP_OBJECT_IS_RUNTIME_MAGIC : Int := -6

/-- `DUMP_OBJECT_ON_COPIED_QUEUE`. -/
def DUMP_OBJECT_ON_COPIED_QUEUE : Int := -5

/-- `DUMP_OBJECT_ON_HASH_TABLE_QUEUE`. -/
def DUMP_OBJECT_ON_HASH_TABLE_QUEUE : Int := -4

/-- `DUMP_OBJECT_ON_SYMBOL_QUEUE`. -/
def DUMP_OBJECT_ON_SYMBOL_QUEUE : Int := -3

/-- `DUMP_OBJECT_ON_COLD_QUEUE`. -/
def DUMP_OBJECT_ON_COLD_QUEUE : Int := -2

/-- `DUMP_OBJECT_ON_NORMAL_QUEUE`. -/
def DUMP_OBJECT_ON_NORMAL_QUEUE : Int := -1

/-- `DUMP_OBJECT_NOT_SEEN`. -/
def DUMP_OBJECT_NOT_SEEN : Int := 0

/-- `dump_push` onto the list of dump relocations of a phase. -/
def push_dump_reloc (ctx : dump_context) (phase : reloc_phase) (lreloc : lisp_reloc) :
    dump_context :=
  { ctx with
    dump_relocs := fun p => if p = phase then lreloc :: ctx.dump_relocs p else ctx.dump_relocs p }

/-- `dump_reloc_dump_to_emacs_ptr_raw`. -/
def dump_reloc_dump_to_emacs_ptr_raw (ctx : dump_context) (dump_offset : Int) : dump_context :=
  if ctx.flags.dump_object_contents then
    push_dump_reloc ctx reloc_phase.EARLY_RELOCS
      [lisp_value.fixnum RELOC_DUMP_TO_EMACS_PTR_RAW, dump_off_to_lisp dump_offset]
  else ctx

/-- A store of one pointer-sized word at byte position `pos` of an object
under construction or of the loaded dump. -/
def store_word (mem : Int → Nat) (pos : Int) (value : Nat) : Int → Nat :=
  fun q => if q = pos then value else mem q

/-- `dump_field_emacs_ptr` for the field at `relpos` of the object being
dumped, whose content is the address `abs_emacs_ptr` (0 for `NULL`): the
context and the out-object afterwards. -/
def dump_field_emacs_ptr (h : host) (ctx : dump_context) (out : Int → Nat) (relpos : Int)
    (abs_emacs_ptr : Nat) : dump_context × (Int → Nat) :=
  if !ctx.flags.dump_object_contents then (ctx, out)
  else
    if abs_emacs_ptr ≠ 0 then
      let rel_emacs_ptr := emacs_offset h abs_emacs_ptr
      let ctx1 := dump_reloc_dump_to_emacs_ptr_raw ctx (ctx.obj_offset + relpos)
      (ctx1, store_word out relpos (to_unsigned h.ptr_width rel_emacs_ptr))
    else (ctx, store_word out relpos (to_unsigned h.ptr_width 0))

/-! ## Applying a dump relocation -/

/-- `dump_read_word_from_dump`; the loaded dump is given by its words, by
dump offset. -/
def dump_read_word_from_dump (image : Int → Nat) (offset : Int) : Nat := image offset

/-- `dump_write_word_to_dump`, also `dump_write_lv_to_dump`. -/
def dump_write_word_to_dump (image : Int → Nat) (offset : Int) (value : Nat) : Int → Nat :=
  store_word image offset value

/-- `dump_make_lv_from_reloc`. -/
def dump_make_lv_from_reloc (h : host) (dump_base : Nat) (reloc : dump_reloc)
    (image : Int → Nat) : Nat :=
  let reloc_offset := dump_reloc_get_offset reloc
  let value := dump_read_word_from_dump image reloc_offset
  if RELOC_DUMP_TO_DUMP_LV ≤ reloc.type ∧ reloc.type < RELOC_DUMP_TO_EMACS_LV then
    let lisp_type : Int := (reloc.type : Int) - RELOC_DUMP_TO_DUMP_LV
    let value1 := (value + dump_base) % 2 ^ h.ptr_width
    if lisp_type = h.Lisp_Symbol then h.make_lisp_symbol value1
    else h.make_lisp_ptr value1 lisp_type
  else
    let lisp_type : Int := (reloc.type : Int) - RELOC_DUMP_TO_EMACS_LV
    let value1 := (value + h.emacs_basis) % 2 ^ h.ptr_width
    if lisp_type = h.Lisp_Symbol then h.make_lisp_symbol value1
    else h.make_lisp_ptr value1 lisp_type

/-- `dump_do_dump_relocation`: the loaded dump after the relocation. -/
def dump_do_dump_relocation (h : host) (dump_base : Nat) (reloc : dump_reloc)
    (image : Int → Nat) : Int → Nat :=
  let reloc_offset := dump_reloc_get_offset reloc
  if reloc.type = RELOC_DUMP_TO_EMACS_PTR_RAW then
    let value := dump_read_word_from_dump image reloc_offset
    dump_write_word_to_dump image reloc_offset ((value + h.emacs_basis) % 2 ^ h.ptr_width)
  else if reloc.type = RELOC_DUMP_TO_DUMP_PTR_RAW then
    let value := dump_read_word_from_dump image reloc_offset
    dump_write_word_to_dump image reloc_offset ((value + dump_base) % 2 ^ h.ptr_width)
  else if reloc.type = RELOC_NATIVE_COMP_UNIT ∨ reloc.type = RELOC_NATIVE_SUBR
      ∨ reloc.type = RELOC_BIGNUM then
    h.other_relocation reloc image
  else
    dump_write_word_to_dump image reloc_offset (dump_make_lv_from_reloc h dump_base reloc image)

/-- A 64-bit host whose basis is at 0x555500001000. -/
def sample_host : host :=
  { ptr_width := 64
    emacs_basis := 93823560585216
    Lisp_Symbol := 0
    make_lisp_ptr := fun p t => p + t.toNat
    make_lisp_symbol := fun p => p
    other_relocation := fun _ image => image }

/-- A dump context in which an object has been started at offset 4096. -/
def sample_context : dump_context :=
  { offset := 4096
    obj_offset := 4096
    flags := ⟨true, true, false, false, true, false, true, true⟩
    objects_dumped := fun _ => 0
    symbol_aux := none
    dump_relocs := fun _ => []
    object_starts := []
    emacs_relocs := []
    fixups := []
    cold_queue := []
    copied_queue := []
    deferred_symbols := []
    hash_tables := []
    deferred_hash_tables := [] }

/-! ## Where objects start: `dump_object` and the per-type writers

The writers are modelled as far as they decide where objects start and what
`dump_object` remembers: the write offset, `obj_offset`, the flags, the
remembered offsets, the deferral lists and `object_starts`.  The calls of the
field helpers (`dump_field_lv`, `dump_field_lv_rawptr`, `dump_field_emacs_ptr`,
`dump_field_ptr_to_dump_offset`, `dump_field_fixup_later`), which fill the
out-object and push fixups, relocations and queue entries, are left out: they
change none of these, except that `dump_enqueue_object` may remember
`DUMP_OBJECT_ON_NORMAL_QUEUE` for an object not seen before, a value no test
below tells from `DUMP_OBJECT_NOT_SEEN`.  The fixup and the relocation that
`dump_bignum` pushes itself are kept. -/

/-- Modelled from the spec: `enum Lisp_Type` of `lisp.h`, which is not part of
the sources at hand: the tags "{Int, Symbol, String, Cons, Float,
Vectorlike}", integers having two tags. -/
inductive Lisp_Type
  | Lisp_Symbol
  | Lisp_Int0
  | Lisp_Int1
  | Lisp_String
  | Lisp_Vectorlike
  | Lisp_Cons
  | Lisp_Float
  deriving DecidableEq, Repr

/-- Modelled from the spec: the numbers of the tags of `enum Lisp_Type`, as
`lisp.h` gives them in a build with `USE_LSB_TAG`. -/
def Lisp_Type.code : Lisp_Type → Int
  | .Lisp_Symbol => 0
  | .Lisp_Int0 => 2
  | .Lisp_Cons => 3
  | .Lisp_String => 4
  | .Lisp_Vectorlike => 5
  | .Lisp_Int1 => 6
  | .Lisp_Float => 7

/-- The values of `enum pvec_type` that `dump_vectorlike` names. -/
inductive pvec_type
  | PVEC_NORMAL_VECTOR | PVEC_FREE | PVEC_BIGNUM | PVEC_MARKER | PVEC_OVERLAY
  | PVEC_FINALIZER | PVEC_SYMBOL_WITH_POS | PVEC_MISC_PTR | PVEC_USER_PTR | PVEC_PROCESS
  | PVEC_FRAME | PVEC_WINDOW | PVEC_BOOL_VECTOR | PVEC_BUFFER | PVEC_HASH_TABLE
  | PVEC_OBARRAY | PVEC_TERMINAL | PVEC_WINDOW_CONFIGURATION | PVEC_SUBR | PVEC_OTHER
  | PVEC_XWIDGET | PVEC_XWIDGET_VIEW | PVEC_THREAD | PVEC_MUTEX | PVEC_CONDVAR
  | PVEC_MODULE_FUNCTION | PVEC_NATIVE_COMP_UNIT | PVEC_TS_PARSER | PVEC_TS_NODE
  | PVEC_TS_COMPILED_QUERY | PVEC_SQLITE | PVEC_CLOSURE | PVEC_CHAR_TABLE
  | PVEC_SUB_CHAR_TABLE | PVEC_RECORD | PVEC_FONT
  deriving DecidableEq, Repr

/-- An `INTERVAL`: `NULL`, or a `struct interval` with its `left` and `right`
children. -/
inductive interval_ptr
  | null
  | node (left right : interval_ptr)
  deriving DecidableEq, Repr

/-- A pointer to a `struct itree_node`: `NULL`, or a node with what its
`parent`, `left` and `right` fields point to. -/
inductive itree_ptr
  | null
  | node (parent left right : itree_ptr)
  deriving DecidableEq, Repr

/-- `enum Lisp_Fwd_Type`; `other` is any value the `switch` of `dump_fwd` does
not name. -/
inductive Lisp_Fwd_Type
  | Lisp_Fwd_Int
  | Lisp_Fwd_Bool
  | Lisp_Fwd_Obj
  | Lisp_Fwd_Buffer_Obj
  | Lisp_Fwd_Kboard_Obj
  | other
  deriving DecidableEq, Repr

/-- The `redirect` field of a symbol with what the matching member of `val`
holds: for a localized symbol whether `blv->fwd.fwdptr` is set and its type,
for a forwarded one the type of the forwarding structure and its offset in
Emacs. -/
inductive symbol_redirect
  | SYMBOL_PLAINVAL
  | SYMBOL_VARALIAS
  | SYMBOL_LOCALIZED (blv_fwd : Option Lisp_Fwd_Type)
  | SYMBOL_FORWARDED (fwd : Lisp_Fwd_Type) (fwd_emacs_offset : Int)
  | other
  deriving DecidableEq, Repr

/-- A pointer to a `struct buffer`: `NULL`, or a buffer with its number, its
size in bytes, its `base_buffer`, whether it is live, whether its overlay tree
is empty, and its own intervals. -/
inductive buffer_ptr
  | null
  | buffer (id : Nat) (nbytes : Int) (base_buffer : buffer_ptr) (live : Bool)
      (overlays_empty : Bool) (intervals : interval_ptr)
  deriving DecidableEq, Repr

/-- What the writers read of a vectorlike object. -/
structure vectorlike where
  ptype : pvec_type
  /-- `vectorlike_nbytes (header)`. -/
  nbytes : Int
  /-- The number of Lisp slots, `header.size` without the flag bits. -/
  size : Int
  /-- For `PVEC_FONT`: the size is `FONT_SPEC_MAX` or `FONT_ENTITY_MAX`. -/
  font_spec_or_entity : Bool
  /-- For a bool vector: `vector_nbytes`. -/
  bool_vector_nbytes : Int
  /-- For a hash table: `count`, whether the test is `eq`, `eql` or `equal`,
  and whether `hash_table_contents` returned an array (not `NULL`). -/
  hash_count : Int
  hash_std_test : Bool
  hash_key_and_value : Bool
  /-- For an obarray: `obarray_size`. -/
  obarray_size : Int
  the_buffer : buffer_ptr
  /-- For a subr: `native_comp_u` is not `nil`. -/
  subr_non_primitive : Bool
  /-- For a native compilation unit: `CONSP (comp_u->file)`. -/
  comp_unit_file_consp : Bool
  overlay_interval : itree_ptr
  /-- For a thread: `main_thread_p`. -/
  main_thread : Bool
  deriving DecidableEq, Repr

/-- What the writers read of a Lisp object, by its tag. -/
inductive lisp_body
  | fixnum
  | cons
  | float
  | string (size_byte_is_minus_2 : Bool) (intervals : interval_ptr)
  | symbol (builtin : Bool) (redirect : symbol_redirect)
  | vectorlike (v : vectorlike)
  deriving DecidableEq, Repr

/-- A Lisp object: the number that names it in `objects_dumped`, and its
body. -/
structure lisp_object where
  id : Nat
  body : lisp_body
  deriving DecidableEq, Repr

/-- `XTYPE`. -/
def XTYPE (object : lisp_object) : Lisp_Type :=
  match object.body with
  | .fixnum => .Lisp_Int0
  | .cons => .Lisp_Cons
  | .float => .Lisp_Float
  | .string _ _ => .Lisp_String
  | .symbol _ _ => .Lisp_Symbol
  | .vectorlike _ => .Lisp_Vectorlike

/-- `dump_object_emacs_ptr (lv) != NULL`: a subr that is not a native
compiled function, a built-in symbol, or the main thread. -/
def dump_object_emacs_ptr (HAVE_NATIVE_COMP : Bool) (object : lisp_object) : Bool :=
  match object.body with
  | .vectorlike v =>
    (v.ptype = pvec_type.PVEC_SUBR ∧ ¬ (HAVE_NATIVE_COMP ∧ v.subr_non_primitive))
      ∨ (v.ptype = pvec_type.PVEC_THREAD ∧ v.main_thread)
  | .symbol builtin _ => builtin
  | _ => false

/-- `BOOL_VECTOR_P (object) || FLOATP (object)`. -/
def cold_object_p (object : lisp_object) : Bool :=
  match object.body with
  | .float => true
  | .vectorlike v => v.ptype = pvec_type.PVEC_BOOL_VECTOR
  | _ => false

/-- The sizes and build options of the platform the writers depend on. -/
structure platform where
  GCALIGNMENT : Nat
  HAVE_NATIVE_COMP : Bool
  HAVE_TREE_SITTER : Bool
  sizeof_Lisp_Object : Int
  sizeof_Lisp_Cons : Int
  sizeof_Lisp_String : Int
  sizeof_Lisp_Float : Int
  sizeof_Lisp_Symbol : Int
  sizeof_Lisp_Subr : Int
  sizeof_interval : Int
  sizeof_itree_node : Int
  sizeof_Lisp_Buffer_Local_Value : Int
  sizeof_Lisp_Buffer_Objfwd : Int
  sizeof_vectorlike_header : Int
  /-- In `struct Lisp_Sub_Char_Table`, the size through `min_char`. -/
  sub_char_table_prefix : Int
  SUB_CHAR_TABLE_OFFSET : Int
  /-- `offsetof (struct Lisp_Vector, contents)`. -/
  offsetof_contents : Int
  /-- `offsetof (struct Lisp_Bignum, value)`. -/
  offsetof_bignum_value : Int

/-- How a writer can stop without returning: `error`, `emacs_abort`, or, in
this model only, the bound on nested calls of `dump_object` being used up. -/
inductive dump_error
  | out_of_fuel
  | error (msg : String)
  | abort
  deriving DecidableEq, Repr

/-- `COLD_OP_OBJECT`. -/
def COLD_OP_OBJECT : Int := 0

/-- `COLD_OP_STRING`. -/
def COLD_OP_STRING : Int := 1

/-- `COLD_OP_BUFFER`. -/
def COLD_OP_BUFFER : Int := 3

/-- `COLD_OP_BIGNUM`. -/
def COLD_OP_BIGNUM : Int := 4

/-- `COLD_OP_NATIVE_SUBR`. -/
def COLD_OP_NATIVE_SUBR : Int := 5

/-- `dump_write` of `nbyte` bytes: the offset moves on. -/
def dump_write (ctx : dump_context) (nbyte : Int) : dump_context :=
  { ctx with offset := ctx.offset + nbyte }

/-- `dump_write_zero`: the loop writes `nbytes` bytes when `nbytes > 0`. -/
def dump_write_zero (ctx : dump_context) (nbytes : Int) : dump_context :=
  if nbytes > 0 then dump_write ctx nbytes else ctx

/-- `dump_align_output`. -/
def dump_align_output (ctx : dump_context) (alignment : Int) : dump_context :=
  if ctx.offset % alignment ≠ 0 then
    dump_write_zero ctx (alignment - ctx.offset % alignment)
  else ctx

/-- `dump_object_start`. -/
def dump_object_start (pf : platform) (ctx : dump_context) : dump_context :=
  let alignment : Int := if ctx.flags.pack_objects then 1 else (DUMP_ALIGNMENT pf.GCALIGNMENT : Int)
  let ctx1 := if ctx.flags.dump_object_contents then dump_align_output ctx alignment else ctx
  { ctx1 with obj_offset := ctx1.offset }

/-- `dump_object_finish`: the context afterwards and the offset returned. -/
def dump_object_finish (ctx : dump_context) (sz : Int) : dump_context × Int :=
  let offset := ctx.obj_offset
  let ctx1 := { ctx with obj_offset := 0 }
  (if ctx1.flags.dump_object_contents then dump_write ctx1 sz else ctx1, offset)

/-- `dump_recall_object`. -/
def dump_recall_object (ctx : dump_context) (object : lisp_object) : Int :=
  ctx.objects_dumped object.id

/-- `dump_remember_object`. -/
def dump_remember_object (ctx : dump_context) (object : lisp_object) (offset : Int) :
    dump_context :=
  { ctx with objects_dumped := fun i => if i = object.id then offset else ctx.objects_dumped i }

/-- `dump_remember_cold_op`. -/
def dump_remember_cold_op (ctx : dump_context) (op : Int) (arg : Nat) : dump_context :=
  if ctx.flags.dump_object_contents then { ctx with cold_queue := (op, arg) :: ctx.cold_queue }
  else ctx

/-- `dump_recall_symbol_aux`. -/
def dump_recall_symbol_aux (ctx : dump_context) (symbol : Nat) : Int :=
  match ctx.symbol_aux with
  | none => 0
  | some aux => aux symbol

/-- One out-object of `sz` bytes: `dump_object_start`, the fields,
`dump_object_finish`. -/
def dump_one_object (pf : platform) (ctx : dump_context) (sz : Int) : dump_context × Int :=
  dump_object_finish (dump_object_start pf ctx) sz

/-- `dump_cons`. -/
def dump_cons (pf : platform) (ctx : dump_context) : dump_context × Int :=
  dump_one_object pf ctx pf.sizeof_Lisp_Cons

/-- `dump_float`. -/
def dump_float (pf : platform) (ctx : dump_context) : dump_context × Int :=
  dump_one_object pf ctx pf.sizeof_Lisp_Float

/-- `dump_interval_tree` on a tree that is not `NULL`. -/
def dump_interval_tree (pf : platform) : interval_ptr → dump_context → dump_context × Int
  | .null, ctx => (ctx, 0)
  | .node left right, ctx =>
    let r := dump_one_object pf ctx pf.sizeof_interval
    let ctx1 := if left ≠ interval_ptr.null then (dump_interval_tree pf left r.1).1 else r.1
    let ctx2 := if right ≠ interval_ptr.null then (dump_interval_tree pf right ctx1).1 else ctx1
    (ctx2, r.2)

/-- `dump_interval_node` on a node that is not `NULL`. -/
def dump_interval_node (pf : platform) : itree_ptr → dump_context → dump_context × Int
  | .null, ctx => (ctx, 0)
  | .node parent left right, ctx =>
    let r := dump_one_object pf ctx pf.sizeof_itree_node
    let ctx1 := if parent ≠ itree_ptr.null then (dump_interval_node pf parent r.1).1 else r.1
    let ctx2 := if left ≠ itree_ptr.null then (dump_interval_node pf left ctx1).1 else ctx1
    let ctx3 := if right ≠ itree_ptr.null then (dump_interval_node pf right ctx2).1 else ctx2
    (ctx3, r.2)

/-- `dump_string`. -/
def dump_string (pf : platform) (ctx : dump_context) (object : lisp_object)
    (size_byte_is_minus_2 : Bool) (intervals : interval_ptr) : dump_context × Int :=
  let ctx1 := dump_object_start pf ctx
  let ctx2 :=
    if size_byte_is_minus_2 then ctx1 else dump_remember_cold_op ctx1 COLD_OP_STRING object.id
  let r := dump_object_finish ctx2 pf.sizeof_Lisp_String
  if intervals ≠ interval_ptr.null then ((dump_interval_tree pf intervals r.1).1, r.2) else r

/-- `dump_fwd_buffer_obj`. -/
def dump_fwd_buffer_obj (pf : platform) (ctx : dump_context) : dump_context :=
  (dump_one_object pf ctx pf.sizeof_Lisp_Buffer_Objfwd).1

/-- `dump_fwd`. -/
def dump_fwd (pf : platform) (ctx : dump_context) (fwd : Lisp_Fwd_Type) :
    Except dump_error dump_context :=
  match fwd with
  | .Lisp_Fwd_Int => Except.ok ctx
  | .Lisp_Fwd_Bool => Except.ok ctx
  | .Lisp_Fwd_Obj => Except.ok ctx
  | .Lisp_Fwd_Buffer_Obj => Except.ok (dump_fwd_buffer_obj pf ctx)
  | .Lisp_Fwd_Kboard_Obj => Except.ok ctx
  | .other => Except.error dump_error.abort

/-- `dump_blv`. -/
def dump_blv (pf : platform) (ctx : dump_context) (blv_fwd : Option Lisp_Fwd_Type) :
    Except dump_error (dump_context × Int) :=
  let r := dump_one_object pf ctx pf.sizeof_Lisp_Buffer_Local_Value
  match blv_fwd with
  | none => Except.ok r
  | some fwd => do
    let ctx1 ← dump_fwd pf r.1 fwd
    Except.ok (ctx1, r.2)

/-- The loops of `dump_vectorlike_generic`, `dump_hash_table_contents` and
`dump_obarray_buckets`: `n` times an out-object of one `Lisp_Object`. -/
def dump_lisp_words (pf : platform) : Nat → dump_context → dump_context
  | 0, ctx => ctx
  | n + 1, ctx => dump_lisp_words pf n (dump_one_object pf ctx pf.sizeof_Lisp_Object).1

/-- `dump_vectorlike_generic`. -/
def dump_vectorlike_generic (pf : platform) (ctx : dump_context) (v : vectorlike) :
    dump_context × Int :=
  let ctx1 := dump_align_output ctx (DUMP_ALIGNMENT pf.GCALIGNMENT)
  let prefix_start_offset := ctx1.offset
  let sub := decide (v.ptype = pvec_type.PVEC_SUB_CHAR_TABLE)
  let r :=
    if sub then dump_one_object pf ctx1 pf.sub_char_table_prefix
    else dump_one_object pf ctx1 pf.sizeof_vectorlike_header
  let skip : Int := if sub then pf.SUB_CHAR_TABLE_OFFSET else 0
  let prefix_size := r.1.offset - prefix_start_offset
  let skip_start := pf.offsetof_contents + skip * pf.sizeof_Lisp_Object
  let ctx2 := dump_write_zero r.1 (skip_start - prefix_size)
  let old_flags := ctx2.flags
  let ctx3 := { ctx2 with flags := { ctx2.flags with pack_objects := true } }
  let ctx4 := dump_lisp_words pf (v.size - skip).toNat ctx3
  let ctx5 := { ctx4 with flags := old_flags }
  (dump_align_output ctx5 (DUMP_ALIGNMENT pf.GCALIGNMENT), r.2)

/-- `dump_bool_vector`. -/
def dump_bool_vector (pf : platform) (ctx : dump_context) (v : vectorlike) :
    Except dump_error (dump_context × Int) :=
  let ctx1 := dump_align_output ctx (DUMP_ALIGNMENT pf.GCALIGNMENT)
  let offset := ctx1.offset
  if v.bool_vector_nbytes > DUMP_OFF_MAX then
    Except.error (dump_error.error "vector too large")
  else Except.ok (dump_write ctx1 (ptrdiff_t_to_dump_off v.bool_vector_nbytes), offset)

/-- `dump_hash_table_contents`, also `dump_obarray_buckets`, for `n` slots:
the context afterwards; the offset of the slots is not used here. -/
def dump_packed_slots (pf : platform) (ctx : dump_context) (n : Int) : dump_context :=
  let ctx1 := dump_align_output ctx (DUMP_ALIGNMENT pf.GCALIGNMENT)
  let old_flags := ctx1.flags
  let ctx2 := { ctx1 with flags := { ctx1.flags with pack_objects := true } }
  let ctx3 := dump_lisp_words pf n.toNat ctx2
  { ctx3 with flags := old_flags }

/-- `dump_hash_table`; `hash_table_freeze` signals an error for a test that
is not `eq`, `eql` or `equal`, and sets `key_and_value`. -/
def dump_hash_table (pf : platform) (ctx : dump_context) (object : lisp_object)
    (v : vectorlike) : Except dump_error (dump_context × Int) :=
  if !v.hash_std_test then
    Except.error (dump_error.error "cannot dump hash tables with user-defined tests")
  else
    let ctx1 := { ctx with hash_tables := object.id :: ctx.hash_tables }
    let r := dump_one_object pf ctx1 v.nbytes
    if v.hash_key_and_value then
      Except.ok (dump_packed_slots pf r.1 (2 * v.hash_count), r.2)
    else Except.ok r

/-- `dump_obarray`. -/
def dump_obarray (pf : platform) (ctx : dump_context) (v : vectorlike) : dump_context × Int :=
  let r := dump_one_object pf ctx v.nbytes
  (dump_packed_slots pf r.1 v.obarray_size, r.2)

/-- `dump_subr`. -/
def dump_subr (pf : platform) (ctx : dump_context) (object : lisp_object) (v : vectorlike) :
    dump_context × Int :=
  let ctx1 := dump_object_start pf ctx
  let non_primitive := pf.HAVE_NATIVE_COMP && v.subr_non_primitive
  let ctx2 :=
    if non_primitive then dump_remember_cold_op ctx1 COLD_OP_NATIVE_SUBR object.id else ctx1
  dump_object_finish ctx2 pf.sizeof_Lisp_Subr

/-- `dump_native_comp_unit`. -/
def dump_native_comp_unit (pf : platform) (ctx : dump_context) (v : vectorlike) :
    Except dump_error (dump_context × Int) :=
  if !v.comp_unit_file_consp then
    Except.error (dump_error.error "trying to dump non fixed-up eln file")
  else Except.ok (dump_one_object pf ctx v.nbytes)

/-- `dump_overlay`. -/
def dump_overlay (pf : platform) (ctx : dump_context) (v : vectorlike) : dump_context × Int :=
  let r := dump_one_object pf ctx v.nbytes
  ((dump_interval_node pf v.overlay_interval r.1).1, r.2)

/-- `dump_bignum`. -/
def dump_bignum (pf : platform) (ctx : dump_context) (object : lisp_object) (v : vectorlike) :
    dump_context × Int :=
  let r := dump_one_object pf ctx v.nbytes
  let bignum_offset := r.2
  if r.1.flags.dump_object_contents then
    let ctx1 := dump_remember_cold_op r.1 COLD_OP_BIGNUM object.id
    let value_offset := bignum_offset + pf.offsetof_bignum_value
    let ctx2 :=
      { ctx1 with
        fixups :=
          [fixup_value.fixnum DUMP_FIXUP_BIGNUM_DATA, fixup_value.fixnum value_offset,
            fixup_value.object object.id] :: ctx1.fixups }
    (push_dump_reloc ctx2 reloc_phase.EARLY_RELOCS
      [lisp_value.fixnum RELOC_BIGNUM, dump_off_to_lisp bignum_offset], bignum_offset)
  else r

/-- The part of `dump_buffer` from `START_DUMP_PVEC` on, for a buffer of
`nbytes` bytes; `has_base` says that `base_buffer` is not `NULL`. -/
def dump_buffer_body (pf : platform) (ctx : dump_context) (object : lisp_object)
    (nbytes : Int) (has_base live overlays_empty : Bool) (intervals : interval_ptr) :
    Except dump_error (dump_context × Int) :=
  let ctx2 := dump_object_start pf ctx
  let ctx3 :=
    if !has_base ∧ live then dump_remember_cold_op ctx2 COLD_OP_BUFFER object.id else ctx2
  if !overlays_empty then
    Except.error (dump_error.error "dumping overlays is not yet implemented")
  else
    let r := dump_object_finish ctx3 nbytes
    if !has_base ∧ intervals ≠ interval_ptr.null then
      Except.ok ((dump_interval_tree pf intervals r.1).1, r.2)
    else Except.ok r

/-- `dump_buffer`; `dump_object_rec` is `dump_object`, which is called for the
base buffer before the buffer itself is started. -/
def dump_buffer (pf : platform)
    (dump_object_rec : dump_context → lisp_object → Except dump_error (dump_context × Int))
    (ctx : dump_context) (object : lisp_object) (v : vectorlike) :
    Except dump_error (dump_context × Int) :=
  match v.the_buffer with
  | .null => Except.error dump_error.abort
  | .buffer _ nbytes .null live overlays_empty intervals =>
    dump_buffer_body pf ctx object nbytes false live overlays_empty intervals
  | .buffer _ nbytes (.buffer base_id bn bb bl bo bi) live overlays_empty intervals => do
    let r ← dump_object_rec ctx
      ⟨base_id, lisp_body.vectorlike { v with the_buffer := .buffer base_id bn bb bl bo bi }⟩
    dump_buffer_body pf r.1 object nbytes true live overlays_empty intervals

/-- `dump_vectorlike`. -/
def dump_vectorlike (pf : platform)
    (dump_object_rec : dump_context → lisp_object → Except dump_error (dump_context × Int))
    (ctx : dump_context) (object : lisp_object) (v : vectorlike) :
    Except dump_error (dump_context × Int) :=
  let unsupported : Except dump_error (dump_context × Int) :=
    Except.error (dump_error.error "unsupported object type in dump")
  match v.ptype with
  | .PVEC_FONT =>
    if !v.font_spec_or_entity then unsupported
    else Except.ok (dump_vectorlike_generic pf ctx v)
  | .PVEC_NORMAL_VECTOR | .PVEC_CLOSURE | .PVEC_CHAR_TABLE | .PVEC_SUB_CHAR_TABLE
  | .PVEC_RECORD =>
    Except.ok (dump_vectorlike_generic pf ctx v)
  | .PVEC_BOOL_VECTOR => dump_bool_vector pf ctx v
  | .PVEC_HASH_TABLE => dump_hash_table pf ctx object v
  | .PVEC_OBARRAY => Except.ok (dump_obarray pf ctx v)
  | .PVEC_BUFFER => dump_buffer pf dump_object_rec ctx object v
  | .PVEC_SUBR => Except.ok (dump_subr pf ctx object v)
  | .PVEC_FRAME | .PVEC_WINDOW | .PVEC_PROCESS | .PVEC_TERMINAL =>
    Except.ok (dump_one_object pf ctx v.nbytes)
  | .PVEC_MARKER => Except.ok (dump_one_object pf ctx v.nbytes)
  | .PVEC_OVERLAY => Except.ok (dump_overlay pf ctx v)
  | .PVEC_FINALIZER => Except.ok (dump_one_object pf ctx v.nbytes)
  | .PVEC_BIGNUM => Except.ok (dump_bignum pf ctx object v)
  | .PVEC_NATIVE_COMP_UNIT =>
    if pf.HAVE_NATIVE_COMP then dump_native_comp_unit pf ctx v else unsupported
  | .PVEC_THREAD =>
    if v.main_thread then Except.ok (ctx, DUMP_OBJECT_IS_RUNTIME_MAGIC) else unsupported
  | .PVEC_TS_COMPILED_QUERY =>
    if pf.HAVE_TREE_SITTER then Except.ok (dump_one_object pf ctx v.nbytes) else unsupported
  | _ => unsupported

/-- `dump_symbol`. -/
def dump_symbol (pf : platform)
    (dump_object_rec : dump_context → lisp_object → Except dump_error (dump_context × Int))
    (ctx : dump_context) (object : lisp_object) (redirect : symbol_redirect) (offset : Int) :
    Except dump_error (dump_context × Int) :=
  if ctx.flags.defer_symbols then
    if offset ≠ DUMP_OBJECT_ON_SYMBOL_QUEUE then do
      let old_flags := ctx.flags
      let ctx1 :=
        { ctx with
          flags := { ctx.flags with dump_object_contents := false, defer_symbols := false } }
      let r ← dump_object_rec ctx1 object
      let ctx2 := { r.1 with flags := old_flags }
      let ctx3 := dump_remember_object ctx2 object DUMP_OBJECT_ON_SYMBOL_QUEUE
      Except.ok ({ ctx3 with deferred_symbols := object.id :: ctx3.deferred_symbols },
        DUMP_OBJECT_ON_SYMBOL_QUEUE)
    else Except.ok (ctx, offset)
  else
    match redirect with
    | .other => Except.error dump_error.abort
    | .SYMBOL_PLAINVAL => Except.ok (dump_one_object pf ctx pf.sizeof_Lisp_Symbol)
    | .SYMBOL_VARALIAS => Except.ok (dump_one_object pf ctx pf.sizeof_Lisp_Symbol)
    | .SYMBOL_LOCALIZED blv_fwd =>
      let r := dump_one_object pf ctx pf.sizeof_Lisp_Symbol
      let aux_offset := dump_recall_symbol_aux r.1 object.id
      if aux_offset ≠ 0 then Except.ok r
      else do
        let b ← dump_blv pf r.1 blv_fwd
        Except.ok (b.1, r.2)
    | .SYMBOL_FORWARDED fwd fwd_emacs_offset =>
      let r := dump_one_object pf ctx pf.sizeof_Lisp_Symbol
      let aux_offset := dump_recall_symbol_aux r.1 object.id
      if aux_offset = 0 then do
        let ctx1 ← dump_fwd pf r.1 fwd
        Except.ok (ctx1, r.2)
      else if aux_offset ≠ fwd_emacs_offset then Except.error dump_error.abort
      else Except.ok r

/-- `dump_object`.  The first argument bounds the depth of the nested calls
of `dump_object` (for a deferred copied object or symbol, and for the base
buffer of a buffer). -/
def dump_object (pf : platform) :
    Nat → dump_context → lisp_object → Except dump_error (dump_context × Int)
  | 0, _, _ => Except.error dump_error.out_of_fuel
  | fuel + 1, ctx, object =>
    let offset := dump_recall_object ctx object
    if offset > 0 then Except.ok (ctx, offset)
    else if cold_object_p object ∧ ctx.flags.defer_cold_objects then
      if offset ≠ DUMP_OBJECT_ON_COLD_QUEUE then
        let ctx1 := dump_remember_object ctx object DUMP_OBJECT_ON_COLD_QUEUE
        Except.ok (dump_remember_cold_op ctx1 COLD_OP_OBJECT object.id, DUMP_OBJECT_ON_COLD_QUEUE)
      else Except.ok (ctx, offset)
    else if dump_object_emacs_ptr pf.HAVE_NATIVE_COMP object ∧ ctx.flags.defer_copied_objects then
      if offset ≠ DUMP_OBJECT_ON_COPIED_QUEUE then do
        let old_flags := ctx.flags
        let ctx1 :=
          { ctx with
            flags :=
              { ctx.flags with dump_object_contents := false, defer_copied_objects := false } }
        let r ← dump_object pf fuel ctx1 object
        let ctx2 := { r.1 with flags := old_flags }
        let ctx3 := dump_remember_object ctx2 object DUMP_OBJECT_ON_COPIED_QUEUE
        Except.ok ({ ctx3 with copied_queue := object.id :: ctx3.copied_queue },
          DUMP_OBJECT_ON_COPIED_QUEUE)
      else Except.ok (ctx, offset)
    else do
      let r ←
        match object.body with
        | .string size_byte_is_minus_2 intervals =>
          Except.ok (dump_string pf ctx object size_byte_is_minus_2 intervals)
        | .vectorlike v => dump_vectorlike pf (dump_object pf fuel) ctx object v
        | .symbol _ redirect => dump_symbol pf (dump_object pf fuel) ctx object redirect offset
        | .cons => Except.ok (dump_cons pf ctx)
        | .float => Except.ok (dump_float pf ctx)
        | .fixnum => Except.error dump_error.abort
      if r.1.flags.dump_object_contents ∧ r.2 > DUMP_OBJECT_NOT_SEEN then
        let ctx1 := dump_remember_object r.1 object r.2
        if ctx1.flags.record_object_starts then
          Except.ok
            ({ ctx1 with
               object_starts :=
                 [dump_off_to_lisp (XTYPE object).code, dump_off_to_lisp r.2]
                   :: ctx1.object_starts }, r.2)
        else Except.ok (ctx1, r.2)
      else Except.ok r

/-- The second context has the flags and the object starts of the first. -/
def same_frame (ctx ctx1 : dump_context) : Prop :=
  ctx1.flags = ctx.flags ∧ ctx1.object_starts = ctx.object_starts

/-- What a writer guarantees: flags and object starts are kept, and with
`dump_object_contents` on and `pack_objects` off the offset returned is a
multiple of `DUMP_ALIGNMENT`. -/
def writer_aligned (pf : platform) (ctx : dump_context) (r : dump_context × Int) : Prop :=
  same_frame ctx r.1
    ∧ (ctx.flags.dump_object_contents = true → ctx.flags.pack_objects = false →
        r.2 % (DUMP_ALIGNMENT pf.GCALIGNMENT : Int) = 0)

/-- The second list of object starts is the first with entries pushed in
front, each at an offset that is a multiple of `DUMP_ALIGNMENT`. -/
def starts_aligned (pf : platform) (old new : List lisp_reloc) : Prop :=
  ∃ pushed, new = pushed ++ old
    ∧ ∀ e, e ∈ pushed → lisp_reloc_offset e % (DUMP_ALIGNMENT pf.GCALIGNMENT : Int) = 0

/-- What `dump_object` and the writers that call it guarantee: the flags are
kept, the object starts pushed are aligned, and with `dump_object_contents`
on and `pack_objects` off a positive offset returned is a multiple of
`DUMP_ALIGNMENT`. -/
def writer_ok (pf : platform) (ctx : dump_context) (r : dump_context × Int) : Prop :=
  r.1.flags = ctx.flags
    ∧ starts_aligned pf ctx.object_starts r.1.object_starts
    ∧ (ctx.flags.dump_object_contents = true → ctx.flags.pack_objects = false →
        0 < r.2 → r.2 % (DUMP_ALIGNMENT pf.GCALIGNMENT : Int) = 0)

/-- What a call of `dump_object` guarantees: the flags are kept and the
object starts pushed are aligned. -/
def object_ok (pf : platform) (ctx : dump_context) (r : dump_context × Int) : Prop :=
  r.1.flags = ctx.flags ∧ starts_aligned pf ctx.object_starts r.1.object_starts

/-- A 64-bit platform without native compilation. -/
def sample_platform : platform :=
  { GCALIGNMENT := 8
    HAVE_NATIVE_COMP := false
    HAVE_TREE_SITTER := false
    sizeof_Lisp_Object := 8
    sizeof_Lisp_Cons := 16
    sizeof_Lisp_String := 32
    sizeof_Lisp_Float := 8
    sizeof_Lisp_Symbol := 48
    sizeof_Lisp_Subr := 72
    sizeof_interval := 56
    sizeof_itree_node := 88
    sizeof_Lisp_Buffer_Local_Value := 40
    sizeof_Lisp_Buffer_Objfwd := 24
    sizeof_vectorlike_header := 8
    sub_char_table_prefix := 16
    SUB_CHAR_TABLE_OFFSET := 1
    offsetof_contents := 8
    offsetof_bignum_value := 8 }

/-- A string with text properties (one interval with a right child), named 7. -/
def sample_string : lisp_object :=
  ⟨7, lisp_body.string false (interval_ptr.node interval_ptr.null
    (interval_ptr.node interval_ptr.null interval_ptr.null))⟩

/-- A context between objects, the write offset at 4099. -/
def sample_idle_context : dump_context :=
  { sample_context with offset := 4099, obj_offset := 0 }

/-- The context and offset after `dump_object` has written `sample_string`
from `sample_idle_context`. -/
def sample_dumped : dump_context × Int :=
  match dump_object sample_platform 3 sample_idle_context sample_string with
  | Except.ok r => r
  | Except.error _ => (sample_idle_context, DUMP_OBJECT_NOT_SEEN)

/-! ## Relocations of tagged values -/

/-- `dump_reloc_dump_to_dump_lv`: the descriptor pushed for a `Lisp_Object`
in the dump that points to an object in the dump. -/
def dump_reloc_dump_to_dump_lv (ctx : dump_context) (dump_offset : Int) (type : Lisp_Type) :
    Except dump_error dump_context :=
  if !ctx.flags.dump_object_contents then Except.ok ctx
  else
    match type with
    | .Lisp_Symbol | .Lisp_String | .Lisp_Vectorlike | .Lisp_Cons | .Lisp_Float =>
      let reloc_type : Int := (RELOC_DUMP_TO_DUMP_LV : Int) + type.code
      Except.ok (push_dump_reloc ctx reloc_phase.EARLY_RELOCS
        [lisp_value.fixnum reloc_type, dump_off_to_lisp dump_offset])
    | _ => Except.error dump_error.abort

/-- `dump_reloc_dump_to_emacs_lv`: the descriptor pushed for a `Lisp_Object`
in the dump that points to an object in Emacs. -/
def dump_reloc_dump_to_emacs_lv (ctx : dump_context) (dump_offset : Int) (type : Lisp_Type) :
    Except dump_error dump_context :=
  if !ctx.flags.dump_object_contents then Except.ok ctx
  else
    match type with
    | .Lisp_String | .Lisp_Vectorlike | .Lisp_Cons | .Lisp_Float =>
      let reloc_type : Int := (RELOC_DUMP_TO_EMACS_LV : Int) + type.code
      Except.ok (push_dump_reloc ctx reloc_phase.EARLY_RELOCS
        [lisp_value.fixnum reloc_type, dump_off_to_lisp dump_offset])
    | _ => Except.error dump_error.abort

/-- The five values of `enum dump_reloc_type` below `RELOC_DUMP_TO_DUMP_LV`. -/
def non_lv_reloc_types : List Nat :=
  [RELOC_DUMP_TO_EMACS_PTR_RAW, RELOC_DUMP_TO_DUMP_PTR_RAW, RELOC_NATIVE_COMP_UNIT,
   RELOC_NATIVE_SUBR, RELOC_BIGNUM]

/-! ## Applying an emacs relocation -/

/-- The object representations `dump_do_emacs_relocation` copies into
Emacs: the sizes of `ptrdiff_t`, `Lisp_Object` and `intmax_t`, and the byte at
each index of such an object in memory. -/
structure object_repr where
  sizeof_pval : Nat
  sizeof_lv : Nat
  sizeof_immediate : Nat
  pval_byte : Nat → Nat → Nat
  lv_byte : Nat → Nat → Nat
  immediate_byte : Int → Nat → Nat

/-- `memcpy (dst, src, n)` into the memory of Emacs, which holds a byte at
every address; the source is given by its bytes, counted from 0. -/
def memcpy (mem : Nat → Nat) (dst : Nat) (src : Nat → Nat) (n : Nat) : Nat → Nat :=
  fun q => if dst ≤ q ∧ q < dst + n then src (q - dst) else mem q

/-- `dump_do_emacs_relocation`: the memory of Emacs afterwards.  The loaded
dump is given by its bytes, by dump offset.  `none` stands for a violated
`eassume` and for the `fatal` of an unknown type. -/
def dump_do_emacs_relocation (h : host) (rp : object_repr) (dump_base : Nat)
    (dump : Int → Nat) (reloc : emacs_reloc) (mem : Nat → Nat) : Option (Nat → Nat) :=
  if reloc.type = RELOC_EMACS_COPY_FROM_DUMP then
    if reloc.length > 0 then
      some (memcpy mem (emacs_ptr_at h reloc.emacs_offset)
        (fun i => dump (reloc.u + (i : Int))) reloc.length.toNat)
    else none
  else if reloc.type = RELOC_EMACS_IMMEDIATE then
    if reloc.length > 0 ∧ reloc.length ≤ (rp.sizeof_immediate : Int) then
      some (memcpy mem (emacs_ptr_at h reloc.emacs_offset)
        (rp.immediate_byte reloc.u) reloc.length.toNat)
    else none
  else if reloc.type = RELOC_EMACS_DUMP_PTR_RAW then
    let pval := to_unsigned h.ptr_width (reloc.u + (dump_base : Int))
    some (memcpy mem (emacs_ptr_at h reloc.emacs_offset) (rp.pval_byte pval) rp.sizeof_pval)
  else if reloc.type = RELOC_EMACS_EMACS_PTR_RAW then
    let pval := to_unsigned h.ptr_width (reloc.u + (h.emacs_basis : Int))
    some (memcpy mem (emacs_ptr_at h reloc.emacs_offset) (rp.pval_byte pval) rp.sizeof_pval)
  else if reloc.type = RELOC_EMACS_DUMP_LV ∨ reloc.type = RELOC_EMACS_EMACS_LV then
    if reloc.length ≤ Lisp_Type.Lisp_Float.code then
      let obj_ptr :=
        if reloc.type = RELOC_EMACS_DUMP_LV then
          to_unsigned h.ptr_width ((dump_base : Int) + reloc.u)
        else emacs_ptr_at h reloc.u
      let lv :=
        if reloc.length = h.Lisp_Symbol then h.make_lisp_symbol obj_ptr
        else h.make_lisp_ptr obj_ptr reloc.length
      some (memcpy mem (emacs_ptr_at h reloc.emacs_offset) (rp.lv_byte lv) rp.sizeof_lv)
    else none
  else none

/-- Little-endian object representations of 8 bytes. -/
def sample_repr : object_repr :=
  { sizeof_pval := 8
    sizeof_lv := 8
    sizeof_immediate := 8
    pval_byte := fun v i => v / 256 ^ i % 256
    lv_byte := fun v i => v / 256 ^ i % 256
    immediate_byte := fun v i => (v / 256 ^ i % 256).toNat }

/-! ## The discardable section and the start of the cold section -/

/-- The sizes of the platform are not negative. -/
def platform.sizes_ok (pf : platform) : Prop :=
  0 ≤ pf.sizeof_Lisp_Object ∧ 0 ≤ pf.sizeof_Lisp_Cons ∧ 0 ≤ pf.sizeof_Lisp_String
    ∧ 0 ≤ pf.sizeof_Lisp_Float ∧ 0 ≤ pf.sizeof_Lisp_Symbol ∧ 0 ≤ pf.sizeof_Lisp_Subr
    ∧ 0 ≤ pf.sizeof_interval ∧ 0 ≤ pf.sizeof_itree_node
    ∧ 0 ≤ pf.sizeof_Lisp_Buffer_Local_Value ∧ 0 ≤ pf.sizeof_Lisp_Buffer_Objfwd
    ∧ 0 ≤ pf.sizeof_vectorlike_header ∧ 0 ≤ pf.sub_char_table_prefix

/-- The sizes of a buffer and of its base buffers are not negative. -/
def buffer_ptr.sizes_ok : buffer_ptr → Prop
  | .null => True
  | .buffer _ nbytes base_buffer _ _ _ => 0 ≤ nbytes ∧ base_buffer.sizes_ok

/-- The sizes of an object (`vectorlike_nbytes`, `vector_nbytes`, the size of
a buffer) are not negative. -/
def lisp_object.sizes_ok (object : lisp_object) : Prop :=
  match object.body with
  | .vectorlike v => 0 ≤ v.nbytes ∧ 0 ≤ v.bool_vector_nbytes ∧ v.the_buffer.sizes_ok
  | _ => True

/-- `dump_emacs_reloc_copy_from_dump`; `emacs_ptr` is an address in Emacs. -/
def dump_emacs_reloc_copy_from_dump (h : host) (ctx : dump_context) (dump_offset : Int)
    (emacs_ptr : Nat) (size : Int) : dump_context :=
  if !ctx.flags.dump_object_contents then ctx
  else if size = 0 then ctx
  else
    { ctx with
      emacs_relocs :=
        [lisp_value.fixnum RELOC_EMACS_COPY_FROM_DUMP, dump_off_to_lisp (emacs_offset h emacs_ptr),
          dump_off_to_lisp dump_offset, dump_off_to_lisp size] :: ctx.emacs_relocs }

/-- The loop of `dump_drain_copied_objects` over the popped queue; `heap`
gives the object of each name and `optr` its address in Emacs. -/
def dump_drain_copied_loop (pf : platform) (h : host) (heap : Nat → lisp_object)
    (optr : Nat → Nat) (fuel : Nat) :
    List Nat → dump_context → Except dump_error dump_context
  | [], ctx => Except.ok ctx
  | copied :: copied_queue, ctx => do
    let r ← dump_object pf fuel ctx (heap copied)
    let start_offset := r.2
    let ctx1 :=
      if start_offset ≠ DUMP_OBJECT_IS_RUNTIME_MAGIC then
        let size := r.1.offset - start_offset
        dump_emacs_reloc_copy_from_dump h r.1 start_offset (optr copied) size
      else r.1
    dump_drain_copied_loop pf h heap optr fuel copied_queue ctx1

/-- `dump_drain_copied_objects`. -/
def dump_drain_copied_objects (pf : platform) (h : host) (heap : Nat → lisp_object)
    (optr : Nat → Nat) (fuel : Nat) (ctx : dump_context) : Except dump_error dump_context := do
  let copied_queue := ctx.copied_queue
  let old_flags := ctx.flags
  let ctx1 :=
    { ctx with
      copied_queue := []
      flags :=
        { ctx.flags with
          assert_already_seen := true
          defer_copied_objects := false
          record_object_starts := false } }
  let ctx2 ← dump_drain_copied_loop pf h heap optr fuel copied_queue ctx1
  Except.ok { ctx2 with flags := old_flags }

/-- The statements of `Fdump_emacs_portable` from `hot_end` to the
assignment of `header.cold_start`: the context and the header afterwards. -/
def dump_discardable_section (pf : platform) (h : host) (heap : Nat → lisp_object)
    (optr : Nat → Nat) (fuel : Nat) (ctx : dump_context) (header : dump_header) :
    Except dump_error (dump_context × dump_header) := do
  let hot_end := ctx.offset
  let header1 := { header with discardable_start := hot_end }
  let ctx1 ← dump_drain_copied_objects pf h heap optr fuel ctx
  let ctx2 := dump_align_output ctx1 dump_get_max_page_size
  let header2 := { header1 with cold_start := ctx2.offset }
  Except.ok (ctx2, header2)

/-- `sizeof (uintmax_t)`, the size of the variable `zero` of `dump_write_zero`. -/
def sizeof_uintmax_t : Int := 8

/-- `dump_write` with the output buffer beside the context: `nbyte` bytes
of `data` are copied to the write offset (`dump_grow_buffer` left aside).
It stands for the C function for `nbyte >= 0` and a write offset that is not
negative, as at every call below; `dump_write_grow`, which is given any
`nbyte`, tests both before it uses it. -/
def dump_write_bytes (ctx : dump_context) (buf : Int → Nat) (data : Nat → Nat) (nbyte : Int) :
    dump_context × (Int → Nat) :=
  (dump_write ctx nbyte,
   fun q => if ctx.offset ≤ q ∧ q < ctx.offset + nbyte then data (q - ctx.offset).toNat else buf q)

/-- The loop of `dump_write_zero` with the output buffer beside the context;
the first argument bounds the number of iterations. -/
def dump_write_zero_loop : Nat → dump_context → (Int → Nat) → Int → dump_context × (Int → Nat)
  | 0, ctx, buf, _ => (ctx, buf)
  | fuel + 1, ctx, buf, nbytes =>
    if nbytes > 0 then
      let to_write := if sizeof_uintmax_t > nbytes then nbytes else sizeof_uintmax_t
      let r := dump_write_bytes ctx buf (fun _ => 0) to_write
      dump_write_zero_loop fuel r.1 r.2 (nbytes - to_write)
    else (ctx, buf)

/-- `dump_write_zero` with the output buffer beside the context; the loop
runs at most `nbytes` times. -/
def dump_write_zero_bytes (ctx : dump_context) (buf : Int → Nat) (nbytes : Int) :
    dump_context × (Int → Nat) :=
  dump_write_zero_loop nbytes.toNat ctx buf nbytes

/-- `dump_align_output` with the output buffer beside the context. -/
def dump_align_output_bytes (ctx : dump_context) (buf : Int → Nat) (alignment : Int) :
    dump_context × (Int → Nat) :=
  if ctx.offset % alignment ≠ 0 then
    dump_write_zero_bytes ctx buf (alignment - ctx.offset % alignment)
  else (ctx, buf)

/-- A primitive subr `car`, named 11, and a context at the end of the hot
section in which it waits on the copied queue. -/
def sample_subr : lisp_object :=
  ⟨11, lisp_body.vectorlike
    { ptype := pvec_type.PVEC_SUBR, nbytes := 72, size := 0, font_spec_or_entity := false,
      bool_vector_nbytes := 0, hash_count := 0, hash_std_test := true,
      hash_key_and_value := false, obarray_size := 0, the_buffer := buffer_ptr.null,
      subr_non_primitive := false, comp_unit_file_consp := false,
      overlay_interval := itree_ptr.null, main_thread := false }⟩

/-- The context at `hot_end`: the write offset is 4099 and `sample_subr` is
on the copied queue. -/
def sample_hot_end_context : dump_context :=
  { sample_idle_context with
    copied_queue := [11]
    objects_dumped := fun i => if i = 11 then DUMP_OBJECT_ON_COPIED_QUEUE else 0 }

/-- The context and the header after the discardable section has been
written from `sample_hot_end_context`, every name standing for `sample_subr`,
which lies 256 bytes above the basis of `sample_host`. -/
def sample_sections : dump_context × dump_header :=
  match dump_discardable_section sample_platform sample_host (fun _ => sample_subr)
      (fun _ => 93823560585472) 3 sample_hot_end_context (sample_header [] []) with
  | Except.ok r => r
  | Except.error _ => (sample_hot_end_context, sample_header [] [])

/-! ## The sections the loader maps -/

/-- The `spec`s of `sections[DS_HOT]`, `sections[DS_DISCARDABLE]` and
`sections[DS_COLD]` as `pdumper_load` fills them in, each as the pair of
`size` and `offset`. -/
def pdumper_load_sections (header : dump_header) (dump_size : Nat) : List (Int × Int) :=
  let adj_discardable_start := ROUNDUP header.discardable_start dump_get_max_page_size
  [(adj_discardable_start, 0),
   (header.cold_start - adj_discardable_start, adj_discardable_start),
   ((dump_size : Int) - header.cold_start, header.cold_start)]

/-- The `eassert` on the sizes in the loop of `dump_mmap_contiguous`: the
size of every map but the last is a multiple of the worst-case page size. -/
def dump_mmap_contiguous_sizes_p : List (Int × Int) → Bool
  | [] => true
  | [_] => true
  | map :: maps => decide (map.1 % dump_get_max_page_size = 0) && dump_mmap_contiguous_sizes_p maps

/-- The variable `total_size` after the loop of `dump_mmap_contiguous`. -/
def dump_mmap_contiguous_total_size (maps : List (Int × Int)) : Int :=
  (maps.map Prod.fst).sum

/-! ## The dump queue

Objects are named by numbers.  A `struct dump_tailq` is modelled by the list
at its `head`; `tail` and `length` are read only by assertions and traces.
Scores are C `float`s computed with `powf`; here they are read in an ordered
field, and `dump_calc_link_score` is given with the properties of
`distance ^ (-0.2 * weight / 1000)` that are used. -/

/-- `WEIGHT_NONE.value`. -/
def WEIGHT_NONE : Int := 0

/-- `WEIGHT_NORMAL.value`. -/
def WEIGHT_NORMAL : Int := 1000

/-- `WEIGHT_STRONG.value`. -/
def WEIGHT_STRONG : Int := 1200

/-- The Lisp value kept for an object in `link_weights`: `Qt`, or a list of
pairs of a basis and a weight (`Qnil` is the empty list). -/
inductive weight_list
  | Qt
  | conses (l : List (Int × Int))
  deriving DecidableEq, Repr

/-- Modelled from the spec: `Fgethash` of `fns.c`, which is not part of the
sources at hand, on a table that is a "Map" from objects to values, kept as
the list of its entries: the value of the key, or the default. -/
def Fgethash {V : Type} (key : Nat) (table : List (Nat × V)) (dflt : V) : V :=
  match table.lookup key with
  | some v => v
  | none => dflt

/-- Modelled from the spec: `Fremhash` of `fns.c`: the "Map" without the
key. -/
def Fremhash {V : Type} (key : Nat) (table : List (Nat × V)) : List (Nat × V) :=
  table.filter fun e => e.1 != key

/-- Modelled from the spec: `Fputhash` of `fns.c`: the "Map" with the key
bound to the value, in place of an earlier binding. -/
def Fputhash {V : Type} (key : Nat) (value : V) (table : List (Nat × V)) : List (Nat × V) :=
  (key, value) :: Fremhash key table

/-- Modelled from the spec: the `count` of a hash table, the number of its
entries. -/
def hash_table_count {V : Type} (table : List (Nat × V)) : Nat := table.length

/-- `struct dump_queue`. -/
structure dump_queue where
  zero_weight_objects : List Nat
  one_weight_normal_objects : List Nat
  one_weight_strong_objects : List Nat
  fancy_weight_objects : List Nat
  link_weights : List (Nat × weight_list)
  sequence_numbers : List (Nat × Int)
  next_sequence_number : Int
  deriving DecidableEq, Repr

/-- `dump_queue_init`. -/
def dump_queue_init : dump_queue :=
  { zero_weight_objects := []
    one_weight_normal_objects := []
    one_weight_strong_objects := []
    fancy_weight_objects := []
    link_weights := []
    sequence_numbers := []
    next_sequence_number := 1 }

/-- `dump_queue_empty_p`. -/
def dump_queue_empty_p (q : dump_queue) : Bool :=
  hash_table_count q.sequence_numbers == 0

/-- `dump_tailq_prepend`. -/
def dump_tailq_prepend (tailq : List Nat) (value : Nat) : List Nat := value :: tailq

/-- `dump_tailq_pop`: the value at the head and the rest; `none` when the
`eassert` that the queue is not empty fails. -/
def dump_tailq_pop (tailq : List Nat) : Option (Nat × List Nat) :=
  match tailq with
  | [] => none
  | value :: rest => some (value, rest)

/-- `dump_queue_push_weight`. -/
def dump_queue_push_weight (weights : weight_list) (basis : Int) (weight : Int) :
    weight_list :=
  match weights with
  | .Qt => .conses [(basis, weight)]
  | .conses l => .conses ((basis, weight) :: l)

/-- `dump_queue_enqueue`. -/
def dump_queue_enqueue (q : dump_queue) (object : Nat) (basis : Int) (weight : Int) :
    Except dump_error dump_queue :=
  let weights := Fgethash object q.link_weights (weight_list.conses [])
  let orig_weights := weights
  let put (r : dump_queue × weight_list) : dump_queue :=
    if r.2 ≠ orig_weights then
      { r.1 with link_weights := Fputhash object r.2 r.1.link_weights }
    else r.1
  if weights = weight_list.conses [] then
    -- Object is new.
    let sequenced (q1 : dump_queue) : dump_queue :=
      { q1 with
        sequence_numbers := Fputhash object q1.next_sequence_number q1.sequence_numbers
        next_sequence_number := q1.next_sequence_number + 1 }
    if weight = WEIGHT_NONE then
      Except.ok (put
        (sequenced
          { q with zero_weight_objects := dump_tailq_prepend q.zero_weight_objects object },
         weight_list.Qt))
    else if weight = WEIGHT_NORMAL then
      Except.ok (put
        (sequenced
          { q with
            one_weight_normal_objects :=
              dump_tailq_prepend q.one_weight_normal_objects object },
         dump_queue_push_weight weights basis weight))
    else if weight = WEIGHT_STRONG then
      Except.ok (put
        (sequenced
          { q with
            one_weight_strong_objects :=
              dump_tailq_prepend q.one_weight_strong_objects object },
         dump_queue_push_weight weights basis weight))
    else Except.error dump_error.abort
  else
    -- Object was already on the queue.
    if weight ≠ WEIGHT_NONE then
      if weights = weight_list.Qt then
        if weight = WEIGHT_NORMAL then
          Except.ok (put
            ({ q with
               one_weight_normal_objects :=
                 dump_tailq_prepend q.one_weight_normal_objects object },
             dump_queue_push_weight (weight_list.conses []) basis weight))
        else if weight = WEIGHT_STRONG then
          Except.ok (put
            ({ q with
               one_weight_strong_objects :=
                 dump_tailq_prepend q.one_weight_strong_objects object },
             dump_queue_push_weight (weight_list.conses []) basis weight))
        else Except.error dump_error.abort
      else
        let q1 :=
          match weights with
          | .conses [_] =>
            { q with fancy_weight_objects := dump_tailq_prepend q.fancy_weight_objects object }
          | _ => q
        Except.ok (put (q1, dump_queue_push_weight weights basis weight))
    else Except.ok (put (q, weights))

/-- What is used of `dump_calc_link_score` (basis, link_basis, link_weight),
which is `powf (powf (distance, -0.2f), link_weight / 1000.0f)` with
`distance = basis - link_basis`: for a positive weight the score of a
positive distance is positive, and it is smaller for a greater distance.
The function stands for the C one where its `eassert (distance >= 0)` holds;
for a negative distance the C stops at the `eassert`, or without
`ENABLE_CHECKING` computes a NaN, which is no element of the ordered field:
`dump_queue_dequeue` tests the distances with `dump_queue_distances_defined`
before any score is used.  At the distance 0 the C score is `+INFINITY`;
the two properties are asked of positive distances only. -/
structure link_score (S : Type) [LinearOrderedField S] where
  dump_calc_link_score : Int → Int → Int → S
  score_pos : ∀ basis link_basis link_weight : Int,
    link_basis < basis → 0 < link_weight →
    0 < dump_calc_link_score basis link_basis link_weight
  score_lt : ∀ basis link_basis1 link_basis2 link_weight : Int,
    link_basis1 < link_basis2 → link_basis2 < basis → 0 < link_weight →
    dump_calc_link_score basis link_basis1 link_weight
      < dump_calc_link_score basis link_basis2 link_weight

/-- The loop of `dump_queue_compute_score` over the pairs of an object. -/
def dump_queue_compute_score_loop {S : Type} [LinearOrderedField S] (m : link_score S)
    (basis : Int) : S → List (Int × Int) → S
  | score, [] => score
  | score, basis_weight_pair :: object_link_weights =>
    dump_queue_compute_score_loop m basis
      (score + m.dump_calc_link_score basis basis_weight_pair.1 basis_weight_pair.2)
      object_link_weights

/-- `dump_queue_compute_score`, for a `basis` that is not below the basis
of any pair of the object, which the `eassert` of `dump_calc_link_score`
demands and `dump_queue_distances_defined` tests. -/
def dump_queue_compute_score {S : Type} [LinearOrderedField S] (m : link_score S)
    (q : dump_queue) (object : Nat) (basis : Int) : S :=
  match Fgethash object q.link_weights (weight_list.conses []) with
  | .Qt => dump_queue_compute_score_loop m basis 0 []
  | .conses l => dump_queue_compute_score_loop m basis 0 l

/-- The loop of `dump_queue_scan_fancy` from the cons at index `i` on: the
index of the cons with the highest score so far and that score, `none` while
`first` is true. -/
def dump_queue_scan_fancy_loop {S : Type} [LinearOrderedField S] (m : link_score S)
    (q : dump_queue) (basis : Int) : Nat → List Nat → Option (Nat × S) → Option (Nat × S)
  | _, [], highest => highest
  | i, queued_object :: rest, highest =>
    let score := dump_queue_compute_score m q queued_object basis
    let highest1 :=
      match highest with
      | none => some (i, score)
      | some (j, highest_score) =>
        if score ≥ highest_score then some (i, score) else some (j, highest_score)
    dump_queue_scan_fancy_loop m q basis (i + 1) rest highest1

/-- `dump_queue_scan_fancy`: the index in the fancy list of the cons
`*out_highest_score_cons_ptr` and the score returned; `none` stands for
`NULL` and minus infinity. -/
def dump_queue_scan_fancy {S : Type} [LinearOrderedField S] (m : link_score S)
    (q : dump_queue) (basis : Int) : Option (Nat × S) :=
  dump_queue_scan_fancy_loop m q basis 0 q.fancy_weight_objects none

/-- `dump_queue_sequence`. -/
def dump_queue_sequence (q : dump_queue) (object : Nat) : Int :=
  match q.sequence_numbers.lookup object with
  | none => -1
  | some n => n

/-- The loop of `dump_queue_find_score_of_one_weight_queue`: the queue
without the stale objects dropped from its head, `*out_score` (`none` for
minus infinity) and `*out_sequence`. -/
def dump_queue_find_score_of_one_weight_queue {S : Type} [LinearOrderedField S]
    (m : link_score S) (q : dump_queue) (basis : Int) :
    List Nat → List Nat × Option S × Int
  | [] => ([], none, 0)
  | head :: rest =>
    if dump_queue_sequence q head < 0 then
      dump_queue_find_score_of_one_weight_queue m q basis rest
    else
      (head :: rest, some (dump_queue_compute_score m q head basis), dump_queue_sequence q head)

/-- The first loop of `dump_queue_dequeue`: the queue with the stale objects
that came out highest dropped from the fancy list, and `candidates[0]`.  The
first argument bounds the number of iterations. -/
def dump_queue_dequeue_fancy {S : Type} [LinearOrderedField S] (m : link_score S)
    (basis : Int) : Nat → dump_queue → Option (dump_queue × Option S × Int)
  | 0, _ => none
  | fuel + 1, q =>
    match dump_queue_scan_fancy m q basis with
    | none => some (q, none, 0)
    | some (fancy_cons, score) =>
      let sequence := dump_queue_sequence q (q.fancy_weight_objects.getD fancy_cons 0)
      if sequence < 0 then
        dump_queue_dequeue_fancy m basis fuel
          { q with fancy_weight_objects := q.fancy_weight_objects.eraseIdx fancy_cons }
      else some (q, some score, sequence)

/-- The loop of `dump_queue_dequeue` that chooses `best` among the
candidates from index `i` on; `none` stands for `best < 0`. -/
def dump_queue_dequeue_best {S : Type} [LinearOrderedField S] :
    Nat → List (Option S × Int) → Option (Nat × S × Int) → Option (Nat × S × Int)
  | _, [], best => best
  | i, (none, _) :: candidates, best => dump_queue_dequeue_best (i + 1) candidates best
  | i, (some score, sequence) :: candidates, best =>
    let best1 :=
      match best with
      | none => some (i, score, sequence)
      | some (j, best_score, best_sequence) =>
        if score > best_score ∨ (score = best_score ∧ sequence < best_sequence) then
          some (i, score, sequence)
        else some (j, best_score, best_sequence)
    dump_queue_dequeue_best (i + 1) candidates best1

/-- The `eassert (distance >= 0)` of `dump_calc_link_score` for every pair
that `link_weights` has for `object`: the pairs `dump_queue_compute_score`
goes through, and the loop of `dump_queue_dequeue` that traces the result. -/
def dump_queue_distances_defined (q : dump_queue) (object : Nat) (basis : Int) : Bool :=
  match Fgethash object q.link_weights (weight_list.conses []) with
  | .Qt => true
  | .conses l => l.all fun basis_weight_pair => decide (basis - basis_weight_pair.1 ≥ 0)

/-- The objects whose score one call of `dump_queue_dequeue` computes: every
object of the fancy list, which `dump_queue_scan_fancy` goes through, and on
each of the two one-weight lists the first object that has a sequence
number, at which `dump_queue_find_score_of_one_weight_queue` stops. -/
def dump_queue_scored_objects (q : dump_queue) : List Nat :=
  q.fancy_weight_objects
    ++ (q.one_weight_normal_objects.dropWhile
        fun o => decide (dump_queue_sequence q o < 0)).take 1
    ++ (q.one_weight_strong_objects.dropWhile
        fun o => decide (dump_queue_sequence q o < 0)).take 1

/-- The body of `dump_queue_dequeue` with the scores read in the ordered
field, as they are when every `eassert (distance >= 0)` holds: the object
returned and the queue afterwards; an error stands for a pop from an empty
list. -/
def dump_queue_dequeue_scored {S : Type} [LinearOrderedField S] (m : link_score S)
    (q : dump_queue) (basis : Int) : Except dump_error (Nat × dump_queue) :=
  match dump_queue_dequeue_fancy m basis (q.fancy_weight_objects.length + 1) q with
  | none => Except.error dump_error.out_of_fuel
  | some (q1, score0, sequence0) =>
    let normal :=
      dump_queue_find_score_of_one_weight_queue m q1 basis q1.one_weight_normal_objects
    let q2 := { q1 with one_weight_normal_objects := normal.1 }
    let strong :=
      dump_queue_find_score_of_one_weight_queue m q2 basis q2.one_weight_strong_objects
    let q3 := { q2 with one_weight_strong_objects := strong.1 }
    let candidates := [(score0, sequence0), normal.2, strong.2]
    let best := (dump_queue_dequeue_best 0 candidates none).map Prod.fst
    let popped : Option (Nat × dump_queue) :=
      match best with
      | none =>
        (dump_tailq_pop q3.zero_weight_objects).map fun r =>
          (r.1, { q3 with zero_weight_objects := r.2 })
      | some 0 =>
        (dump_tailq_pop q3.fancy_weight_objects).map fun r =>
          (r.1, { q3 with fancy_weight_objects := r.2 })
      | some 1 =>
        (dump_tailq_pop q3.one_weight_normal_objects).map fun r =>
          (r.1, { q3 with one_weight_normal_objects := r.2 })
      | some _ =>
        (dump_tailq_pop q3.one_weight_strong_objects).map fun r =>
          (r.1, { q3 with one_weight_strong_objects := r.2 })
    match popped with
    | none => Except.error dump_error.abort
    | some (result, q4) =>
      Except.ok (result,
        { q4 with
          link_weights := Fremhash result q4.link_weights
          sequence_numbers := Fremhash result q4.sequence_numbers })

/-- `dump_queue_dequeue`: the object returned and the queue afterwards.
`dump_calc_link_score` is called for every pair of the objects whose score
is computed, and again for every pair of the result when it is traced; its
`eassert (distance >= 0)` stops the dump when the cursor is below the basis
of such a pair.  Without `ENABLE_CHECKING` the score is then a NaN, which
the ordered field of the scores does not have, and the model stops there
too. -/
def dump_queue_dequeue {S : Type} [LinearOrderedField S] (m : link_score S)
    (q : dump_queue) (basis : Int) : Except dump_error (Nat × dump_queue) :=
  if (dump_queue_scored_objects q).all (fun object =>
      dump_queue_distances_defined q object basis) = false then
    Except.error dump_error.abort
  else
    match dump_queue_dequeue_scored m q basis with
    | Except.error e => Except.error e
    | Except.ok (result, q1) =>
      if dump_queue_distances_defined q result basis = false then
        Except.error dump_error.abort
      else Except.ok (result, q1)

/-- A score with the two properties, in the rational numbers: the weight
divided by the distance. -/
def sample_link_score : link_score ℚ :=
  { dump_calc_link_score := fun basis link_basis link_weight =>
      (link_weight : ℚ) / ((basis : ℚ) - (link_basis : ℚ))
    score_pos := by
      intro basis link_basis link_weight h1 h2
      apply div_pos
      · exact_mod_cast h2
      · have : (link_basis : ℚ) < basis := by exact_mod_cast h1
        linarith
    score_lt := by
      intro basis lb1 lb2 w h1 h2 h3
      have hw : (0 : ℚ) < w := by exact_mod_cast h3
      have h1q : (lb1 : ℚ) < lb2 := by exact_mod_cast h1
      have h2q : (lb2 : ℚ) < basis := by exact_mod_cast h2
      apply div_lt_div_of_pos_left hw (by linarith) (by linarith) }

/-- A sequence of `dump_queue_enqueue` calls, each with its object, basis
and weight, from a queue on. -/
def dump_queue_enqueue_all : dump_queue → List (Nat × Int × Int) → Except dump_error dump_queue
  | q, [] => Except.ok q
  | q, (object, basis, weight) :: calls => do
    let q1 ← dump_queue_enqueue q object basis weight
    dump_queue_enqueue_all q1 calls

/-- The queues that `dump_queue_init`, `dump_queue_dequeue` and
`dump_queue_enqueue` with `WEIGHT_NORMAL` of an object that has no weights
recorded at the time of the call lead to. -/
inductive normal_run {S : Type} [LinearOrderedField S] (m : link_score S) : dump_queue → Prop
  | init : normal_run m dump_queue_init
  | enqueue (q q1 : dump_queue) (object : Nat) (basis : Int) :
    normal_run m q →
    Fgethash object q.link_weights (weight_list.conses []) = weight_list.conses [] →
    dump_queue_enqueue q object basis WEIGHT_NORMAL = Except.ok q1 → normal_run m q1
  | dequeue (q q1 : dump_queue) (basis : Int) (object : Nat) :
    normal_run m q → dump_queue_dequeue m q basis = Except.ok (object, q1) → normal_run m q1

/-- Every queued object has one edge, of weight `WEIGHT_NORMAL`, and is on
the list of the objects with one normal weight; the other lists are empty. -/
def normal_only (q : dump_queue) : Prop :=
  q.fancy_weight_objects = [] ∧ q.one_weight_strong_objects = []
    ∧ q.zero_weight_objects = []
    ∧ (∀ o w, (o, w) ∈ q.link_weights → ∃ b, w = weight_list.conses [(b, WEIGHT_NORMAL)])
    ∧ (∀ o n, (o, n) ∈ q.sequence_numbers → 0 ≤ n ∧ o ∈ q.one_weight_normal_objects)
    ∧ 1 ≤ q.next_sequence_number
/-- The queue after object 1 was enqueued at basis 1, object 2 at 499,
object 2 again at 500 and object 1 again at 500, each time with
`WEIGHT_NORMAL`. -/
def sample_fancy_queue : dump_queue :=
  { zero_weight_objects := []
    one_weight_normal_objects := [2, 1]
    one_weight_strong_objects := []
    fancy_weight_objects := [1, 2]
    link_weights :=
      [(1, weight_list.conses [(500, 1000), (1, 1000)]),
       (2, weight_list.conses [(500, 1000), (499, 1000)])]
    sequence_numbers := [(2, 2), (1, 1)]
    next_sequence_number := 3 }

/-- The queue after object 1 was enqueued twice at basis 10 and then
object 2 once at basis 10, each time with `WEIGHT_NORMAL`. -/
def sample_twice_queue : dump_queue :=
  { zero_weight_objects := []
    one_weight_normal_objects := [2, 1]
    one_weight_strong_objects := []
    fancy_weight_objects := [1]
    link_weights :=
      [(2, weight_list.conses [(10, 1000)]),
       (1, weight_list.conses [(10, 1000), (10, 1000)])]
    sequence_numbers := [(2, 2), (1, 1)]
    next_sequence_number := 3 }

/-- The queue after object 1 was enqueued at basis 10 and object 2 at
basis 20, both with `WEIGHT_NORMAL`. -/
def sample_normal_queue : dump_queue :=
  { zero_weight_objects := []
    one_weight_normal_objects := [2, 1]
    one_weight_strong_objects := []
    fancy_weight_objects := []
    link_weights :=
      [(2, weight_list.conses [(20, 1000)]), (1, weight_list.conses [(10, 1000)])]
    sequence_numbers := [(2, 2), (1, 1)]
    next_sequence_number := 3 }

/-- The pairs of a basis and a weight recorded in `link_weights`, for all
objects. -/
def recorded_edges (q : dump_queue) : List (Int × Int) :=
  q.link_weights.foldr
    (fun e acc =>
      match e.2 with
      | weight_list.Qt => acc
      | weight_list.conses l => l ++ acc) []

/-! ## Bignums: the limbs in the cold section, the fixup and the relocation -/

/-- Modelled from the spec: the limbs of an `mpz_t` of GMP, which is not part
of the sources at hand.  The "arbitrary-precision value" is a sign and the
digits of its absolute value in base `2 ^ GMP_NUMB_BITS`, least significant
limb first and without leading zero limbs. -/
def mpz_limbs (GMP_NUMB_BITS : Nat) (n : Int) : List Nat :=
  Nat.digits (2 ^ GMP_NUMB_BITS) n.natAbs

/-- Modelled from the spec: `mpz_size` of GMP, the "limb_count" of the value. -/
def mpz_size (GMP_NUMB_BITS : Nat) (n : Int) : Nat := (mpz_limbs GMP_NUMB_BITS n).length

/-- Modelled from the spec: `mpz_getlimbn` of GMP, limb `i` of the value,
limb 0 being the least significant. -/
def mpz_getlimbn (GMP_NUMB_BITS : Nat) (n : Int) (i : Nat) : Nat :=
  (mpz_limbs GMP_NUMB_BITS n).getD i 0

/-- Modelled from the spec: `mpz_sgn` of GMP, which is 1, 0 or -1. -/
def mpz_sgn (n : Int) : Int := Int.sign n

/-- Modelled from the spec: `mpz_roinit_n` of GMP, which makes an `mpz_t`
that "reconstructs the arbitrary-precision value" from limbs in place: the
integer whose absolute value has the limbs `xp[0]` to `xp[|xs| - 1]`, least
significant first, and whose sign is that of `xs`. -/
def mpz_roinit_n (GMP_NUMB_BITS : Nat) (xp : Nat → Nat) (xs : Int) : Int :=
  Int.sign xs * ((Nat.ofDigits (2 ^ GMP_NUMB_BITS) ((List.range xs.natAbs).map xp) : Nat) : Int)

/-- The object representations of the host that `dump_write` copies into the
dump and that the loader reads back: the sizes of `mp_limb_t`, `dump_off`,
`intptr_t`, `void *` and `Lisp_Object`, the byte at each index of such an
object in memory, and the value of the `mp_limb_t` and of the `dump_off` that
given bytes represent. -/
structure memory_repr where
  GMP_NUMB_BITS : Nat
  sizeof_limb : Nat
  alignof_limb : Nat
  sizeof_dump_off : Nat
  sizeof_intptr : Nat
  sizeof_void_ptr : Nat
  sizeof_lv : Nat
  limb_byte : Nat → Nat → Nat
  limb_value : (Nat → Nat) → Nat
  dump_off_byte : Int → Nat → Nat
  dump_off_value : (Nat → Nat) → Int
  intptr_byte : Int → Nat → Nat
  lv_byte : Nat → Nat → Nat

/-- Reading an object from the bytes that represent a value of its type
gives that value, for limbs below `2 ^ GMP_NUMB_BITS` and for the values of
`dump_off`. -/
def memory_repr.reads_back (rp : memory_repr) : Prop :=
  (∀ (v : Nat) (f : Nat → Nat), v < 2 ^ rp.GMP_NUMB_BITS →
      (∀ i, i < rp.sizeof_limb → f i = rp.limb_byte v i) → rp.limb_value f = v)
    ∧ (∀ (v : Int) (f : Nat → Nat), DUMP_OFF_MIN ≤ v → v ≤ DUMP_OFF_MAX →
        (∀ i, i < rp.sizeof_dump_off → f i = rp.dump_off_byte v i) → rp.dump_off_value f = v)

/-- `struct bignum_reload_info`. -/
structure bignum_reload_info where
  data_location : Int
  nlimbs : Int
  deriving DecidableEq, Repr

/-- The byte at each index of a `struct bignum_reload_info`: the two members
of type `dump_off`, one after the other. -/
def bignum_reload_info_byte (rp : memory_repr) (reload_info : bignum_reload_info) (i : Nat) :
    Nat :=
  if i < rp.sizeof_dump_off then rp.dump_off_byte reload_info.data_location i
  else rp.dump_off_byte reload_info.nlimbs (i - rp.sizeof_dump_off)

/-- `dump_write` with the output buffer beside the context and with its
`eassert`s on the context, which stop the dump with `ENABLE_CHECKING`: no
object is in progress and `dump_object_contents` is on (`dump_grow_buffer`
left aside; the source is not a null pointer at any call below). -/
def dump_write_checked (ENABLE_CHECKING : Bool) (ctx : dump_context) (buf : Int → Nat)
    (data : Nat → Nat) (nbyte : Int) : Except dump_error (dump_context × (Int → Nat)) :=
  if ENABLE_CHECKING ∧ ¬ (ctx.obj_offset = 0 ∧ ctx.flags.dump_object_contents = true) then
    Except.error dump_error.abort
  else Except.ok (dump_write_bytes ctx buf data nbyte)

/-- The loop of `dump_write_zero` with the output buffer beside the context
and the `eassert`s of `dump_write`; the first argument bounds the number of
iterations. -/
def dump_write_zero_checked_loop (ENABLE_CHECKING : Bool) :
    Nat → dump_context → (Int → Nat) → Int → Except dump_error (dump_context × (Int → Nat))
  | 0, ctx, buf, _ => Except.ok (ctx, buf)
  | fuel + 1, ctx, buf, nbytes =>
    if nbytes > 0 then do
      let to_write := if sizeof_uintmax_t > nbytes then nbytes else sizeof_uintmax_t
      let r ← dump_write_checked ENABLE_CHECKING ctx buf (fun _ => 0) to_write
      dump_write_zero_checked_loop ENABLE_CHECKING fuel r.1 r.2 (nbytes - to_write)
    else Except.ok (ctx, buf)

/-- `dump_align_output` with the output buffer beside the context and the
`eassert`s of `dump_write`; the loop of `dump_write_zero` runs at most
`nbytes` times. -/
def dump_align_output_checked (ENABLE_CHECKING : Bool) (ctx : dump_context) (buf : Int → Nat)
    (alignment : Int) : Except dump_error (dump_context × (Int → Nat)) :=
  if ctx.offset % alignment ≠ 0 then
    dump_write_zero_checked_loop ENABLE_CHECKING (alignment - ctx.offset % alignment).toNat
      ctx buf (alignment - ctx.offset % alignment)
  else Except.ok (ctx, buf)

/-- The loop of `dump_cold_bignum` from index `i` on, with the output buffer
beside the context; the first argument bounds the number of iterations. -/
def dump_cold_bignum_loop (ENABLE_CHECKING : Bool) (rp : memory_repr) (n : Int) (nlimbs : Int) :
    Nat → Int → dump_context → (Int → Nat) → Except dump_error (dump_context × (Int → Nat))
  | 0, _, ctx, buf => Except.ok (ctx, buf)
  | fuel + 1, i, ctx, buf =>
    if i < nlimbs then do
      let limb := mpz_getlimbn rp.GMP_NUMB_BITS n i.toNat
      let r ← dump_write_checked ENABLE_CHECKING ctx buf (rp.limb_byte limb) rp.sizeof_limb
      dump_cold_bignum_loop ENABLE_CHECKING rp n nlimbs fuel (i + 1) r.1 r.2
    else Except.ok (ctx, buf)

/-- `dump_cold_bignum` for the bignum named `object` whose value
`xbignum_val (object)` is `n`, with the output buffer and the map
`bignum_data` beside the context; the loop runs `nlimbs` times.  With
`ENABLE_CHECKING` a failed `eassert` stops the dump. -/
def dump_cold_bignum (ENABLE_CHECKING : Bool) (rp : memory_repr) (ctx : dump_context)
    (buf : Int → Nat) (bignum_data : List (Nat × lisp_reloc)) (object : Nat) (n : Int) :
    Except dump_error (dump_context × (Int → Nat) × List (Nat × lisp_reloc)) :=
  let sz_nlimbs := mpz_size rp.GMP_NUMB_BITS n
  if ENABLE_CHECKING ∧ ¬ ((sz_nlimbs : Int) < DUMP_OFF_MAX) then Except.error dump_error.abort
  else do
    let r ← dump_align_output_checked ENABLE_CHECKING ctx buf rp.alignof_limb
    let nlimbs : Int := to_signed DUMP_OFF_WIDTH sz_nlimbs
    let descriptor : lisp_reloc :=
      [dump_off_to_lisp r.1.offset, dump_off_to_lisp (if mpz_sgn n < 0 then -nlimbs else nlimbs)]
    let bignum_data1 := Fputhash object descriptor bignum_data
    let w ← dump_cold_bignum_loop ENABLE_CHECKING rp n nlimbs nlimbs.toNat 0 r.1 r.2
    Except.ok (w.1, w.2, bignum_data1)

/-- `dump_seek`; the field `max_offset` is not part of the context here.
With `ENABLE_CHECKING` the `eassert` stops the dump inside an object. -/
def dump_seek (ENABLE_CHECKING : Bool) (ctx : dump_context) (offset : Int) :
    Except dump_error dump_context :=
  if ENABLE_CHECKING ∧ ctx.obj_offset ≠ 0 then Except.error dump_error.abort
  else Except.ok { ctx with offset := offset }

/-- `dump_reloc_dump_to_dump_ptr_raw`. -/
def dump_reloc_dump_to_dump_ptr_raw (ctx : dump_context) (dump_offset : Int) : dump_context :=
  if ctx.flags.dump_object_contents then
    push_dump_reloc ctx reloc_phase.EARLY_RELOCS
      [lisp_value.fixnum RELOC_DUMP_TO_DUMP_PTR_RAW, dump_off_to_lisp dump_offset]
  else ctx

/-- `SUBRP`. -/
def SUBRP (object : lisp_object) : Bool :=
  match object.body with
  | .vectorlike v => v.ptype = pvec_type.PVEC_SUBR
  | _ => false

/-- `NATIVE_COMP_FUNCTIONP` of a subr, which is false without
`HAVE_NATIVE_COMP`. -/
def NATIVE_COMP_FUNCTIONP (HAVE_NATIVE_COMP : Bool) (object : lisp_object) : Bool :=
  match object.body with
  | .vectorlike v => HAVE_NATIVE_COMP ∧ v.ptype = pvec_type.PVEC_SUBR ∧ v.subr_non_primitive
  | _ => false

/-- `BIGNUMP`. -/
def BIGNUMP (object : lisp_object) : Bool :=
  match object.body with
  | .vectorlike v => v.ptype = pvec_type.PVEC_BIGNUM
  | _ => false

/-- `dump_builtin_symbol_p`. -/
def dump_builtin_symbol_p (object : lisp_object) : Bool :=
  match object.body with
  | .symbol builtin _ => builtin
  | _ => false

/-- The `eassert` of `dump_do_fixup` on the fixup before this one: the
difference of the two offsets, an `int`, is converted to `size_t`, taken to
be as wide as a pointer, for the comparison with `sizeof (void *)`. -/
def dump_fixup_distance_ok (h : host) (rp : memory_repr) (prev_fixup : Option lisp_fixup)
    (dump_fixup_offset : Int) : Bool :=
  match prev_fixup with
  | none => true
  | some (_ :: fixup_value.fixnum prev_dump_fixup_offset :: _) =>
    decide (rp.sizeof_void_ptr ≤ to_unsigned h.ptr_width (dump_fixup_offset - prev_dump_fixup_offset))
  | some _ => false

/-- The case `DUMP_FIXUP_LISP_OBJECT` or `DUMP_FIXUP_LISP_OBJECT_RAW` of
`dump_do_fixup`, after `dump_seek`, for the object named `arg`. -/
def dump_do_fixup_lisp_object (ENABLE_CHECKING : Bool) (pf : platform) (h : host)
    (rp : memory_repr) (heap : Nat → lisp_object) (optr XLI : Nat → Nat) (ctx : dump_context)
    (buf : Int → Nat) (type : Int) (arg : Nat) : Except dump_error (dump_context × (Int → Nat)) :=
  let object := heap arg
  if SUBRP object ∧ ¬ NATIVE_COMP_FUNCTIONP pf.HAVE_NATIVE_COMP object then do
    let dump_value := emacs_offset h (optr arg)
    let ctx1 ←
      if type = DUMP_FIXUP_LISP_OBJECT then
        dump_reloc_dump_to_emacs_lv ctx ctx.offset (XTYPE object)
      else Except.ok (dump_reloc_dump_to_emacs_ptr_raw ctx ctx.offset)
    dump_write_checked ENABLE_CHECKING ctx1 buf (rp.intptr_byte dump_value) rp.sizeof_intptr
  else if dump_builtin_symbol_p object then
    if type = DUMP_FIXUP_LISP_OBJECT then
      dump_write_checked ENABLE_CHECKING ctx buf (rp.lv_byte (XLI arg)) rp.sizeof_lv
    else
      let dump_value := emacs_offset h (optr arg)
      let ctx1 := dump_reloc_dump_to_emacs_ptr_raw ctx ctx.offset
      dump_write_checked ENABLE_CHECKING ctx1 buf (rp.intptr_byte dump_value) rp.sizeof_intptr
  else if ENABLE_CHECKING ∧ dump_object_emacs_ptr pf.HAVE_NATIVE_COMP object then
    Except.error dump_error.abort
  else
    let dump_value := dump_recall_object ctx object
    if dump_value ≤ 0 then Except.error (dump_error.error "fixup object not dumped")
    else do
      let ctx1 ←
        if type = DUMP_FIXUP_LISP_OBJECT then
          dump_reloc_dump_to_dump_lv ctx ctx.offset (XTYPE object)
        else Except.ok (dump_reloc_dump_to_dump_ptr_raw ctx ctx.offset)
      dump_write_checked ENABLE_CHECKING ctx1 buf (rp.intptr_byte dump_value) rp.sizeof_intptr

/-- The case `DUMP_FIXUP_BIGNUM_DATA` of `dump_do_fixup`, after `dump_seek`,
for the object named `arg`.  A descriptor that is not a list of two integers
stops the model. -/
def dump_do_fixup_bignum_data (ENABLE_CHECKING : Bool) (rp : memory_repr)
    (heap : Nat → lisp_object) (bignum_data : List (Nat × lisp_reloc)) (ctx : dump_context)
    (buf : Int → Nat) (arg : Nat) : Except dump_error (dump_context × (Int → Nat)) :=
  if ENABLE_CHECKING ∧ ¬ BIGNUMP (heap arg) then Except.error dump_error.abort
  else
    match Fgethash arg bignum_data [] with
    | [] => Except.error (dump_error.error "bignum not dumped")
    | lisp_value.fixnum data_location :: lisp_value.fixnum nlimbs :: rest =>
      if ENABLE_CHECKING ∧ rest ≠ [] then Except.error dump_error.abort
      else
        let reload_info : bignum_reload_info :=
          { data_location := data_location, nlimbs := nlimbs }
        dump_write_checked ENABLE_CHECKING ctx buf (bignum_reload_info_byte rp reload_info)
          (2 * rp.sizeof_dump_off)
    | _ => Except.error dump_error.abort

/-- `dump_do_fixup`, with the output buffer and the map `bignum_data` beside
the context.  `heap` gives the object of each name, `optr` its address in
Emacs and `XLI` the bits of its `Lisp_Object`.  With `ENABLE_CHECKING` a
failed `eassert` stops the dump; a fixup that is not a list of two integers
and an argument stops the model. -/
def dump_do_fixup (ENABLE_CHECKING : Bool) (pf : platform) (h : host) (rp : memory_repr)
    (heap : Nat → lisp_object) (optr XLI : Nat → Nat) (bignum_data : List (Nat × lisp_reloc))
    (ctx : dump_context) (buf : Int → Nat) (fixup : lisp_fixup) (prev_fixup : Option lisp_fixup) :
    Except dump_error (dump_context × (Int → Nat)) :=
  match fixup with
  | fixup_value.fixnum type :: fixup_value.fixnum dump_fixup_offset :: arg :: rest =>
    if ENABLE_CHECKING ∧ ¬ dump_fixup_distance_ok h rp prev_fixup dump_fixup_offset then
      Except.error dump_error.abort
    else if ENABLE_CHECKING ∧ rest ≠ [] then Except.error dump_error.abort
    else do
      let ctx1 ← dump_seek ENABLE_CHECKING ctx dump_fixup_offset
      if type = DUMP_FIXUP_LISP_OBJECT ∨ type = DUMP_FIXUP_LISP_OBJECT_RAW then
        match arg with
        | fixup_value.object id =>
          dump_do_fixup_lisp_object ENABLE_CHECKING pf h rp heap optr XLI ctx1 buf type id
        | fixup_value.fixnum _ => Except.error (dump_error.error "fixup object not dumped")
      else if type = DUMP_FIXUP_PTR_DUMP_RAW then
        match arg with
        | fixup_value.fixnum dump_value =>
          let ctx2 := dump_reloc_dump_to_dump_ptr_raw ctx1 ctx1.offset
          dump_write_checked ENABLE_CHECKING ctx2 buf (rp.intptr_byte dump_value) rp.sizeof_intptr
        | fixup_value.object _ => Except.error dump_error.abort
      else if type = DUMP_FIXUP_BIGNUM_DATA then
        match arg with
        | fixup_value.object id =>
          dump_do_fixup_bignum_data ENABLE_CHECKING rp heap bignum_data ctx1 buf id
        | fixup_value.fixnum _ => Except.error (dump_error.error "bignum not dumped")
      else Except.error dump_error.abort
  | _ => Except.error dump_error.abort

/-- The case `RELOC_BIGNUM` of `dump_do_dump_relocation`, with the loaded
dump given by its bytes, by dump offset: the integer that `bignum->value` is
after `mpz_roinit_n` has made it use the limbs in the dump. -/
def dump_do_dump_relocation_bignum (pf : platform) (rp : memory_repr) (reloc : dump_reloc)
    (image : Int → Nat) : Int :=
  let reloc_offset := dump_reloc_get_offset reloc
  let bignum := reloc_offset
  let bignum_val := bignum + pf.offsetof_bignum_value
  let reload_info : bignum_reload_info :=
    { data_location := rp.dump_off_value fun i => image (bignum_val + i)
      nlimbs := rp.dump_off_value fun i => image (bignum_val + rp.sizeof_dump_off + i) }
  let limbs : Nat → Nat := fun i =>
    rp.limb_value fun j => image (reload_info.data_location + i * rp.sizeof_limb + j)
  mpz_roinit_n rp.GMP_NUMB_BITS limbs reload_info.nlimbs

/-- Little-endian object representations: limbs of 64 bits, `dump_off` of 32
bits in two's complement, pointers and `Lisp_Object` of 8 bytes. -/
def sample_memory_repr : memory_repr :=
  { GMP_NUMB_BITS := 64
    sizeof_limb := 8
    alignof_limb := 8
    sizeof_dump_off := 4
    sizeof_intptr := 8
    sizeof_void_ptr := 8
    sizeof_lv := 8
    limb_byte := fun v i => v / 256 ^ i % 256
    limb_value := fun f =>
      f 0 + 256 * (f 1 + 256 * (f 2 + 256 * (f 3 + 256 * (f 4 + 256 * (f 5 + 256 * (f 6
        + 256 * f 7))))))
    dump_off_byte := fun v i => (v / 256 ^ i % 256).toNat
    dump_off_value := fun f =>
      to_signed 32 ((f 0 + 256 * (f 1 + 256 * (f 2 + 256 * f 3)) : Nat) : Int)
    intptr_byte := fun v i => (v / 256 ^ i % 256).toNat
    lv_byte := fun v i => v / 256 ^ i % 256 }

/-- The pseudovector of a bignum of 24 bytes. -/
def sample_bignum_vector : vectorlike :=
  { ptype := pvec_type.PVEC_BIGNUM, nbytes := 24, size := 0, font_spec_or_entity := false,
    bool_vector_nbytes := 0, hash_count := 0, hash_std_test := true,
    hash_key_and_value := false, obarray_size := 0, the_buffer := buffer_ptr.null,
    subr_non_primitive := false, comp_unit_file_consp := false,
    overlay_interval := itree_ptr.null, main_thread := false }

/-- A bignum named 21, whose value is `sample_bignum_value`. -/
def sample_bignum : lisp_object := ⟨21, lisp_body.vectorlike sample_bignum_vector⟩

/-- A context between objects in the cold section, the write offset at 65540. -/
def sample_cold_context : dump_context :=
  { sample_context with offset := 65540, obj_offset := 0 }

/-- The negative number `-(2 ^ 64 + 5)`, of two limbs of 64 bits. -/
def sample_bignum_value : Int := -18446744073709551621

/-! ## Growing the output buffer -/

/-- Modelled from the spec: `xrealloc` of `alloc.c`, which is not part of the
sources at hand and which the "reserve(n)" of the output buffer relies on.
It returns a block of the size asked for that keeps the bytes of the old
block, or it does not return (`memory_full`); which sizes it grants is the
first argument. -/
def xrealloc (granted : Nat → Bool) (size : Nat) : Except dump_error Unit :=
  if granted size then Except.ok () else Except.error (dump_error.error "memory exhausted")

/-- `dump_grow_buffer`: the new value of `buf_size`, a `dump_off`, the
doubling taken modulo 2^32; the size is converted to `size_t`, of
`size_width` bits, for `xrealloc`. -/
def dump_grow_buffer (granted : Nat → Bool) (size_width : Nat) (buf_size : Int) :
    Except dump_error Int := do
  let new_size : Int :=
    if buf_size ≠ 0 then to_signed DUMP_OFF_WIDTH (buf_size * 2) else 8 * 1024 * 1024
  xrealloc granted (to_unsigned size_width new_size)
  Except.ok new_size

/-- The loop `while (ctx->offset + nbyte > ctx->buf_size) dump_grow_buffer (ctx)`
of `dump_write`, for `needed = ctx->offset + nbyte`: the final `buf_size`.
The first argument bounds the number of calls of `dump_grow_buffer`. -/
def dump_write_grow_loop (granted : Nat → Bool) (size_width : Nat) (needed : Int) :
    Nat → Int → Except dump_error Int
  | fuel, buf_size =>
    if needed > buf_size then
      match fuel with
      | 0 => Except.error dump_error.out_of_fuel
      | fuel1 + 1 => do
        let buf_size1 ← dump_grow_buffer granted size_width buf_size
        dump_write_grow_loop granted size_width needed fuel1 buf_size1
    else Except.ok buf_size

/-- `dump_write` with the output buffer and its size beside the context: the
`eassert`s on the context, the growth of the buffer, the copy of `nbyte` bytes
of `data` to the write offset, and the new write offset.  `memcpy` is given
`nbyte` as a `size_t` and the address `ctx->buf + ctx->offset`: for a
negative `nbyte` or a negative offset the copy is undefined, and the model
stops. -/
def dump_write_grow (ENABLE_CHECKING : Bool) (granted : Nat → Bool) (size_width : Nat)
    (fuel : Nat) (ctx : dump_context) (buf : Int → Nat) (buf_size : Int) (data : Nat → Nat)
    (nbyte : Int) : Except dump_error (dump_context × (Int → Nat) × Int) :=
  if ENABLE_CHECKING ∧ ¬ (ctx.obj_offset = 0 ∧ ctx.flags.dump_object_contents = true) then
    Except.error dump_error.abort
  else do
    let buf_size1 ← dump_write_grow_loop granted size_width (ctx.offset + nbyte) fuel buf_size
    if nbyte < 0 ∨ ctx.offset < 0 then Except.error dump_error.abort
    else
      let r := dump_write_bytes ctx buf data nbyte
      Except.ok (r.1, r.2, buf_size1)

/-- The values `buf_size` takes when it starts at 0 and is doubled modulo
2^32: 0, 8 MiB times 2^j for j up to 7, and -2^31. -/
def buf_size_values : List Int :=
  [0, 8388608, 16777216, 33554432, 67108864, 134217728, 268435456, 536870912, 1073741824,
    -2147483648]

/-- The queues that `dump_queue_init`, `dump_queue_enqueue` and
`dump_queue_dequeue` lead to. -/
inductive queue_run {S : Type} [LinearOrderedField S] (m : link_score S) : dump_queue → Prop
  | init : queue_run m dump_queue_init
  | enqueue (q q1 : dump_queue) (object : Nat) (basis weight : Int) :
    queue_run m q → dump_queue_enqueue q object basis weight = Except.ok q1 → queue_run m q1
  | dequeue (q q1 : dump_queue) (basis : Int) (object : Nat) :
    queue_run m q → dump_queue_dequeue m q basis = Except.ok (object, q1) → queue_run m q1

/-- The two hash tables of the queue have the same keys, and no object is
mapped to `nil` in `link_weights`. -/
def queue_keys_ok (q : dump_queue) : Prop :=
  ∀ o, (q.sequence_numbers.lookup o = none ↔ q.link_weights.lookup o = none)
    ∧ q.link_weights.lookup o ≠ some (weight_list.conses [])

/-- The queue after objects 1 and 2 were enqueued at basis 10 with
`WEIGHT_NONE` and object 2 again at basis 20 with `WEIGHT_NORMAL`. -/
def sample_promoted_queue : dump_queue :=
  { zero_weight_objects := [2, 1]
    one_weight_normal_objects := [2]
    one_weight_strong_objects := []
    fancy_weight_objects := []
    link_weights := [(2, weight_list.conses [(20, 1000)]), (1, weight_list.Qt)]
    sequence_numbers := [(2, 2), (1, 1)]
    next_sequence_number := 3 }

/-- The pairs of a basis and a weight in a value of `link_weights`; `Qt`
stands for no pair. -/
def weight_list.edges (weights : weight_list) : List (Int × Int) :=
  match weights with
  | .Qt => []
  | .conses l => l

/-- `NILP (XCDR (weights))` for a list of pairs: there is one pair. -/
def weight_list.one_edge (weights : weight_list) : Bool :=
  match weights with
  | .conses [_] => true
  | _ => false

/-- A sequence of `dump_queue_dequeue` calls, each at its basis, from a
queue on: the objects returned, in the order of the calls, and the queue
afterwards. -/
def dump_queue_dequeue_all {S : Type} [LinearOrderedField S] (m : link_score S) :
    dump_queue → List Int → Except dump_error (List Nat × dump_queue)
  | q, [] => Except.ok ([], q)
  | q, basis :: bases => do
    let r ← dump_queue_dequeue m q basis
    let rs ← dump_queue_dequeue_all m r.2 bases
    Except.ok (r.1 :: rs.1, rs.2)

/-- `dump_calc_link_score` read over the real numbers: `score` is the value
returned for the distance `basis - link_basis` and the weight, the power
`(distance ^ -0.2) ^ (link_weight / 1000)`. -/
def dump_calc_link_score_is (basis link_basis link_weight : Int) (score : ℝ) : Prop :=
  score = (((basis - link_basis : Int) : ℝ) ^ (-0.2 : ℝ)) ^ ((link_weight : ℝ) / 1000.0)

/-- The keys of `sequence_numbers` are distinct, the sequence numbers in it
are at least 1, and so is `next_sequence_number`. -/
def queue_sequences_ok (q : dump_queue) : Prop :=
  (q.sequence_numbers.map Prod.fst).Nodup
    ∧ (∀ o n, (o, n) ∈ q.sequence_numbers → 1 ≤ n)
    ∧ 1 ≤ q.next_sequence_number

/-- The list of the objects with one weight of the value `weight`:
`one_weight_normal_objects` for `WEIGHT_NORMAL`, `one_weight_strong_objects`
otherwise. -/
def dump_queue.one_weight_objects (q : dump_queue) (weight : Int) : List Nat :=
  if weight = WEIGHT_NORMAL then q.one_weight_normal_objects else q.one_weight_strong_objects

/-- The queues that `dump_queue_init`, `dump_queue_dequeue` and
`dump_queue_enqueue` at bases that do not decrease lead to, each with the
basis of the last `dump_queue_enqueue`, which no later basis is below. -/
inductive ordered_run {S : Type} [LinearOrderedField S] (m : link_score S) :
    dump_queue → Int → Prop
  | init (bmax : Int) : ordered_run m dump_queue_init bmax
  | enqueue (q q1 : dump_queue) (bmax : Int) (object : Nat) (basis weight : Int) :
    ordered_run m q bmax → bmax ≤ basis →
    dump_queue_enqueue q object basis weight = Except.ok q1 → ordered_run m q1 basis
  | dequeue (q q1 : dump_queue) (bmax basis : Int) (object : Nat) :
    ordered_run m q bmax → dump_queue_dequeue m q basis = Except.ok (object, q1) →
    ordered_run m q1 bmax

/-- No basis recorded in `link_weights` is above `bmax`, and on each of the
two lists of objects with one weight, of two entries that have one pair
with the weight of the list, the one nearer the head has the greater or the
same basis, unless the other one is also on the list before it. -/
def one_weight_ordered (q : dump_queue) (bmax : Int) : Prop :=
  (∀ o e, e ∈ (Fgethash o q.link_weights (weight_list.conses [])).edges → e.1 ≤ bmax)
    ∧ ∀ W, W = WEIGHT_NORMAL ∨ W = WEIGHT_STRONG →
        ∀ pre x rest, q.one_weight_objects W = pre ++ x :: rest →
          ∀ y ∈ rest, ∀ b1 b2,
            Fgethash x q.link_weights (weight_list.conses []) = weight_list.conses [(b1, W)] →
            Fgethash y q.link_weights (weight_list.conses []) = weight_list.conses [(b2, W)] →
            b2 ≤ b1 ∨ y ∈ pre

/-- The queue after the cons named 7 was enqueued at basis 16, the object
named 3 at basis 32 and the cons named 7 again at basis 48, each time with
`WEIGHT_NORMAL`, as for the cdr fields of three conses written at these
offsets. -/
def sample_two_edge_queue : dump_queue :=
  { zero_weight_objects := []
    one_weight_normal_objects := [3, 7]
    one_weight_strong_objects := []
    fancy_weight_objects := [7]
    link_weights :=
      [(7, weight_list.conses [(48, 1000), (16, 1000)]), (3, weight_list.conses [(32, 1000)])]
    sequence_numbers := [(3, 2), (7, 1)]
    next_sequence_number := 3 }

/-- The queue `sample_two_edge_queue` after `dump_queue_dequeue` returned
the cons named 7 from the fancy list: the cons stays on the list of
`WEIGHT_NORMAL`. -/
def sample_stale_queue : dump_queue :=
  { zero_weight_objects := []
    one_weight_normal_objects := [3, 7]
    one_weight_strong_objects := []
    fancy_weight_objects := []
    link_weights := [(3, weight_list.conses [(32, 1000)])]
    sequence_numbers := [(3, 2)]
    next_sequence_number := 3 }

/-- The queue `sample_stale_queue` after the cons named 7 was enqueued at
basis 64 with `WEIGHT_STRONG`. -/
def sample_mixed_queue : dump_queue :=
  { zero_weight_objects := []
    one_weight_normal_objects := [3, 7]
    one_weight_strong_objects := [7]
    fancy_weight_objects := []
    link_weights :=
      [(7, weight_list.conses [(64, 1200)]), (3, weight_list.conses [(32, 1000)])]
    sequence_numbers := [(7, 3), (3, 2)]
    next_sequence_number := 4 }

/-! ## The field helper for `Lisp_Object` fields and raw pointers

The out-object is given by its bytes, by position from its start.  The map
`referrers`, which `dump_note_reachable` adds to and which only error
messages read, is left out; whether a referrer is set, which its `eassert`
tests, is an argument. -/

/-- `PDUMPER_MAX_OBJECT_SIZE`. -/
def PDUMPER_MAX_OBJECT_SIZE : Int := 2048

/-- `field_relpos` for the two addresses; with `ENABLE_CHECKING` a failed
`eassert` stops the dump. -/
def field_relpos (ENABLE_CHECKING : Bool) (in_start in_field : Int) : Except dump_error Int :=
  if ENABLE_CHECKING ∧ ¬ in_start ≤ in_field then Except.error dump_error.abort
  else
    let relpos := in_field - in_start
    if ENABLE_CHECKING ∧ ¬ relpos < PDUMPER_MAX_OBJECT_SIZE then Except.error dump_error.abort
    else Except.ok (to_signed DUMP_OFF_WIDTH relpos)

/-- `FIXNUMP`. -/
def FIXNUMP (object : lisp_object) : Bool :=
  match object.body with
  | .fixnum => true
  | _ => false

/-- `dump_object_self_representing_p`. -/
def dump_object_self_representing_p (object : lisp_object) : Bool :=
  FIXNUMP object || dump_builtin_symbol_p object

/-- `dump_object_needs_dumping_p`. -/
def dump_object_needs_dumping_p (object : lisp_object) : Bool :=
  !FIXNUMP object

/-- `enum dump_lv_fixup_type`. -/
inductive dump_lv_fixup_type
  | LV_FIXUP_LISP_OBJECT
  | LV_FIXUP_RAW_POINTER
  deriving DecidableEq, Repr

/-- `dump_remember_fixup_lv`. -/
def dump_remember_fixup_lv (ctx : dump_context) (dump_offset : Int) (value : Nat)
    (fixup_subtype : dump_lv_fixup_type) : dump_context :=
  if !ctx.flags.dump_object_contents then ctx
  else
    { ctx with
      fixups :=
        [fixup_value.fixnum
            (if fixup_subtype = dump_lv_fixup_type.LV_FIXUP_LISP_OBJECT then DUMP_FIXUP_LISP_OBJECT
             else DUMP_FIXUP_LISP_OBJECT_RAW),
          fixup_value.fixnum dump_offset, fixup_value.object value] :: ctx.fixups }

/-- `dump_enqueue_object`, with the dump queue beside the context.  With
`ENABLE_CHECKING` a failed `eassert` stops the dump: the one under
`assert_already_seen`, and the one of `dump_note_reachable` that a referrer
is set. -/
def dump_enqueue_object (ENABLE_CHECKING have_current_referrer : Bool) (ctx : dump_context)
    (q : dump_queue) (object : lisp_object) (weight : Int) :
    Except dump_error (dump_context × dump_queue) := do
  let r ←
    if dump_object_needs_dumping_p object then
      let state := dump_recall_object ctx object
      let already_dumped_object := decide (state > DUMP_OBJECT_NOT_SEEN)
      if ENABLE_CHECKING ∧ ctx.flags.assert_already_seen ∧ ¬ already_dumped_object then
        Except.error dump_error.abort
      else if !already_dumped_object then
        let state1 := if state = DUMP_OBJECT_NOT_SEEN then DUMP_OBJECT_ON_NORMAL_QUEUE else state
        let ctx1 :=
          if state = DUMP_OBJECT_NOT_SEEN then
            dump_remember_object ctx object DUMP_OBJECT_ON_NORMAL_QUEUE
          else ctx
        if state1 = DUMP_OBJECT_ON_NORMAL_QUEUE then do
          let q1 ← dump_queue_enqueue q object.id ctx1.offset weight
          Except.ok (ctx1, q1)
        else Except.ok (ctx1, q)
      else Except.ok (ctx, q)
    else Except.ok (ctx, q)
  if ENABLE_CHECKING ∧ ¬ have_current_referrer then Except.error dump_error.abort
  else Except.ok r

/-- What `dump_field_lv_or_rawptr` finds at `in_field`: a `Lisp_Object`,
given by the number that names it, when `ptr_raw_type` is `NULL`, or else a
pointer, null or to the object named, and `*ptr_raw_type`. -/
inductive field_content
  | lisp_object (value : Nat)
  | pointer (ptr_raw_type : Lisp_Type) (ptrval : Option Nat)
  deriving DecidableEq, Repr

/-- `memcpy` of `n` bytes of `src` to the position `pos` of the out-object. -/
def memcpy_out (out : Int → Nat) (pos : Int) (src : Nat → Nat) (n : Nat) : Int → Nat :=
  fun p => if pos ≤ p ∧ p < pos + n then src (p - pos).toNat else out p

/-- The value `(intptr_t) 0xDEADF00D`, for an `intptr_t` of `sizeof_intptr`
bytes of 8 bits. -/
def placeholder_value (rp : memory_repr) : Int := to_signed (8 * rp.sizeof_intptr) 0xDEADF00D

/-- `dump_field_lv_or_rawptr`, with the dump queue and the bytes of the
out-object beside the context.  `heap` gives the object of each name and
`XLI` the bits of its `Lisp_Object`.  `DANGEROUS` is false, so the offset
recalled for the value is not used. -/
def dump_field_lv_or_rawptr (ENABLE_CHECKING have_current_referrer : Bool) (rp : memory_repr)
    (heap : Nat → lisp_object) (XLI : Nat → Nat) (ctx : dump_context) (q : dump_queue)
    (out : Int → Nat) (in_start in_field : Int) (content : field_content) (weight : Int) :
    Except dump_error (dump_context × dump_queue × (Int → Nat)) :=
  if ENABLE_CHECKING ∧ ¬ ctx.obj_offset > 0 then Except.error dump_error.abort
  else do
    let relpos ← field_relpos ENABLE_CHECKING in_start in_field
    let fixup (value : Nat) (is_ptr_raw : Bool) :
        Except dump_error (dump_context × dump_queue × (Int → Nat)) := do
      let out_field_offset := ctx.obj_offset + relpos
      let out_value := placeholder_value rp
      let ctx1 :=
        dump_remember_fixup_lv ctx out_field_offset value
          (if is_ptr_raw then dump_lv_fixup_type.LV_FIXUP_RAW_POINTER
           else dump_lv_fixup_type.LV_FIXUP_LISP_OBJECT)
      let r ← dump_enqueue_object ENABLE_CHECKING have_current_referrer ctx1 q (heap value) weight
      Except.ok (r.1, r.2, memcpy_out out relpos (rp.intptr_byte out_value) rp.sizeof_intptr)
    match content with
    | .lisp_object value =>
      if dump_object_self_representing_p (heap value) then
        Except.ok (ctx, q, memcpy_out out relpos (rp.lv_byte (XLI value)) rp.sizeof_lv)
      else fixup value false
    | .pointer ptr_raw_type ptrval =>
      match ptrval with
      | none => Except.ok (ctx, q, out)
      | some value =>
        match ptr_raw_type with
        | .Lisp_Symbol | .Lisp_String | .Lisp_Vectorlike | .Lisp_Cons | .Lisp_Float =>
          fixup value true
        | _ => Except.error dump_error.abort

/-- `dump_field_lv`. -/
def dump_field_lv (ENABLE_CHECKING have_current_referrer : Bool) (rp : memory_repr)
    (heap : Nat → lisp_object) (XLI : Nat → Nat) (ctx : dump_context) (q : dump_queue)
    (out : Int → Nat) (in_start in_field : Int) (value : Nat) (weight : Int) :
    Except dump_error (dump_context × dump_queue × (Int → Nat)) :=
  dump_field_lv_or_rawptr ENABLE_CHECKING have_current_referrer rp heap XLI ctx q out in_start
    in_field (field_content.lisp_object value) weight

/-- `dump_field_lv_rawptr`. -/
def dump_field_lv_rawptr (ENABLE_CHECKING have_current_referrer : Bool) (rp : memory_repr)
    (heap : Nat → lisp_object) (XLI : Nat → Nat) (ctx : dump_context) (q : dump_queue)
    (out : Int → Nat) (in_start in_field : Int) (type : Lisp_Type) (ptrval : Option Nat)
    (weight : Int) : Except dump_error (dump_context × dump_queue × (Int → Nat)) :=
  dump_field_lv_or_rawptr ENABLE_CHECKING have_current_referrer rp heap XLI ctx q out in_start
    in_field (field_content.pointer type ptrval) weight

/-- A heap in which object 1 is a built-in symbol, object 2 a fixnum and every
other object a cons. -/
def sample_heap (i : Nat) : lisp_object :=
  if i = 1 then ⟨1, lisp_body.symbol true symbol_redirect.SYMBOL_PLAINVAL⟩
  else if i = 2 then ⟨2, lisp_body.fixnum⟩
  else ⟨i, lisp_body.cons⟩

/-- The bits of the `Lisp_Object` of each object of `sample_heap`. -/
def sample_XLI (i : Nat) : Nat := 8 * i

/-- The context `sample_context` in which object 7 is remembered at offset
512. -/
def sample_dumped_context : dump_context :=
  { sample_context with objects_dumped := fun i => if i = 7 then 512 else 0 }

/-- The context `sample_context` between objects, the write offset at 64,
in which the objects named 3 and 7 are remembered as
`DUMP_OBJECT_ON_NORMAL_QUEUE`: the state in which `dump_drain_normal_queue`
passes the cons named 7, just returned by `dump_queue_dequeue`, to
`dump_object`, which remembers its offset only after `dump_cons` has
returned. -/
def sample_queued_cons_context : dump_context :=
  { sample_context with
    offset := 64
    obj_offset := 0
    objects_dumped := fun i => if i = 3 ∨ i = 7 then DUMP_OBJECT_ON_NORMAL_QUEUE else 0 }

/-! ## A cons with its fields -/

/-- `dump_object_start` with the output buffer beside the context: the
context, the buffer, and the out-object, which `memset` has zeroed.  With
`ENABLE_CHECKING` a failed `eassert` stops the dump. -/
def dump_object_start_bytes (ENABLE_CHECKING : Bool) (pf : platform) (ctx : dump_context)
    (buf : Int → Nat) : Except dump_error (dump_context × (Int → Nat) × (Int → Nat)) :=
  if ENABLE_CHECKING ∧ ctx.obj_offset ≠ 0 then Except.error dump_error.abort
  else do
    let alignment : Int :=
      if ctx.flags.pack_objects then 1 else (DUMP_ALIGNMENT pf.GCALIGNMENT : Int)
    let r ←
      if ctx.flags.dump_object_contents then
        dump_align_output_checked ENABLE_CHECKING ctx buf alignment
      else Except.ok (ctx, buf)
    Except.ok ({ r.1 with obj_offset := r.1.offset }, r.2, fun _ => 0)

/-- `dump_object_finish` with the output buffer beside the context and the
out-object given by its bytes: the context, the buffer and the offset
returned. -/
def dump_object_finish_bytes (ENABLE_CHECKING : Bool) (ctx : dump_context) (buf : Int → Nat)
    (out : Int → Nat) (sz : Int) : Except dump_error (dump_context × (Int → Nat) × Int) :=
  let offset := ctx.obj_offset
  if ENABLE_CHECKING ∧ ¬ (offset > 0 ∧ offset = ctx.offset) then Except.error dump_error.abort
  else
    let ctx1 := { ctx with obj_offset := 0 }
    if ctx1.flags.dump_object_contents then do
      let r ← dump_write_checked ENABLE_CHECKING ctx1 buf (fun i => out (i : Int)) sz
      Except.ok (r.1, r.2, offset)
    else Except.ok (ctx1, buf, offset)

/-- `dump_cons` with the dump queue and the output buffer beside the
context, for the cons at the address `cons` whose fields `u.s.car` and
`u.s.u.cdr` are at the addresses `car_field` and `cdr_field` and hold the
values named `car` and `cdr`: the context, the queue, the buffer and the
offset returned. -/
def dump_cons_bytes (ENABLE_CHECKING have_current_referrer : Bool) (pf : platform)
    (rp : memory_repr) (heap : Nat → lisp_object) (XLI : Nat → Nat) (ctx : dump_context)
    (q : dump_queue) (buf : Int → Nat) (cons car_field cdr_field : Int) (car cdr : Nat) :
    Except dump_error (dump_context × dump_queue × (Int → Nat) × Int) := do
  let s ← dump_object_start_bytes ENABLE_CHECKING pf ctx buf
  let r1 ←
    dump_field_lv ENABLE_CHECKING have_current_referrer rp heap XLI s.1 q s.2.2 cons car_field
      car WEIGHT_STRONG
  let r2 ←
    dump_field_lv ENABLE_CHECKING have_current_referrer rp heap XLI r1.1 r1.2.1 r1.2.2 cons
      cdr_field cdr WEIGHT_NORMAL
  let f ← dump_object_finish_bytes ENABLE_CHECKING r2.1 s.2.1 r2.2.2 pf.sizeof_Lisp_Cons
  Except.ok (f.1, r2.2.1, f.2.1, f.2.2)

/-! ## Applying the fixups -/

/-- The offset a fixup is sorted by, `XCAR (XCDR (a))`; 0 stands in when the
fixup has no such integer. -/
def lisp_fixup_offset (a : lisp_fixup) : Int :=
  match a with
  | _ :: fixup_value.fixnum n :: _ => n
  | _ => 0

/-- Modelled from the spec: `Fsort` of `fns.c`, which is not part of the
sources at hand, called on the fixups with
`Fdump_emacs_portable__sort_predicate`: the fixups "sorted by ascending dump
offset", fixups with the same offset keeping their relative order. -/
def Fsort_fixups (l : List lisp_fixup) : List lisp_fixup :=
  l.insertionSort (fun a b => decide (lisp_fixup_offset b < lisp_fixup_offset a) = false)

/-- The loop of `dump_do_fixups` over the sorted fixups, with the output
buffer and the map `bignum_data` beside the context. -/
def dump_do_fixups_loop (ENABLE_CHECKING : Bool) (pf : platform) (h : host) (rp : memory_repr)
    (heap : Nat → lisp_object) (optr XLI : Nat → Nat) (bignum_data : List (Nat × lisp_reloc)) :
    dump_context → (Int → Nat) → List lisp_fixup → Option lisp_fixup →
      Except dump_error (dump_context × (Int → Nat))
  | ctx, buf, [], _ => Except.ok (ctx, buf)
  | ctx, buf, fixup :: fixups, prev_fixup => do
    let r ←
      dump_do_fixup ENABLE_CHECKING pf h rp heap optr XLI bignum_data ctx buf fixup prev_fixup
    dump_do_fixups_loop ENABLE_CHECKING pf h rp heap optr XLI bignum_data r.1 r.2 fixups
      (some fixup)

/-- `dump_do_fixups`, with the output buffer and the map `bignum_data`
beside the context. -/
def dump_do_fixups (ENABLE_CHECKING : Bool) (pf : platform) (h : host) (rp : memory_repr)
    (heap : Nat → lisp_object) (optr XLI : Nat → Nat) (bignum_data : List (Nat × lisp_reloc))
    (ctx : dump_context) (buf : Int → Nat) : Except dump_error (dump_context × (Int → Nat)) := do
  let saved_offset := ctx.offset
  let fixups_reversed := ctx.fixups.reverse
  let fixups := Fsort_fixups fixups_reversed
  let r ←
    dump_do_fixups_loop ENABLE_CHECKING pf h rp heap optr XLI bignum_data
      { ctx with fixups := [] } buf fixups none
  let ctx1 ← dump_seek ENABLE_CHECKING r.1 saved_offset
  Except.ok (ctx1, r.2)

/-- The `eassert` of `dump_do_fixup` on the fixup before holds for each
fixup of the list, the first one coming after `prev_fixup`. -/
def fixups_spaced (h : host) (rp : memory_repr) : Option lisp_fixup → List lisp_fixup → Bool
  | _, [] => true
  | prev_fixup, fixup :: fixups =>
    dump_fixup_distance_ok h rp prev_fixup (lisp_fixup_offset fixup)
      && fixups_spaced h rp (some fixup) fixups

/-- A fixup of type `DUMP_FIXUP_LISP_OBJECT` for an object that is not a
fixnum, a primitive subr or a built-in symbol, that does not live in Emacs
when `ENABLE_CHECKING` is on, and that has an offset above 0 in
`objects_dumped`. -/
def fixup_resolvable (ENABLE_CHECKING : Bool) (pf : platform) (heap : Nat → lisp_object)
    (objects_dumped : Nat → Int) (fixup : lisp_fixup) : Prop :=
  ∃ (f : Int) (v : Nat),
    fixup = [fixup_value.fixnum DUMP_FIXUP_LISP_OBJECT, fixup_value.fixnum f,
      fixup_value.object v]
    ∧ FIXNUMP (heap v) = false
    ∧ ¬ (SUBRP (heap v) = true ∧ ¬ NATIVE_COMP_FUNCTIONP pf.HAVE_NATIVE_COMP (heap v) = true)
    ∧ dump_builtin_symbol_p (heap v) = false
    ∧ (ENABLE_CHECKING = true → dump_object_emacs_ptr pf.HAVE_NATIVE_COMP (heap v) = false)
    ∧ 0 < objects_dumped (heap v).id

/-- A context after a cons named 7 was written at offset 4096, with the
fixup for its cdr field at 4104, which holds the cons itself. -/
def sample_self_cons_context : dump_context :=
  { sample_context with
    offset := 8192
    obj_offset := 0
    objects_dumped := fun i => if i = 7 then 4096 else 0
    fixups :=
      [[fixup_value.fixnum DUMP_FIXUP_LISP_OBJECT, fixup_value.fixnum 4104,
        fixup_value.object 7]] }

/-! ## The hash tables the drain loop is given -/

/-- The loop of `dump_drain_deferred_hash_tables` over the reversed list;
`heap` gives the object of each name and the first argument after it bounds
the depth of the nested calls of `dump_object`. -/
def dump_drain_deferred_hash_tables_loop (pf : platform) (heap : Nat → lisp_object)
    (fuel : Nat) : dump_context → List Nat → Except dump_error dump_context
  | ctx, [] => Except.ok ctx
  | ctx, object :: deferred_hash_tables => do
    let r ← dump_object pf fuel ctx (heap object)
    dump_drain_deferred_hash_tables_loop pf heap fuel r.1 deferred_hash_tables

/-- `dump_drain_deferred_hash_tables`. -/
def dump_drain_deferred_hash_tables (pf : platform) (heap : Nat → lisp_object) (fuel : Nat)
    (ctx : dump_context) : Except dump_error dump_context := do
  let old_flags := ctx.flags
  let ctx1 := { ctx with flags := { ctx.flags with defer_hash_tables := false } }
  let deferred_hash_tables := ctx1.deferred_hash_tables.reverse
  let ctx2 := { ctx1 with deferred_hash_tables := [] }
  let ctx3 ← dump_drain_deferred_hash_tables_loop pf heap fuel ctx2 deferred_hash_tables
  Except.ok { ctx3 with flags := old_flags }

/-- The pseudovector of a hash table of 40 bytes with the test `eq` and one
entry. -/
def sample_hash_table_vector : vectorlike :=
  { ptype := pvec_type.PVEC_HASH_TABLE, nbytes := 40, size := 0, font_spec_or_entity := false,
    bool_vector_nbytes := 0, hash_count := 1, hash_std_test := true,
    hash_key_and_value := true, obarray_size := 0, the_buffer := buffer_ptr.null,
    subr_non_primitive := false, comp_unit_file_consp := false,
    overlay_interval := itree_ptr.null, main_thread := false }

/-- A hash table named 31. -/
def sample_hash_table : lisp_object := ⟨31, lisp_body.vectorlike sample_hash_table_vector⟩

/-! ## Theorems -/

theorem memcmp_self (a : List Nat) (n : Nat) : memcmp a a n = 0 := by
  induction n generalizing a with
  | zero => rfl
  | succ n ih => simp [memcmp, ih]

theorem getD_zero_eq_headD (a : List Nat) : a.getD 0 0 = a.headD 0 := by
  cases a <;> rfl

theorem getD_succ_eq_tail (a : List Nat) (i : Nat) :
    a.getD (i + 1) 0 = a.tail.getD i 0 := by
  cases a <;> rfl

theorem memcmp_eq_zero_iff (a b : List Nat) (n : Nat) :
    memcmp a b n = 0 ↔ ∀ i, i < n → a.getD i 0 = b.getD i 0 := by
  induction n generalizing a b with
  | zero => simp [memcmp]
  | succ n ih =>
    rw [memcmp]
    split
    · rename_i h
      rw [ih]
      constructor
      · intro hh i hi
        cases i with
        | zero => rw [getD_zero_eq_headD, getD_zero_eq_headD]; exact h
        | succ i =>
          rw [getD_succ_eq_tail, getD_succ_eq_tail]
          exact hh i (by omega)
      · intro hh i hi
        have := hh (i + 1) (by omega)
        rwa [getD_succ_eq_tail, getD_succ_eq_tail] at this
    · rename_i h
      constructor
      · intro hh
        exfalso
        apply h
        omega
      · intro hh
        exfalso
        apply h
        have := hh 0 (by omega)
        rwa [getD_zero_eq_headD, getD_zero_eq_headD] at this

theorem to_unsigned_bytes_read (env : load_env)
    (hmin : env.sizeof_header ≤ env.st_size) (hmax : env.st_size ≤ env.INTPTR_MAX)
    (hread : env.bytes_read = env.sizeof_header) :
    to_unsigned env.ptr_width env.bytes_read = env.sizeof_header := by
  have h1 : env.sizeof_header < 2 ^ env.ptr_width := by
    have h2 : env.st_size ≤ 2 ^ (env.ptr_width - 1) - 1 := hmax
    have h3 : 2 ^ (env.ptr_width - 1) ≤ 2 ^ env.ptr_width :=
      Nat.pow_le_pow_right (by norm_num) (by omega)
    have h4 : 0 < 2 ^ (env.ptr_width - 1) := by positivity
    omega
  rw [hread, to_unsigned]
  have : ((env.sizeof_header : Int) % 2 ^ env.ptr_width) = env.sizeof_header := by
    apply Int.emod_eq_of_lt (by positivity)
    exact_mod_cast h1
  rw [this]; simp

theorem pairwise_before_range_map (f : Nat → load_event) (n : Nat)
    (hr : ∀ i j, (f i).rank = (f j).rank) (hi : ∀ i, (f i).index = i) :
    List.Pairwise load_event.before ((List.range n).map f) := by
  rw [List.pairwise_map]
  refine List.Pairwise.imp ?_ (List.pairwise_lt_range n)
  intro a b hab
  exact Or.inr ⟨hr a b, by rw [hi, hi]; exact hab⟩

theorem load_steps_pairwise (header : dump_header) (s : loader_state) :
    List.Pairwise load_event.before (load_steps header s) := by
  unfold load_steps dump_do_all_dump_reloc_for_phase dump_do_all_emacs_relocations
  simp only [List.pairwise_append, List.mem_append, List.mem_map, List.mem_range,
    List.mem_singleton, List.pairwise_cons, List.Pairwise.nil, List.not_mem_nil,
    forall_exists_index, and_imp, or_imp, forall_and, forall_apply_eq_imp_iff₂, forall_eq,
    false_imp_iff, implies_true, and_true]
  refine ⟨⟨⟨⟨⟨⟨?_, ?_, ?_⟩, ?_⟩, ?_, ?_⟩, ?_, ?_⟩, ?_, ?_⟩, ?_, ?_⟩
  all_goals first
    | exact pairwise_before_range_map _ _ (fun _ _ => rfl) (fun _ => rfl)
    | skip
  all_goals (repeat' apply And.intro)
  all_goals first
    | trivial
    | (intros; exact Or.inl (by simp [load_event.rank]))

/-- C1 (amended): a dump file that opens, whose size is between the header
size and `INTPTR_MAX`, and whose header (read in full) carries the magic the
writer emits before finalisation, makes `pdumper_load` return
`PDUMPER_LOAD_FAILED_DUMP`, whatever the fingerprint and the rest of the
header are. -/
theorem pdumper_load_failed_dump (env : load_env) (s : loader_state)
    (hopen : env.open_errno = none) (hstat : env.fstat_ok = true)
    (hmin : env.sizeof_header ≤ env.st_size) (hmax : env.st_size ≤ env.INTPTR_MAX)
    (hread : env.bytes_read = env.sizeof_header)
    (hmagic : env.header.magic = magic_incomplete :: dump_magic.tail) :
    (pdumper_load env s).1 = PDUMPER_LOAD_FAILED_DUMP := by
  have hw : to_unsigned env.ptr_width env.bytes_read = env.sizeof_header := by
    have h1 : env.sizeof_header < 2 ^ env.ptr_width := by
      have h2 : env.st_size ≤ 2 ^ (env.ptr_width - 1) - 1 := hmax
      have h3 : 2 ^ (env.ptr_width - 1) ≤ 2 ^ env.ptr_width :=
        Nat.pow_le_pow_right (by norm_num) (by omega)
      have h4 : 0 < 2 ^ (env.ptr_width - 1) := by positivity
      omega
    rw [hread, to_unsigned]
    have : ((env.sizeof_header : Int) % 2 ^ env.ptr_width) = env.sizeof_header := by
      apply Int.emod_eq_of_lt (by positivity)
      exact_mod_cast h1
    rw [this]; simp
  unfold pdumper_load
  simp only [hopen, hstat, hw, hmagic]
  simp [Nat.not_lt.mpr hmax, Nat.not_lt.mpr hmin, dump_magic, magic_incomplete, memcmp,
    sizeof_dump_magic]

theorem pdumper_load_failed_dump_witness :
    (pdumper_load
      (sample_env 64 131200
        (sample_header (magic_incomplete :: dump_magic.tail) (sample_fingerprint 9)))
      sample_state).1 = PDUMPER_LOAD_FAILED_DUMP :=
  pdumper_load_failed_dump _ _ rfl rfl (by decide) (by decide) rfl rfl

/-- C1 (as stated, refuted): on a host with 32-bit pointers, a dump file of
2^31 bytes whose header is the one written before finalisation is longer than
the header, yet `pdumper_load` returns `PDUMPER_LOAD_BAD_FILE_TYPE`, because
`stat.st_size > INTPTR_MAX`. -/
theorem pdumper_load_failed_dump_counterexample :
    let env := sample_env 32 2147483648
      (sample_header (magic_incomplete :: dump_magic.tail) (sample_fingerprint 7))
    env.open_errno = none ∧ env.fstat_ok = true ∧ env.sizeof_header ≤ env.st_size
      ∧ env.bytes_read = env.sizeof_header
      ∧ env.header.magic = magic_incomplete :: dump_magic.tail
      ∧ (pdumper_load env sample_state).1 = PDUMPER_LOAD_BAD_FILE_TYPE
      ∧ (pdumper_load env sample_state).1 ≠ PDUMPER_LOAD_FAILED_DUMP := by
  decide

/-- C2 (amended): a dump file that opens, whose size is between the header
size and `INTPTR_MAX`, whose header (read in full) has magic `dump_magic` and a
fingerprint that differs from the running binary's in at least one byte, makes
`pdumper_load` return exactly `PDUMPER_LOAD_VERSION_MISMATCH`. -/
theorem pdumper_load_version_mismatch (env : load_env) (s : loader_state)
    (hopen : env.open_errno = none) (hstat : env.fstat_ok = true)
    (hmin : env.sizeof_header ≤ env.st_size) (hmax : env.st_size ≤ env.INTPTR_MAX)
    (hread : env.bytes_read = env.sizeof_header)
    (hmagic : env.header.magic = dump_magic)
    (hfp : ∃ i, i < env.fingerprint.length
      ∧ env.header.fingerprint.getD i 0 ≠ env.fingerprint.getD i 0) :
    (pdumper_load env s).1 = PDUMPER_LOAD_VERSION_MISMATCH
      ∧ (pdumper_load env s).1 ≠ PDUMPER_LOAD_SUCCESS := by
  have hw := to_unsigned_bytes_read env hmin hmax hread
  have hm : memcmp env.header.magic dump_magic sizeof_dump_magic = 0 := by
    rw [hmagic]; exact memcmp_self _ _
  have hf : memcmp env.header.fingerprint env.fingerprint env.fingerprint.length ≠ 0 := by
    intro h0
    rw [memcmp_eq_zero_iff] at h0
    obtain ⟨i, hi, hne⟩ := hfp
    exact hne (h0 i hi)
  have key : (pdumper_load env s).1 = PDUMPER_LOAD_VERSION_MISMATCH := by
    unfold pdumper_load
    simp only [hopen, hstat, hw]
    simp [Nat.not_lt.mpr hmax, Nat.not_lt.mpr hmin, hm, hf]
  rw [key]
  exact ⟨rfl, by decide⟩

theorem pdumper_load_version_mismatch_witness :
    (pdumper_load
      (sample_env 64 131200 (sample_header dump_magic (sample_fingerprint 9)))
      sample_state).1 = PDUMPER_LOAD_VERSION_MISMATCH :=
  (pdumper_load_version_mismatch _ _ rfl rfl (by decide) (by decide) rfl rfl
    ⟨0, by decide, by decide⟩).1

/-- C2 (as stated, refuted): on a host with 32-bit pointers, a dump file of
2^31 + 4096 bytes with the right magic and a foreign fingerprint is longer than
the header, yet `pdumper_load` returns `PDUMPER_LOAD_BAD_FILE_TYPE`, not
`PDUMPER_LOAD_VERSION_MISMATCH`. -/
theorem pdumper_load_version_mismatch_counterexample :
    let env := sample_env 32 2147487744 (sample_header dump_magic (sample_fingerprint 9))
    env.open_errno = none ∧ env.fstat_ok = true ∧ env.sizeof_header ≤ env.st_size
      ∧ env.bytes_read = env.sizeof_header
      ∧ env.header.magic = dump_magic
      ∧ env.header.fingerprint.getD 0 0 ≠ env.fingerprint.getD 0 0
      ∧ (pdumper_load env sample_state).1 = PDUMPER_LOAD_BAD_FILE_TYPE
      ∧ (pdumper_load env sample_state).1 ≠ PDUMPER_LOAD_VERSION_MISMATCH := by
  decide

/-- C3: whenever `pdumper_load` returns a status other than
`PDUMPER_LOAD_SUCCESS`, the loader state (`dump_public`, `dump_private`,
`gflags.dumped_with_pdumper`, `initialized`) is the one it was called with,
and no relocation and no hook has run. -/
theorem pdumper_load_atomic (env : load_env) (s : loader_state)
    (h : (pdumper_load env s).1 ≠ PDUMPER_LOAD_SUCCESS) :
    (pdumper_load env s).2.1 = s ∧ (pdumper_load env s).2.2 = [] := by
  generalize hr : pdumper_load env s = r at h ⊢
  unfold pdumper_load at hr
  dsimp only at hr
  repeat' (split at hr)
  all_goals (subst hr; simp_all)

theorem pdumper_load_atomic_witness :
    let env := sample_env 64 131200 (sample_header dump_magic (sample_fingerprint 9))
    (pdumper_load env sample_state).1 ≠ PDUMPER_LOAD_SUCCESS
      ∧ (pdumper_load env sample_state).2.1 = sample_state
      ∧ (pdumper_load env sample_state).2.2 = [] :=
  ⟨by decide, pdumper_load_atomic _ _ (by decide)⟩

/-- C4: on every successful `pdumper_load` the steps are, in this order, the
early dump relocations by table index, the emacs relocations by table index,
the discard, the early hooks by registration index, the late dump relocations,
the very late dump relocations, and the late hooks by registration index; so
every step of an earlier phase comes before every step of a later one. -/
theorem pdumper_load_phase_order (env : load_env) (s : loader_state)
    (h : (pdumper_load env s).1 = PDUMPER_LOAD_SUCCESS) :
    (pdumper_load env s).2.2 =
      (List.range (env.header.dump_relocs reloc_phase.EARLY_RELOCS).nr_entries.toNat).map
          (load_event.dump_reloc reloc_phase.EARLY_RELOCS)
        ++ (List.range env.header.emacs_relocs.nr_entries.toNat).map load_event.emacs_reloc
        ++ [load_event.discard]
        ++ (List.range s.nr_dump_hooks).map load_event.hook
        ++ (List.range (env.header.dump_relocs reloc_phase.LATE_RELOCS).nr_entries.toNat).map
            (load_event.dump_reloc reloc_phase.LATE_RELOCS)
        ++ (List.range (env.header.dump_relocs reloc_phase.VERY_LATE_RELOCS).nr_entries.toNat).map
            (load_event.dump_reloc reloc_phase.VERY_LATE_RELOCS)
        ++ (List.range s.nr_dump_late_hooks).map load_event.late_hook
      ∧ List.Pairwise load_event.before (pdumper_load env s).2.2 := by
  have key : (pdumper_load env s).2.2 = load_steps env.header s := by
    generalize hr : pdumper_load env s = r at h ⊢
    unfold pdumper_load at hr
    dsimp only at hr
    repeat' (split at hr)
    all_goals (subst hr; simp_all [load_steps])
  rw [key]
  exact ⟨rfl, load_steps_pairwise _ _⟩

theorem pdumper_load_phase_order_witness :
    (pdumper_load (sample_env 64 131200 (sample_header dump_magic (sample_fingerprint 7)))
      sample_state).2.2 =
      [load_event.dump_reloc reloc_phase.EARLY_RELOCS 0,
       load_event.dump_reloc reloc_phase.EARLY_RELOCS 1,
       load_event.emacs_reloc 0, load_event.emacs_reloc 1,
       load_event.discard,
       load_event.hook 0, load_event.hook 1,
       load_event.dump_reloc reloc_phase.LATE_RELOCS 0,
       load_event.dump_reloc reloc_phase.VERY_LATE_RELOCS 0,
       load_event.late_hook 0] :=
  (pdumper_load_phase_order _ _ (by decide)).1

theorem dump_reloc_raw_readback (o : Int) :
    ((to_unsigned DUMP_RELOC_OFFSET_BITS (o / 2 ^ DUMP_RELOC_ALIGNMENT_BITS)
        <<< DUMP_RELOC_ALIGNMENT_BITS : Nat) : Int) = (o / 4 % 134217728) * 4 := by
  unfold to_unsigned
  rw [Nat.shiftLeft_eq]
  push_cast
  rw [Int.toNat_of_nonneg (Int.emod_nonneg _ (by norm_num))]
  norm_num [DUMP_RELOC_OFFSET_BITS, DUMP_OFF_WIDTH, DUMP_RELOC_TYPE_BITS,
    DUMP_RELOC_ALIGNMENT_BITS]

theorem dump_reloc_set_offset_eq (r : dump_reloc) (o : Int) (ho : 0 ≤ o) :
    dump_reloc_set_offset r o =
      if o % 4 = 0 ∧ o < 536870912 then
        Except.ok ⟨to_unsigned DUMP_RELOC_OFFSET_BITS (o / 2 ^ DUMP_RELOC_ALIGNMENT_BITS), r.type⟩
      else Except.error "dump relocation out of range" := by
  unfold dump_reloc_set_offset dump_reloc_get_offset
  simp only [dump_reloc_raw_readback]
  by_cases h : o % 4 = 0 ∧ o < 536870912
  · rw [if_pos h, if_neg]
    have := h.1; have := h.2
    omega
  · rw [if_neg h, if_pos]
    intro hc
    apply h
    omega

theorem reloc_offset_at_mono (relocs : List dump_reloc)
    (hs : relocs.Pairwise (fun a b => dump_reloc_get_offset a ≤ dump_reloc_get_offset b))
    (i j : Nat) (hij : i ≤ j) (hj : j < relocs.length) :
    reloc_offset_at relocs i ≤ reloc_offset_at relocs j := by
  rcases Nat.eq_or_lt_of_le hij with h | h
  · subst h; exact le_refl _
  · have hi : i < relocs.length := by omega
    have := List.pairwise_iff_getElem.mp hs i j hi hj h
    simpa [reloc_offset_at, List.getD_eq_getElem, hi, hj] using this

theorem dump_find_relocation_loop_spec (relocs : List dump_reloc) (key : Int)
    (hs : relocs.Pairwise (fun a b => dump_reloc_get_offset a ≤ dump_reloc_get_offset b)) :
    ∀ (fuel l r : Nat) (found : Option Nat), l ≤ r → r ≤ relocs.length → r - l < fuel →
      (∀ j, j < l → reloc_offset_at relocs j < key) →
      (∀ j, r ≤ j → j < relocs.length → key ≤ reloc_offset_at relocs j) →
      found = (if r < relocs.length then some r else none) →
      ∃ res, dump_find_relocation_loop relocs key fuel l r found = some res
        ∧ (res = none → ∀ j, j < relocs.length → reloc_offset_at relocs j < key)
        ∧ (∀ i, res = some i →
            i < relocs.length ∧ key ≤ reloc_offset_at relocs i
              ∧ ∀ j, j < i → reloc_offset_at relocs j < key) := by
  intro fuel
  induction fuel with
  | zero => intro l r found _ _ hf; omega
  | succ fuel ih =>
    intro l r found hlr hrn hfuel hlo hhi hfound
    rw [dump_find_relocation_loop]
    by_cases hlt : l < r
    · rw [if_pos hlt]
      have hmid1 : l ≤ l + (r - l) / 2 := by omega
      have hmid2 : l + (r - l) / 2 < r := by omega
      generalize l + (r - l) / 2 = mid at hmid1 hmid2
      dsimp only
      by_cases hk : key > reloc_offset_at relocs mid
      · rw [if_pos hk]
        apply ih (mid + 1) r found (by omega) hrn (by omega) _ hhi hfound
        intro j hj
        have := reloc_offset_at_mono relocs hs j mid (by omega) (by omega)
        omega
      · rw [if_neg hk]
        have hk2 : key ≤ reloc_offset_at relocs mid := by omega
        by_cases hb : mid ≤ l ∨ key > reloc_offset_at relocs (mid - 1)
        · rw [if_pos hb]
          refine ⟨some mid, rfl, by simp, ?_⟩
          intro i hi
          have him : mid = i := by simpa using hi
          subst him
          refine ⟨by omega, hk2, ?_⟩
          intro j hj
          rcases hb with hb | hb
          · exact hlo j (by omega)
          · have := reloc_offset_at_mono relocs hs j (mid - 1) (by omega) (by omega)
            omega
        · rw [if_neg hb]
          apply ih l mid (some mid) (by omega) (by omega) (by omega) hlo
          · intro j hj1 hj2
            have := reloc_offset_at_mono relocs hs mid j hj1 hj2
            omega
          · rw [if_pos (by omega)]
    · rw [if_neg hlt]
      have hrl : r = l := by omega
      subst hrl
      refine ⟨found, rfl, ?_, ?_⟩
      · intro hnone
        rw [hnone] at hfound
        have : ¬ r < relocs.length := by
          intro hc; rw [if_pos hc] at hfound; cases hfound
        intro j hj
        exact hlo j (by omega)
      · intro i hi
        rw [hi] at hfound
        by_cases hc : r < relocs.length
        · rw [if_pos hc] at hfound
          have hir : i = r := by simpa using hfound
          subst hir
          exact ⟨hc, hhi i (le_refl _) hc, hlo⟩
        · rw [if_neg hc] at hfound; cases hfound

/-- C6: on a table in ascending offset order and for a key >= 0,
`dump_find_relocation` returns (it does not run out of iterations) the first
entry whose offset is >= key, which is one of smallest such offset, and it
returns `NULL` exactly when every entry has an offset < key; for an empty
table it returns `NULL`. -/
theorem dump_find_relocation_first_at_or_after (relocs : List dump_reloc) (key : Int)
    (hs : relocs.Pairwise (fun a b => dump_reloc_get_offset a ≤ dump_reloc_get_offset b))
    (_hk : 0 ≤ key) :
    ∃ res, dump_find_relocation relocs key = some res
      ∧ (∀ i, res = some i →
          i < relocs.length ∧ key ≤ reloc_offset_at relocs i
            ∧ (∀ j, j < i → reloc_offset_at relocs j < key)
            ∧ (∀ j, j < relocs.length → key ≤ reloc_offset_at relocs j →
                reloc_offset_at relocs i ≤ reloc_offset_at relocs j))
      ∧ (res = none ↔ ∀ j, j < relocs.length → reloc_offset_at relocs j < key)
      ∧ (relocs = [] → res = none) := by
  obtain ⟨res, hres, hnone, hsome⟩ :=
    dump_find_relocation_loop_spec relocs key hs (relocs.length + 1) 0 relocs.length none
      (by omega) (le_refl _) (by omega) (by intro j hj; omega)
      (by intro j h1 h2; omega) (by simp)
  have hiff : res = none ↔ ∀ j, j < relocs.length → reloc_offset_at relocs j < key := by
    constructor
    · exact hnone
    · intro hall
      cases hr : res with
      | none => rfl
      | some i =>
        obtain ⟨h1, h2, _⟩ := hsome i hr
        have := hall i h1
        omega
  refine ⟨res, hres, ?_, hiff, ?_⟩
  · intro i hi
    obtain ⟨h1, h2, h3⟩ := hsome i hi
    refine ⟨h1, h2, h3, ?_⟩
    intro j hj hkj
    have hij : i ≤ j := by
      by_contra hc
      have := h3 j (by omega)
      omega
    exact reloc_offset_at_mono relocs hs i j hij hj
  · intro hnil
    rw [hiff]
    intro j hj
    rw [hnil] at hj
    simp at hj

theorem dump_find_relocation_first_at_or_after_witness :
    ∃ res, dump_find_relocation [⟨1, 0⟩, ⟨2, 0⟩, ⟨2, 1⟩, ⟨5, 0⟩] 8 = some res
      ∧ (∀ i, res = some i →
          i < 4 ∧ (8 : Int) ≤ reloc_offset_at [⟨1, 0⟩, ⟨2, 0⟩, ⟨2, 1⟩, ⟨5, 0⟩] i) := by
  obtain ⟨res, h1, h2, _⟩ :=
    dump_find_relocation_first_at_or_after [⟨1, 0⟩, ⟨2, 0⟩, ⟨2, 1⟩, ⟨5, 0⟩] 8
      (by decide) (by decide)
  exact ⟨res, h1, fun i hi => ⟨(h2 i hi).1, (h2 i hi).2.1⟩⟩

/-- C9: for an offset o >= 0, `dump_reloc_set_offset` followed by
`dump_reloc_get_offset` gives o back when o is a multiple of 4 below 2^29, and
otherwise `dump_reloc_set_offset` signals "dump relocation out of range";
setting the offset keeps the type, and setting the type keeps the offset. -/
theorem dump_reloc_offset_round_trip (r : dump_reloc) (o : Int) (t : Nat) (ho : 0 ≤ o) :
    (o % 4 = 0 ∧ o < 2 ^ 29 →
      ∃ r1, dump_reloc_set_offset r o = Except.ok r1 ∧ dump_reloc_get_offset r1 = o
        ∧ r1.raw_offset < 2 ^ DUMP_RELOC_OFFSET_BITS ∧ r1.type = r.type)
    ∧ (¬ (o % 4 = 0 ∧ o < 2 ^ 29) →
        dump_reloc_set_offset r o = Except.error "dump relocation out of range")
    ∧ dump_reloc_get_offset (dump_reloc_set_type r t) = dump_reloc_get_offset r
    ∧ (dump_reloc_set_type r t).raw_offset = r.raw_offset := by
  have h29 : (2 : Int) ^ 29 = 536870912 := by norm_num
  rw [h29]
  refine ⟨?_, ?_, rfl, rfl⟩
  · intro h
    refine ⟨⟨to_unsigned DUMP_RELOC_OFFSET_BITS (o / 2 ^ DUMP_RELOC_ALIGNMENT_BITS), r.type⟩,
      by rw [dump_reloc_set_offset_eq r o ho, if_pos h], ?_, ?_, rfl⟩
    · unfold dump_reloc_get_offset
      rw [dump_reloc_raw_readback]
      have := h.1; have := h.2
      omega
    · show to_unsigned _ _ < _
      unfold to_unsigned
      have h1 : (0 : Int) ≤ o / 2 ^ DUMP_RELOC_ALIGNMENT_BITS % 2 ^ DUMP_RELOC_OFFSET_BITS :=
        Int.emod_nonneg _ (by norm_num)
      have h2 : o / 2 ^ DUMP_RELOC_ALIGNMENT_BITS % 2 ^ DUMP_RELOC_OFFSET_BITS
          < 2 ^ DUMP_RELOC_OFFSET_BITS := Int.emod_lt_of_pos _ (by norm_num)
      zify
      rw [Int.toNat_of_nonneg h1]
      exact h2
  · intro h
    rw [dump_reloc_set_offset_eq r o ho, if_neg h]

theorem dump_reloc_offset_round_trip_witness :
    (∃ r1, dump_reloc_set_offset ⟨0, 7⟩ 12 = Except.ok r1 ∧ dump_reloc_get_offset r1 = 12
        ∧ r1.type = 7)
      ∧ dump_reloc_set_offset ⟨0, 7⟩ 13 = Except.error "dump relocation out of range" := by
  refine ⟨?_, ?_⟩
  · obtain ⟨r1, h1, h2, _, h4⟩ :=
      (dump_reloc_offset_round_trip ⟨0, 7⟩ 12 0 (by decide)).1 (by decide)
    exact ⟨r1, h1, h2, h4⟩
  · exact (dump_reloc_offset_round_trip ⟨0, 7⟩ 13 0 (by decide)).2.1 (by decide)

theorem object_type_lookup (relocs : List dump_reloc) (o : Int)
    (hs : relocs.Pairwise (fun a b => dump_reloc_get_offset a < dump_reloc_get_offset b)) :
    ∃ r, (dump_find_relocation relocs o).map (fun reloc =>
        match reloc with
        | some i =>
          if reloc_offset_at relocs i = o then reloc_type_at relocs i else PDUMPER_NO_OBJECT
        | none => PDUMPER_NO_OBJECT) = some r
      ∧ (∀ i, i < relocs.length → reloc_offset_at relocs i = o → r = reloc_type_at relocs i)
      ∧ ((∀ i, i < relocs.length → reloc_offset_at relocs i ≠ o) → r = PDUMPER_NO_OBJECT) := by
  have hs1 : relocs.Pairwise (fun a b => dump_reloc_get_offset a ≤ dump_reloc_get_offset b) :=
    hs.imp (fun h => le_of_lt h)
  have hinj : ∀ i j, i < relocs.length → j < relocs.length →
      reloc_offset_at relocs i = reloc_offset_at relocs j → i = j := by
    intro i j hi hj hij
    by_contra hne
    rcases Nat.lt_or_gt_of_ne hne with h | h
    · have := List.pairwise_iff_getElem.mp hs i j hi hj h
      simp [reloc_offset_at, List.getD_eq_getElem, hi, hj] at hij
      omega
    · have := List.pairwise_iff_getElem.mp hs j i hj hi h
      simp [reloc_offset_at, List.getD_eq_getElem, hi, hj] at hij
      omega
  obtain ⟨res, hres, hsome, hnone⟩ :=
    dump_find_relocation_loop_spec relocs o hs1 (relocs.length + 1) 0 relocs.length none
      (by omega) (le_refl _) (by omega) (by intro j hj; omega)
      (by intro j h1 h2; omega) (by simp)
  have hres1 : dump_find_relocation relocs o = some res := hres
  rw [hres1]
  cases res with
  | none =>
    refine ⟨PDUMPER_NO_OBJECT, rfl, ?_, fun _ => rfl⟩
    intro i hi hio
    have := hsome rfl i hi
    omega
  | some k =>
    obtain ⟨hk1, hk2, hk3⟩ := hnone k rfl
    by_cases hko : reloc_offset_at relocs k = o
    · refine ⟨reloc_type_at relocs k, by simp [hko], ?_, ?_⟩
      · intro i hi hio
        rw [hinj i k hi hk1 (by rw [hio, hko])]
      · intro hall
        exact absurd hko (hall k hk1)
    · refine ⟨PDUMPER_NO_OBJECT, by simp [hko], ?_, fun _ => rfl⟩
      intro i hi hio
      exfalso
      have hik : k ≤ i := by
        by_contra hc
        have := hk3 i (by omega)
        omega
      have := reloc_offset_at_mono relocs hs1 k i hik hi
      have : reloc_offset_at relocs k = o := by omega
      exact hko this

theorem div_lt_ceil_div (a b A : Nat) (hA : 0 < A) (h : a < b) :
    a / A < (b + A - 1) / A := by
  have h1 := Nat.div_add_mod (b + A - 1) A
  have h2 := Nat.mod_lt (b + A - 1) hA
  rw [Nat.div_lt_iff_lt_mul hA, Nat.mul_comm]
  generalize A * ((b + A - 1) / A) = q at h1 ⊢
  omega

theorem all_ones_bit_set (W k : Nat) (hk : k < W) : (2 ^ W - 1) &&& (1 <<< k) ≠ 0 := by
  rw [Nat.one_shiftLeft, Nat.and_comm, Nat.and_pow_two_sub_one_eq_mod,
    Nat.mod_eq_of_lt (Nat.pow_lt_pow_right (by norm_num) hk)]
  positivity

theorem to_unsigned_of_range (w : Nat) (x : Int) (h0 : 0 ≤ x) (h1 : x < 2 ^ w) :
    to_unsigned w x = x.toNat := by
  unfold to_unsigned
  rw [Int.emod_eq_of_lt h0 h1]

theorem bitset_word_in_range (w W A : Nat) (o ds : Int) (hw : 32 ≤ w) (hW : 0 < W)
    (hW2 : W ≤ 2 ^ 31) (hA : 0 < A) (hA2 : A ≤ 2 ^ 31) (ho : 0 ≤ o) (hods : o < ds)
    (hds : ds ≤ DUMP_OFF_MAX) :
    (o / (A : Int)).toNat / W
      < divide_round_up w (divide_round_up w (to_unsigned w ds) A) W := by
  have h32 : (2 : Nat) ^ 32 ≤ 2 ^ w := Nat.pow_le_pow_right (by norm_num) hw
  have hds2 : ds < 2 ^ 31 := by unfold DUMP_OFF_MAX at hds; omega
  have hdsw : ds < 2 ^ w := by
    have : ((2 : Nat) ^ 32 : Int) ≤ ((2 ^ w : Nat) : Int) := by exact_mod_cast h32
    push_cast at this
    omega
  rw [to_unsigned_of_range w ds (by omega) hdsw]
  obtain ⟨D, hD⟩ := Int.eq_ofNat_of_zero_le (show 0 ≤ ds by omega)
  obtain ⟨O, hO⟩ := Int.eq_ofNat_of_zero_le ho
  subst hD hO
  have hOD : O < D := by exact_mod_cast hods
  have hD31 : D < 2 ^ 31 := by exact_mod_cast hds2
  have e1 : ((O : Int) / (A : Int)).toNat = O / A := by
    have : ((O : Int) / (A : Int)) = ((O / A : Nat) : Int) := (Int.natCast_div O A).symm
    rw [this, Int.toNat_ofNat]
  rw [e1, Int.toNat_ofNat]
  unfold divide_round_up
  have hn1 : (D + A - 1) % 2 ^ w = D + A - 1 := Nat.mod_eq_of_lt (by omega)
  rw [hn1]
  have hle : (D + A - 1) / A ≤ D := by
    rw [Nat.div_le_iff_le_mul_add_pred hA]
    have : 1 * D ≤ A * D := Nat.mul_le_mul_right D hA
    omega
  have hn2 : ((D + A - 1) / A + W - 1) % 2 ^ w = (D + A - 1) / A + W - 1 :=
    Nat.mod_eq_of_lt (by omega)
  rw [hn2]
  exact div_lt_ceil_div _ _ W hW (div_lt_ceil_div O D A hA hOD)

theorem load_success_state (env : load_env) (s : loader_state)
    (h : (pdumper_load env s).1 = PDUMPER_LOAD_SUCCESS) :
    (pdumper_load env s).2.1.header = env.header
      ∧ dump_bitsets_init env.ptr_width env.DUMP_BITSET_WORD_WIDTH true
          (divide_round_up env.ptr_width
            (to_unsigned env.ptr_width env.header.discardable_start)
            (DUMP_ALIGNMENT env.GCALIGNMENT))
        = some ((pdumper_load env s).2.1.mark_bits, (pdumper_load env s).2.1.last_mark_bits) := by
  generalize hr : pdumper_load env s = r at h ⊢
  unfold pdumper_load at hr
  dsimp only at hr
  repeat' (split at hr)
  all_goals (subst hr; simp_all)
  rename_i hinit
  unfold dump_bitsets_init at hinit ⊢
  by_cases hc : env.calloc_ok = true
  · simp_all
  · simp_all

theorem all_ones_bit_set_p (W n b : Nat) (hb : b / W < n) (hW : 0 < W) :
    dump_bitset_bit_set_p W ⟨List.replicate n (2 ^ W - 1), n⟩ b = some true := by
  unfold dump_bitset_bit_set_p dump_bitset__bit_slot
  simp only [hb, if_true]
  rw [List.getElem?_replicate]
  simp only [hb, if_true, Option.map_some']
  congr 1
  exact decide_eq_true (all_ones_bit_set W (b % W) (Nat.mod_lt b hW))

/-- C8: with an object-start table in strictly ascending offset order,
`pdumper_find_object_type_impl` at a dump offset o >= 0 returns
`PDUMPER_NO_OBJECT` when o is not a multiple of `DUMP_ALIGNMENT`, and when
o < `discardable_start` and bit o / `DUMP_ALIGNMENT` of `last_mark_bits` is
clear; otherwise it returns the type of the entry whose offset is o, and
`PDUMPER_NO_OBJECT` when there is none.  Right after a successful load every
entry of the table with an aligned offset is looked up as its own type. -/
theorem pdumper_find_object_type_round_trip (G W : Nat) (relocs : List dump_reloc)
    (hs : relocs.Pairwise (fun a b => dump_reloc_get_offset a < dump_reloc_get_offset b)) :
    (∀ (s : loader_state) (o : Int), 0 ≤ o →
      (o < s.header.discardable_start →
        (dump_bitset_bit_set_p W s.last_mark_bits
          (o / (DUMP_ALIGNMENT G : Int)).toNat).isSome) →
      ∃ r, pdumper_find_object_type_impl G W s relocs o = some r
        ∧ (o % (DUMP_ALIGNMENT G : Int) ≠ 0 → r = PDUMPER_NO_OBJECT)
        ∧ (o < s.header.discardable_start →
            dump_bitset_bit_set_p W s.last_mark_bits
              (o / (DUMP_ALIGNMENT G : Int)).toNat = some false →
            r = PDUMPER_NO_OBJECT)
        ∧ (o % (DUMP_ALIGNMENT G : Int) = 0 →
            ¬ (o < s.header.discardable_start
                ∧ dump_bitset_bit_set_p W s.last_mark_bits
                    (o / (DUMP_ALIGNMENT G : Int)).toNat = some false) →
            (∀ i, i < relocs.length → reloc_offset_at relocs i = o →
                r = reloc_type_at relocs i)
              ∧ ((∀ i, i < relocs.length → reloc_offset_at relocs i ≠ o) →
                  r = PDUMPER_NO_OBJECT)))
    ∧ (∀ (env : load_env) (s0 : loader_state),
        env.GCALIGNMENT = G → env.DUMP_BITSET_WORD_WIDTH = W →
        32 ≤ env.ptr_width → 0 < W → W ≤ 2 ^ 31 → G ≤ 2 ^ 31 →
        env.header.discardable_start ≤ DUMP_OFF_MAX →
        (pdumper_load env s0).1 = PDUMPER_LOAD_SUCCESS →
        ∀ i, i < relocs.length →
          reloc_offset_at relocs i % (DUMP_ALIGNMENT G : Int) = 0 →
          pdumper_find_object_type_impl G W (pdumper_load env s0).2.1 relocs
              (reloc_offset_at relocs i)
            = some (reloc_type_at relocs i)) := by
  constructor
  · intro s o ho hbit
    obtain ⟨r, hr, hfound, hmissing⟩ := object_type_lookup relocs o hs
    by_cases hal : o % (DUMP_ALIGNMENT G : Int) = 0
    · by_cases hds : o < s.header.discardable_start
      · have hb := hbit hds
        cases hbv : dump_bitset_bit_set_p W s.last_mark_bits
            (o / (DUMP_ALIGNMENT G : Int)).toNat with
        | none => rw [hbv] at hb; simp at hb
        | some b =>
          cases b with
          | false =>
            have hval : pdumper_find_object_type_impl G W s relocs o
                = some PDUMPER_NO_OBJECT := by
              unfold pdumper_find_object_type_impl
              simp only [hal, ne_eq, not_true_eq_false, if_false, hds, if_true, hbv]
            refine ⟨PDUMPER_NO_OBJECT, hval, fun _ => rfl, fun _ _ => rfl, ?_⟩
            intro _ hneg
            exact absurd ⟨hds, rfl⟩ hneg
          | true =>
            have hval : pdumper_find_object_type_impl G W s relocs o = some r := by
              unfold pdumper_find_object_type_impl
              simp only [hal, ne_eq, not_true_eq_false, if_false, hds, if_true, hbv]
              exact hr
            refine ⟨r, hval, fun hc => absurd hal hc, ?_, fun _ _ => ⟨hfound, hmissing⟩⟩
            intro _ hc
            cases hc
      · have hval : pdumper_find_object_type_impl G W s relocs o = some r := by
          unfold pdumper_find_object_type_impl
          simp only [hal, ne_eq, not_true_eq_false, if_false, hds]
          exact hr
        exact ⟨r, hval, fun hc => absurd hal hc, fun hc => absurd hc hds,
          fun _ _ => ⟨hfound, hmissing⟩⟩
    · have hval : pdumper_find_object_type_impl G W s relocs o = some PDUMPER_NO_OBJECT := by
        unfold pdumper_find_object_type_impl
        simp only [ne_eq, hal, not_false_eq_true, if_true]
      exact ⟨PDUMPER_NO_OBJECT, hval, fun _ => rfl, fun _ _ => rfl, fun hc => absurd hc hal⟩
  · intro env s0 hG hW hw hW0 hW2 hG2 hds hload i hi hal
    subst hG hW
    obtain ⟨hhdr, hbits⟩ := load_success_state env s0 hload
    obtain ⟨r, hr, hfound, _⟩ := object_type_lookup relocs (reloc_offset_at relocs i) hs
    have hri : r = reloc_type_at relocs i := hfound i hi rfl
    have ho : 0 ≤ reloc_offset_at relocs i := by
      unfold reloc_offset_at dump_reloc_get_offset
      exact Int.ofNat_nonneg _
    unfold pdumper_find_object_type_impl
    simp only [hal, ne_eq, not_true_eq_false, if_false, hhdr]
    by_cases hlt : reloc_offset_at relocs i < env.header.discardable_start
    · simp only [hlt, if_true]
      have hA : 0 < DUMP_ALIGNMENT env.GCALIGNMENT := by
        unfold DUMP_ALIGNMENT DUMP_RELOCATION_ALIGNMENT; omega
      have hA2 : DUMP_ALIGNMENT env.GCALIGNMENT ≤ 2 ^ 31 := by
        unfold DUMP_ALIGNMENT DUMP_RELOCATION_ALIGNMENT
        exact max_le hG2 (by norm_num)
      have hword := bitset_word_in_range env.ptr_width env.DUMP_BITSET_WORD_WIDTH
        (DUMP_ALIGNMENT env.GCALIGNMENT) (reloc_offset_at relocs i)
        env.header.discardable_start hw hW0 hW2 hA hA2 ho hlt hds
      unfold dump_bitsets_init at hbits
      simp only [Bool.not_true, Bool.false_eq_true, if_false, Option.some.injEq,
        Prod.mk.injEq] at hbits
      rw [← hbits.2, all_ones_bit_set_p _ _ _ hword hW0]
      dsimp only
      rw [hr, hri]
    · simp only [hlt, if_false]
      rw [hr, hri]

theorem dump_reloc_set_offset_ok (r e : dump_reloc) (o : Int)
    (h : dump_reloc_set_offset r o = Except.ok e) : dump_reloc_get_offset e = o := by
  unfold dump_reloc_set_offset at h
  dsimp only at h
  split at h
  · cases h
  · rename_i hne
    cases h
    simpa using hne

theorem dump_off_from_lisp_ok (v : lisp_value) (n : Int)
    (h : dump_off_from_lisp v = Except.ok n) :
    v = lisp_value.fixnum n ∧ DUMP_OFF_MIN ≤ n ∧ n ≤ DUMP_OFF_MAX := by
  cases v with
  | object t => simp [dump_off_from_lisp, intmax_t_from_lisp, bind, Except.bind] at h
  | fixnum k =>
    simp only [dump_off_from_lisp, intmax_t_from_lisp, bind, Except.bind] at h
    split at h
    · rename_i hr
      cases h
      exact ⟨rfl, hr⟩
    · cases h

theorem dump_off_from_lisp_fixnum (n : Int) (h0 : DUMP_OFF_MIN ≤ n) (h1 : n ≤ DUMP_OFF_MAX) :
    dump_off_from_lisp (lisp_value.fixnum n) = Except.ok n := by
  simp only [dump_off_from_lisp, intmax_t_from_lisp, bind, Except.bind]
  rw [if_pos ⟨h0, h1⟩]

theorem dump_decode_dump_reloc_offset (d : lisp_reloc) (e : dump_reloc)
    (h : dump_decode_dump_reloc d = Except.ok e) :
    dump_reloc_get_offset e = lisp_reloc_offset d := by
  unfold dump_decode_dump_reloc at h
  rcases d with _ | ⟨v1, _ | ⟨v2, t⟩⟩
  · simp [dump_pop, bind, Except.bind] at h
  · cases v1 <;> simp [dump_pop, bind, Except.bind, intmax_t_from_lisp] at h
  · cases v1 <;>
      simp only [dump_pop, bind, Except.bind, intmax_t_from_lisp, reduceCtorEq] at h
    cases ho : dump_off_from_lisp v2 with
    | error msg => rw [ho] at h; cases h
    | ok off =>
      rw [ho] at h
      obtain ⟨hv, _⟩ := dump_off_from_lisp_ok v2 off ho
      subst hv
      exact dump_reloc_set_offset_ok _ _ _ h

theorem decode_emacs_reloc_inv (chk : Bool) (eh : Option Int) (d : lisp_reloc) (e : emacs_reloc)
    (h : decode_emacs_reloc chk eh d = Except.ok e) :
    ∃ t, d = lisp_value.fixnum e.type :: lisp_value.fixnum e.emacs_offset :: t
      ∧ DUMP_OFF_MIN ≤ e.emacs_offset ∧ e.emacs_offset ≤ DUMP_OFF_MAX
      ∧ (chk = true → |e.emacs_offset| ≤ 60 * 1024 * 1024) := by
  unfold decode_emacs_reloc at h
  rcases d with _ | ⟨v1, _ | ⟨v2, t⟩⟩
  · simp [dump_pop, bind, Except.bind] at h
  · cases v1 <;> simp [dump_pop, bind, Except.bind, intmax_t_from_lisp] at h
  · cases v1 <;>
      simp only [dump_pop, bind, Except.bind, intmax_t_from_lisp, reduceCtorEq] at h
    rename_i ty
    cases ho : dump_off_from_lisp v2 with
    | error msg => rw [ho] at h; cases h
    | ok off =>
      rw [ho] at h
      obtain ⟨hv, hr0, hr1⟩ := dump_off_from_lisp_ok v2 off ho
      subst hv
      simp only at h
      cases hc : dump_check_emacs_off chk off with
      | error msg => rw [hc] at h; cases h
      | ok u =>
        rw [hc] at h
        simp only at h
        have hchk : chk = true → |off| ≤ 60 * 1024 * 1024 := by
          intro hk
          unfold dump_check_emacs_off at hc
          by_contra hcon
          rw [if_pos ⟨hk, hcon⟩] at hc
          cases hc
        split at h
        · cases h
        · rename_i p hbody
          have hp : p.1.type = ty ∧ p.1.emacs_offset = off := by
            by_cases h0 : ty = RELOC_EMACS_COPY_FROM_DUMP
            · rw [if_pos h0] at hbody
              repeat' (split at hbody)
              all_goals first
                | (simp only [reduceCtorEq] at hbody)
                | (rw [Except.ok.injEq] at hbody
                   rw [← hbody]
                   exact ⟨rfl, rfl⟩)
            rw [if_neg h0] at hbody
            by_cases h1 : ty = RELOC_EMACS_IMMEDIATE
            · rw [if_pos h1] at hbody
              repeat' (split at hbody)
              all_goals first
                | (simp only [reduceCtorEq] at hbody)
                | (rw [Except.ok.injEq] at hbody
                   rw [← hbody]
                   exact ⟨rfl, rfl⟩)
            rw [if_neg h1] at hbody
            by_cases h2 : ty = RELOC_EMACS_EMACS_PTR_RAW
            · rw [if_pos h2] at hbody
              repeat' (split at hbody)
              all_goals first
                | (simp only [reduceCtorEq] at hbody)
                | (rw [Except.ok.injEq] at hbody
                   rw [← hbody]
                   exact ⟨rfl, rfl⟩)
            rw [if_neg h2] at hbody
            by_cases h3 : ty = RELOC_EMACS_DUMP_PTR_RAW
            · rw [if_pos h3] at hbody
              repeat' (split at hbody)
              all_goals first
                | (simp only [reduceCtorEq] at hbody)
                | (rw [Except.ok.injEq] at hbody
                   rw [← hbody]
                   exact ⟨rfl, rfl⟩)
            rw [if_neg h3] at hbody
            repeat' (split at hbody)
            all_goals first
              | (simp only [reduceCtorEq] at hbody)
              | (rw [Except.ok.injEq] at hbody
                 rw [← hbody]
                 exact ⟨rfl, rfl⟩)
          clear hbody
          by_cases hrest : chk = true ∧ p.2 ≠ []
          · rw [if_pos hrest] at h
            exact absurd h (by simp)
          · rw [if_neg hrest] at h
            have he : p.1 = e := Except.ok.inj h
            rw [← he, hp.1, hp.2]
            exact ⟨t, rfl, hr0, hr1, hchk⟩

theorem dump_merge_emacs_relocs_check_of (ta tb : lisp_value) (oa ob : Int)
    (resta restb : lisp_reloc) (ha0 : DUMP_OFF_MIN ≤ oa) (ha1 : oa ≤ DUMP_OFF_MAX)
    (hb0 : DUMP_OFF_MIN ≤ ob) (hb1 : ob ≤ DUMP_OFF_MAX) (hlt : oa < ob) :
    dump_merge_emacs_relocs_check (ta :: lisp_value.fixnum oa :: resta)
        (tb :: lisp_value.fixnum ob :: restb) = Except.ok () := by
  unfold dump_merge_emacs_relocs_check
  simp only [dump_pop, bind, Except.bind, dump_off_from_lisp_fixnum oa ha0 ha1,
    dump_off_from_lisp_fixnum ob hb0 hb1]
  rw [if_pos ⟨le_of_lt hlt, hlt⟩]

theorem dump_merge_emacs_relocs_some (chk : Bool) (a b m : lisp_reloc)
    (h : dump_merge_emacs_relocs chk a b = Except.ok (some m)) :
    ∃ ra rb, decode_emacs_reloc chk none a = Except.ok ra
      ∧ decode_emacs_reloc chk none b = Except.ok rb
      ∧ ra.type = RELOC_EMACS_COPY_FROM_DUMP ∧ rb.type = RELOC_EMACS_COPY_FROM_DUMP
      ∧ ra.emacs_offset + ra.length = rb.emacs_offset ∧ ra.u + ra.length = rb.u
      ∧ to_signed EMACS_RELOC_LENGTH_BITS (ra.length + rb.length) = ra.length + rb.length
      ∧ m = [lisp_value.fixnum RELOC_EMACS_COPY_FROM_DUMP, dump_off_to_lisp ra.emacs_offset,
          dump_off_to_lisp ra.u, dump_off_to_lisp (ra.length + rb.length)] := by
  unfold dump_merge_emacs_relocs at h
  simp only [bind, Except.bind] at h
  generalize (if chk = true then dump_merge_emacs_relocs_check a b else Except.ok ()) = pre at h
  cases pre with
  | error msg => cases h
  | ok u =>
    simp only at h
    cases hda : decode_emacs_reloc chk none a with
    | error msg =>
      simp only [hda] at h
      repeat' (split at h)
      all_goals first
        | (simp only [reduceCtorEq] at h)
        | (cases h)
    | ok ra =>
      cases hdb : decode_emacs_reloc chk none b with
      | error msg =>
        simp only [hda, hdb] at h
        repeat' (split at h)
        all_goals first
          | (simp only [reduceCtorEq] at h)
          | (cases h)
      | ok rb =>
        obtain ⟨resta, hra, _⟩ := decode_emacs_reloc_inv chk none a ra hda
        obtain ⟨restb, hrb, _⟩ := decode_emacs_reloc_inv chk none b rb hdb
        rw [hda, hdb] at h
        subst hra hrb
        simp only [dump_pop, intmax_t_from_lisp] at h
        split at h
        · cases h
        · rename_i hty
          split at h
          · cases h
          · rename_i he
            split at h
            · cases h
            · rename_i hd
              split at h
              · cases h
              · rename_i hfit
                have hm : m = [lisp_value.fixnum RELOC_EMACS_COPY_FROM_DUMP,
                    dump_off_to_lisp ra.emacs_offset, dump_off_to_lisp ra.u,
                    dump_off_to_lisp (to_signed EMACS_RELOC_LENGTH_BITS
                      (ra.length + rb.length))] := by cases h; rfl
                refine ⟨ra, rb, rfl, rfl, ?_, ?_, ?_, ?_, ?_, ?_⟩
                · by_contra hh; exact hty (Or.inl hh)
                · by_contra hh; exact hty (Or.inr hh)
                · by_contra hh; exact he hh
                · by_contra hh; exact hd hh
                · by_contra hh; exact hfit hh
                · rw [hm]
                  have hf : to_signed EMACS_RELOC_LENGTH_BITS (ra.length + rb.length)
                      = ra.length + rb.length := by by_contra hh; exact hfit hh
                  rw [hf]

theorem decode_emacs_reloc_offset (chk : Bool) (eh : Option Int) (d : lisp_reloc)
    (e : emacs_reloc) (h : decode_emacs_reloc chk eh d = Except.ok e) :
    e.emacs_offset = lisp_reloc_offset d := by
  obtain ⟨t, hd, _⟩ := decode_emacs_reloc_inv chk eh d e h
  rw [hd]
  rfl

/-- C8, at a concrete table and a concrete load. -/
theorem pdumper_find_object_type_round_trip_witness :
    pdumper_find_object_type_impl 8 64
        (pdumper_load (sample_env 64 131200 (sample_header dump_magic (sample_fingerprint 7)))
          sample_state).2.1
        [⟨2, 3⟩, ⟨4, 5⟩] 16
      = some 5 :=
  (pdumper_find_object_type_round_trip 8 64 [⟨2, 3⟩, ⟨4, 5⟩] (by decide)).2
    (sample_env 64 131200 (sample_header dump_magic (sample_fingerprint 7))) sample_state
    rfl rfl (by decide) (by decide) (by decide) (by decide) (by decide) (by decide)
    1 (by decide) (by decide)

theorem to_unsigned_lt (w : Nat) (x : Int) : to_unsigned w x < 2 ^ w := by
  unfold to_unsigned
  have h1 : (0 : Int) ≤ x % 2 ^ w := Int.emod_nonneg _ (by positivity)
  have h2 : x % 2 ^ w < 2 ^ w := Int.emod_lt_of_pos _ (by positivity)
  zify
  rw [Int.toNat_of_nonneg h1]
  exact h2

theorem to_unsigned_cast (w : Nat) (x : Int) : ((to_unsigned w x : Nat) : Int) = x % 2 ^ w := by
  unfold to_unsigned
  exact Int.toNat_of_nonneg (Int.emod_nonneg _ (by positivity))

theorem to_signed_emod (w : Nat) (hw : 0 < w) (x : Int) :
    to_signed w x % 2 ^ w = x % 2 ^ w := by
  unfold to_signed
  have hp : (2 : Int) ^ w = 2 * 2 ^ (w - 1) := by
    rw [← pow_succ']; congr 1; omega
  rw [Int.sub_emod, Int.emod_emod_of_dvd _ (dvd_refl _), ← Int.sub_emod]
  congr 1
  ring

theorem to_signed_of_range (w : Nat) (hw : 0 < w) (x : Int)
    (h0 : -(2 ^ (w - 1)) ≤ x) (h1 : x < 2 ^ (w - 1)) : to_signed w x = x := by
  unfold to_signed
  have hp : (2 : Int) ^ w = 2 * 2 ^ (w - 1) := by
    rw [← pow_succ']; congr 1; omega
  rw [Int.emod_eq_of_lt (by omega) (by omega)]
  ring

theorem emacs_offset_eq (h : host) (hw : 32 ≤ h.ptr_width) (p : Nat)
    (hfit : DUMP_OFF_MIN ≤ to_signed h.ptr_width p - to_signed h.ptr_width h.emacs_basis
      ∧ to_signed h.ptr_width p - to_signed h.ptr_width h.emacs_basis ≤ DUMP_OFF_MAX) :
    emacs_offset h p = to_signed h.ptr_width p - to_signed h.ptr_width h.emacs_basis := by
  unfold emacs_offset ptrdiff_t_to_dump_off
  dsimp only
  unfold DUMP_OFF_MIN DUMP_OFF_MAX at hfit
  have h31 : (2 : Int) ^ 31 ≤ 2 ^ (h.ptr_width - 1) :=
    pow_le_pow_right₀ (by norm_num) (by omega)
  rw [to_signed_of_range h.ptr_width (by omega) _ (by omega) (by omega)]
  rw [to_signed_of_range DUMP_OFF_WIDTH (by decide) _
    (by norm_num [DUMP_OFF_WIDTH]; omega) (by norm_num [DUMP_OFF_WIDTH]; omega)]

theorem basis_plus_offset (h : host) (hw : 32 ≤ h.ptr_width) (p : Nat)
    (hp : p < 2 ^ h.ptr_width) :
    ((h.emacs_basis : Int) + (to_signed h.ptr_width p - to_signed h.ptr_width h.emacs_basis))
      % 2 ^ h.ptr_width = p := by
  have h1 := to_signed_emod h.ptr_width (by omega) (p : Int)
  have h2 := to_signed_emod h.ptr_width (by omega) (h.emacs_basis : Int)
  have e : ((h.emacs_basis : Int) + (to_signed h.ptr_width p - to_signed h.ptr_width h.emacs_basis))
      = to_signed h.ptr_width p + ((h.emacs_basis : Int) - to_signed h.ptr_width h.emacs_basis) := by
    ring
  rw [e, Int.add_emod, h1, Int.sub_emod, h2, ← Int.sub_emod, sub_self, Int.zero_emod, add_zero,
    Int.emod_emod_of_dvd _ (dvd_refl _)]
  apply Int.emod_eq_of_lt (by positivity)
  exact_mod_cast hp

/-- C10: for a non-null pointer p whose distance from `emacs_basis ()` fits in
`dump_off`, `emacs_ptr_at (emacs_offset (p)) = p`; `dump_field_emacs_ptr`
stores `emacs_offset (p)` in the field, changes no other word of the
out-object and pushes one `RELOC_DUMP_TO_EMACS_PTR_RAW` descriptor at the
field's dump offset; when that offset is a multiple of 4 in [0, 2^29) the
descriptor decodes to a record, and applying the record to a loaded dump that
holds the stored word at the field makes the field p again.  A `NULL` field is
stored as 0 and leaves the context, hence the relocation lists, unchanged. -/
theorem host_pointer_round_trip (h : host) (p : Nat) (hw : 32 ≤ h.ptr_width)
    (hp : p < 2 ^ h.ptr_width) (_hp0 : p ≠ 0)
    (hfit : DUMP_OFF_MIN ≤ to_signed h.ptr_width p - to_signed h.ptr_width h.emacs_basis
      ∧ to_signed h.ptr_width p - to_signed h.ptr_width h.emacs_basis ≤ DUMP_OFF_MAX) :
    emacs_ptr_at h (emacs_offset h p) = p
    ∧ (∀ (ctx : dump_context) (out : Int → Nat) (relpos : Int),
        ctx.flags.dump_object_contents = true →
        (dump_field_emacs_ptr h ctx out relpos p).2 relpos
            = to_unsigned h.ptr_width (emacs_offset h p)
          ∧ (∀ q, q ≠ relpos → (dump_field_emacs_ptr h ctx out relpos p).2 q = out q)
          ∧ (dump_field_emacs_ptr h ctx out relpos p).1.dump_relocs reloc_phase.EARLY_RELOCS
              = [lisp_value.fixnum RELOC_DUMP_TO_EMACS_PTR_RAW,
                  dump_off_to_lisp (ctx.obj_offset + relpos)]
                :: ctx.dump_relocs reloc_phase.EARLY_RELOCS
          ∧ (0 ≤ ctx.obj_offset + relpos → (ctx.obj_offset + relpos) % 4 = 0 →
              ctx.obj_offset + relpos < 2 ^ 29 →
              ∃ reloc, dump_decode_dump_reloc
                    [lisp_value.fixnum RELOC_DUMP_TO_EMACS_PTR_RAW,
                      dump_off_to_lisp (ctx.obj_offset + relpos)] = Except.ok reloc
                ∧ ∀ (dump_base : Nat) (image : Int → Nat),
                    image (ctx.obj_offset + relpos)
                        = (dump_field_emacs_ptr h ctx out relpos p).2 relpos →
                    dump_do_dump_relocation h dump_base reloc image (ctx.obj_offset + relpos)
                      = p)
          ∧ dump_field_emacs_ptr h ctx out relpos 0
              = (ctx, store_word out relpos 0)) := by
  have hoff := emacs_offset_eq h hw p hfit
  have hround : emacs_ptr_at h (emacs_offset h p) = p := by
    unfold emacs_ptr_at to_unsigned
    rw [hoff, basis_plus_offset h hw p hp]
    simp
  refine ⟨hround, ?_⟩
  intro ctx out relpos hc
  have hfield : dump_field_emacs_ptr h ctx out relpos p
      = (push_dump_reloc ctx reloc_phase.EARLY_RELOCS
          [lisp_value.fixnum RELOC_DUMP_TO_EMACS_PTR_RAW,
            dump_off_to_lisp (ctx.obj_offset + relpos)],
         store_word out relpos (to_unsigned h.ptr_width (emacs_offset h p))) := by
    unfold dump_field_emacs_ptr dump_reloc_dump_to_emacs_ptr_raw
    simp [hc, _hp0]
  rw [hfield]
  refine ⟨by simp [store_word], ?_, by simp [push_dump_reloc], ?_, ?_⟩
  · intro q hq
    simp [store_word, hq]
  · intro h0 h4 h29
    have h29' : ctx.obj_offset + relpos < 536870912 := by
      have : (2 : Int) ^ 29 = 536870912 := by norm_num
      omega
    have hdec : dump_decode_dump_reloc
        [lisp_value.fixnum RELOC_DUMP_TO_EMACS_PTR_RAW,
          dump_off_to_lisp (ctx.obj_offset + relpos)]
        = Except.ok ⟨to_unsigned DUMP_RELOC_OFFSET_BITS
            ((ctx.obj_offset + relpos) / 2 ^ DUMP_RELOC_ALIGNMENT_BITS), 0⟩ := by
      unfold dump_decode_dump_reloc
      simp only [dump_pop, bind, Except.bind, intmax_t_from_lisp, dump_off_to_lisp,
        dump_off_from_lisp_fixnum _ (show DUMP_OFF_MIN ≤ ctx.obj_offset + relpos by
          unfold DUMP_OFF_MIN; omega) (show ctx.obj_offset + relpos ≤ DUMP_OFF_MAX by
          unfold DUMP_OFF_MAX; omega)]
      rw [dump_reloc_set_offset_eq _ _ h0, if_pos ⟨h4, h29'⟩]
      rfl
    refine ⟨_, hdec, ?_⟩
    intro dump_base image himg
    have hget : dump_reloc_get_offset
        ⟨to_unsigned DUMP_RELOC_OFFSET_BITS
          ((ctx.obj_offset + relpos) / 2 ^ DUMP_RELOC_ALIGNMENT_BITS), 0⟩
        = ctx.obj_offset + relpos := by
      unfold dump_reloc_get_offset
      rw [dump_reloc_raw_readback]
      omega
    unfold dump_do_dump_relocation
    simp only [hget, RELOC_DUMP_TO_EMACS_PTR_RAW, if_true, dump_write_word_to_dump,
      dump_read_word_from_dump, store_word, himg]
    have key : ((to_unsigned h.ptr_width (emacs_offset h p) + h.emacs_basis) % 2 ^ h.ptr_width
        : Nat) = p := by
      zify
      rw [to_unsigned_cast, hoff, Int.emod_add_emod, add_comm]
      exact basis_plus_offset h hw p hp
    exact key
  · unfold dump_field_emacs_ptr
    simp [hc, to_unsigned]

theorem host_pointer_round_trip_witness :
    emacs_ptr_at sample_host (emacs_offset sample_host 93823560581120) = 93823560581120
      ∧ (dump_field_emacs_ptr sample_host sample_context (fun _ => 0) 8 93823560581120).2 8
          = to_unsigned 64 (-4096) :=
  ⟨(host_pointer_round_trip sample_host 93823560581120 (by decide) (by decide) (by decide)
      (by decide)).1,
   ((host_pointer_round_trip sample_host 93823560581120 (by decide) (by decide) (by decide)
      (by decide)).2 sample_context (fun _ => 0) 8 rfl).1⟩

/-! ### Where objects start -/

theorem dump_align_output_offset (ctx : dump_context) (a : Int) (ha : 0 < a) :
    (dump_align_output ctx a).offset % a = 0 := by
  unfold dump_align_output
  split
  · have h1 : ctx.offset % a < a := Int.emod_lt_of_pos _ ha
    unfold dump_write_zero
    rw [if_pos (by omega)]
    show (ctx.offset + (a - ctx.offset % a)) % a = 0
    have h2 : ctx.offset + (a - ctx.offset % a) = a * (ctx.offset / a + 1) := by
      have := Int.emod_add_ediv ctx.offset a
      linarith
    rw [h2]
    exact Int.mul_emod_right _ _
  · rename_i h
    simpa using h

theorem same_frame_refl (ctx : dump_context) : same_frame ctx ctx := ⟨rfl, rfl⟩

theorem same_frame_trans {a b c : dump_context} (h1 : same_frame a b) (h2 : same_frame b c) :
    same_frame a c := ⟨h2.1.trans h1.1, h2.2.trans h1.2⟩

theorem dump_write_zero_frame (ctx : dump_context) (n : Int) :
    same_frame ctx (dump_write_zero ctx n) := by
  unfold dump_write_zero
  split <;> exact ⟨rfl, rfl⟩

theorem dump_align_output_frame (ctx : dump_context) (a : Int) :
    same_frame ctx (dump_align_output ctx a) := by
  unfold dump_align_output
  split
  · exact dump_write_zero_frame _ _
  · exact same_frame_refl _

theorem dump_remember_cold_op_frame (ctx : dump_context) (op : Int) (arg : Nat) :
    same_frame ctx (dump_remember_cold_op ctx op arg) := by
  unfold dump_remember_cold_op
  split <;> exact ⟨rfl, rfl⟩

theorem dump_object_start_frame (pf : platform) (ctx : dump_context) :
    same_frame ctx (dump_object_start pf ctx) := by
  unfold dump_object_start
  dsimp only
  split
  · exact ⟨(dump_align_output_frame _ _).1, (dump_align_output_frame _ _).2⟩
  · exact ⟨rfl, rfl⟩

theorem dump_object_finish_frame (ctx : dump_context) (sz : Int) :
    same_frame ctx (dump_object_finish ctx sz).1 := by
  unfold dump_object_finish
  dsimp only
  split <;> exact ⟨rfl, rfl⟩

theorem dump_object_start_aligned (pf : platform) (ctx : dump_context)
    (hc : ctx.flags.dump_object_contents = true) (hp : ctx.flags.pack_objects = false) :
    (dump_object_start pf ctx).obj_offset % (DUMP_ALIGNMENT pf.GCALIGNMENT : Int) = 0 := by
  unfold dump_object_start
  simp only [hc, hp, if_true, Bool.false_eq_true, if_false]
  apply dump_align_output_offset
  unfold DUMP_ALIGNMENT DUMP_RELOCATION_ALIGNMENT
  have : (4 : Nat) ≤ max pf.GCALIGNMENT 4 := le_max_right _ _
  omega

theorem dump_one_object_aligned (pf : platform) (ctx : dump_context) (sz : Int) :
    writer_aligned pf ctx (dump_one_object pf ctx sz) := by
  unfold dump_one_object
  refine ⟨same_frame_trans (dump_object_start_frame pf ctx) (dump_object_finish_frame _ _), ?_⟩
  intro hc hp
  exact dump_object_start_aligned pf ctx hc hp

theorem dump_lisp_words_frame (pf : platform) (n : Nat) (ctx : dump_context) :
    same_frame ctx (dump_lisp_words pf n ctx) := by
  induction n generalizing ctx with
  | zero => exact same_frame_refl _
  | succ n ih =>
    rw [dump_lisp_words]
    exact same_frame_trans (dump_one_object_aligned pf ctx _).1 (ih _)

theorem dump_interval_tree_frame (pf : platform) (t : interval_ptr) (ctx : dump_context) :
    same_frame ctx (dump_interval_tree pf t ctx).1 := by
  induction t generalizing ctx with
  | null => exact same_frame_refl _
  | node left right ihl ihr =>
    rw [dump_interval_tree]
    dsimp only
    have h0 := (dump_one_object_aligned pf ctx pf.sizeof_interval).1
    have h1 : same_frame ctx
        (if left ≠ interval_ptr.null then
          (dump_interval_tree pf left (dump_one_object pf ctx pf.sizeof_interval).1).1
         else (dump_one_object pf ctx pf.sizeof_interval).1) := by
      split
      · exact same_frame_trans h0 (ihl _)
      · exact h0
    split
    · exact same_frame_trans h1 (ihr _)
    · exact h1

theorem dump_interval_node_frame (pf : platform) (t : itree_ptr) (ctx : dump_context) :
    same_frame ctx (dump_interval_node pf t ctx).1 := by
  induction t generalizing ctx with
  | null => exact same_frame_refl _
  | node parent left right ihp ihl ihr =>
    rw [dump_interval_node]
    dsimp only
    have h0 := (dump_one_object_aligned pf ctx pf.sizeof_itree_node).1
    have h1 : same_frame ctx
        (if parent ≠ itree_ptr.null then
          (dump_interval_node pf parent (dump_one_object pf ctx pf.sizeof_itree_node).1).1
         else (dump_one_object pf ctx pf.sizeof_itree_node).1) := by
      split
      · exact same_frame_trans h0 (ihp _)
      · exact h0
    generalize (if parent ≠ itree_ptr.null then
          (dump_interval_node pf parent (dump_one_object pf ctx pf.sizeof_itree_node).1).1
         else (dump_one_object pf ctx pf.sizeof_itree_node).1) = c1 at h1 ⊢
    have h2 : same_frame ctx
        (if left ≠ itree_ptr.null then (dump_interval_node pf left c1).1 else c1) := by
      split
      · exact same_frame_trans h1 (ihl _)
      · exact h1
    split
    · exact same_frame_trans h2 (ihr _)
    · exact h2

theorem starts_aligned_refl (pf : platform) (l : List lisp_reloc) : starts_aligned pf l l :=
  ⟨[], rfl, by intro e he; cases he⟩

theorem starts_aligned_of_eq (pf : platform) {l l1 : List lisp_reloc} (h : l1 = l) :
    starts_aligned pf l l1 := by
  subst h; exact starts_aligned_refl pf _

theorem starts_aligned_trans (pf : platform) {a b c : List lisp_reloc}
    (h1 : starts_aligned pf a b) (h2 : starts_aligned pf b c) : starts_aligned pf a c := by
  obtain ⟨p1, e1, a1⟩ := h1
  obtain ⟨p2, e2, a2⟩ := h2
  refine ⟨p2 ++ p1, by rw [e2, e1, List.append_assoc], ?_⟩
  intro e he
  rcases List.mem_append.mp he with h | h
  · exact a2 e h
  · exact a1 e h

theorem writer_ok_of_aligned (pf : platform) (ctx : dump_context) (r : dump_context × Int)
    (h : writer_aligned pf ctx r) : writer_ok pf ctx r :=
  ⟨h.1.1, starts_aligned_of_eq pf h.1.2, fun hc hp _ => h.2 hc hp⟩

theorem writer_aligned_then (pf : platform) (ctx : dump_context) (r : dump_context × Int)
    (c : dump_context) (h : writer_aligned pf ctx r) (hc : same_frame r.1 c) :
    writer_aligned pf ctx (c, r.2) :=
  ⟨same_frame_trans h.1 hc, h.2⟩

theorem writer_aligned_after (pf : platform) (ctx c : dump_context) (r : dump_context × Int)
    (hc : same_frame ctx c) (h : writer_aligned pf c r) : writer_aligned pf ctx r := by
  refine ⟨same_frame_trans hc h.1, ?_⟩
  intro h1 h2
  exact h.2 (by rw [hc.1]; exact h1) (by rw [hc.1]; exact h2)

theorem dump_string_aligned (pf : platform) (ctx : dump_context) (object : lisp_object)
    (m2 : Bool) (intervals : interval_ptr) :
    writer_aligned pf ctx (dump_string pf ctx object m2 intervals) := by
  unfold dump_string
  dsimp only
  have hstart := dump_object_start_frame pf ctx
  have hcold : same_frame ctx
      (if m2 = true then dump_object_start pf ctx
       else dump_remember_cold_op (dump_object_start pf ctx) COLD_OP_STRING object.id) := by
    split
    · exact hstart
    · exact same_frame_trans hstart (dump_remember_cold_op_frame _ _ _)
  have hoff : (if m2 = true then dump_object_start pf ctx
       else dump_remember_cold_op (dump_object_start pf ctx) COLD_OP_STRING object.id).obj_offset
      = (dump_object_start pf ctx).obj_offset := by
    split
    · rfl
    · unfold dump_remember_cold_op
      split <;> rfl
  generalize (if m2 = true then dump_object_start pf ctx
       else dump_remember_cold_op (dump_object_start pf ctx) COLD_OP_STRING object.id) = c2
    at hcold hoff ⊢
  have hfin : writer_aligned pf ctx (dump_object_finish c2 pf.sizeof_Lisp_String) := by
    refine ⟨same_frame_trans hcold (dump_object_finish_frame _ _), ?_⟩
    intro hc hp
    show c2.obj_offset % _ = 0
    rw [hoff]
    exact dump_object_start_aligned pf ctx hc hp
  split
  · exact writer_aligned_then pf ctx _ _ hfin (dump_interval_tree_frame _ _ _)
  · exact hfin

theorem dump_fwd_frame (pf : platform) (ctx c : dump_context) (fwd : Lisp_Fwd_Type)
    (h : dump_fwd pf ctx fwd = Except.ok c) : same_frame ctx c := by
  unfold dump_fwd at h
  cases fwd <;> simp only [reduceCtorEq] at h <;> cases h
  all_goals first
    | exact same_frame_refl _
    | exact (dump_one_object_aligned pf ctx _).1

theorem dump_blv_aligned (pf : platform) (ctx : dump_context) (blv_fwd : Option Lisp_Fwd_Type)
    (r : dump_context × Int) (h : dump_blv pf ctx blv_fwd = Except.ok r) :
    writer_aligned pf ctx r := by
  unfold dump_blv at h
  dsimp only at h
  cases blv_fwd with
  | none =>
    cases h
    exact dump_one_object_aligned pf ctx _
  | some fwd =>
    simp only [bind, Except.bind] at h
    split at h
    · cases h
    · rename_i c hc
      cases h
      exact writer_aligned_then pf ctx _ _ (dump_one_object_aligned pf ctx _)
        (dump_fwd_frame pf _ _ fwd hc)

theorem dump_packed_slots_frame (pf : platform) (ctx : dump_context) (n : Int) :
    same_frame ctx (dump_packed_slots pf ctx n) := by
  unfold dump_packed_slots
  dsimp only
  have h1 := dump_align_output_frame ctx (DUMP_ALIGNMENT pf.GCALIGNMENT)
  have h2 := dump_lisp_words_frame pf n.toNat
    { dump_align_output ctx (DUMP_ALIGNMENT pf.GCALIGNMENT) with
      flags := { (dump_align_output ctx (DUMP_ALIGNMENT pf.GCALIGNMENT)).flags with
        pack_objects := true } }
  exact ⟨h1.1, h2.2.trans h1.2⟩

theorem dump_vectorlike_generic_aligned (pf : platform) (ctx : dump_context) (v : vectorlike) :
    writer_aligned pf ctx (dump_vectorlike_generic pf ctx v) := by
  unfold dump_vectorlike_generic
  dsimp only
  have h1 := dump_align_output_frame ctx (DUMP_ALIGNMENT pf.GCALIGNMENT)
  generalize dump_align_output ctx (DUMP_ALIGNMENT pf.GCALIGNMENT) = c1 at h1 ⊢
  have hr : writer_aligned pf c1
      (if decide (v.ptype = pvec_type.PVEC_SUB_CHAR_TABLE) = true then
        dump_one_object pf c1 pf.sub_char_table_prefix
       else dump_one_object pf c1 pf.sizeof_vectorlike_header) := by
    split <;> exact dump_one_object_aligned pf c1 _
  generalize (if decide (v.ptype = pvec_type.PVEC_SUB_CHAR_TABLE) = true then
        dump_one_object pf c1 pf.sub_char_table_prefix
       else dump_one_object pf c1 pf.sizeof_vectorlike_header) = r at hr ⊢
  have h2 := dump_write_zero_frame r.1
    (pf.offsetof_contents
      + (if decide (v.ptype = pvec_type.PVEC_SUB_CHAR_TABLE) = true then pf.SUB_CHAR_TABLE_OFFSET
         else 0) * pf.sizeof_Lisp_Object - (r.1.offset - c1.offset))
  generalize dump_write_zero r.1
    (pf.offsetof_contents
      + (if decide (v.ptype = pvec_type.PVEC_SUB_CHAR_TABLE) = true then pf.SUB_CHAR_TABLE_OFFSET
         else 0) * pf.sizeof_Lisp_Object - (r.1.offset - c1.offset)) = c2 at h2 ⊢
  have h3 := dump_lisp_words_frame pf
    (v.size - (if decide (v.ptype = pvec_type.PVEC_SUB_CHAR_TABLE) = true then
      pf.SUB_CHAR_TABLE_OFFSET else 0)).toNat
    { c2 with flags := { c2.flags with pack_objects := true } }
  generalize dump_lisp_words pf
    (v.size - (if decide (v.ptype = pvec_type.PVEC_SUB_CHAR_TABLE) = true then
      pf.SUB_CHAR_TABLE_OFFSET else 0)).toNat
    { c2 with flags := { c2.flags with pack_objects := true } } = c4 at h3 ⊢
  have h5 : same_frame c2 { c4 with flags := c2.flags } := ⟨rfl, h3.2⟩
  have h6 := dump_align_output_frame { c4 with flags := c2.flags } (DUMP_ALIGNMENT pf.GCALIGNMENT)
  have hall : same_frame r.1
      (dump_align_output { c4 with flags := c2.flags } (DUMP_ALIGNMENT pf.GCALIGNMENT)) :=
    same_frame_trans h2 (same_frame_trans h5 h6)
  exact writer_aligned_after pf ctx c1 _ h1 (writer_aligned_then pf c1 r _ hr hall)

theorem dump_bool_vector_aligned (pf : platform) (ctx : dump_context) (v : vectorlike)
    (r : dump_context × Int) (h : dump_bool_vector pf ctx v = Except.ok r) :
    writer_aligned pf ctx r := by
  unfold dump_bool_vector at h
  dsimp only at h
  split at h
  · cases h
  · cases h
    have h1 := dump_align_output_frame ctx (DUMP_ALIGNMENT pf.GCALIGNMENT)
    refine ⟨⟨h1.1, h1.2⟩, ?_⟩
    intro _ _
    apply dump_align_output_offset
    unfold DUMP_ALIGNMENT DUMP_RELOCATION_ALIGNMENT
    have : (4 : Nat) ≤ max pf.GCALIGNMENT 4 := le_max_right _ _
    omega

theorem dump_hash_table_aligned (pf : platform) (ctx : dump_context) (object : lisp_object)
    (v : vectorlike) (r : dump_context × Int)
    (h : dump_hash_table pf ctx object v = Except.ok r) : writer_aligned pf ctx r := by
  unfold dump_hash_table at h
  dsimp only at h
  split at h
  · cases h
  · have h0 : same_frame ctx { ctx with hash_tables := object.id :: ctx.hash_tables } :=
      ⟨rfl, rfl⟩
    have h1 := dump_one_object_aligned pf
      { ctx with hash_tables := object.id :: ctx.hash_tables } v.nbytes
    split at h
    · cases h
      exact writer_aligned_after pf ctx _ _ h0
        (writer_aligned_then pf _ _ _ h1 (dump_packed_slots_frame _ _ _))
    · cases h
      exact writer_aligned_after pf ctx _ _ h0 h1

theorem dump_obarray_aligned (pf : platform) (ctx : dump_context) (v : vectorlike) :
    writer_aligned pf ctx (dump_obarray pf ctx v) := by
  unfold dump_obarray
  exact writer_aligned_then pf _ _ _ (dump_one_object_aligned pf ctx v.nbytes)
    (dump_packed_slots_frame _ _ _)

theorem dump_subr_aligned (pf : platform) (ctx : dump_context) (object : lisp_object)
    (v : vectorlike) : writer_aligned pf ctx (dump_subr pf ctx object v) := by
  unfold dump_subr
  dsimp only
  have hstart := dump_object_start_frame pf ctx
  have hcold : same_frame ctx
      (if (pf.HAVE_NATIVE_COMP && v.subr_non_primitive) = true then
        dump_remember_cold_op (dump_object_start pf ctx) COLD_OP_NATIVE_SUBR object.id
       else dump_object_start pf ctx) := by
    split
    · exact same_frame_trans hstart (dump_remember_cold_op_frame _ _ _)
    · exact hstart
  have hoff : (if (pf.HAVE_NATIVE_COMP && v.subr_non_primitive) = true then
        dump_remember_cold_op (dump_object_start pf ctx) COLD_OP_NATIVE_SUBR object.id
       else dump_object_start pf ctx).obj_offset = (dump_object_start pf ctx).obj_offset := by
    split
    · unfold dump_remember_cold_op
      split <;> rfl
    · rfl
  generalize (if (pf.HAVE_NATIVE_COMP && v.subr_non_primitive) = true then
        dump_remember_cold_op (dump_object_start pf ctx) COLD_OP_NATIVE_SUBR object.id
       else dump_object_start pf ctx) = c2 at hcold hoff ⊢
  refine ⟨same_frame_trans hcold (dump_object_finish_frame _ _), ?_⟩
  intro hc hp
  show c2.obj_offset % _ = 0
  rw [hoff]
  exact dump_object_start_aligned pf ctx hc hp

theorem dump_native_comp_unit_aligned (pf : platform) (ctx : dump_context) (v : vectorlike)
    (r : dump_context × Int) (h : dump_native_comp_unit pf ctx v = Except.ok r) :
    writer_aligned pf ctx r := by
  unfold dump_native_comp_unit at h
  split at h
  · cases h
  · cases h
    exact dump_one_object_aligned pf ctx _

theorem dump_overlay_aligned (pf : platform) (ctx : dump_context) (v : vectorlike) :
    writer_aligned pf ctx (dump_overlay pf ctx v) := by
  unfold dump_overlay
  exact writer_aligned_then pf _ _ _ (dump_one_object_aligned pf ctx v.nbytes)
    (dump_interval_node_frame _ _ _)

theorem dump_bignum_aligned (pf : platform) (ctx : dump_context) (object : lisp_object)
    (v : vectorlike) : writer_aligned pf ctx (dump_bignum pf ctx object v) := by
  unfold dump_bignum
  dsimp only
  have h1 := dump_one_object_aligned pf ctx v.nbytes
  split
  · exact writer_aligned_then pf _ _ _ h1 (dump_remember_cold_op_frame _ _ _)
  · exact h1

theorem dump_buffer_body_aligned (pf : platform) (ctx : dump_context) (object : lisp_object)
    (nbytes : Int) (has_base live overlays_empty : Bool) (intervals : interval_ptr)
    (r : dump_context × Int)
    (h : dump_buffer_body pf ctx object nbytes has_base live overlays_empty intervals
      = Except.ok r) : writer_aligned pf ctx r := by
  unfold dump_buffer_body at h
  dsimp only at h
  have hstart := dump_object_start_frame pf ctx
  have hcold : same_frame ctx
      (if (!has_base) = true ∧ live = true then
        dump_remember_cold_op (dump_object_start pf ctx) COLD_OP_BUFFER object.id
       else dump_object_start pf ctx) := by
    split
    · exact same_frame_trans hstart (dump_remember_cold_op_frame _ _ _)
    · exact hstart
  have hoff : (if (!has_base) = true ∧ live = true then
        dump_remember_cold_op (dump_object_start pf ctx) COLD_OP_BUFFER object.id
       else dump_object_start pf ctx).obj_offset = (dump_object_start pf ctx).obj_offset := by
    split
    · unfold dump_remember_cold_op
      split <;> rfl
    · rfl
  generalize (if (!has_base) = true ∧ live = true then
        dump_remember_cold_op (dump_object_start pf ctx) COLD_OP_BUFFER object.id
       else dump_object_start pf ctx) = c3 at hcold hoff h
  have hfin : writer_aligned pf ctx (dump_object_finish c3 nbytes) := by
    refine ⟨same_frame_trans hcold (dump_object_finish_frame _ _), ?_⟩
    intro hc1 hp1
    show c3.obj_offset % _ = 0
    rw [hoff]
    exact dump_object_start_aligned pf ctx hc1 hp1
  split at h
  · cases h
  · split at h
    · cases h
      exact writer_aligned_then pf ctx _ _ hfin (dump_interval_tree_frame _ _ _)
    · cases h
      exact hfin

theorem dump_buffer_ok (pf : platform)
    (dump_object_rec : dump_context → lisp_object → Except dump_error (dump_context × Int))
    (hrec : ∀ c o r, dump_object_rec c o = Except.ok r → c.flags.pack_objects = false →
      object_ok pf c r)
    (ctx : dump_context) (object : lisp_object) (v : vectorlike) (r : dump_context × Int)
    (hp : ctx.flags.pack_objects = false)
    (h : dump_buffer pf dump_object_rec ctx object v = Except.ok r) : writer_ok pf ctx r := by
  unfold dump_buffer at h
  split at h
  · cases h
  · exact writer_ok_of_aligned pf ctx r (dump_buffer_body_aligned pf ctx object _ _ _ _ _ r h)
  · simp only [bind, Except.bind] at h
    split at h
    · cases h
    · rename_i rb hrb
      have h1 := hrec _ _ _ hrb hp
      have hres := dump_buffer_body_aligned pf rb.1 object _ _ _ _ _ r h
      refine ⟨hres.1.1.trans h1.1, ?_, ?_⟩
      · exact starts_aligned_trans pf h1.2 (starts_aligned_of_eq pf hres.1.2)
      · intro hc hp2 _
        exact hres.2 (by rw [h1.1]; exact hc) (by rw [h1.1]; exact hp2)

theorem dump_vectorlike_ok (pf : platform)
    (dump_object_rec : dump_context → lisp_object → Except dump_error (dump_context × Int))
    (hrec : ∀ c o r, dump_object_rec c o = Except.ok r → c.flags.pack_objects = false →
      object_ok pf c r)
    (ctx : dump_context) (object : lisp_object) (v : vectorlike) (r : dump_context × Int)
    (hp : ctx.flags.pack_objects = false)
    (h : dump_vectorlike pf dump_object_rec ctx object v = Except.ok r) : writer_ok pf ctx r := by
  unfold dump_vectorlike at h
  dsimp only at h
  split at h
  all_goals first
    | (cases h; done)
    | (cases h; exact writer_ok_of_aligned pf ctx _ (dump_vectorlike_generic_aligned pf ctx v))
    | (cases h; exact writer_ok_of_aligned pf ctx _ (dump_one_object_aligned pf ctx _))
    | (cases h; exact writer_ok_of_aligned pf ctx _ (dump_obarray_aligned pf ctx v))
    | (cases h; exact writer_ok_of_aligned pf ctx _ (dump_subr_aligned pf ctx object v))
    | (cases h; exact writer_ok_of_aligned pf ctx _ (dump_overlay_aligned pf ctx v))
    | (cases h; exact writer_ok_of_aligned pf ctx _ (dump_bignum_aligned pf ctx object v))
    | exact writer_ok_of_aligned pf ctx _ (dump_bool_vector_aligned pf ctx v r h)
    | exact writer_ok_of_aligned pf ctx _ (dump_hash_table_aligned pf ctx object v r h)
    | exact dump_buffer_ok pf dump_object_rec hrec ctx object v r hp h
    | (split at h
       · cases h
       · first
         | (cases h
            exact writer_ok_of_aligned pf ctx _ (dump_vectorlike_generic_aligned pf ctx v)))
    | (split at h
       · first
         | exact writer_ok_of_aligned pf ctx _ (dump_native_comp_unit_aligned pf ctx v r h)
         | (cases h
            exact writer_ok_of_aligned pf ctx _ (dump_one_object_aligned pf ctx _))
         | (cases h
            exact ⟨rfl, starts_aligned_refl pf _, fun _ _ hpos => by
              unfold DUMP_OBJECT_IS_RUNTIME_MAGIC at hpos; omega⟩)
       · cases h)

theorem dump_symbol_ok (pf : platform)
    (dump_object_rec : dump_context → lisp_object → Except dump_error (dump_context × Int))
    (hrec : ∀ c o r, dump_object_rec c o = Except.ok r → c.flags.pack_objects = false →
      object_ok pf c r)
    (ctx : dump_context) (object : lisp_object) (redirect : symbol_redirect) (offset : Int)
    (r : dump_context × Int) (hp : ctx.flags.pack_objects = false)
    (h : dump_symbol pf dump_object_rec ctx object redirect offset = Except.ok r) :
    writer_ok pf ctx r := by
  unfold dump_symbol at h
  split at h
  · split at h
    · simp only [bind, Except.bind] at h
      split at h
      · cases h
      · rename_i rb hrb
        cases h
        have h1 := hrec _ _ _ hrb hp
        refine ⟨rfl, h1.2, ?_⟩
        intro _ _ hpos
        unfold DUMP_OBJECT_ON_SYMBOL_QUEUE at hpos
        omega
    · rename_i hoff
      cases h
      refine ⟨rfl, starts_aligned_refl pf _, ?_⟩
      intro _ _ hpos
      have : offset = DUMP_OBJECT_ON_SYMBOL_QUEUE := by simpa using hoff
      unfold DUMP_OBJECT_ON_SYMBOL_QUEUE at this
      omega
  · have hone := dump_one_object_aligned pf ctx pf.sizeof_Lisp_Symbol
    cases redirect with
    | other => cases h
    | SYMBOL_PLAINVAL => cases h; exact writer_ok_of_aligned pf ctx _ hone
    | SYMBOL_VARALIAS => cases h; exact writer_ok_of_aligned pf ctx _ hone
    | SYMBOL_LOCALIZED blv_fwd =>
      dsimp only at h
      split at h
      · cases h; exact writer_ok_of_aligned pf ctx _ hone
      · simp only [bind, Except.bind] at h
        split at h
        · cases h
        · rename_i b hb
          cases h
          have hblv := dump_blv_aligned pf _ blv_fwd b hb
          exact writer_ok_of_aligned pf ctx _ (writer_aligned_then pf ctx _ _ hone hblv.1)
    | SYMBOL_FORWARDED fwd fwd_emacs_offset =>
      dsimp only at h
      split at h
      · simp only [bind, Except.bind] at h
        split at h
        · cases h
        · rename_i c hc
          cases h
          exact writer_ok_of_aligned pf ctx _
            (writer_aligned_then pf ctx _ _ hone (dump_fwd_frame pf _ _ fwd hc))
      · split at h
        · cases h
        · cases h; exact writer_ok_of_aligned pf ctx _ hone

theorem dump_object_tail_ok (pf : platform) (ctx : dump_context) (object : lisp_object)
    (w r : dump_context × Int) (hwok : writer_ok pf ctx w)
    (hp : ctx.flags.pack_objects = false)
    (h : (if w.1.flags.dump_object_contents ∧ w.2 > DUMP_OBJECT_NOT_SEEN then
            if (dump_remember_object w.1 object w.2).flags.record_object_starts then
              (Except.ok
                ({ dump_remember_object w.1 object w.2 with
                   object_starts :=
                     [dump_off_to_lisp (XTYPE object).code, dump_off_to_lisp w.2]
                       :: (dump_remember_object w.1 object w.2).object_starts }, w.2)
                : Except dump_error (dump_context × Int))
            else Except.ok (dump_remember_object w.1 object w.2, w.2)
          else Except.ok w) = Except.ok r) :
    object_ok pf ctx r := by
  obtain ⟨hflags, hstarts, halign⟩ := hwok
  split at h
  · rename_i hcond
    split at h
    · cases h
      refine ⟨hflags, ?_⟩
      obtain ⟨pushed, hpush, hal⟩ := hstarts
      refine ⟨[dump_off_to_lisp (XTYPE object).code, dump_off_to_lisp w.2] :: pushed, ?_, ?_⟩
      · show _ :: w.1.object_starts = _
        rw [hpush]; rfl
      · intro e he
        rcases List.mem_cons.mp he with he1 | he1
        · subst he1
          show w.2 % _ = 0
          have hc : ctx.flags.dump_object_contents = true := by
            rw [← hflags]; exact hcond.1
          have hpos : 0 < w.2 := by
            have := hcond.2
            unfold DUMP_OBJECT_NOT_SEEN at this
            omega
          exact halign hc hp hpos
        · exact hal e he1
    · cases h
      exact ⟨hflags, hstarts⟩
  · cases h
    exact ⟨hflags, hstarts⟩

theorem dump_object_ok (pf : platform) :
    ∀ (fuel : Nat) (ctx : dump_context) (object : lisp_object) (r : dump_context × Int),
      dump_object pf fuel ctx object = Except.ok r → ctx.flags.pack_objects = false →
      object_ok pf ctx r := by
  intro fuel
  induction fuel with
  | zero =>
    intro ctx object r h
    rw [dump_object] at h
    cases h
  | succ fuel ih =>
    intro ctx object r h hp
    rw [dump_object] at h
    dsimp only at h
    split at h
    · cases h
      exact ⟨rfl, starts_aligned_refl pf _⟩
    · split at h
      · split at h
        · cases h
          refine ⟨?_, starts_aligned_of_eq pf ?_⟩
          · exact (dump_remember_cold_op_frame _ _ _).1
          · exact (dump_remember_cold_op_frame _ _ _).2
        · cases h
          exact ⟨rfl, starts_aligned_refl pf _⟩
      · split at h
        · split at h
          · simp only [bind, Except.bind] at h
            split at h
            · cases h
            · rename_i rb hrb
              cases h
              have h1 := ih _ _ _ hrb hp
              exact ⟨rfl, h1.2⟩
          · cases h
            exact ⟨rfl, starts_aligned_refl pf _⟩
        · cases hbody : object.body with
          | fixnum =>
            rw [hbody] at h
            dsimp only at h
            simp only [bind, Except.bind] at h
            cases h
          | cons =>
            rw [hbody] at h
            dsimp only at h
            simp only [bind, Except.bind] at h
            exact dump_object_tail_ok pf ctx object _ r
              (writer_ok_of_aligned pf ctx _ (dump_one_object_aligned pf ctx _)) hp h
          | float =>
            rw [hbody] at h
            dsimp only at h
            simp only [bind, Except.bind] at h
            exact dump_object_tail_ok pf ctx object _ r
              (writer_ok_of_aligned pf ctx _ (dump_one_object_aligned pf ctx _)) hp h
          | string m2 intervals =>
            rw [hbody] at h
            dsimp only at h
            simp only [bind, Except.bind] at h
            exact dump_object_tail_ok pf ctx object _ r
              (writer_ok_of_aligned pf ctx _ (dump_string_aligned pf ctx object m2 intervals)) hp h
          | symbol builtin redirect =>
            rw [hbody] at h
            dsimp only at h
            cases hw : dump_symbol pf (dump_object pf fuel) ctx object redirect
                (dump_recall_object ctx object) with
            | error e =>
              rw [hw] at h
              simp only [bind, Except.bind] at h
              cases h
            | ok w =>
              rw [hw] at h
              simp only [bind, Except.bind] at h
              exact dump_object_tail_ok pf ctx object w r
                (dump_symbol_ok pf (dump_object pf fuel) ih ctx object redirect _ w hp hw) hp h
          | vectorlike v =>
            rw [hbody] at h
            dsimp only at h
            cases hw : dump_vectorlike pf (dump_object pf fuel) ctx object v with
            | error e =>
              rw [hw] at h
              simp only [bind, Except.bind] at h
              cases h
            | ok w =>
              rw [hw] at h
              simp only [bind, Except.bind] at h
              exact dump_object_tail_ok pf ctx object w r
                (dump_vectorlike_ok pf (dump_object pf fuel) ih ctx object v w hp hw) hp h

/-- C7: alignment of object starts.  When `dump_object` returns with
`pack_objects` off in the context it was called with, the object-start list
it leaves is the one it found with entries pushed in front, and every pushed
(type, offset) entry has offset mod `DUMP_ALIGNMENT` = 0; this holds for
every object type that has a writer (strings, all vectorlikes, symbols,
conses and floats) and through the nested calls made for deferred objects
and base buffers. -/
theorem dump_object_starts_aligned (pf : platform) (fuel : Nat) (ctx : dump_context)
    (object : lisp_object) (r : dump_context × Int)
    (hp : ctx.flags.pack_objects = false)
    (h : dump_object pf fuel ctx object = Except.ok r) :
    ∃ pushed : List lisp_reloc,
      r.1.object_starts = pushed ++ ctx.object_starts
        ∧ ∀ e, e ∈ pushed →
            lisp_reloc_offset e % (DUMP_ALIGNMENT pf.GCALIGNMENT : Int) = 0 :=
  (dump_object_ok pf fuel ctx object r h hp).2

/-- C7 at a string with text properties written from offset 4099: the entry
pushed is (Lisp_String, 4104). -/
theorem dump_object_starts_aligned_witness :
    sample_idle_context.flags.pack_objects = false
      ∧ dump_object sample_platform 3 sample_idle_context sample_string
          = Except.ok sample_dumped
      ∧ sample_dumped.1.object_starts
          = [[lisp_value.fixnum 4, lisp_value.fixnum 4104]]
      ∧ ∃ pushed : List lisp_reloc,
          sample_dumped.1.object_starts = pushed ++ sample_idle_context.object_starts
            ∧ ∀ e, e ∈ pushed →
                lisp_reloc_offset e % (DUMP_ALIGNMENT sample_platform.GCALIGNMENT : Int) = 0 :=
  ⟨rfl, rfl, rfl,
    dump_object_starts_aligned sample_platform 3 sample_idle_context sample_string
      sample_dumped rfl rfl⟩

/-! ### Relocations of tagged values -/

theorem dump_decode_lv_reloc (code : Nat) (hcode : code < 32)
    (offset : Int) (h0 : 0 ≤ offset) (h4 : offset % 4 = 0) (hlt : offset < 2 ^ 29) :
    ∃ reloc, dump_decode_dump_reloc [lisp_value.fixnum code, dump_off_to_lisp offset]
        = Except.ok reloc
      ∧ reloc.type = code ∧ dump_reloc_get_offset reloc = offset := by
  have hset := dump_reloc_set_offset_eq
    (dump_reloc_set_type default (to_unsigned 32 (code : Int))) offset h0
  rw [if_pos ⟨h4, by norm_num at hlt; exact hlt⟩] at hset
  have htype : (dump_reloc_set_type default (to_unsigned 32 (code : Int))).type = code := by
    unfold dump_reloc_set_type to_unsigned DUMP_RELOC_TYPE_BITS
    simp only
    have h1 : ((code : Int) % 2 ^ 32).toNat = code := by
      rw [Int.emod_eq_of_lt (by positivity) (by norm_num; omega)]
      simp
    rw [h1]
    exact Nat.mod_eq_of_lt (by norm_num; omega)
  refine ⟨⟨to_unsigned DUMP_RELOC_OFFSET_BITS (offset / 2 ^ DUMP_RELOC_ALIGNMENT_BITS),
      (dump_reloc_set_type default (to_unsigned 32 (code : Int))).type⟩, ?_, htype,
    dump_reloc_set_offset_ok _ _ _ hset⟩
  have hlt1 : offset < 536870912 := by norm_num at hlt; exact hlt
  simp only [dump_decode_dump_reloc, dump_pop, intmax_t_from_lisp, dump_off_to_lisp, bind,
    Except.bind, dump_off_from_lisp_fixnum offset (show DUMP_OFF_MIN ≤ offset by
      unfold DUMP_OFF_MIN; omega) (show offset ≤ DUMP_OFF_MAX by unfold DUMP_OFF_MAX; omega)]
  exact hset

theorem dump_make_lv_from_reloc_dump (h : host) (dump_base : Nat) (reloc : dump_reloc)
    (image : Int → Nat) (t : Int) (ht0 : 0 ≤ t) (ht8 : t < 8)
    (htype : (reloc.type : Int) = (RELOC_DUMP_TO_DUMP_LV : Int) + t) :
    dump_make_lv_from_reloc h dump_base reloc image =
      if t = h.Lisp_Symbol then
        h.make_lisp_symbol ((image (dump_reloc_get_offset reloc) + dump_base) % 2 ^ h.ptr_width)
      else
        h.make_lisp_ptr ((image (dump_reloc_get_offset reloc) + dump_base) % 2 ^ h.ptr_width) t := by
  have ht : t = (reloc.type : Int) - (RELOC_DUMP_TO_DUMP_LV : Int) := by omega
  have hrange : RELOC_DUMP_TO_DUMP_LV ≤ reloc.type ∧ reloc.type < RELOC_DUMP_TO_EMACS_LV := by
    unfold RELOC_DUMP_TO_EMACS_LV RELOC_DUMP_TO_DUMP_LV at *
    omega
  unfold dump_make_lv_from_reloc dump_read_word_from_dump
  simp only [hrange, and_self, if_true, ← ht]

theorem dump_make_lv_from_reloc_emacs (h : host) (dump_base : Nat) (reloc : dump_reloc)
    (image : Int → Nat) (t : Int) (ht0 : 0 ≤ t)
    (htype : (reloc.type : Int) = (RELOC_DUMP_TO_EMACS_LV : Int) + t) :
    dump_make_lv_from_reloc h dump_base reloc image =
      if t = h.Lisp_Symbol then
        h.make_lisp_symbol
          ((image (dump_reloc_get_offset reloc) + h.emacs_basis) % 2 ^ h.ptr_width)
      else
        h.make_lisp_ptr
          ((image (dump_reloc_get_offset reloc) + h.emacs_basis) % 2 ^ h.ptr_width) t := by
  have ht : t = (reloc.type : Int) - (RELOC_DUMP_TO_EMACS_LV : Int) := by omega
  have hrange : ¬ (RELOC_DUMP_TO_DUMP_LV ≤ reloc.type ∧ reloc.type < RELOC_DUMP_TO_EMACS_LV) := by
    unfold RELOC_DUMP_TO_EMACS_LV RELOC_DUMP_TO_DUMP_LV at *
    omega
  unfold dump_make_lv_from_reloc dump_read_word_from_dump
  simp only [hrange, if_false, ← ht]

theorem lisp_type_code_range (t : Lisp_Type) : 0 ≤ t.code ∧ t.code < 8 := by
  cases t <;> simp [Lisp_Type.code]

theorem lisp_type_code_symbol (t : Lisp_Type) :
    t.code = Lisp_Type.Lisp_Symbol.code ↔ t = Lisp_Type.Lisp_Symbol := by
  cases t <;> simp [Lisp_Type.code]

/-- C11: with `dump_object_contents` on, for each of the five types
`dump_reloc_dump_to_dump_lv` accepts it pushes the descriptor with type code
`RELOC_DUMP_TO_DUMP_LV + t`, which for an offset the record can hold decodes to
a record carrying that code unchanged, and `dump_make_lv_from_reloc` builds
from it the value of tag t at the stored word plus the dump base
(`make_lisp_symbol` for a symbol, `make_lisp_ptr` with t otherwise); likewise
for the four types `dump_reloc_dump_to_emacs_lv` accepts, with code
`RELOC_DUMP_TO_EMACS_LV + t` and the word added to `emacs_basis ()`.  The
sixteen codes of the two families are pairwise distinct, none is one of the
five types below `RELOC_DUMP_TO_DUMP_LV`, and the 5-bit type field stores each
of them unchanged. -/
theorem lv_reloc_type_round_trip (h : host)
    (hsym : h.Lisp_Symbol = Lisp_Type.Lisp_Symbol.code)
    (ctx : dump_context) (hc : ctx.flags.dump_object_contents = true)
    (offset : Int) (h0 : 0 ≤ offset) (h4 : offset % 4 = 0) (hlt : offset < 2 ^ 29) :
    (∀ t : Lisp_Type,
        t ∈ [Lisp_Type.Lisp_Symbol, Lisp_Type.Lisp_String, Lisp_Type.Lisp_Vectorlike,
          Lisp_Type.Lisp_Cons, Lisp_Type.Lisp_Float] →
        ∃ reloc : dump_reloc,
          dump_reloc_dump_to_dump_lv ctx offset t
              = Except.ok (push_dump_reloc ctx reloc_phase.EARLY_RELOCS
                  [lisp_value.fixnum ((RELOC_DUMP_TO_DUMP_LV : Int) + t.code),
                    dump_off_to_lisp offset])
            ∧ dump_decode_dump_reloc
                [lisp_value.fixnum ((RELOC_DUMP_TO_DUMP_LV : Int) + t.code),
                  dump_off_to_lisp offset] = Except.ok reloc
            ∧ (reloc.type : Int) = (RELOC_DUMP_TO_DUMP_LV : Int) + t.code
            ∧ ∀ (dump_base : Nat) (image : Int → Nat),
                dump_make_lv_from_reloc h dump_base reloc image =
                  if t = Lisp_Type.Lisp_Symbol then
                    h.make_lisp_symbol ((image offset + dump_base) % 2 ^ h.ptr_width)
                  else h.make_lisp_ptr ((image offset + dump_base) % 2 ^ h.ptr_width) t.code)
      ∧ (∀ t : Lisp_Type,
          t ∈ [Lisp_Type.Lisp_String, Lisp_Type.Lisp_Vectorlike, Lisp_Type.Lisp_Cons,
            Lisp_Type.Lisp_Float] →
          ∃ reloc : dump_reloc,
            dump_reloc_dump_to_emacs_lv ctx offset t
                = Except.ok (push_dump_reloc ctx reloc_phase.EARLY_RELOCS
                    [lisp_value.fixnum ((RELOC_DUMP_TO_EMACS_LV : Int) + t.code),
                      dump_off_to_lisp offset])
              ∧ dump_decode_dump_reloc
                  [lisp_value.fixnum ((RELOC_DUMP_TO_EMACS_LV : Int) + t.code),
                    dump_off_to_lisp offset] = Except.ok reloc
              ∧ (reloc.type : Int) = (RELOC_DUMP_TO_EMACS_LV : Int) + t.code
              ∧ ∀ (dump_base : Nat) (image : Int → Nat),
                  dump_make_lv_from_reloc h dump_base reloc image =
                    h.make_lisp_ptr ((image offset + h.emacs_basis) % 2 ^ h.ptr_width) t.code)
      ∧ (∀ i j : Nat, i < 8 → j < 8 →
          RELOC_DUMP_TO_DUMP_LV + i ≠ RELOC_DUMP_TO_EMACS_LV + j
            ∧ (RELOC_DUMP_TO_DUMP_LV + i = RELOC_DUMP_TO_DUMP_LV + j → i = j)
            ∧ (RELOC_DUMP_TO_EMACS_LV + i = RELOC_DUMP_TO_EMACS_LV + j → i = j)
            ∧ RELOC_DUMP_TO_DUMP_LV + i ∉ non_lv_reloc_types
            ∧ RELOC_DUMP_TO_EMACS_LV + j ∉ non_lv_reloc_types
            ∧ (dump_reloc_set_type default (RELOC_DUMP_TO_DUMP_LV + i)).type
                = RELOC_DUMP_TO_DUMP_LV + i
            ∧ (dump_reloc_set_type default (RELOC_DUMP_TO_EMACS_LV + j)).type
                = RELOC_DUMP_TO_EMACS_LV + j) := by
  refine ⟨?_, ?_, ?_⟩
  · intro t ht
    obtain ⟨hc0, hc8⟩ := lisp_type_code_range t
    obtain ⟨reloc, hdec, htype, hoff⟩ :=
      dump_decode_lv_reloc (RELOC_DUMP_TO_DUMP_LV + t.code.toNat)
        (by unfold RELOC_DUMP_TO_DUMP_LV; omega) offset h0 h4 hlt
    have hcast : ((RELOC_DUMP_TO_DUMP_LV + t.code.toNat : Nat) : Int)
        = (RELOC_DUMP_TO_DUMP_LV : Int) + t.code := by
      push_cast
      rw [Int.toNat_of_nonneg hc0]
    rw [hcast] at hdec
    refine ⟨reloc, ?_, hdec, ?_, ?_⟩
    · unfold dump_reloc_dump_to_dump_lv
      simp only [hc, Bool.not_true, Bool.false_eq_true, if_false]
      simp only [List.mem_cons, List.mem_singleton, List.not_mem_nil, or_false] at ht
      rcases ht with rfl | rfl | rfl | rfl | rfl <;> rfl
    · rw [htype]; exact hcast
    · intro dump_base image
      rw [dump_make_lv_from_reloc_dump h dump_base reloc image t.code hc0 hc8
        (by rw [htype]; exact hcast), hoff, hsym]
      by_cases hs : t = Lisp_Type.Lisp_Symbol
      · rw [if_pos hs, if_pos ((lisp_type_code_symbol t).mpr hs)]
      · rw [if_neg hs, if_neg (fun hh => hs ((lisp_type_code_symbol t).mp hh))]
  · intro t ht
    obtain ⟨hc0, hc8⟩ := lisp_type_code_range t
    obtain ⟨reloc, hdec, htype, hoff⟩ :=
      dump_decode_lv_reloc (RELOC_DUMP_TO_EMACS_LV + t.code.toNat)
        (by unfold RELOC_DUMP_TO_EMACS_LV RELOC_DUMP_TO_DUMP_LV; omega) offset h0 h4 hlt
    have hcast : ((RELOC_DUMP_TO_EMACS_LV + t.code.toNat : Nat) : Int)
        = (RELOC_DUMP_TO_EMACS_LV : Int) + t.code := by
      push_cast
      rw [Int.toNat_of_nonneg hc0]
    rw [hcast] at hdec
    have hns : t ≠ Lisp_Type.Lisp_Symbol := by
      simp only [List.mem_cons, List.mem_singleton, List.not_mem_nil, or_false] at ht
      rcases ht with rfl | rfl | rfl | rfl <;> decide
    refine ⟨reloc, ?_, hdec, ?_, ?_⟩
    · unfold dump_reloc_dump_to_emacs_lv
      simp only [hc, Bool.not_true, Bool.false_eq_true, if_false]
      simp only [List.mem_cons, List.mem_singleton, List.not_mem_nil, or_false] at ht
      rcases ht with rfl | rfl | rfl | rfl <;> rfl
    · rw [htype]; exact hcast
    · intro dump_base image
      rw [dump_make_lv_from_reloc_emacs h dump_base reloc image t.code hc0
        (by rw [htype]; exact hcast), hoff, hsym,
        if_neg (fun hh => hns ((lisp_type_code_symbol t).mp hh))]
  · intro i j hi hj
    unfold non_lv_reloc_types dump_reloc_set_type RELOC_DUMP_TO_EMACS_LV RELOC_DUMP_TO_DUMP_LV
      RELOC_DUMP_TO_EMACS_PTR_RAW RELOC_DUMP_TO_DUMP_PTR_RAW RELOC_NATIVE_COMP_UNIT
      RELOC_NATIVE_SUBR RELOC_BIGNUM DUMP_RELOC_TYPE_BITS
    simp only [List.mem_cons, List.mem_singleton, List.not_mem_nil, or_false]
    refine ⟨by omega, by omega, by omega, by omega, by omega, ?_, ?_⟩
    · exact Nat.mod_eq_of_lt (by norm_num; omega)
    · exact Nat.mod_eq_of_lt (by norm_num; omega)

/-- C11 at a 64-bit host and a slot at dump offset 4104: the codes for a
string in the dump and for a cons in Emacs. -/
theorem lv_reloc_type_round_trip_witness :
    dump_decode_dump_reloc [lisp_value.fixnum 9, dump_off_to_lisp 4104]
        = Except.ok ⟨1026, 9⟩
      ∧ dump_make_lv_from_reloc sample_host 1048576 ⟨1026, 9⟩ (fun _ => 8192)
          = sample_host.make_lisp_ptr 1056768 4
      ∧ ∃ reloc : dump_reloc,
          dump_reloc_dump_to_emacs_lv sample_context 4104 Lisp_Type.Lisp_Cons
              = Except.ok (push_dump_reloc sample_context reloc_phase.EARLY_RELOCS
                  [lisp_value.fixnum ((RELOC_DUMP_TO_EMACS_LV : Int)
                      + Lisp_Type.Lisp_Cons.code), dump_off_to_lisp 4104])
            ∧ dump_decode_dump_reloc
                [lisp_value.fixnum ((RELOC_DUMP_TO_EMACS_LV : Int)
                    + Lisp_Type.Lisp_Cons.code), dump_off_to_lisp 4104] = Except.ok reloc
            ∧ (reloc.type : Int) = (RELOC_DUMP_TO_EMACS_LV : Int) + Lisp_Type.Lisp_Cons.code
            ∧ ∀ (dump_base : Nat) (image : Int → Nat),
                dump_make_lv_from_reloc sample_host dump_base reloc image =
                  sample_host.make_lisp_ptr
                    ((image 4104 + sample_host.emacs_basis) % 2 ^ sample_host.ptr_width)
                    Lisp_Type.Lisp_Cons.code :=
  ⟨by rfl, by rfl,
    (lv_reloc_type_round_trip sample_host rfl sample_context rfl 4104 (by decide) (by decide)
      (by decide)).2.1 Lisp_Type.Lisp_Cons (by decide)⟩

/-! ### Merging emacs relocations -/

theorem to_signed_length_bits (l : Int) (h0 : -(2 ^ 28) ≤ l) (h1 : l < 2 ^ 28) :
    to_signed EMACS_RELOC_LENGTH_BITS l = l :=
  to_signed_of_range 29 (by decide) l (by simpa using h0) (by simpa using h1)

theorem to_signed_length_bits_range (l : Int) :
    -(2 ^ 28) ≤ to_signed EMACS_RELOC_LENGTH_BITS l
      ∧ to_signed EMACS_RELOC_LENGTH_BITS l < 2 ^ 28 := by
  unfold to_signed EMACS_RELOC_LENGTH_BITS DUMP_OFF_WIDTH EMACS_RELOC_TYPE_BITS
  have h1 := Int.emod_nonneg (l + 2 ^ (32 - 3 - 1)) (show (2 : Int) ^ (32 - 3) ≠ 0 by norm_num)
  have h2 := Int.emod_lt_of_pos (l + 2 ^ (32 - 3 - 1)) (show (0 : Int) < 2 ^ (32 - 3) by norm_num)
  norm_num at h1 h2 ⊢
  omega

theorem dump_check_emacs_off_ok (chk : Bool) (emacs_off : Int)
    (h : chk = true → |emacs_off| ≤ 60 * 1024 * 1024) :
    dump_check_emacs_off chk emacs_off = Except.ok () := by
  unfold dump_check_emacs_off
  rw [if_neg (fun hc => hc.2 (h hc.1))]

theorem dump_check_emacs_off_inv (chk : Bool) (emacs_off : Int) (u : Unit)
    (h : dump_check_emacs_off chk emacs_off = Except.ok u) :
    chk = true → |emacs_off| ≤ 60 * 1024 * 1024 := by
  intro hk
  unfold dump_check_emacs_off at h
  by_contra hcon
  rw [if_pos ⟨hk, hcon⟩] at h
  cases h

theorem dump_check_dump_off_ok (chk : Bool) (eh : Option Int) (dump_offset : Int)
    (h : chk = true → 0 < dump_offset ∧ ∀ e, eh = some e → dump_offset < e) :
    dump_check_dump_off chk eh dump_offset = Except.ok () := by
  unfold dump_check_dump_off
  rw [if_neg (fun hc => hc.2 (h hc.1).1)]
  cases eh with
  | none => rfl
  | some e =>
    simp only
    rw [if_neg (fun hc => hc.2 ((h hc.1).2 e rfl))]

theorem dump_check_dump_off_inv (chk : Bool) (eh : Option Int) (dump_offset : Int) (u : Unit)
    (h : dump_check_dump_off chk eh dump_offset = Except.ok u) :
    chk = true → 0 < dump_offset ∧ ∀ e, eh = some e → dump_offset < e := by
  intro hk
  unfold dump_check_dump_off at h
  by_cases h0 : 0 < dump_offset
  · refine ⟨h0, ?_⟩
    intro e he
    subst he
    rw [if_neg (fun hc => hc.2 h0)] at h
    simp only at h
    by_contra hcon
    rw [if_pos ⟨hk, hcon⟩] at h
    cases h
  · rw [if_pos ⟨hk, h0⟩] at h
    cases h

/-- What `decode_emacs_reloc` asks of a `RELOC_EMACS_COPY_FROM_DUMP`
descriptor with the offsets `e` and `d` and the length `l`: the offsets are
values of `dump_off`, the length fits the bit-field, and with
`ENABLE_CHECKING` the descriptor ends there and the `eassert`s of
`dump_check_emacs_off` and `dump_check_dump_off` hold. -/
theorem decode_copy_from_dump_rest (chk : Bool) (eh : Option Int) (e d l : Int)
    (rest : lisp_reloc)
    (he0 : DUMP_OFF_MIN ≤ e) (he1 : e ≤ DUMP_OFF_MAX)
    (hd0 : DUMP_OFF_MIN ≤ d) (hd1 : d ≤ DUMP_OFF_MAX)
    (h0 : -(2 ^ 28) ≤ l) (h1 : l < 2 ^ 28)
    (hchk : chk = true →
      rest = [] ∧ |e| ≤ 60 * 1024 * 1024 ∧ 0 < d
        ∧ ∀ end_heap, eh = some end_heap → d < end_heap) :
    decode_emacs_reloc chk eh
        (lisp_value.fixnum RELOC_EMACS_COPY_FROM_DUMP :: dump_off_to_lisp e :: dump_off_to_lisp d
          :: dump_off_to_lisp l :: rest)
      = Except.ok ⟨RELOC_EMACS_COPY_FROM_DUMP, l, e, d⟩ := by
  have hl0 : DUMP_OFF_MIN ≤ l := by unfold DUMP_OFF_MIN; omega
  have hl1 : l ≤ DUMP_OFF_MAX := by unfold DUMP_OFF_MAX; omega
  simp only [decode_emacs_reloc, dump_pop, intmax_t_from_lisp, dump_off_to_lisp, bind,
    Except.bind, dump_off_from_lisp_fixnum e he0 he1, dump_off_from_lisp_fixnum d hd0 hd1,
    dump_off_from_lisp_fixnum l hl0 hl1,
    dump_check_emacs_off_ok chk e (fun hk => (hchk hk).2.1),
    dump_check_dump_off_ok chk eh d (fun hk => (hchk hk).2.2),
    if_true, to_signed_length_bits l h0 h1, ne_eq, not_true_eq_false, if_false]
  rw [if_neg (fun hc => hc.2 (hchk hc.1).1)]

theorem decode_copy_from_dump (chk : Bool) (eh : Option Int) (e d l : Int)
    (he0 : DUMP_OFF_MIN ≤ e) (he1 : e ≤ DUMP_OFF_MAX)
    (hd0 : DUMP_OFF_MIN ≤ d) (hd1 : d ≤ DUMP_OFF_MAX)
    (h0 : -(2 ^ 28) ≤ l) (h1 : l < 2 ^ 28)
    (hchk : chk = true →
      |e| ≤ 60 * 1024 * 1024 ∧ 0 < d ∧ ∀ end_heap, eh = some end_heap → d < end_heap) :
    decode_emacs_reloc chk eh
        [lisp_value.fixnum RELOC_EMACS_COPY_FROM_DUMP, dump_off_to_lisp e, dump_off_to_lisp d,
          dump_off_to_lisp l]
      = Except.ok ⟨RELOC_EMACS_COPY_FROM_DUMP, l, e, d⟩ :=
  decode_copy_from_dump_rest chk eh e d l [] he0 he1 hd0 hd1 h0 h1
    (fun hk => ⟨rfl, hchk hk⟩)

theorem decode_emacs_reloc_copy (chk : Bool) (eh : Option Int) (d : lisp_reloc)
    (e : emacs_reloc) (h : decode_emacs_reloc chk eh d = Except.ok e)
    (ht : e.type = RELOC_EMACS_COPY_FROM_DUMP) :
    ∃ eo dof l rest, d = lisp_value.fixnum RELOC_EMACS_COPY_FROM_DUMP :: dump_off_to_lisp eo
          :: dump_off_to_lisp dof :: dump_off_to_lisp l :: rest
      ∧ e = ⟨RELOC_EMACS_COPY_FROM_DUMP, l, eo, dof⟩ ∧ -(2 ^ 28) ≤ l ∧ l < 2 ^ 28
      ∧ DUMP_OFF_MIN ≤ eo ∧ eo ≤ DUMP_OFF_MAX ∧ DUMP_OFF_MIN ≤ dof ∧ dof ≤ DUMP_OFF_MAX
      ∧ (chk = true →
          rest = [] ∧ |eo| ≤ 60 * 1024 * 1024 ∧ 0 < dof
            ∧ ∀ end_heap, eh = some end_heap → dof < end_heap) := by
  obtain ⟨t, hd, hr0, hr1, hk⟩ := decode_emacs_reloc_inv chk eh d e h
  rw [ht] at hd
  subst hd
  unfold decode_emacs_reloc at h
  simp only [dump_pop, bind, Except.bind, intmax_t_from_lisp,
    dump_off_from_lisp_fixnum e.emacs_offset hr0 hr1,
    dump_check_emacs_off_ok chk e.emacs_offset hk, if_true] at h
  rcases t with _ | ⟨v3, _ | ⟨v4, rest⟩⟩
  · simp at h
  · cases ho3 : dump_off_from_lisp v3 with
    | error msg => simp [ho3] at h
    | ok dof =>
      cases hc3 : dump_check_dump_off chk eh dof with
      | error msg => simp [ho3, hc3] at h
      | ok u => simp [ho3, hc3] at h
  · cases ho3 : dump_off_from_lisp v3 with
    | error msg => simp [ho3] at h
    | ok dof =>
      cases hc3 : dump_check_dump_off chk eh dof with
      | error msg => simp [ho3, hc3] at h
      | ok u =>
        cases ho4 : dump_off_from_lisp v4 with
        | error msg => simp [ho3, hc3, ho4] at h
        | ok l =>
          obtain ⟨hv3, hd0, hd1⟩ := dump_off_from_lisp_ok v3 dof ho3
          obtain ⟨hv4, _, _⟩ := dump_off_from_lisp_ok v4 l ho4
          subst hv3 hv4
          simp only [ho3, hc3, ho4] at h
          by_cases hfit : to_signed EMACS_RELOC_LENGTH_BITS l = l
          · rw [if_neg (by simpa using hfit)] at h
            simp only at h
            have hr := to_signed_length_bits_range l
            rw [hfit] at hr
            by_cases hrest : chk = true ∧ rest ≠ []
            · rw [if_pos hrest] at h
              cases h
            · rw [if_neg hrest] at h
              have he : (⟨RELOC_EMACS_COPY_FROM_DUMP, l, e.emacs_offset, dof⟩ : emacs_reloc)
                  = e := by
                have := Except.ok.inj h
                rw [hfit] at this
                exact this
              refine ⟨e.emacs_offset, dof, l, rest, rfl, he.symm, hr.1, hr.2, hr0, hr1, hd0, hd1,
                ?_⟩
              intro hchk
              have hc := dump_check_dump_off_inv chk eh dof u hc3 hchk
              refine ⟨?_, hk hchk, hc.1, hc.2⟩
              by_contra hne
              exact hrest ⟨hchk, hne⟩
          · rw [if_pos (by simpa using hfit)] at h
            cases h

theorem decode_emacs_reloc_null (chk : Bool) (eh : Option Int) (d : lisp_reloc)
    (e : emacs_reloc) (h : decode_emacs_reloc chk eh d = Except.ok e)
    (ht : e.type = RELOC_EMACS_COPY_FROM_DUMP) :
    decode_emacs_reloc chk none d = Except.ok e := by
  obtain ⟨eo, dof, l, rest, hd, he, hl0, hl1, he0, he1, hd0, hd1, hk⟩ :=
    decode_emacs_reloc_copy chk eh d e h ht
  rw [hd, he]
  exact decode_copy_from_dump_rest chk none eo dof l rest he0 he1 hd0 hd1 hl0 hl1
    (fun hc => ⟨(hk hc).1, (hk hc).2.1, (hk hc).2.2.1, fun _ hn => by cases hn⟩)

theorem dump_merge_emacs_relocs_prelude (chk : Bool) (a b : lisp_reloc) (ra rb : emacs_reloc)
    (eha ehb : Option Int)
    (hda : decode_emacs_reloc chk eha a = Except.ok ra)
    (hdb : decode_emacs_reloc chk ehb b = Except.ok rb)
    (hchk : chk = true → ra.emacs_offset < rb.emacs_offset) :
    (if chk = true then dump_merge_emacs_relocs_check a b else Except.ok ()) = Except.ok () := by
  obtain ⟨ta, hra, ha0, ha1, _⟩ := decode_emacs_reloc_inv chk eha a ra hda
  obtain ⟨tb, hrb, hb0, hb1, _⟩ := decode_emacs_reloc_inv chk ehb b rb hdb
  by_cases hk : chk = true
  · rw [if_pos hk, hra, hrb]
    exact dump_merge_emacs_relocs_check_of _ _ _ _ _ _ ha0 ha1 hb0 hb1 (hchk hk)
  · rw [if_neg hk]

theorem dump_merge_emacs_relocs_types (chk : Bool) (a b : lisp_reloc) (ra rb : emacs_reloc)
    (eha ehb : Option Int)
    (hda : decode_emacs_reloc chk eha a = Except.ok ra)
    (hdb : decode_emacs_reloc chk ehb b = Except.ok rb)
    (hchk : chk = true → ra.emacs_offset < rb.emacs_offset)
    (hty : ra.type ≠ RELOC_EMACS_COPY_FROM_DUMP ∨ rb.type ≠ RELOC_EMACS_COPY_FROM_DUMP) :
    dump_merge_emacs_relocs chk a b = Except.ok none := by
  have hpre := dump_merge_emacs_relocs_prelude chk a b ra rb eha ehb hda hdb hchk
  obtain ⟨ta, hra, _⟩ := decode_emacs_reloc_inv chk eha a ra hda
  obtain ⟨tb, hrb, _⟩ := decode_emacs_reloc_inv chk ehb b rb hdb
  unfold dump_merge_emacs_relocs
  simp only [bind, Except.bind, hpre]
  rw [hra, hrb]
  simp only [dump_pop, intmax_t_from_lisp]
  rw [if_pos hty]

theorem dump_merge_emacs_relocs_copy (chk : Bool) (a b : lisp_reloc) (ra rb : emacs_reloc)
    (hda : decode_emacs_reloc chk none a = Except.ok ra)
    (hdb : decode_emacs_reloc chk none b = Except.ok rb)
    (hta : ra.type = RELOC_EMACS_COPY_FROM_DUMP) (htb : rb.type = RELOC_EMACS_COPY_FROM_DUMP)
    (hchk : chk = true → ra.emacs_offset < rb.emacs_offset) :
    dump_merge_emacs_relocs chk a b =
      if ra.emacs_offset + ra.length ≠ rb.emacs_offset then Except.ok none
      else if ra.u + ra.length ≠ rb.u then Except.ok none
      else if to_signed EMACS_RELOC_LENGTH_BITS (ra.length + rb.length)
          ≠ ra.length + rb.length then Except.ok none
      else
        Except.ok (some
          [lisp_value.fixnum RELOC_EMACS_COPY_FROM_DUMP, dump_off_to_lisp ra.emacs_offset,
            dump_off_to_lisp ra.u,
            dump_off_to_lisp (to_signed EMACS_RELOC_LENGTH_BITS (ra.length + rb.length))]) := by
  have hpre := dump_merge_emacs_relocs_prelude chk a b ra rb none none hda hdb hchk
  obtain ⟨ta, hra, _⟩ := decode_emacs_reloc_inv chk none a ra hda
  obtain ⟨tb, hrb, _⟩ := decode_emacs_reloc_inv chk none b rb hdb
  unfold dump_merge_emacs_relocs
  simp only [bind, Except.bind, hpre, hda, hdb]
  rw [hra, hrb]
  simp only [dump_pop, intmax_t_from_lisp]
  rw [if_neg (by rw [hta, htb]; simp)]

/-- C13 (amended): `a` and `b` are descriptors that `decode_emacs_reloc`
decodes, without a context as `dump_merge_emacs_relocs` does, to the
`RELOC_EMACS_COPY_FROM_DUMP` records `ra` and `rb`, whose targets and whose
sources are contiguous; with `ENABLE_CHECKING` the offset of `ra` is below
that of `rb`, as the `eassert` of `dump_merge_emacs_relocs` demands.  When
the summed length fits the signed 29-bit length field,
`dump_merge_emacs_relocs` returns the descriptor of one such record with the
`emacs_offset` and `dump_offset` of `ra` and the summed length, and
`decode_emacs_reloc` decodes it to that record in every context in which it
decodes `a`.  When the summed length does not fit, it returns `Qnil`. -/
theorem dump_merge_emacs_relocs_contiguous (ENABLE_CHECKING : Bool) (a b : lisp_reloc)
    (ra rb : emacs_reloc)
    (hda : decode_emacs_reloc ENABLE_CHECKING none a = Except.ok ra)
    (hdb : decode_emacs_reloc ENABLE_CHECKING none b = Except.ok rb)
    (hta : ra.type = RELOC_EMACS_COPY_FROM_DUMP) (htb : rb.type = RELOC_EMACS_COPY_FROM_DUMP)
    (hchk : ENABLE_CHECKING = true → ra.emacs_offset < rb.emacs_offset)
    (he : ra.emacs_offset + ra.length = rb.emacs_offset)
    (hd : ra.u + ra.length = rb.u) :
    (-(2 ^ 28) ≤ ra.length + rb.length ∧ ra.length + rb.length < 2 ^ 28 →
        dump_merge_emacs_relocs ENABLE_CHECKING a b
            = Except.ok (some
                [lisp_value.fixnum RELOC_EMACS_COPY_FROM_DUMP, dump_off_to_lisp ra.emacs_offset,
                  dump_off_to_lisp ra.u, dump_off_to_lisp (ra.length + rb.length)])
          ∧ ∀ end_heap : Option Int,
              decode_emacs_reloc ENABLE_CHECKING end_heap a = Except.ok ra →
              decode_emacs_reloc ENABLE_CHECKING end_heap
                  [lisp_value.fixnum RELOC_EMACS_COPY_FROM_DUMP,
                    dump_off_to_lisp ra.emacs_offset, dump_off_to_lisp ra.u,
                    dump_off_to_lisp (ra.length + rb.length)]
                = Except.ok
                    ⟨RELOC_EMACS_COPY_FROM_DUMP, ra.length + rb.length, ra.emacs_offset, ra.u⟩)
      ∧ (¬ (-(2 ^ 28) ≤ ra.length + rb.length ∧ ra.length + rb.length < 2 ^ 28) →
          dump_merge_emacs_relocs ENABLE_CHECKING a b = Except.ok none) := by
  have hm := dump_merge_emacs_relocs_copy ENABLE_CHECKING a b ra rb hda hdb hta htb hchk
  rw [if_neg (by simpa using he), if_neg (by simpa using hd)] at hm
  refine ⟨?_, ?_⟩
  · intro hfit
    have hs := to_signed_length_bits (ra.length + rb.length) hfit.1 hfit.2
    rw [hs, if_neg (by simp)] at hm
    refine ⟨hm, ?_⟩
    intro end_heap hdec
    obtain ⟨eo, dof, l, rest, _, hra, _, _, he0, he1, hd0, hd1, hk⟩ :=
      decode_emacs_reloc_copy ENABLE_CHECKING end_heap a ra hdec hta
    have hoff : ra.emacs_offset = eo := by rw [hra]
    have hu : ra.u = dof := by rw [hra]
    rw [hoff, hu]
    exact decode_copy_from_dump ENABLE_CHECKING end_heap eo dof _ he0 he1 hd0 hd1 hfit.1 hfit.2
      (fun hc => (hk hc).2)
  · intro hfit
    have hs : to_signed EMACS_RELOC_LENGTH_BITS (ra.length + rb.length)
        ≠ ra.length + rb.length := by
      intro hc
      have hr := to_signed_length_bits_range (ra.length + rb.length)
      rw [hc] at hr
      exact hfit hr
    rw [if_pos hs] at hm
    exact hm

/-- C13 at the copies of 8 bytes to offset 8 and of 4 bytes to offset 16 of
Emacs, from the dump offsets 100 and 108, with `ENABLE_CHECKING`: they are
merged into the copy of 12 bytes. -/
theorem dump_merge_emacs_relocs_contiguous_witness :
    dump_merge_emacs_relocs true
        [lisp_value.fixnum 0, lisp_value.fixnum 8, lisp_value.fixnum 100, lisp_value.fixnum 8]
        [lisp_value.fixnum 0, lisp_value.fixnum 16, lisp_value.fixnum 108, lisp_value.fixnum 4]
      = Except.ok (some
          [lisp_value.fixnum RELOC_EMACS_COPY_FROM_DUMP, dump_off_to_lisp 8,
            dump_off_to_lisp 100, dump_off_to_lisp (8 + 4)])
    ∧ ∀ end_heap : Option Int,
        decode_emacs_reloc true end_heap
            [lisp_value.fixnum 0, lisp_value.fixnum 8, lisp_value.fixnum 100,
              lisp_value.fixnum 8]
          = Except.ok ⟨RELOC_EMACS_COPY_FROM_DUMP, 8, 8, 100⟩ →
        decode_emacs_reloc true end_heap
            [lisp_value.fixnum RELOC_EMACS_COPY_FROM_DUMP, dump_off_to_lisp 8,
              dump_off_to_lisp 100, dump_off_to_lisp (8 + 4)]
          = Except.ok ⟨RELOC_EMACS_COPY_FROM_DUMP, 8 + 4, 8, 100⟩ :=
  (dump_merge_emacs_relocs_contiguous true
    [lisp_value.fixnum 0, lisp_value.fixnum 8, lisp_value.fixnum 100, lisp_value.fixnum 8]
    [lisp_value.fixnum 0, lisp_value.fixnum 16, lisp_value.fixnum 108, lisp_value.fixnum 4]
    ⟨RELOC_EMACS_COPY_FROM_DUMP, 8, 8, 100⟩ ⟨RELOC_EMACS_COPY_FROM_DUMP, 4, 16, 108⟩
    rfl rfl rfl rfl (fun _ => by decide) (by decide) (by decide)).1 (by decide)

/-- Two `RELOC_EMACS_COPY_FROM_DUMP` descriptors, of 60 MiB to offset 0 of
Emacs and of 2^28 bytes less 60 MiB to offset 60 MiB, from contiguous ranges
of the dump: both are decoded without error under `ENABLE_CHECKING`; the
summed length 2^28 does not fit the length field and
`dump_merge_emacs_relocs` returns `Qnil`, with `ENABLE_CHECKING` and
without. -/
theorem dump_merge_emacs_relocs_overflow_counterexample :
    decode_emacs_reloc true none
        [lisp_value.fixnum RELOC_EMACS_COPY_FROM_DUMP, dump_off_to_lisp 0,
          dump_off_to_lisp 4096, dump_off_to_lisp 62914560]
      = Except.ok ⟨RELOC_EMACS_COPY_FROM_DUMP, 62914560, 0, 4096⟩
    ∧ decode_emacs_reloc true none
        [lisp_value.fixnum RELOC_EMACS_COPY_FROM_DUMP, dump_off_to_lisp 62914560,
          dump_off_to_lisp 62918656, dump_off_to_lisp 205520896]
      = Except.ok ⟨RELOC_EMACS_COPY_FROM_DUMP, 205520896, 62914560, 62918656⟩
    ∧ (0 : Int) + 62914560 = 62914560 ∧ (4096 : Int) + 62914560 = 62918656
    ∧ dump_merge_emacs_relocs true
        [lisp_value.fixnum RELOC_EMACS_COPY_FROM_DUMP, dump_off_to_lisp 0,
          dump_off_to_lisp 4096, dump_off_to_lisp 62914560]
        [lisp_value.fixnum RELOC_EMACS_COPY_FROM_DUMP, dump_off_to_lisp 62914560,
          dump_off_to_lisp 62918656, dump_off_to_lisp 205520896]
      = Except.ok none
    ∧ dump_merge_emacs_relocs false
        [lisp_value.fixnum RELOC_EMACS_COPY_FROM_DUMP, dump_off_to_lisp 0,
          dump_off_to_lisp 4096, dump_off_to_lisp 62914560]
        [lisp_value.fixnum RELOC_EMACS_COPY_FROM_DUMP, dump_off_to_lisp 62914560,
          dump_off_to_lisp 62918656, dump_off_to_lisp 205520896]
      = Except.ok none :=
  ⟨by rfl, by rfl, by decide, by decide, by rfl, by rfl⟩

theorem memcpy_append (mem : Nat → Nat) (dst : Nat) (src : Nat → Nat) (n1 n2 : Nat) :
    memcpy (memcpy mem dst src n1) (dst + n1) (fun i => src (n1 + i)) n2
      = memcpy mem dst src (n1 + n2) := by
  funext q
  unfold memcpy
  by_cases h2 : dst + n1 ≤ q ∧ q < dst + n1 + n2
  · rw [if_pos h2, if_pos ⟨by omega, by omega⟩]
    show src (n1 + (q - (dst + n1))) = src (q - dst)
    congr 1
    omega
  · rw [if_neg h2]
    by_cases h1 : dst ≤ q ∧ q < dst + n1
    · rw [if_pos h1, if_pos ⟨h1.1, by omega⟩]
    · rw [if_neg h1, if_neg (by omega)]

theorem emacs_ptr_at_add (h : host) (e l : Int) (hl : 0 ≤ l)
    (hfit : (emacs_ptr_at h e : Int) + l < 2 ^ h.ptr_width) :
    emacs_ptr_at h (e + l) = emacs_ptr_at h e + l.toNat := by
  unfold emacs_ptr_at to_unsigned at *
  have hpos : (0 : Int) < 2 ^ h.ptr_width := by positivity
  have h0 := Int.emod_nonneg ((h.emacs_basis : Int) + e) (ne_of_gt hpos)
  rw [Int.toNat_of_nonneg h0] at hfit
  have hmod : ((h.emacs_basis : Int) + (e + l)) % 2 ^ h.ptr_width
      = ((h.emacs_basis : Int) + e) % 2 ^ h.ptr_width + l := by
    rw [← add_assoc, ← Int.emod_add_emod]
    exact Int.emod_eq_of_lt (by omega) hfit
  rw [hmod, Int.toNat_add h0 hl]

theorem dump_do_emacs_relocation_merged (h : host) (rp : object_repr) (dump_base : Nat)
    (dump : Int → Nat) (mem : Nat → Nat) (e d la lb : Int) (hla : 0 < la) (hlb : 0 < lb)
    (hfit : (emacs_ptr_at h e : Int) + (la + lb) ≤ 2 ^ h.ptr_width) :
    dump_do_emacs_relocation h rp dump_base dump
        ⟨RELOC_EMACS_COPY_FROM_DUMP, la + lb, e, d⟩ mem
      = (dump_do_emacs_relocation h rp dump_base dump ⟨RELOC_EMACS_COPY_FROM_DUMP, la, e, d⟩
            mem).bind
          (dump_do_emacs_relocation h rp dump_base dump
            ⟨RELOC_EMACS_COPY_FROM_DUMP, lb, e + la, d + la⟩) := by
  unfold dump_do_emacs_relocation
  simp only [if_true, hla, hlb, show la + lb > 0 by omega, gt_iff_lt, Option.bind_some,
    Option.some_bind]
  rw [emacs_ptr_at_add h e la (by omega) (by omega), Int.toNat_add (by omega) (by omega),
    ← memcpy_append]
  have hsrc : (fun i : Nat => dump (d + ((la.toNat + i : Nat) : Int)))
      = fun i : Nat => dump (d + la + (i : Int)) := by
    funext i
    congr 1
    push_cast
    rw [Int.toNat_of_nonneg (by omega)]
    omega
  rw [hsrc]

theorem drain_relocs_not_merged {α : Type} (handler : lisp_reloc → Except String α)
    (merge : lisp_reloc → lisp_reloc → Except String (Option lisp_reloc))
    (a b : lisp_reloc) (rest : List lisp_reloc) (ra : α) (table : List α)
    (hm : merge a b = Except.ok none) (ha : handler a = Except.ok ra)
    (hrest : drain_relocs handler (some merge) (some b) rest = Except.ok table) :
    drain_relocs handler (some merge) (some a) (b :: rest) = Except.ok (ra :: table) := by
  rw [drain_relocs]
  simp only [hm, ha, hrest, bind, Except.bind]

/-- C14 (amended): `a` and `b` are descriptors that `dump_emit_emacs_reloc`
emits as the records `ra` and `rb`; with `ENABLE_CHECKING` the offset of `a`
is below that of `b`, as the `eassert` of `dump_merge_emacs_relocs` demands.
When `dump_merge_emacs_relocs` returns a merged descriptor, it is emitted as
the copy of `ra.length + rb.length` bytes from the source of `ra` to the
target of `ra`, and for positive lengths and a target range inside the
address space `dump_do_emacs_relocation` of it leaves the memory of Emacs as
`dump_do_emacs_relocation` of `ra` followed by that of `rb` does.  When one
of the records is not `RELOC_EMACS_COPY_FROM_DUMP`, or the targets or the
sources are not contiguous, the result is `Qnil`; then `drain_reloc_list`
emits `ra` as it is and goes on with the second descriptor as the pending
one, so that a list of just the two is emitted as `ra`, `rb`. -/
theorem dump_merge_emacs_relocs_meaning (ENABLE_CHECKING : Bool) (end_heap : Int)
    (a b : lisp_reloc) (ra rb : emacs_reloc)
    (hda : dump_emit_emacs_reloc ENABLE_CHECKING end_heap a = Except.ok ra)
    (hdb : dump_emit_emacs_reloc ENABLE_CHECKING end_heap b = Except.ok rb)
    (hchk : ENABLE_CHECKING = true → lisp_reloc_offset a < lisp_reloc_offset b) :
    (∀ m, dump_merge_emacs_relocs ENABLE_CHECKING a b = Except.ok (some m) →
        dump_emit_emacs_reloc ENABLE_CHECKING end_heap m
            = Except.ok ⟨RELOC_EMACS_COPY_FROM_DUMP, ra.length + rb.length, ra.emacs_offset, ra.u⟩
          ∧ ∀ (h : host) (rp : object_repr) (dump_base : Nat) (dump : Int → Nat)
              (mem : Nat → Nat),
              0 < ra.length → 0 < rb.length →
              (emacs_ptr_at h ra.emacs_offset : Int) + (ra.length + rb.length)
                ≤ 2 ^ h.ptr_width →
              dump_do_emacs_relocation h rp dump_base dump
                  ⟨RELOC_EMACS_COPY_FROM_DUMP, ra.length + rb.length, ra.emacs_offset, ra.u⟩ mem
                = (dump_do_emacs_relocation h rp dump_base dump ra mem).bind
                    (dump_do_emacs_relocation h rp dump_base dump rb))
      ∧ ((ra.type ≠ RELOC_EMACS_COPY_FROM_DUMP ∨ rb.type ≠ RELOC_EMACS_COPY_FROM_DUMP
            ∨ ra.emacs_offset + ra.length ≠ rb.emacs_offset ∨ ra.u + ra.length ≠ rb.u) →
          dump_merge_emacs_relocs ENABLE_CHECKING a b = Except.ok none
            ∧ (∀ (rest : List lisp_reloc) (table : List emacs_reloc),
                drain_relocs (dump_emit_emacs_reloc ENABLE_CHECKING end_heap)
                    (some (dump_merge_emacs_relocs ENABLE_CHECKING)) (some b) rest
                  = Except.ok table →
                drain_relocs (dump_emit_emacs_reloc ENABLE_CHECKING end_heap)
                    (some (dump_merge_emacs_relocs ENABLE_CHECKING)) (some a) (b :: rest)
                  = Except.ok (ra :: table))
            ∧ (lisp_reloc_offset a ≤ lisp_reloc_offset b →
                drain_emacs_relocs ENABLE_CHECKING end_heap [b, a] = Except.ok [ra, rb])) := by
  unfold dump_emit_emacs_reloc at hda hdb
  have hoa := decode_emacs_reloc_offset _ _ a ra hda
  have hob := decode_emacs_reloc_offset _ _ b rb hdb
  have hchk1 : ENABLE_CHECKING = true → ra.emacs_offset < rb.emacs_offset := by
    intro hk
    rw [hoa, hob]
    exact hchk hk
  refine ⟨?_, ?_⟩
  · intro m hm
    obtain ⟨ra1, rb1, h1, h2, hta1, htb1, he, hd, hfit, hmeq⟩ :=
      dump_merge_emacs_relocs_some ENABLE_CHECKING a b m hm
    obtain ⟨t1, ha1, _⟩ := decode_emacs_reloc_inv _ _ a ra1 h1
    obtain ⟨t2, ha2, _⟩ := decode_emacs_reloc_inv _ _ a ra hda
    obtain ⟨t3, hb1, _⟩ := decode_emacs_reloc_inv _ _ b rb1 h2
    obtain ⟨t4, hb2, _⟩ := decode_emacs_reloc_inv _ _ b rb hdb
    have hta : ra.type = RELOC_EMACS_COPY_FROM_DUMP := by
      rw [ha1] at ha2
      simp only [List.cons.injEq, lisp_value.fixnum.injEq] at ha2
      rw [← ha2.1, hta1]
    have htb : rb.type = RELOC_EMACS_COPY_FROM_DUMP := by
      rw [hb1] at hb2
      simp only [List.cons.injEq, lisp_value.fixnum.injEq] at hb2
      rw [← hb2.1, htb1]
    have hra : ra1 = ra := by
      have := decode_emacs_reloc_null _ _ a ra hda hta
      rw [h1] at this
      exact Except.ok.inj this
    have hrb : rb1 = rb := by
      have := decode_emacs_reloc_null _ _ b rb hdb htb
      rw [h2] at this
      exact Except.ok.inj this
    subst hra hrb
    have hr := to_signed_length_bits_range (ra1.length + rb1.length)
    rw [hfit] at hr
    refine ⟨?_, ?_⟩
    · rw [hmeq]
      obtain ⟨eo, dof, l, rest, _, hrec, _, _, he0, he1, hd0, hd1, hk⟩ :=
        decode_emacs_reloc_copy _ _ a ra1 hda hta
      have hoff : ra1.emacs_offset = eo := by rw [hrec]
      have hu : ra1.u = dof := by rw [hrec]
      rw [hoff, hu]
      exact decode_copy_from_dump ENABLE_CHECKING (some end_heap) eo dof _ he0 he1 hd0 hd1
        hr.1 hr.2 (fun hc => (hk hc).2)
    · intro h rp dump_base dump mem hla hlb hrange
      have hra : ra1 = ⟨RELOC_EMACS_COPY_FROM_DUMP, ra1.length, ra1.emacs_offset, ra1.u⟩ := by
        rw [← hta]
      have hrb : rb1 = ⟨RELOC_EMACS_COPY_FROM_DUMP, rb1.length, ra1.emacs_offset + ra1.length,
          ra1.u + ra1.length⟩ := by
        rw [← htb, he, hd]
      rw [dump_do_emacs_relocation_merged h rp dump_base dump mem _ _ _ _ hla hlb hrange,
        ← hra, ← hrb]
  · intro hno
    have hnone : dump_merge_emacs_relocs ENABLE_CHECKING a b = Except.ok none := by
      by_cases hty : ra.type ≠ RELOC_EMACS_COPY_FROM_DUMP ∨ rb.type ≠ RELOC_EMACS_COPY_FROM_DUMP
      · exact dump_merge_emacs_relocs_types ENABLE_CHECKING a b ra rb _ _ hda hdb hchk1 hty
      · have hta : ra.type = RELOC_EMACS_COPY_FROM_DUMP := by
          by_contra hc; exact hty (Or.inl hc)
        have htb : rb.type = RELOC_EMACS_COPY_FROM_DUMP := by
          by_contra hc; exact hty (Or.inr hc)
        rw [dump_merge_emacs_relocs_copy ENABLE_CHECKING a b ra rb
          (decode_emacs_reloc_null _ _ a ra hda hta) (decode_emacs_reloc_null _ _ b rb hdb htb)
          hta htb hchk1]
        by_cases he : ra.emacs_offset + ra.length ≠ rb.emacs_offset
        · rw [if_pos he]
        · rw [if_neg he]
          by_cases hd : ra.u + ra.length ≠ rb.u
          · rw [if_pos hd]
          · exfalso
            rcases hno with h1 | h1 | h1 | h1
            · exact h1 hta
            · exact h1 htb
            · exact he h1
            · exact hd h1
    refine ⟨hnone, ?_, ?_⟩
    · intro rest table hrest
      exact drain_relocs_not_merged _ _ a b rest ra table hnone hda hrest
    · intro hle
      unfold drain_emacs_relocs drain_reloc_list
      have hsort : Fsort [b, a].reverse Fdump_emacs_portable__sort_predicate = [a, b] := by
        unfold Fsort Fdump_emacs_portable__sort_predicate
        simp only [List.reverse_cons, List.reverse_nil, List.nil_append, List.singleton_append,
          List.insertionSort, List.orderedInsert]
        rw [if_pos (by simpa using hle)]
      simp only [hsort]
      rw [drain_relocs]
      refine drain_relocs_not_merged _ _ a b [] ra [rb] hnone hda ?_
      rw [drain_relocs]
      simp only [dump_emit_emacs_reloc, hdb, bind, Except.bind]

/-- C14 at the copies of 8 bytes to offset 8 and of 4 bytes to offset 16 of
Emacs, from the dump offsets 100 and 108, with `ENABLE_CHECKING` and a heap
that ends at 4096. -/
theorem dump_merge_emacs_relocs_meaning_witness :
    dump_do_emacs_relocation sample_host sample_repr 1048576 (fun o => (o % 256).toNat)
        ⟨RELOC_EMACS_COPY_FROM_DUMP, 8 + 4, 8, 100⟩ (fun _ => 0)
      = (dump_do_emacs_relocation sample_host sample_repr 1048576 (fun o => (o % 256).toNat)
            ⟨RELOC_EMACS_COPY_FROM_DUMP, 8, 8, 100⟩ (fun _ => 0)).bind
          (dump_do_emacs_relocation sample_host sample_repr 1048576 (fun o => (o % 256).toNat)
            ⟨RELOC_EMACS_COPY_FROM_DUMP, 4, 16, 108⟩) :=
  ((dump_merge_emacs_relocs_meaning true 4096
      [lisp_value.fixnum 0, lisp_value.fixnum 8, lisp_value.fixnum 100, lisp_value.fixnum 8]
      [lisp_value.fixnum 0, lisp_value.fixnum 16, lisp_value.fixnum 108, lisp_value.fixnum 4]
      ⟨RELOC_EMACS_COPY_FROM_DUMP, 8, 8, 100⟩ ⟨RELOC_EMACS_COPY_FROM_DUMP, 4, 16, 108⟩
      rfl rfl (fun _ => by decide)).1
    [lisp_value.fixnum 0, lisp_value.fixnum 8, lisp_value.fixnum 100, lisp_value.fixnum 12]
    rfl).2 sample_host sample_repr 1048576 (fun o => (o % 256).toNat) (fun _ => 0)
    (by decide) (by decide) (by decide)

/-- In `sample_emacs_relocs` the first record is an immediate and the second
a copy, so `dump_merge_emacs_relocs` returns `Qnil` for them; the second is
then merged with the third, and the table holds the merged copy of 12 bytes
in place of the copy of 8 bytes.  All `eassert`s hold: the run is that with
`ENABLE_CHECKING` and a heap that ends at 4096. -/
theorem drain_reloc_list_merges_second_counterexample :
    dump_emit_emacs_reloc true 4096
        [lisp_value.fixnum 1, lisp_value.fixnum 0, lisp_value.fixnum 77, lisp_value.fixnum 4]
      = Except.ok ⟨RELOC_EMACS_IMMEDIATE, 4, 0, 77⟩
    ∧ dump_emit_emacs_reloc true 4096
        [lisp_value.fixnum 0, lisp_value.fixnum 8, lisp_value.fixnum 100, lisp_value.fixnum 8]
      = Except.ok ⟨RELOC_EMACS_COPY_FROM_DUMP, 8, 8, 100⟩
    ∧ RELOC_EMACS_IMMEDIATE ≠ RELOC_EMACS_COPY_FROM_DUMP
    ∧ dump_merge_emacs_relocs true
        [lisp_value.fixnum 1, lisp_value.fixnum 0, lisp_value.fixnum 77, lisp_value.fixnum 4]
        [lisp_value.fixnum 0, lisp_value.fixnum 8, lisp_value.fixnum 100, lisp_value.fixnum 8]
      = Except.ok none
    ∧ drain_emacs_relocs true 4096 sample_emacs_relocs
      = Except.ok [⟨RELOC_EMACS_IMMEDIATE, 4, 0, 77⟩, ⟨RELOC_EMACS_COPY_FROM_DUMP, 12, 8, 100⟩]
    ∧ (⟨RELOC_EMACS_COPY_FROM_DUMP, 8, 8, 100⟩ : emacs_reloc)
        ∉ [(⟨RELOC_EMACS_IMMEDIATE, 4, 0, 77⟩ : emacs_reloc),
            ⟨RELOC_EMACS_COPY_FROM_DUMP, 12, 8, 100⟩] := by
  refine ⟨by rfl, by rfl, by decide, by rfl, by rfl, by decide⟩

/-! ### The write offset does not go back -/

theorem dump_alignment_pos (pf : platform) : (0 : Int) < (DUMP_ALIGNMENT pf.GCALIGNMENT : Int) := by
  unfold DUMP_ALIGNMENT DUMP_RELOCATION_ALIGNMENT
  have : (4 : Nat) ≤ max pf.GCALIGNMENT 4 := le_max_right _ _
  omega

theorem dump_write_zero_offset_le (ctx : dump_context) (n : Int) :
    ctx.offset ≤ (dump_write_zero ctx n).offset := by
  unfold dump_write_zero dump_write
  split
  · show ctx.offset ≤ ctx.offset + n
    omega
  · exact le_refl _

theorem dump_align_output_offset_le (ctx : dump_context) (a : Int) :
    ctx.offset ≤ (dump_align_output ctx a).offset := by
  unfold dump_align_output
  split
  · exact dump_write_zero_offset_le _ _
  · exact le_refl _

theorem dump_remember_cold_op_offset (ctx : dump_context) (op : Int) (arg : Nat) :
    (dump_remember_cold_op ctx op arg).offset = ctx.offset := by
  unfold dump_remember_cold_op
  split <;> rfl

theorem dump_object_start_offset_le (pf : platform) (ctx : dump_context) :
    ctx.offset ≤ (dump_object_start pf ctx).offset := by
  unfold dump_object_start
  dsimp only
  split
  · exact dump_align_output_offset_le _ _
  · exact le_refl _

theorem dump_object_finish_offset_le (ctx : dump_context) (sz : Int) (hsz : 0 ≤ sz) :
    ctx.offset ≤ (dump_object_finish ctx sz).1.offset := by
  unfold dump_object_finish dump_write
  dsimp only
  split
  · show ctx.offset ≤ ctx.offset + sz
    omega
  · exact le_refl _

theorem dump_one_object_offset_le (pf : platform) (ctx : dump_context) (sz : Int)
    (hsz : 0 ≤ sz) : ctx.offset ≤ (dump_one_object pf ctx sz).1.offset := by
  unfold dump_one_object
  exact le_trans (dump_object_start_offset_le pf ctx) (dump_object_finish_offset_le _ sz hsz)

theorem dump_lisp_words_offset_le (pf : platform) (hpf : pf.sizes_ok) (n : Nat)
    (ctx : dump_context) : ctx.offset ≤ (dump_lisp_words pf n ctx).offset := by
  induction n generalizing ctx with
  | zero => exact le_refl _
  | succ n ih =>
    rw [dump_lisp_words]
    exact le_trans (dump_one_object_offset_le pf ctx _ hpf.1) (ih _)

theorem dump_interval_tree_offset_le (pf : platform) (hpf : pf.sizes_ok) (t : interval_ptr)
    (ctx : dump_context) : ctx.offset ≤ (dump_interval_tree pf t ctx).1.offset := by
  induction t generalizing ctx with
  | null => exact le_refl _
  | node left right ihl ihr =>
    rw [dump_interval_tree]
    dsimp only
    have h0 := dump_one_object_offset_le pf ctx pf.sizeof_interval hpf.2.2.2.2.2.2.1
    have h1 : ctx.offset ≤
        (if left ≠ interval_ptr.null then
          (dump_interval_tree pf left (dump_one_object pf ctx pf.sizeof_interval).1).1
         else (dump_one_object pf ctx pf.sizeof_interval).1).offset := by
      split
      · exact le_trans h0 (ihl _)
      · exact h0
    split
    · exact le_trans h1 (ihr _)
    · exact h1

theorem dump_interval_node_offset_le (pf : platform) (hpf : pf.sizes_ok) (t : itree_ptr)
    (ctx : dump_context) : ctx.offset ≤ (dump_interval_node pf t ctx).1.offset := by
  induction t generalizing ctx with
  | null => exact le_refl _
  | node parent left right ihp ihl ihr =>
    rw [dump_interval_node]
    dsimp only
    have h0 := dump_one_object_offset_le pf ctx pf.sizeof_itree_node hpf.2.2.2.2.2.2.2.1
    have h1 : ctx.offset ≤
        (if parent ≠ itree_ptr.null then
          (dump_interval_node pf parent (dump_one_object pf ctx pf.sizeof_itree_node).1).1
         else (dump_one_object pf ctx pf.sizeof_itree_node).1).offset := by
      split
      · exact le_trans h0 (ihp _)
      · exact h0
    generalize (if parent ≠ itree_ptr.null then
          (dump_interval_node pf parent (dump_one_object pf ctx pf.sizeof_itree_node).1).1
         else (dump_one_object pf ctx pf.sizeof_itree_node).1) = c1 at h1 ⊢
    have h2 : ctx.offset ≤
        (if left ≠ itree_ptr.null then (dump_interval_node pf left c1).1 else c1).offset := by
      split
      · exact le_trans h1 (ihl _)
      · exact h1
    split
    · exact le_trans h2 (ihr _)
    · exact h2

theorem dump_string_offset_le (pf : platform) (hpf : pf.sizes_ok) (ctx : dump_context)
    (object : lisp_object) (m2 : Bool) (intervals : interval_ptr) :
    ctx.offset ≤ (dump_string pf ctx object m2 intervals).1.offset := by
  unfold dump_string
  dsimp only
  have hstart := dump_object_start_offset_le pf ctx
  have hcold : ctx.offset ≤
      (if m2 = true then dump_object_start pf ctx
       else dump_remember_cold_op (dump_object_start pf ctx) COLD_OP_STRING object.id).offset := by
    split
    · exact hstart
    · rw [dump_remember_cold_op_offset]; exact hstart
  generalize (if m2 = true then dump_object_start pf ctx
       else dump_remember_cold_op (dump_object_start pf ctx) COLD_OP_STRING object.id) = c at hcold ⊢
  have hfin := le_trans hcold (dump_object_finish_offset_le c pf.sizeof_Lisp_String hpf.2.2.1)
  split
  · exact le_trans hfin (dump_interval_tree_offset_le pf hpf _ _)
  · exact hfin

theorem dump_fwd_offset_le (pf : platform) (hpf : pf.sizes_ok) (ctx c : dump_context)
    (fwd : Lisp_Fwd_Type) (h : dump_fwd pf ctx fwd = Except.ok c) : ctx.offset ≤ c.offset := by
  unfold dump_fwd at h
  cases fwd <;> simp only [reduceCtorEq] at h <;> cases h
  all_goals first
    | exact le_refl _
    | exact dump_one_object_offset_le pf ctx _ hpf.2.2.2.2.2.2.2.2.2.1

theorem dump_blv_offset_le (pf : platform) (hpf : pf.sizes_ok) (ctx : dump_context)
    (blv_fwd : Option Lisp_Fwd_Type) (r : dump_context × Int)
    (h : dump_blv pf ctx blv_fwd = Except.ok r) : ctx.offset ≤ r.1.offset := by
  unfold dump_blv at h
  have h0 := dump_one_object_offset_le pf ctx pf.sizeof_Lisp_Buffer_Local_Value
    hpf.2.2.2.2.2.2.2.2.1
  cases blv_fwd with
  | none => cases h; exact h0
  | some fwd =>
    simp only [bind, Except.bind] at h
    split at h
    · cases h
    · rename_i c hc
      cases h
      exact le_trans h0 (dump_fwd_offset_le pf hpf _ c fwd hc)

theorem dump_packed_slots_offset_le (pf : platform) (hpf : pf.sizes_ok) (ctx : dump_context)
    (n : Int) : ctx.offset ≤ (dump_packed_slots pf ctx n).offset := by
  unfold dump_packed_slots
  dsimp only
  exact le_trans (dump_align_output_offset_le ctx _) (dump_lisp_words_offset_le pf hpf _ _)

theorem dump_vectorlike_generic_offset_le (pf : platform) (hpf : pf.sizes_ok)
    (ctx : dump_context) (v : vectorlike) :
    ctx.offset ≤ (dump_vectorlike_generic pf ctx v).1.offset := by
  unfold dump_vectorlike_generic
  dsimp only
  have h1 := dump_align_output_offset_le ctx (DUMP_ALIGNMENT pf.GCALIGNMENT : Int)
  generalize dump_align_output ctx (DUMP_ALIGNMENT pf.GCALIGNMENT : Int) = c1 at h1 ⊢
  have h2 : c1.offset ≤
      (if decide (v.ptype = pvec_type.PVEC_SUB_CHAR_TABLE) = true then
        dump_one_object pf c1 pf.sub_char_table_prefix
       else dump_one_object pf c1 pf.sizeof_vectorlike_header).1.offset := by
    split
    · exact dump_one_object_offset_le pf c1 _ hpf.2.2.2.2.2.2.2.2.2.2.2
    · exact dump_one_object_offset_le pf c1 _ hpf.2.2.2.2.2.2.2.2.2.2.1
  generalize (if decide (v.ptype = pvec_type.PVEC_SUB_CHAR_TABLE) = true then
        dump_one_object pf c1 pf.sub_char_table_prefix
       else dump_one_object pf c1 pf.sizeof_vectorlike_header) = r at h2 ⊢
  refine le_trans h1 (le_trans h2 ?_)
  have h3 := dump_write_zero_offset_le r.1
    (pf.offsetof_contents +
      (if decide (v.ptype = pvec_type.PVEC_SUB_CHAR_TABLE) = true then pf.SUB_CHAR_TABLE_OFFSET
        else 0) * pf.sizeof_Lisp_Object - (r.1.offset - c1.offset))
  generalize dump_write_zero r.1
    (pf.offsetof_contents +
      (if decide (v.ptype = pvec_type.PVEC_SUB_CHAR_TABLE) = true then pf.SUB_CHAR_TABLE_OFFSET
        else 0) * pf.sizeof_Lisp_Object - (r.1.offset - c1.offset)) = c2 at h3 ⊢
  have h4 := dump_lisp_words_offset_le pf hpf
    (v.size - if decide (v.ptype = pvec_type.PVEC_SUB_CHAR_TABLE) = true
      then pf.SUB_CHAR_TABLE_OFFSET else 0).toNat
    { c2 with flags := { c2.flags with pack_objects := true } }
  exact le_trans h3 (le_trans h4 (dump_align_output_offset_le _ _))
theorem dump_bool_vector_offset_le (pf : platform) (ctx : dump_context) (v : vectorlike)
    (hv : 0 ≤ v.bool_vector_nbytes) (r : dump_context × Int)
    (h : dump_bool_vector pf ctx v = Except.ok r) : ctx.offset ≤ r.1.offset := by
  unfold dump_bool_vector at h
  dsimp only at h
  split at h
  · cases h
  · rename_i hmax
    cases h
    have hs : ptrdiff_t_to_dump_off v.bool_vector_nbytes = v.bool_vector_nbytes := by
      unfold ptrdiff_t_to_dump_off
      unfold DUMP_OFF_MAX at hmax
      exact to_signed_of_range 32 (by decide) _ (by norm_num; omega) (by norm_num; omega)
    rw [hs]
    have h1 := dump_align_output_offset_le ctx (DUMP_ALIGNMENT pf.GCALIGNMENT : Int)
    show ctx.offset ≤ (dump_align_output ctx _).offset + v.bool_vector_nbytes
    omega

theorem dump_hash_table_offset_le (pf : platform) (hpf : pf.sizes_ok) (ctx : dump_context)
    (object : lisp_object) (v : vectorlike) (hv : 0 ≤ v.nbytes) (r : dump_context × Int)
    (h : dump_hash_table pf ctx object v = Except.ok r) : ctx.offset ≤ r.1.offset := by
  unfold dump_hash_table at h
  dsimp only at h
  split at h
  · cases h
  · have h1 := dump_one_object_offset_le pf
      { ctx with hash_tables := object.id :: ctx.hash_tables } v.nbytes hv
    split at h
    · cases h
      exact le_trans h1 (dump_packed_slots_offset_le pf hpf _ _)
    · cases h
      exact h1

theorem dump_obarray_offset_le (pf : platform) (hpf : pf.sizes_ok) (ctx : dump_context)
    (v : vectorlike) (hv : 0 ≤ v.nbytes) :
    ctx.offset ≤ (dump_obarray pf ctx v).1.offset := by
  unfold dump_obarray
  exact le_trans (dump_one_object_offset_le pf ctx v.nbytes hv)
    (dump_packed_slots_offset_le pf hpf _ _)

theorem dump_subr_offset_le (pf : platform) (hpf : pf.sizes_ok) (ctx : dump_context)
    (object : lisp_object) (v : vectorlike) :
    ctx.offset ≤ (dump_subr pf ctx object v).1.offset := by
  unfold dump_subr
  dsimp only
  have h1 := dump_object_start_offset_le pf ctx
  have h2 : ctx.offset ≤
      (if (pf.HAVE_NATIVE_COMP && v.subr_non_primitive) = true then
        dump_remember_cold_op (dump_object_start pf ctx) COLD_OP_NATIVE_SUBR object.id
       else dump_object_start pf ctx).offset := by
    split
    · rw [dump_remember_cold_op_offset]; exact h1
    · exact h1
  exact le_trans h2 (dump_object_finish_offset_le _ _ hpf.2.2.2.2.2.1)

theorem dump_native_comp_unit_offset_le (pf : platform) (ctx : dump_context) (v : vectorlike)
    (hv : 0 ≤ v.nbytes) (r : dump_context × Int)
    (h : dump_native_comp_unit pf ctx v = Except.ok r) : ctx.offset ≤ r.1.offset := by
  unfold dump_native_comp_unit at h
  split at h
  · cases h
  · cases h
    exact dump_one_object_offset_le pf ctx v.nbytes hv

theorem dump_overlay_offset_le (pf : platform) (hpf : pf.sizes_ok) (ctx : dump_context)
    (v : vectorlike) (hv : 0 ≤ v.nbytes) :
    ctx.offset ≤ (dump_overlay pf ctx v).1.offset := by
  unfold dump_overlay
  exact le_trans (dump_one_object_offset_le pf ctx v.nbytes hv)
    (dump_interval_node_offset_le pf hpf _ _)

theorem dump_bignum_offset_le (pf : platform) (ctx : dump_context) (object : lisp_object)
    (v : vectorlike) (hv : 0 ≤ v.nbytes) :
    ctx.offset ≤ (dump_bignum pf ctx object v).1.offset := by
  unfold dump_bignum
  dsimp only
  have h1 := dump_one_object_offset_le pf ctx v.nbytes hv
  split
  · rw [dump_remember_cold_op_offset]; exact h1
  · exact h1

theorem dump_buffer_body_offset_le (pf : platform) (hpf : pf.sizes_ok) (ctx : dump_context)
    (object : lisp_object) (nbytes : Int) (hn : 0 ≤ nbytes) (has_base live overlays_empty : Bool)
    (intervals : interval_ptr) (r : dump_context × Int)
    (h : dump_buffer_body pf ctx object nbytes has_base live overlays_empty intervals
      = Except.ok r) : ctx.offset ≤ r.1.offset := by
  unfold dump_buffer_body at h
  dsimp only at h
  have h1 := dump_object_start_offset_le pf ctx
  have h2 : ctx.offset ≤
      (if (!has_base) = true ∧ live = true then
        dump_remember_cold_op (dump_object_start pf ctx) COLD_OP_BUFFER object.id
       else dump_object_start pf ctx).offset := by
    split
    · rw [dump_remember_cold_op_offset]; exact h1
    · exact h1
  generalize (if (!has_base) = true ∧ live = true then
        dump_remember_cold_op (dump_object_start pf ctx) COLD_OP_BUFFER object.id
       else dump_object_start pf ctx) = c at h h2
  have h3 := le_trans h2 (dump_object_finish_offset_le c nbytes hn)
  split at h
  · cases h
  · split at h
    · cases h
      exact le_trans h3 (dump_interval_tree_offset_le pf hpf _ _)
    · cases h
      exact h3

theorem dump_buffer_offset_le (pf : platform) (hpf : pf.sizes_ok)
    (dump_object_rec : dump_context → lisp_object → Except dump_error (dump_context × Int))
    (hrec : ∀ c o r, dump_object_rec c o = Except.ok r → o.sizes_ok → c.offset ≤ r.1.offset)
    (ctx : dump_context) (object : lisp_object) (v : vectorlike)
    (hv : 0 ≤ v.nbytes ∧ 0 ≤ v.bool_vector_nbytes ∧ v.the_buffer.sizes_ok)
    (r : dump_context × Int)
    (h : dump_buffer pf dump_object_rec ctx object v = Except.ok r) :
    ctx.offset ≤ r.1.offset := by
  unfold dump_buffer at h
  split at h
  · cases h
  · rename_i hb
    rw [hb] at hv
    exact dump_buffer_body_offset_le pf hpf ctx object _ hv.2.2.1 _ _ _ _ r h
  · rename_i hb
    rw [hb] at hv
    simp only [bind, Except.bind] at h
    split at h
    · cases h
    · rename_i rb hrb
      have h1 := hrec _ _ _ hrb ⟨hv.1, hv.2.1, hv.2.2.2⟩
      exact le_trans h1 (dump_buffer_body_offset_le pf hpf rb.1 object _ hv.2.2.1 _ _ _ _ r h)

theorem dump_vectorlike_offset_le (pf : platform) (hpf : pf.sizes_ok)
    (dump_object_rec : dump_context → lisp_object → Except dump_error (dump_context × Int))
    (hrec : ∀ c o r, dump_object_rec c o = Except.ok r → o.sizes_ok → c.offset ≤ r.1.offset)
    (ctx : dump_context) (object : lisp_object) (v : vectorlike)
    (hv : 0 ≤ v.nbytes ∧ 0 ≤ v.bool_vector_nbytes ∧ v.the_buffer.sizes_ok)
    (r : dump_context × Int)
    (h : dump_vectorlike pf dump_object_rec ctx object v = Except.ok r) :
    ctx.offset ≤ r.1.offset := by
  unfold dump_vectorlike at h
  dsimp only at h
  split at h
  all_goals first
    | (cases h; done)
    | (cases h; exact dump_vectorlike_generic_offset_le pf hpf ctx v)
    | (cases h; exact dump_one_object_offset_le pf ctx _ hv.1)
    | (cases h; exact dump_obarray_offset_le pf hpf ctx v hv.1)
    | (cases h; exact dump_subr_offset_le pf hpf ctx object v)
    | (cases h; exact dump_overlay_offset_le pf hpf ctx v hv.1)
    | (cases h; exact dump_bignum_offset_le pf ctx object v hv.1)
    | exact dump_bool_vector_offset_le pf ctx v hv.2.1 r h
    | exact dump_hash_table_offset_le pf hpf ctx object v hv.1 r h
    | exact dump_buffer_offset_le pf hpf dump_object_rec hrec ctx object v hv r h
    | (split at h
       · cases h
       · cases h
         exact dump_vectorlike_generic_offset_le pf hpf ctx v)
    | (split at h
       · first
         | exact dump_native_comp_unit_offset_le pf ctx v hv.1 r h
         | (cases h
            exact dump_one_object_offset_le pf ctx _ hv.1)
         | (cases h
            exact le_refl _)
       · cases h)

theorem dump_symbol_offset_le (pf : platform) (hpf : pf.sizes_ok)
    (dump_object_rec : dump_context → lisp_object → Except dump_error (dump_context × Int))
    (hrec : ∀ c o r, dump_object_rec c o = Except.ok r → o.sizes_ok → c.offset ≤ r.1.offset)
    (ctx : dump_context) (object : lisp_object) (hobj : object.sizes_ok)
    (redirect : symbol_redirect) (offset : Int) (r : dump_context × Int)
    (h : dump_symbol pf dump_object_rec ctx object redirect offset = Except.ok r) :
    ctx.offset ≤ r.1.offset := by
  unfold dump_symbol at h
  have hsym := hpf.2.2.2.2.1
  split at h
  · split at h
    · simp only [bind, Except.bind] at h
      split at h
      · cases h
      · rename_i rb hrb
        cases h
        have h1 := hrec _ _ _ hrb hobj
        exact h1
    · cases h
      exact le_refl _
  · have hone := dump_one_object_offset_le pf ctx pf.sizeof_Lisp_Symbol hsym
    cases redirect with
    | other => cases h
    | SYMBOL_PLAINVAL => cases h; exact hone
    | SYMBOL_VARALIAS => cases h; exact hone
    | SYMBOL_LOCALIZED blv_fwd =>
      dsimp only at h
      split at h
      · cases h; exact hone
      · simp only [bind, Except.bind] at h
        split at h
        · cases h
        · rename_i b hb
          cases h
          exact le_trans hone (dump_blv_offset_le pf hpf _ blv_fwd b hb)
    | SYMBOL_FORWARDED fwd fwd_emacs_offset =>
      dsimp only at h
      split at h
      · simp only [bind, Except.bind] at h
        split at h
        · cases h
        · rename_i c hc
          cases h
          exact le_trans hone (dump_fwd_offset_le pf hpf _ c fwd hc)
      · split at h
        · cases h
        · cases h; exact hone
theorem dump_object_tail_offset (ctx : dump_context) (object : lisp_object)
    (w r : dump_context × Int)
    (h : (if w.1.flags.dump_object_contents ∧ w.2 > DUMP_OBJECT_NOT_SEEN then
            if (dump_remember_object w.1 object w.2).flags.record_object_starts then
              (Except.ok
                ({ dump_remember_object w.1 object w.2 with
                   object_starts :=
                     [dump_off_to_lisp (XTYPE object).code, dump_off_to_lisp w.2]
                       :: (dump_remember_object w.1 object w.2).object_starts }, w.2)
                : Except dump_error (dump_context × Int))
            else Except.ok (dump_remember_object w.1 object w.2, w.2)
          else Except.ok w) = Except.ok r)
    (hw : ctx.offset ≤ w.1.offset) : ctx.offset ≤ r.1.offset := by
  split at h
  · split at h
    · cases h; exact hw
    · cases h; exact hw
  · cases h; exact hw

theorem dump_object_offset_le (pf : platform) (hpf : pf.sizes_ok) :
    ∀ (fuel : Nat) (ctx : dump_context) (object : lisp_object) (r : dump_context × Int),
      dump_object pf fuel ctx object = Except.ok r → object.sizes_ok →
      ctx.offset ≤ r.1.offset := by
  intro fuel
  induction fuel with
  | zero =>
    intro ctx object r h
    rw [dump_object] at h
    cases h
  | succ fuel ih =>
    intro ctx object r h hobj
    rw [dump_object] at h
    dsimp only at h
    split at h
    · cases h
      exact le_refl _
    · split at h
      · split at h
        · cases h
          show ctx.offset ≤ (dump_remember_cold_op _ _ _).offset
          rw [dump_remember_cold_op_offset]
          exact le_refl _
        · cases h
          exact le_refl _
      · split at h
        · split at h
          · simp only [bind, Except.bind] at h
            split at h
            · cases h
            · rename_i rb hrb
              cases h
              have h1 := ih _ _ _ hrb hobj
              exact h1
          · cases h
            exact le_refl _
        · cases hbody : object.body with
          | fixnum =>
            rw [hbody] at h
            dsimp only at h
            simp only [bind, Except.bind] at h
            cases h
          | cons =>
            rw [hbody] at h
            dsimp only at h
            simp only [bind, Except.bind] at h
            exact dump_object_tail_offset ctx object _ r h
              (dump_one_object_offset_le pf ctx _ hpf.2.1)
          | float =>
            rw [hbody] at h
            dsimp only at h
            simp only [bind, Except.bind] at h
            exact dump_object_tail_offset ctx object _ r h
              (dump_one_object_offset_le pf ctx _ hpf.2.2.2.1)
          | string m2 intervals =>
            rw [hbody] at h
            dsimp only at h
            simp only [bind, Except.bind] at h
            exact dump_object_tail_offset ctx object _ r h
              (dump_string_offset_le pf hpf ctx object m2 intervals)
          | symbol builtin redirect =>
            rw [hbody] at h
            dsimp only at h
            cases hw : dump_symbol pf (dump_object pf fuel) ctx object redirect
                (dump_recall_object ctx object) with
            | error e =>
              rw [hw] at h
              simp only [bind, Except.bind] at h
              cases h
            | ok w =>
              rw [hw] at h
              simp only [bind, Except.bind] at h
              exact dump_object_tail_offset ctx object w r h
                (dump_symbol_offset_le pf hpf (dump_object pf fuel) ih ctx object hobj
                  redirect _ w hw)
          | vectorlike v =>
            rw [hbody] at h
            dsimp only at h
            have hv : 0 ≤ v.nbytes ∧ 0 ≤ v.bool_vector_nbytes ∧ v.the_buffer.sizes_ok := by
              unfold lisp_object.sizes_ok at hobj
              rw [hbody] at hobj
              exact hobj
            cases hw : dump_vectorlike pf (dump_object pf fuel) ctx object v with
            | error e =>
              rw [hw] at h
              simp only [bind, Except.bind] at h
              cases h
            | ok w =>
              rw [hw] at h
              simp only [bind, Except.bind] at h
              exact dump_object_tail_offset ctx object w r h
                (dump_vectorlike_offset_le pf hpf (dump_object pf fuel) ih ctx object v hv w hw)

theorem dump_emacs_reloc_copy_from_dump_offset (h : host) (ctx : dump_context)
    (dump_offset : Int) (emacs_ptr : Nat) (size : Int) :
    (dump_emacs_reloc_copy_from_dump h ctx dump_offset emacs_ptr size).offset = ctx.offset := by
  unfold dump_emacs_reloc_copy_from_dump
  split
  · rfl
  · split <;> rfl

theorem dump_drain_copied_loop_offset_le (pf : platform) (hpf : pf.sizes_ok) (h : host)
    (heap : Nat → lisp_object) (hheap : ∀ i, (heap i).sizes_ok) (optr : Nat → Nat) (fuel : Nat)
    (queue : List Nat) (ctx c : dump_context)
    (hd : dump_drain_copied_loop pf h heap optr fuel queue ctx = Except.ok c) :
    ctx.offset ≤ c.offset := by
  induction queue generalizing ctx with
  | nil =>
    rw [dump_drain_copied_loop] at hd
    cases hd
    exact le_refl _
  | cons copied queue ih =>
    rw [dump_drain_copied_loop] at hd
    simp only [bind, Except.bind] at hd
    split at hd
    · cases hd
    · rename_i r hr
      have h1 := dump_object_offset_le pf hpf fuel ctx (heap copied) r hr (hheap copied)
      have h2 := ih _ hd
      refine le_trans h1 (le_trans ?_ h2)
      split
      · rw [dump_emacs_reloc_copy_from_dump_offset]
      · exact le_refl _

theorem dump_drain_copied_objects_offset_le (pf : platform) (hpf : pf.sizes_ok) (h : host)
    (heap : Nat → lisp_object) (hheap : ∀ i, (heap i).sizes_ok) (optr : Nat → Nat) (fuel : Nat)
    (ctx c : dump_context)
    (hd : dump_drain_copied_objects pf h heap optr fuel ctx = Except.ok c) :
    ctx.offset ≤ c.offset := by
  unfold dump_drain_copied_objects at hd
  simp only [bind, Except.bind] at hd
  split at hd
  · cases hd
  · rename_i c2 hc2
    cases hd
    have h1 := dump_drain_copied_loop_offset_le pf hpf h heap hheap optr fuel _ _ c2 hc2
    exact h1

/-! ### Zero bytes up to the alignment -/

theorem dump_write_zero_loop_spec (fuel : Nat) (ctx : dump_context) (buf : Int → Nat)
    (nbytes : Int) (hfuel : nbytes ≤ fuel) :
    (dump_write_zero_loop fuel ctx buf nbytes).1 = dump_write_zero ctx nbytes
      ∧ ∀ q, (dump_write_zero_loop fuel ctx buf nbytes).2 q
          = if ctx.offset ≤ q ∧ q < ctx.offset + nbytes then 0 else buf q := by
  induction fuel generalizing ctx buf nbytes with
  | zero =>
    have hn : ¬ nbytes > 0 := by
      have : ((0 : Nat) : Int) = 0 := rfl
      omega
    rw [dump_write_zero_loop]
    unfold dump_write_zero
    rw [if_neg hn]
    refine ⟨rfl, ?_⟩
    intro q
    rw [if_neg (by omega)]
  | succ fuel ih =>
    rw [dump_write_zero_loop]
    by_cases hn : nbytes > 0
    · rw [if_pos hn]
      dsimp only
      have hto : 0 < (if sizeof_uintmax_t > nbytes then nbytes else sizeof_uintmax_t) := by
        unfold sizeof_uintmax_t
        split <;> omega
      have hto2 : (if sizeof_uintmax_t > nbytes then nbytes else sizeof_uintmax_t) ≤ nbytes := by
        unfold sizeof_uintmax_t
        split <;> omega
      generalize (if sizeof_uintmax_t > nbytes then nbytes else sizeof_uintmax_t) = tw
        at hto hto2 ⊢
      obtain ⟨h1, h2⟩ := ih (dump_write_bytes ctx buf (fun _ => 0) tw).1
        (dump_write_bytes ctx buf (fun _ => 0) tw).2 (nbytes - tw) (by push_cast at hfuel ⊢; omega)
      refine ⟨?_, ?_⟩
      · rw [h1]
        unfold dump_write_zero dump_write_bytes dump_write
        rw [if_pos hn]
        by_cases hr : nbytes - tw > 0
        · rw [if_pos hr]
          show ({ ctx with offset := ctx.offset + tw + (nbytes - tw) } : dump_context)
            = { ctx with offset := ctx.offset + nbytes }
          congr 1
          omega
        · rw [if_neg hr]
          show ({ ctx with offset := ctx.offset + tw } : dump_context)
            = { ctx with offset := ctx.offset + nbytes }
          congr 1
          omega
      · intro q
        rw [h2]
        unfold dump_write_bytes dump_write
        show (if ctx.offset + tw ≤ q ∧ q < ctx.offset + tw + (nbytes - tw) then 0
          else if ctx.offset ≤ q ∧ q < ctx.offset + tw then 0 else buf q) = _
        by_cases ha : ctx.offset + tw ≤ q ∧ q < ctx.offset + tw + (nbytes - tw)
        · rw [if_pos ha, if_pos ⟨by omega, by omega⟩]
        · rw [if_neg ha]
          by_cases hb : ctx.offset ≤ q ∧ q < ctx.offset + tw
          · rw [if_pos hb, if_pos ⟨by omega, by omega⟩]
          · rw [if_neg hb, if_neg (by omega)]
    · rw [if_neg hn]
      unfold dump_write_zero
      rw [if_neg hn]
      refine ⟨rfl, ?_⟩
      intro q
      rw [if_neg (by omega)]

theorem dump_align_output_bytes_spec (ctx : dump_context) (buf : Int → Nat) (a : Int)
    (ha : 0 < a) :
    (dump_align_output_bytes ctx buf a).1 = dump_align_output ctx a
      ∧ (∀ q, q < ctx.offset → (dump_align_output_bytes ctx buf a).2 q = buf q)
      ∧ (∀ q, ctx.offset ≤ q → q < (dump_align_output ctx a).offset →
          (dump_align_output_bytes ctx buf a).2 q = 0)
      ∧ (∀ q, (dump_align_output ctx a).offset ≤ q →
          (dump_align_output_bytes ctx buf a).2 q = buf q) := by
  unfold dump_align_output_bytes dump_align_output
  have hm0 := Int.emod_nonneg ctx.offset (ne_of_gt ha)
  have hm1 := Int.emod_lt_of_pos ctx.offset ha
  by_cases hal : ctx.offset % a ≠ 0
  · rw [if_pos hal, if_pos hal]
    unfold dump_write_zero_bytes
    obtain ⟨h1, h2⟩ := dump_write_zero_loop_spec (a - ctx.offset % a).toNat ctx buf
      (a - ctx.offset % a) (by rw [Int.toNat_of_nonneg (by omega)])
    have hoff : (dump_write_zero ctx (a - ctx.offset % a)).offset
        = ctx.offset + (a - ctx.offset % a) := by
      unfold dump_write_zero dump_write
      rw [if_pos (by omega)]
    refine ⟨h1, ?_, ?_, ?_⟩
    · intro q hq
      rw [h2, if_neg (by omega)]
    · intro q hq1 hq2
      rw [hoff] at hq2
      rw [h2, if_pos ⟨hq1, hq2⟩]
    · intro q hq
      rw [hoff] at hq
      rw [h2, if_neg (by omega)]
  · rw [if_neg hal, if_neg hal]
    refine ⟨rfl, fun q _ => rfl, ?_, fun q _ => rfl⟩
    intro q h1 h2
    omega

theorem dump_align_output_lt (ctx : dump_context) (a : Int) (ha : 0 < a) :
    (dump_align_output ctx a).offset - ctx.offset < a
      ∧ (ctx.offset % a = 0 → dump_align_output ctx a = ctx) := by
  unfold dump_align_output
  have hm0 := Int.emod_nonneg ctx.offset (ne_of_gt ha)
  by_cases hal : ctx.offset % a ≠ 0
  · rw [if_pos hal]
    unfold dump_write_zero dump_write
    rw [if_pos (by have := Int.emod_lt_of_pos ctx.offset ha; omega)]
    refine ⟨?_, fun h0 => absurd h0 hal⟩
    show ctx.offset + (a - ctx.offset % a) - ctx.offset < a
    omega
  · rw [if_neg hal]
    refine ⟨by omega, fun _ => rfl⟩
/-- C15: the statements of `Fdump_emacs_portable` that set the two section
fields, started at a write offset that is not negative, leave a header with
0 <= `discardable_start` <= `cold_start` and `cold_start` a multiple of
65536: `discardable_start` is the write offset at `hot_end`,
`dump_drain_copied_objects` does not move the write offset back, and
`cold_start` is the write offset after `dump_align_output (ctx, 65536)`.
For every positive alignment a, `dump_align_output (ctx, a)` keeps the bytes
below the old offset, writes zero bytes from the old offset to the new one,
fewer than a of them, changes nothing when the offset is a multiple of a
already, and ends at a multiple of a. -/
theorem header_section_invariant (pf : platform) (hpf : pf.sizes_ok) (h : host)
    (heap : Nat → lisp_object) (hheap : ∀ i, (heap i).sizes_ok) (optr : Nat → Nat)
    (fuel : Nat) (ctx : dump_context) (header : dump_header) (r : dump_context × dump_header)
    (h0 : 0 ≤ ctx.offset)
    (hrun : dump_discardable_section pf h heap optr fuel ctx header = Except.ok r) :
    (r.2.discardable_start = ctx.offset
        ∧ 0 ≤ r.2.discardable_start ∧ r.2.discardable_start ≤ r.2.cold_start
        ∧ r.2.cold_start % 65536 = 0 ∧ r.2.cold_start = r.1.offset)
      ∧ ∀ (c : dump_context) (buf : Int → Nat) (a : Int), 0 < a →
          (dump_align_output_bytes c buf a).1 = dump_align_output c a
            ∧ (∀ q, q < c.offset → (dump_align_output_bytes c buf a).2 q = buf q)
            ∧ (∀ q, c.offset ≤ q → q < (dump_align_output c a).offset →
                (dump_align_output_bytes c buf a).2 q = 0)
            ∧ (∀ q, (dump_align_output c a).offset ≤ q →
                (dump_align_output_bytes c buf a).2 q = buf q)
            ∧ c.offset ≤ (dump_align_output c a).offset
            ∧ (dump_align_output c a).offset - c.offset < a
            ∧ (c.offset % a = 0 → dump_align_output c a = c)
            ∧ (dump_align_output c a).offset % a = 0 := by
  refine ⟨?_, ?_⟩
  · unfold dump_discardable_section at hrun
    simp only [bind, Except.bind] at hrun
    split at hrun
    · cases hrun
    · rename_i c1 hc1
      cases hrun
      have h1 := dump_drain_copied_objects_offset_le pf hpf h heap hheap optr fuel ctx c1 hc1
      have h2 := dump_align_output_offset_le c1 dump_get_max_page_size
      have h3 := dump_align_output_offset c1 dump_get_max_page_size (by decide)
      refine ⟨rfl, h0, le_trans h1 h2, ?_, rfl⟩
      have hp : dump_get_max_page_size = 65536 := by decide
      rw [hp] at h3
      exact h3
  · intro c buf a ha
    obtain ⟨h1, h2, h3, h4⟩ := dump_align_output_bytes_spec c buf a ha
    obtain ⟨h5, h6⟩ := dump_align_output_lt c a ha
    exact ⟨h1, h2, h3, h4, dump_align_output_offset_le c a, h5, h6,
      dump_align_output_offset c a ha⟩

/-- C15 at a hot section that ends at offset 4099 with one primitive subr
on the copied queue: the discardable section starts at 4099 and the cold
section at 65536. -/
theorem header_section_invariant_witness :
    dump_discardable_section sample_platform sample_host (fun _ => sample_subr)
        (fun _ => 93823560585472) 3 sample_hot_end_context (sample_header [] [])
      = Except.ok sample_sections
    ∧ sample_sections.1.emacs_relocs
      = [[lisp_value.fixnum 0, lisp_value.fixnum 256, lisp_value.fixnum 4104,
          lisp_value.fixnum 72]]
    ∧ sample_sections.2.discardable_start = 4099
    ∧ 0 ≤ sample_sections.2.discardable_start
    ∧ sample_sections.2.discardable_start ≤ sample_sections.2.cold_start
    ∧ sample_sections.2.cold_start % 65536 = 0
    ∧ sample_sections.2.cold_start = sample_sections.1.offset :=
  ⟨rfl, rfl,
    (header_section_invariant sample_platform
      (by unfold platform.sizes_ok sample_platform; decide) sample_host (fun _ => sample_subr)
      (fun _ => by
        unfold lisp_object.sizes_ok sample_subr
        simp [buffer_ptr.sizes_ok])
      (fun _ => 93823560585472) 3 sample_hot_end_context (sample_header [] []) sample_sections
      (by decide) rfl).1⟩

/-! ### The sections the loader maps -/

theorem ROUNDUP_spec (x y : Int) (hy : 0 < y) :
    ROUNDUP x y % y = 0 ∧ x ≤ ROUNDUP x y ∧ ROUNDUP x y < x + y
      ∧ ∀ c, c % y = 0 → x ≤ c → ROUNDUP x y ≤ c := by
  unfold ROUNDUP
  have h1 := Int.emod_add_ediv (y - 1 + x) y
  have h2 := Int.emod_nonneg (y - 1 + x) (ne_of_gt hy)
  have h3 := Int.emod_lt_of_pos (y - 1 + x) hy
  have hmul : (y - 1 + x) / y * y = y * ((y - 1 + x) / y) := mul_comm _ _
  refine ⟨Int.mul_emod_left _ _, by omega, by omega, ?_⟩
  intro c hc hxc
  obtain ⟨k, hk⟩ := Int.dvd_of_emod_eq_zero hc
  subst hk
  have hq : (y - 1 + x) / y ≤ k := by
    have : (y - 1 + x) / y < k + 1 := by
      apply Int.ediv_lt_of_lt_mul hy
      nlinarith
    omega
  rw [mul_comm]
  exact mul_le_mul_of_nonneg_left hq (le_of_lt hy)

theorem pdumper_load_mapped (env : load_env) (s : loader_state)
    (h : (pdumper_load env s).1 = PDUMPER_LOAD_SUCCESS) :
    env.mmap_contiguous (pdumper_load_sections env.header env.st_size)
      = some (pdumper_load env s).2.1.dump_public_start := by
  generalize hr : pdumper_load env s = r at h ⊢
  unfold pdumper_load at hr
  unfold pdumper_load_sections
  dsimp only at hr ⊢
  repeat' (split at hr)
  all_goals (subst hr; simp_all)
/-- C16: for a header with 0 <= `discardable_start` <= `cold_start` <= file
size and `cold_start` a multiple of 65536, the three section specs
`pdumper_load` builds are, with adj the least multiple of 65536 that is not
below `discardable_start`: hot at offset 0 of size adj, discardable at
offset adj of size `cold_start` - adj, cold at offset `cold_start` of size
file size - `cold_start`.  Each begins where the one before ends, the sizes
are not negative (adj <= `cold_start`) and sum to the file size, the sizes
of the first two are multiples of 65536, so the sizes meet the `eassert` of
`dump_mmap_contiguous`; a successful load has mapped exactly these. -/
theorem pdumper_load_section_extents (header : dump_header) (dump_size : Nat)
    (h0 : 0 ≤ header.discardable_start)
    (h1 : header.discardable_start ≤ header.cold_start)
    (h2 : header.cold_start ≤ (dump_size : Int))
    (h3 : header.cold_start % 65536 = 0) :
    (∃ adj : Int,
        adj = ROUNDUP header.discardable_start dump_get_max_page_size
          ∧ adj % 65536 = 0 ∧ header.discardable_start ≤ adj
          ∧ adj < header.discardable_start + 65536
          ∧ (∀ c : Int, c % 65536 = 0 → header.discardable_start ≤ c → adj ≤ c)
          ∧ adj ≤ header.cold_start
          ∧ pdumper_load_sections header dump_size
              = [(adj, 0), (header.cold_start - adj, adj),
                  ((dump_size : Int) - header.cold_start, header.cold_start)]
          ∧ 0 ≤ adj ∧ 0 ≤ header.cold_start - adj ∧ 0 ≤ (dump_size : Int) - header.cold_start
          ∧ 0 + adj = adj ∧ adj + (header.cold_start - adj) = header.cold_start
          ∧ header.cold_start + ((dump_size : Int) - header.cold_start) = dump_size
          ∧ dump_mmap_contiguous_total_size (pdumper_load_sections header dump_size) = dump_size
          ∧ (header.cold_start - adj) % 65536 = 0
          ∧ dump_mmap_contiguous_sizes_p (pdumper_load_sections header dump_size) = true)
      ∧ ∀ (env : load_env) (s : loader_state), env.header = header → env.st_size = dump_size →
          (pdumper_load env s).1 = PDUMPER_LOAD_SUCCESS →
          env.mmap_contiguous (pdumper_load_sections header dump_size)
            = some (pdumper_load env s).2.1.dump_public_start := by
  have hp : dump_get_max_page_size = 65536 := by decide
  obtain ⟨r1, r2, r3, r4⟩ := ROUNDUP_spec header.discardable_start dump_get_max_page_size
    (by decide)
  rw [hp] at r1 r2 r3 r4
  have hle := r4 header.cold_start h3 h1
  refine ⟨⟨ROUNDUP header.discardable_start 65536, by rw [hp], r1, r2, r3, r4, hle, ?_,
    by omega, by omega, by omega, by omega, by omega, by omega, ?_, ?_, ?_⟩, ?_⟩
  · unfold pdumper_load_sections
    rw [hp]
  · unfold pdumper_load_sections dump_mmap_contiguous_total_size
    simp only [List.map_cons, List.map_nil, List.sum_cons, List.sum_nil]
    omega
  · omega
  · unfold pdumper_load_sections
    simp only [dump_mmap_contiguous_sizes_p, hp, Bool.and_eq_true, decide_eq_true_eq, and_true]
    exact ⟨r1, by omega⟩
  · intro env s he hs hok
    rw [← he, ← hs]
    exact pdumper_load_mapped env s hok

/-- C16 at `sample_header`, whose hot section ends at 4096 and whose cold
section starts at 65536, in a file of 140000 bytes. -/
theorem pdumper_load_section_extents_witness :
    pdumper_load_sections (sample_header dump_magic (sample_fingerprint 7)) 140000
        = [(65536, 0), (0, 65536), (74464, 65536)]
      ∧ dump_mmap_contiguous_total_size
          (pdumper_load_sections (sample_header dump_magic (sample_fingerprint 7)) 140000)
        = 140000
      ∧ (pdumper_load (sample_env 64 140000 (sample_header dump_magic (sample_fingerprint 7)))
          sample_state).1 = PDUMPER_LOAD_SUCCESS
      ∧ (sample_env 64 140000 (sample_header dump_magic (sample_fingerprint 7))).mmap_contiguous
          (pdumper_load_sections (sample_header dump_magic (sample_fingerprint 7)) 140000)
        = some (pdumper_load
            (sample_env 64 140000 (sample_header dump_magic (sample_fingerprint 7)))
            sample_state).2.1.dump_public_start :=
  ⟨by decide, by decide, by decide,
    (pdumper_load_section_extents (sample_header dump_magic (sample_fingerprint 7)) 140000
      (by decide) (by decide) (by decide) (by decide)).2
      (sample_env 64 140000 (sample_header dump_magic (sample_fingerprint 7))) sample_state
      rfl rfl (by decide)⟩

/-! ### Mark bitsets -/

theorem all_zero_bit_clear_p (W n b : Nat) (hb : b / W < n) :
    dump_bitset_bit_set_p W ⟨List.replicate n 0, n⟩ b = some false := by
  unfold dump_bitset_bit_set_p dump_bitset__bit_slot
  simp only [hb, if_true]
  rw [List.getElem?_replicate]
  simp only [hb, if_true, Option.map_some']
  simp

theorem divide_round_up_ceil (w x y : Nat) (hy : 0 < y) (hx : x + y - 1 < 2 ^ w) :
    divide_round_up w x y = (x + y - 1) / y
      ∧ x ≤ divide_round_up w x y * y ∧ divide_round_up w x y * y < x + y := by
  unfold divide_round_up
  rw [Nat.mod_eq_of_lt hx]
  have h1 := Nat.div_add_mod (x + y - 1) y
  have h2 := Nat.mod_lt (x + y - 1) hy
  rw [Nat.mul_comm] at h1
  generalize (x + y - 1) / y * y = q at h1 ⊢
  refine ⟨rfl, by omega, by omega⟩

/-- C17: when `calloc` succeeds and the rounding does not overflow `size_t`,
`dump_bitsets_init` for n bits yields two bitsets of ceil (n / word width)
words each, in the first of which every bit below n reads clear and in the
second of which every bit below n reads set.  A successful `pdumper_load` has
called it with n = ceil (`discardable_start` / `DUMP_ALIGNMENT`) and keeps the
two as `mark_bits` and `last_mark_bits`, so for every offset o with
0 <= o < `discardable_start` that is a multiple of `DUMP_ALIGNMENT`, bit
o / `DUMP_ALIGNMENT` has a word in both bitsets, clear in `mark_bits` and set
in `last_mark_bits`. -/
theorem dump_bitsets_init_marks (w W : Nat) (hW : 0 < W) :
    (∀ n : Nat, n + W - 1 < 2 ^ w →
      ∃ m l : dump_bitset,
        dump_bitsets_init w W true n = some (m, l)
          ∧ m.number_words = (n + W - 1) / W ∧ l.number_words = (n + W - 1) / W
          ∧ m.bits.length = m.number_words ∧ l.bits.length = l.number_words
          ∧ n ≤ m.number_words * W ∧ m.number_words * W < n + W
          ∧ ∀ i, i < n →
              (dump_bitset__bit_slot W m i).isSome ∧ (dump_bitset__bit_slot W l i).isSome
                ∧ dump_bitset_bit_set_p W m i = some false
                ∧ dump_bitset_bit_set_p W l i = some true)
      ∧ ∀ (env : load_env) (s0 : loader_state),
          env.ptr_width = w → env.DUMP_BITSET_WORD_WIDTH = W →
          32 ≤ w → W ≤ 2 ^ 31 → env.GCALIGNMENT ≤ 2 ^ 31 →
          0 ≤ env.header.discardable_start → env.header.discardable_start ≤ DUMP_OFF_MAX →
          (pdumper_load env s0).1 = PDUMPER_LOAD_SUCCESS →
          dump_bitsets_init w W true
              ((env.header.discardable_start.toNat + DUMP_ALIGNMENT env.GCALIGNMENT - 1)
                / DUMP_ALIGNMENT env.GCALIGNMENT)
            = some ((pdumper_load env s0).2.1.mark_bits,
                (pdumper_load env s0).2.1.last_mark_bits)
          ∧ ∀ o : Int, 0 ≤ o → o < env.header.discardable_start →
              o % (DUMP_ALIGNMENT env.GCALIGNMENT : Int) = 0 →
              (dump_bitset__bit_slot W (pdumper_load env s0).2.1.mark_bits
                  (o / (DUMP_ALIGNMENT env.GCALIGNMENT : Int)).toNat).isSome
                ∧ (dump_bitset__bit_slot W (pdumper_load env s0).2.1.last_mark_bits
                  (o / (DUMP_ALIGNMENT env.GCALIGNMENT : Int)).toNat).isSome
                ∧ dump_bitset_bit_set_p W (pdumper_load env s0).2.1.mark_bits
                    (o / (DUMP_ALIGNMENT env.GCALIGNMENT : Int)).toNat = some false
                ∧ dump_bitset_bit_set_p W (pdumper_load env s0).2.1.last_mark_bits
                    (o / (DUMP_ALIGNMENT env.GCALIGNMENT : Int)).toNat = some true := by
  have hslot : ∀ (bs : dump_bitset) (i : Nat) (v : Bool),
      dump_bitset_bit_set_p W bs i = some v → (dump_bitset__bit_slot W bs i).isSome := by
    intro bs i v hv
    unfold dump_bitset_bit_set_p at hv
    cases hs : dump_bitset__bit_slot W bs i with
    | none => rw [hs] at hv; simp at hv
    | some x => rfl
  refine ⟨?_, ?_⟩
  · intro n hn
    obtain ⟨hk, hk1, hk2⟩ := divide_round_up_ceil w n W hW hn
    refine ⟨⟨List.replicate (divide_round_up w n W) 0, divide_round_up w n W⟩,
      ⟨List.replicate (divide_round_up w n W) (2 ^ W - 1), divide_round_up w n W⟩,
      ?_, hk, hk, by simp, by simp, hk1, hk2, ?_⟩
    · unfold dump_bitsets_init
      simp
    · intro i hi
      have hiw : i / W < divide_round_up w n W := by
        rw [hk]; exact div_lt_ceil_div i n W hW hi
      have hz := all_zero_bit_clear_p W _ i hiw
      have ho := all_ones_bit_set_p W _ i hiw hW
      exact ⟨hslot _ _ _ hz, hslot _ _ _ ho, hz, ho⟩
  · intro env s0 hew heW hw hW2 hG hds0 hds hok
    subst hew heW
    obtain ⟨hhdr, hinit⟩ := load_success_state env s0 hok
    have hApos : 0 < DUMP_ALIGNMENT env.GCALIGNMENT := by
      unfold DUMP_ALIGNMENT DUMP_RELOCATION_ALIGNMENT
      exact lt_of_lt_of_le (by norm_num) (le_max_right _ _)
    have hA2 : DUMP_ALIGNMENT env.GCALIGNMENT ≤ 2 ^ 31 := by
      unfold DUMP_ALIGNMENT DUMP_RELOCATION_ALIGNMENT
      exact max_le hG (by norm_num)
    have h32 : (2 : Nat) ^ 32 ≤ 2 ^ env.ptr_width := Nat.pow_le_pow_right (by norm_num) hw
    have hdsn : env.header.discardable_start.toNat < 2 ^ 31 := by
      unfold DUMP_OFF_MAX at hds
      omega
    have hun : to_unsigned env.ptr_width env.header.discardable_start
        = env.header.discardable_start.toNat := by
      apply to_unsigned_of_range _ _ hds0
      have : ((2 : Nat) ^ 32 : Int) ≤ ((2 ^ env.ptr_width : Nat) : Int) := by exact_mod_cast h32
      push_cast at this
      unfold DUMP_OFF_MAX at hds
      omega
    have hceil := (divide_round_up_ceil env.ptr_width env.header.discardable_start.toNat
      (DUMP_ALIGNMENT env.GCALIGNMENT) hApos (by omega)).1
    rw [hun, hceil] at hinit
    refine ⟨hinit, ?_⟩
    intro o ho0 holt hoal
    have hrange := bitset_word_in_range env.ptr_width env.DUMP_BITSET_WORD_WIDTH
      (DUMP_ALIGNMENT env.GCALIGNMENT) o env.header.discardable_start hw hW hW2 hApos hA2 ho0
      holt hds
    rw [hun, hceil] at hrange
    unfold dump_bitsets_init at hinit
    simp only [Bool.not_true, Bool.false_eq_true, if_false, Option.some.injEq,
      Prod.mk.injEq] at hinit
    obtain ⟨hm, hl⟩ := hinit
    rw [← hm, ← hl]
    have hz := all_zero_bit_clear_p env.DUMP_BITSET_WORD_WIDTH _ _ hrange
    have hone := all_ones_bit_set_p env.DUMP_BITSET_WORD_WIDTH _ _ hrange hW
    exact ⟨hslot _ _ _ hz, hslot _ _ _ hone, hz, hone⟩
/-- C17 at a load of `sample_header` on a 64-bit host with 64-bit words: the
bit of the aligned offset 4088, the last one below `discardable_start`. -/
theorem dump_bitsets_init_marks_witness :
    (pdumper_load (sample_env 64 140000 (sample_header dump_magic (sample_fingerprint 7)))
        sample_state).2.1.mark_bits.number_words = 8
      ∧ dump_bitset_bit_set_p 64
          (pdumper_load (sample_env 64 140000 (sample_header dump_magic (sample_fingerprint 7)))
            sample_state).2.1.mark_bits 511 = some false
      ∧ dump_bitset_bit_set_p 64
          (pdumper_load (sample_env 64 140000 (sample_header dump_magic (sample_fingerprint 7)))
            sample_state).2.1.last_mark_bits 511 = some true :=
  ⟨by decide,
    (((dump_bitsets_init_marks 64 64 (by decide)).2
      (sample_env 64 140000 (sample_header dump_magic (sample_fingerprint 7))) sample_state
      rfl rfl (by decide) (by decide) (by decide) (by decide) (by decide) (by decide)).2
      4088 (by decide) (by decide) (by decide)).2.2⟩

/-! ### Objects are dumped once -/

theorem cold_not_emacs_ptr (b : Bool) (object : lisp_object)
    (hc : cold_object_p object = true) : dump_object_emacs_ptr b object = false := by
  unfold cold_object_p at hc
  unfold dump_object_emacs_ptr
  cases hb : object.body with
  | fixnum => rfl
  | cons => rfl
  | float => rfl
  | string _ _ => rfl
  | symbol _ _ => rw [hb] at hc; simp at hc
  | vectorlike v =>
    rw [hb] at hc
    simp only [decide_eq_true_eq] at hc
    simp [hc]

theorem dump_object_tail_remembers (object : lisp_object) (w r : dump_context × Int)
    (h : (if w.1.flags.dump_object_contents ∧ w.2 > DUMP_OBJECT_NOT_SEEN then
            if (dump_remember_object w.1 object w.2).flags.record_object_starts then
              (Except.ok
                ({ dump_remember_object w.1 object w.2 with
                   object_starts :=
                     [dump_off_to_lisp (XTYPE object).code, dump_off_to_lisp w.2]
                       :: (dump_remember_object w.1 object w.2).object_starts }, w.2)
                : Except dump_error (dump_context × Int))
            else Except.ok (dump_remember_object w.1 object w.2, w.2)
          else Except.ok w) = Except.ok r)
    (hc : r.1.flags.dump_object_contents = true) (hpos : 0 < r.2) :
    dump_recall_object r.1 object = r.2 := by
  split at h
  · split at h
    · cases h
      simp [dump_recall_object, dump_remember_object]
    · cases h
      simp [dump_recall_object, dump_remember_object]
  · rename_i hcond
    cases h
    exfalso
    apply hcond
    exact ⟨hc, by unfold DUMP_OBJECT_NOT_SEEN; omega⟩

theorem dump_object_remembers (pf : platform) (fuel : Nat) (ctx : dump_context)
    (object : lisp_object) (r : dump_context × Int)
    (h : dump_object pf fuel ctx object = Except.ok r)
    (hc : r.1.flags.dump_object_contents = true) (hpos : 0 < r.2) :
    dump_recall_object r.1 object = r.2 := by
  cases fuel with
  | zero => rw [dump_object] at h; cases h
  | succ fuel =>
    rw [dump_object] at h
    dsimp only at h
    split at h
    · cases h; rfl
    · split at h
      · split at h
        · cases h
          unfold DUMP_OBJECT_ON_COLD_QUEUE at hpos
          omega
        · rename_i hneg _ _
          cases h
          exact absurd hpos hneg
      · split at h
        · split at h
          · simp only [bind, Except.bind] at h
            split at h
            · cases h
            · cases h
              unfold DUMP_OBJECT_ON_COPIED_QUEUE at hpos
              omega
          · rename_i hneg _ _ _
            cases h
            exact absurd hpos hneg
        · cases hbody : object.body with
          | fixnum =>
            rw [hbody] at h
            dsimp only at h
            simp only [bind, Except.bind] at h
            cases h
          | cons =>
            rw [hbody] at h
            dsimp only at h
            simp only [bind, Except.bind] at h
            exact dump_object_tail_remembers object _ r h hc hpos
          | float =>
            rw [hbody] at h
            dsimp only at h
            simp only [bind, Except.bind] at h
            exact dump_object_tail_remembers object _ r h hc hpos
          | string m2 intervals =>
            rw [hbody] at h
            dsimp only at h
            simp only [bind, Except.bind] at h
            exact dump_object_tail_remembers object _ r h hc hpos
          | symbol builtin redirect =>
            rw [hbody] at h
            dsimp only at h
            cases hw : dump_symbol pf (dump_object pf fuel) ctx object redirect
                (dump_recall_object ctx object) with
            | error e =>
              rw [hw] at h
              simp only [bind, Except.bind] at h
              cases h
            | ok w =>
              rw [hw] at h
              simp only [bind, Except.bind] at h
              exact dump_object_tail_remembers object w r h hc hpos
          | vectorlike v =>
            rw [hbody] at h
            dsimp only at h
            cases hw : dump_vectorlike pf (dump_object pf fuel) ctx object v with
            | error e =>
              rw [hw] at h
              simp only [bind, Except.bind] at h
              cases h
            | ok w =>
              rw [hw] at h
              simp only [bind, Except.bind] at h
              exact dump_object_tail_remembers object w r h hc hpos

/-- C18: `dump_object` on an object whose remembered offset is positive
returns that offset and the context it was given, unchanged; so does
`dump_object` on a cold object remembered as `DUMP_OBJECT_ON_COLD_QUEUE`
while `defer_cold_objects` is set, and on an object that lives in Emacs
remembered as `DUMP_OBJECT_ON_COPIED_QUEUE` while `defer_copied_objects` is
set, with the sentinel as the value.  After a call that wrote the object
(contents on, objects not packed, a positive offset returned) the object is
remembered at that offset, so every later call returns the same offset and
writes nothing. -/
theorem dump_object_idempotent (pf : platform) (fuel : Nat) (ctx : dump_context)
    (object : lisp_object) :
    (0 < dump_recall_object ctx object →
        dump_object pf (fuel + 1) ctx object = Except.ok (ctx, dump_recall_object ctx object))
      ∧ (cold_object_p object = true → ctx.flags.defer_cold_objects = true →
          dump_recall_object ctx object = DUMP_OBJECT_ON_COLD_QUEUE →
          dump_object pf (fuel + 1) ctx object = Except.ok (ctx, DUMP_OBJECT_ON_COLD_QUEUE))
      ∧ (dump_object_emacs_ptr pf.HAVE_NATIVE_COMP object = true →
          ctx.flags.defer_copied_objects = true →
          dump_recall_object ctx object = DUMP_OBJECT_ON_COPIED_QUEUE →
          dump_object pf (fuel + 1) ctx object = Except.ok (ctx, DUMP_OBJECT_ON_COPIED_QUEUE))
      ∧ (∀ (fuel0 : Nat) (ctx0 : dump_context) (r : dump_context × Int),
          ctx0.flags.dump_object_contents = true → ctx0.flags.pack_objects = false →
          dump_object pf fuel0 ctx0 object = Except.ok r → 0 < r.2 →
          dump_recall_object r.1 object = r.2
            ∧ dump_object pf (fuel + 1) r.1 object = Except.ok (r.1, r.2)) := by
  have hfirst : ∀ c : dump_context, 0 < dump_recall_object c object →
      dump_object pf (fuel + 1) c object
        = Except.ok (c, dump_recall_object c object) := by
    intro c hpos
    rw [dump_object]
    dsimp only
    rw [if_pos hpos]
  refine ⟨hfirst ctx, ?_, ?_, ?_⟩
  · intro hcold hdefer hrec
    rw [dump_object]
    dsimp only
    rw [hrec, if_neg (by decide), if_pos ⟨hcold, hdefer⟩, if_neg (by simp)]
  · intro hptr hdefer hrec
    have hnc : ¬ (cold_object_p object = true ∧ ctx.flags.defer_cold_objects = true) := by
      rintro ⟨hc, _⟩
      rw [cold_not_emacs_ptr _ object hc] at hptr
      cases hptr
    rw [dump_object]
    dsimp only
    rw [hrec, if_neg (by decide), if_neg hnc, if_pos ⟨hptr, hdefer⟩, if_neg (by simp)]
  · intro fuel0 ctx0 r hc hp hrun hpos
    have hflags := (dump_object_ok pf fuel0 ctx0 object r hrun hp).1
    have hrem := dump_object_remembers pf fuel0 ctx0 object r hrun (by rw [hflags]; exact hc) hpos
    refine ⟨hrem, ?_⟩
    have := hfirst r.1 (by rw [hrem]; exact hpos)
    rw [hrem] at this
    exact this

/-- C18 at `sample_string`: written once from `sample_idle_context`, it is
remembered at 4104, and `dump_object` on it again returns 4104 and the same
context. -/
theorem dump_object_idempotent_witness :
    dump_object sample_platform 3 sample_idle_context sample_string = Except.ok sample_dumped
      ∧ sample_dumped.2 = 4104
      ∧ dump_recall_object sample_dumped.1 sample_string = sample_dumped.2
      ∧ dump_object sample_platform (0 + 1) sample_dumped.1 sample_string
          = Except.ok (sample_dumped.1, sample_dumped.2) :=
  ⟨rfl, rfl,
    (dump_object_idempotent sample_platform 0 sample_idle_context sample_string).2.2.2
      3 sample_idle_context sample_dumped rfl rfl rfl (by decide)⟩

/-! ### The dump queue -/

theorem dump_queue_scan_fancy_loop_bound {S : Type} [LinearOrderedField S] (m : link_score S)
    (q : dump_queue) (basis : Int) (l : List Nat) (i : Nat) (highest : Option (Nat × S))
    (hh : ∀ j s, highest = some (j, s) → j < i) :
    (∀ j s, dump_queue_scan_fancy_loop m q basis i l highest = some (j, s) → j < i + l.length)
      ∧ (l ≠ [] → dump_queue_scan_fancy_loop m q basis i l highest ≠ none) := by
  induction l generalizing i highest with
  | nil =>
    unfold dump_queue_scan_fancy_loop
    refine ⟨?_, fun h => absurd rfl h⟩
    intro j s hj
    have := hh j s hj
    simpa using this
  | cons o rest ih =>
    unfold dump_queue_scan_fancy_loop
    dsimp only
    have key : ∀ h1 : Option (Nat × S), (∀ j s, h1 = some (j, s) → j < i + 1) → h1 ≠ none →
        (∀ j s, dump_queue_scan_fancy_loop m q basis (i + 1) rest h1 = some (j, s) →
            j < i + (o :: rest).length)
          ∧ ((o :: rest) ≠ [] → dump_queue_scan_fancy_loop m q basis (i + 1) rest h1 ≠ none) := by
      intro h1 hnext hsome
      obtain ⟨ih1, ih2⟩ := ih (i + 1) h1 hnext
      refine ⟨?_, ?_⟩
      · intro j s hj
        have := ih1 j s hj
        simp only [List.length_cons]
        omega
      · intro _
        cases rest with
        | nil =>
          unfold dump_queue_scan_fancy_loop
          exact hsome
        | cons o2 rest2 => exact ih2 (by simp)
    cases highest with
    | none =>
      exact key _ (by intro j s hj; simp only [Option.some.injEq, Prod.mk.injEq] at hj; omega)
        (by simp)
    | some p =>
      obtain ⟨j0, s0⟩ := p
      simp only
      by_cases hge : dump_queue_compute_score m q o basis ≥ s0
      · rw [if_pos hge]
        exact key _ (by intro j s hj; simp only [Option.some.injEq, Prod.mk.injEq] at hj; omega)
          (by simp)
      · rw [if_neg hge]
        exact key _ (by
          intro j s hj
          simp only [Option.some.injEq, Prod.mk.injEq] at hj
          have := hh j0 s0 rfl
          omega) (by simp)

theorem dump_queue_sequence_congr (q q1 : dump_queue)
    (h : q1.sequence_numbers = q.sequence_numbers) (o : Nat) :
    dump_queue_sequence q1 o = dump_queue_sequence q o := by
  unfold dump_queue_sequence
  rw [h]

theorem dump_queue_dequeue_fancy_stale {S : Type} [LinearOrderedField S] (m : link_score S)
    (basis : Int) (fuel : Nat) (q : dump_queue) (hfuel : q.fancy_weight_objects.length < fuel)
    (hstale : ∀ o, o ∈ q.fancy_weight_objects → dump_queue_sequence q o < 0) :
    dump_queue_dequeue_fancy m basis fuel q
      = some ({ q with fancy_weight_objects := [] }, none, 0) := by
  induction fuel generalizing q with
  | zero => omega
  | succ fuel ih =>
    rw [dump_queue_dequeue_fancy]
    cases hl : q.fancy_weight_objects with
    | nil =>
      have hscan : dump_queue_scan_fancy m q basis = none := by
        unfold dump_queue_scan_fancy
        rw [hl]
        unfold dump_queue_scan_fancy_loop
        rfl
      rw [hscan]
      cases q
      simp only at hl
      subst hl
      rfl
    | cons o rest =>
      obtain ⟨hb, hne⟩ := dump_queue_scan_fancy_loop_bound m q basis q.fancy_weight_objects 0 none
        (by intro j s h; cases h)
      cases hscan : dump_queue_scan_fancy m q basis with
      | none =>
        exfalso
        unfold dump_queue_scan_fancy at hscan
        exact hne (by rw [hl]; simp) hscan
      | some p =>
        obtain ⟨i, s⟩ := p
        have hi : i < q.fancy_weight_objects.length := by
          have := hb i s hscan
          omega
        have hmem : q.fancy_weight_objects.getD i 0 ∈ q.fancy_weight_objects := by
          rw [List.getD_eq_getElem _ _ hi]
          exact List.getElem_mem hi
        have hst := hstale _ hmem
        rw [← hl]
        simp only [hst, if_true]
        have hrec := ih { q with fancy_weight_objects := q.fancy_weight_objects.eraseIdx i }
          (by
            simp only
            rw [List.length_eraseIdx]
            simp only [hi, if_true]
            omega)
          (by
            intro o2 ho2
            simp only at ho2
            have hm2 : o2 ∈ q.fancy_weight_objects := List.mem_of_mem_eraseIdx ho2
            exact hstale o2 hm2)
        rw [hrec]

theorem dump_queue_find_score_eq {S : Type} [LinearOrderedField S] (m : link_score S)
    (q : dump_queue) (basis : Int) (l : List Nat) :
    dump_queue_find_score_of_one_weight_queue m q basis l
      = match l.dropWhile (fun o => decide (dump_queue_sequence q o < 0)) with
        | [] => ([], none, 0)
        | head :: rest =>
          (head :: rest, some (dump_queue_compute_score m q head basis),
            dump_queue_sequence q head) := by
  induction l with
  | nil => rfl
  | cons o rest ih =>
    rw [dump_queue_find_score_of_one_weight_queue]
    by_cases hs : dump_queue_sequence q o < 0
    · rw [if_pos hs, ih, List.dropWhile_cons_of_pos (by simpa using hs)]
    · rw [if_neg hs, List.dropWhile_cons_of_neg (by simpa using hs)]

theorem dropWhile_stale_nil (q : dump_queue) (l : List Nat)
    (h : ∀ o, o ∈ l → dump_queue_sequence q o < 0) :
    l.dropWhile (fun o => decide (dump_queue_sequence q o < 0)) = [] := by
  rw [List.dropWhile_eq_nil_iff]
  intro o ho
  simpa using h o ho
theorem mem_recorded_edges (table : List (Nat × weight_list)) (o : Nat) (l : List (Int × Int))
    (e : Int × Int) (h : (o, weight_list.conses l) ∈ table) (he : e ∈ l) :
    e ∈ table.foldr
      (fun e acc =>
        match e.2 with
        | weight_list.Qt => acc
        | weight_list.conses l => l ++ acc) [] := by
  induction table with
  | nil => cases h
  | cons x rest ih =>
    simp only [List.foldr_cons]
    rcases List.mem_cons.mp h with hx | hx
    · rw [← hx]
      simp only
      exact List.mem_append_left _ he
    · have := ih hx
      cases hw : x.2 with
      | Qt => simpa using this
      | conses l2 =>
        simp only
        exact List.mem_append_right _ this

theorem Fgethash_mem {V : Type} (key : Nat) (table : List (Nat × V)) (dflt : V) :
    Fgethash key table dflt = dflt ∨ (key, Fgethash key table dflt) ∈ table := by
  unfold Fgethash
  induction table with
  | nil => exact Or.inl rfl
  | cons x rest ih =>
    obtain ⟨k, v⟩ := x
    by_cases hk : key = k
    · subst hk
      right
      simp [List.lookup]
    · have hb : (key == k) = false := by simpa using hk
      simp only [List.lookup, hb]
      rcases ih with h | h
      · exact Or.inl h
      · exact Or.inr (List.mem_cons_of_mem _ h)

theorem dump_queue_distances_defined_of_edges (q : dump_queue) (basis : Int)
    (h : ∀ e ∈ recorded_edges q, e.1 ≤ basis) (o : Nat) :
    dump_queue_distances_defined q o basis = true := by
  unfold dump_queue_distances_defined
  cases hw : Fgethash o q.link_weights (weight_list.conses []) with
  | Qt => rfl
  | conses l =>
    simp only [List.all_eq_true, decide_eq_true_eq]
    intro e he
    have hmem : (o, weight_list.conses l) ∈ q.link_weights := by
      rcases Fgethash_mem o q.link_weights (weight_list.conses []) with h1 | h1
      · rw [hw] at h1
        simp only [weight_list.conses.injEq] at h1
        rw [h1] at he
        cases he
      · rw [hw] at h1
        exact h1
    have := h e (mem_recorded_edges q.link_weights o l e hmem he)
    omega

theorem dump_queue_dequeue_of_scored {S : Type} [LinearOrderedField S] (m : link_score S)
    (q : dump_queue) (basis : Int)
    (hall : ∀ o, dump_queue_distances_defined q o basis = true) :
    dump_queue_dequeue m q basis = dump_queue_dequeue_scored m q basis := by
  unfold dump_queue_dequeue
  have h1 : ¬ ((dump_queue_scored_objects q).all (fun object =>
      dump_queue_distances_defined q object basis) = false) := by
    simp [hall]
  rw [if_neg h1]
  cases h : dump_queue_dequeue_scored m q basis with
  | error e => rfl
  | ok r =>
    obtain ⟨result, q1⟩ := r
    simp only
    rw [if_neg (by simp [hall])]

theorem dump_queue_dequeue_scored_of {S : Type} [LinearOrderedField S] (m : link_score S)
    (q : dump_queue) (basis : Int) (r : Nat × dump_queue)
    (h : dump_queue_dequeue m q basis = Except.ok r) :
    dump_queue_dequeue_scored m q basis = Except.ok r
      ∧ dump_queue_distances_defined q r.1 basis = true
      ∧ ∀ o ∈ dump_queue_scored_objects q, dump_queue_distances_defined q o basis = true := by
  unfold dump_queue_dequeue at h
  by_cases h1 : (dump_queue_scored_objects q).all (fun object =>
      dump_queue_distances_defined q object basis) = false
  · rw [if_pos h1] at h
    cases h
  · rw [if_neg h1] at h
    cases hs : dump_queue_dequeue_scored m q basis with
    | error e =>
      rw [hs] at h
      cases h
    | ok r1 =>
      obtain ⟨result, q1⟩ := r1
      rw [hs] at h
      simp only at h
      by_cases h2 : dump_queue_distances_defined q result basis = false
      · rw [if_pos h2] at h
        cases h
      · rw [if_neg h2] at h
        have hr : (result, q1) = r := Except.ok.inj h
        subst hr
        refine ⟨rfl, by simpa using h2, ?_⟩
        intro o ho
        have := h1
        simp only [Bool.not_eq_false, List.all_eq_true] at this
        exact this o ho

theorem dump_queue_dequeue_normal_head {S : Type} [LinearOrderedField S] (m : link_score S)
    (q : dump_queue) (basis : Int)
    (hf : ∀ o, o ∈ q.fancy_weight_objects → dump_queue_sequence q o < 0)
    (hs : ∀ o, o ∈ q.one_weight_strong_objects → dump_queue_sequence q o < 0)
    (head : Nat) (rest : List Nat)
    (hn : q.one_weight_normal_objects.dropWhile
        (fun o => decide (dump_queue_sequence q o < 0)) = head :: rest) :
    dump_queue_dequeue_scored m q basis
      = Except.ok (head,
          { q with
            fancy_weight_objects := []
            one_weight_normal_objects := rest
            one_weight_strong_objects := []
            link_weights := Fremhash head q.link_weights
            sequence_numbers := Fremhash head q.sequence_numbers }) := by
  unfold dump_queue_dequeue_scored
  rw [dump_queue_dequeue_fancy_stale m basis _ q (by omega) hf]
  simp only [dump_queue_find_score_eq]
  have hn1 : List.dropWhile
      (fun o => decide (dump_queue_sequence
        { q with fancy_weight_objects := [] } o < 0)) q.one_weight_normal_objects
      = head :: rest := hn
  rw [hn1]
  have hs1 : List.dropWhile
      (fun o => decide (dump_queue_sequence
        { q with fancy_weight_objects := [], one_weight_normal_objects := head :: rest } o < 0))
      q.one_weight_strong_objects = [] := dropWhile_stale_nil q _ hs
  simp only [hs1]
  simp only [dump_queue_dequeue_best, Option.map_some', dump_tailq_pop]
theorem mem_Fremhash {V : Type} (key : Nat) (table : List (Nat × V)) (e : Nat × V)
    (h : e ∈ Fremhash key table) : e ∈ table ∧ e.1 ≠ key := by
  unfold Fremhash at h
  rw [List.mem_filter] at h
  exact ⟨h.1, by simpa using h.2⟩

theorem dump_queue_sequence_of_mem (q : dump_queue) (o : Nat) (n : Int)
    (h : (o, n) ∈ q.sequence_numbers)
    (hpos : ∀ o n, (o, n) ∈ q.sequence_numbers → 0 ≤ n) :
    0 ≤ dump_queue_sequence q o := by
  unfold dump_queue_sequence
  cases hl : q.sequence_numbers.lookup o with
  | none =>
    exfalso
    rw [List.lookup_eq_none_iff] at hl
    have := hl (o, n) h
    simp at this
  | some n1 =>
    obtain ⟨l1, l2, heq, _⟩ := List.lookup_eq_some_iff.mp hl
    have hm : (o, n1) ∈ q.sequence_numbers := by
      rw [heq]
      simp
    exact hpos o n1 hm

theorem normal_only_init : normal_only dump_queue_init := by
  unfold normal_only dump_queue_init
  refine ⟨rfl, rfl, rfl, ?_, ?_, by decide⟩
  · intro o w h; cases h
  · intro o n h; cases h

theorem normal_only_enqueue (q q1 : dump_queue) (object : Nat) (basis : Int)
    (hq : normal_only q)
    (hnew : Fgethash object q.link_weights (weight_list.conses []) = weight_list.conses [])
    (h : dump_queue_enqueue q object basis WEIGHT_NORMAL = Except.ok q1) : normal_only q1 := by
  obtain ⟨h1, h2, h3, h4, h5, h6⟩ := hq
  unfold dump_queue_enqueue at h
  simp only [hnew, if_true] at h
  simp only [dump_queue_push_weight, dump_tailq_prepend, ne_eq, weight_list.conses.injEq,
    List.cons_ne_nil, not_false_eq_true, if_true, Except.ok.injEq] at h
  rw [if_neg (by decide)] at h
  simp only [Except.ok.injEq] at h
  subst h
  refine ⟨h1, h2, h3, ?_, ?_, ?_⟩
  · intro o w hm
    simp only [Fputhash, List.mem_cons, Prod.mk.injEq] at hm
    rcases hm with ⟨_, hw⟩ | hm
    · exact ⟨basis, hw⟩
    · exact h4 o w (mem_Fremhash _ _ _ hm).1
  · intro o n hm
    simp only [Fputhash, List.mem_cons, Prod.mk.injEq] at hm
    rcases hm with ⟨ho, hn⟩ | hm
    · subst ho hn
      exact ⟨by omega, by simp⟩
    · have := h5 o n (mem_Fremhash _ _ _ hm).1
      exact ⟨this.1, by simp [this.2]⟩
  · show 1 ≤ q.next_sequence_number + 1
    omega

theorem normal_only_dequeue {S : Type} [LinearOrderedField S] (m : link_score S)
    (q : dump_queue) (basis : Int) (hq : normal_only q)
    (hne : dump_queue_empty_p q = false) :
    ∃ head rest,
      q.one_weight_normal_objects.dropWhile
          (fun o => decide (dump_queue_sequence q o < 0)) = head :: rest
        ∧ 0 ≤ dump_queue_sequence q head
        ∧ dump_queue_dequeue_scored m q basis
          = Except.ok (head,
              { q with
                fancy_weight_objects := []
                one_weight_normal_objects := rest
                one_weight_strong_objects := []
                link_weights := Fremhash head q.link_weights
                sequence_numbers := Fremhash head q.sequence_numbers })
        ∧ normal_only
            { q with
              fancy_weight_objects := []
              one_weight_normal_objects := rest
              one_weight_strong_objects := []
              link_weights := Fremhash head q.link_weights
              sequence_numbers := Fremhash head q.sequence_numbers } := by
  obtain ⟨h1, h2, h3, h4, h5, h6⟩ := hq
  have hpos : ∀ o n, (o, n) ∈ q.sequence_numbers → 0 ≤ n := fun o n h => (h5 o n h).1
  -- some object is queued, and it is on the normal list
  obtain ⟨o0, n0, hmem0⟩ : ∃ o n, (o, n) ∈ q.sequence_numbers := by
    unfold dump_queue_empty_p hash_table_count at hne
    cases hl : q.sequence_numbers with
    | nil => rw [hl] at hne; simp at hne
    | cons e rest => exact ⟨e.1, e.2, by simp⟩
  have hlive0 := dump_queue_sequence_of_mem q o0 n0 hmem0 hpos
  have hin0 := (h5 o0 n0 hmem0).2
  cases hd : q.one_weight_normal_objects.dropWhile
      (fun o => decide (dump_queue_sequence q o < 0)) with
  | nil =>
    exfalso
    rw [List.dropWhile_eq_nil_iff] at hd
    have := hd o0 hin0
    simp only [decide_eq_true_eq] at this
    omega
  | cons head rest =>
    have hhead : 0 ≤ dump_queue_sequence q head := by
      have := List.head?_dropWhile_not (fun o => decide (dump_queue_sequence q o < 0))
        q.one_weight_normal_objects
      rw [hd] at this
      simp only [List.head?_cons, decide_eq_false_iff_not, not_lt] at this
      exact this
    refine ⟨head, rest, rfl, hhead, ?_, ?_⟩
    · exact dump_queue_dequeue_normal_head m q basis (by rw [h1]; intro o ho; cases ho)
        (by rw [h2]; intro o ho; cases ho) head rest hd
    · refine ⟨rfl, rfl, h3, ?_, ?_, h6⟩
      · intro o w hm
        exact h4 o w (mem_Fremhash _ _ _ hm).1
      · intro o n hm
        obtain ⟨hm1, hne1⟩ := mem_Fremhash _ _ _ hm
        refine ⟨hpos o n hm1, ?_⟩
        have hin := (h5 o n hm1).2
        have hlive := dump_queue_sequence_of_mem q o n hm1 hpos
        have hsplit := List.takeWhile_append_dropWhile
          (fun o => decide (dump_queue_sequence q o < 0)) q.one_weight_normal_objects
        rw [hd] at hsplit
        rw [← hsplit] at hin
        rcases List.mem_append.mp hin with hp | hp
        · exfalso
          have := List.mem_takeWhile_imp hp
          simp only [decide_eq_true_eq] at this
          omega
        · rcases List.mem_cons.mp hp with hp | hp
          · exact absurd hp hne1
          · exact hp

theorem normal_run_only {S : Type} [LinearOrderedField S] (m : link_score S) (q : dump_queue)
    (h : normal_run m q) : normal_only q := by
  induction h with
  | init => exact normal_only_init
  | enqueue q q1 object basis _ hnew henq ih => exact normal_only_enqueue q q1 object basis ih hnew henq
  | dequeue q q1 basis object _ hdeq ih =>
    by_cases hne : dump_queue_empty_p q = false
    · obtain ⟨head, rest, _, _, hd, hinv⟩ := normal_only_dequeue m q basis ih hne
      have hdeq1 := (dump_queue_dequeue_scored_of m q basis _ hdeq).1
      rw [hd] at hdeq1
      cases hdeq1
      exact hinv
    · -- an empty queue: nothing on any list to pop
      exfalso
      obtain ⟨h1, h2, h3, h4, h5, h6⟩ := ih
      have hempty : q.sequence_numbers = [] := by
        unfold dump_queue_empty_p hash_table_count at hne
        cases hl : q.sequence_numbers with
        | nil => rfl
        | cons e rest => rw [hl] at hne; simp at hne
      have hstale : ∀ o, dump_queue_sequence q o < 0 := by
        intro o
        unfold dump_queue_sequence
        rw [hempty]
        simp
      have hdeq := (dump_queue_dequeue_scored_of m q basis _ hdeq).1
      unfold dump_queue_dequeue_scored at hdeq
      rw [dump_queue_dequeue_fancy_stale m basis _ q (by omega) (fun o _ => hstale o)] at hdeq
      simp only [dump_queue_find_score_eq] at hdeq
      have hn1 : List.dropWhile
          (fun o => decide (dump_queue_sequence
            { q with fancy_weight_objects := [] } o < 0)) q.one_weight_normal_objects = [] :=
        dropWhile_stale_nil q _ (fun o _ => hstale o)
      rw [hn1] at hdeq
      have hs1 : List.dropWhile
          (fun o => decide (dump_queue_sequence
            { q with fancy_weight_objects := [], one_weight_normal_objects := [] } o < 0))
          q.one_weight_strong_objects = [] := dropWhile_stale_nil q _ (fun o _ => hstale o)
      simp only [hs1] at hdeq
      simp only [dump_queue_dequeue_best, Option.map_none', dump_tailq_pop, h3] at hdeq
      cases hdeq
theorem dump_queue_dequeue_fancy_live {S : Type} [LinearOrderedField S] (m : link_score S)
    (basis : Int) (fuel : Nat) (q : dump_queue) (i : Nat) (score : S)
    (hscan : dump_queue_scan_fancy m q basis = some (i, score))
    (hlive : 0 ≤ dump_queue_sequence q (q.fancy_weight_objects.getD i 0)) :
    dump_queue_dequeue_fancy m basis (fuel + 1) q
      = some (q, some score, dump_queue_sequence q (q.fancy_weight_objects.getD i 0)) := by
  rw [dump_queue_dequeue_fancy, hscan]
  simp only
  rw [if_neg (by omega)]

/-- C19, the call that diverges: in `sample_fancy_queue` object 2 has the
greater score at 1000, and `dump_queue_dequeue` at 1000 returns object 1,
the head of the fancy list. -/
theorem dump_queue_dequeue_returns_fancy_head {S : Type} [LinearOrderedField S]
    (m : link_score S) :
    dump_queue_enqueue_all dump_queue_init
        [(1, 1, WEIGHT_NORMAL), (2, 499, WEIGHT_NORMAL), (2, 500, WEIGHT_NORMAL),
          (1, 500, WEIGHT_NORMAL)] = Except.ok sample_fancy_queue
      ∧ 0 ≤ dump_queue_sequence sample_fancy_queue 1
      ∧ 0 ≤ dump_queue_sequence sample_fancy_queue 2
      ∧ dump_queue_compute_score m sample_fancy_queue 1 1000
          < dump_queue_compute_score m sample_fancy_queue 2 1000
      ∧ dump_queue_dequeue m sample_fancy_queue 1000
          = Except.ok (1,
              { sample_fancy_queue with
                fancy_weight_objects := [2]
                link_weights := [(2, weight_list.conses [(500, 1000), (499, 1000)])]
                sequence_numbers := [(2, 2)] }) := by
  have hlt := m.score_lt 1000 1 499 1000 (by decide) (by decide) (by decide)
  have hs1 : dump_queue_compute_score m sample_fancy_queue 1 1000
      = 0 + m.dump_calc_link_score 1000 500 1000 + m.dump_calc_link_score 1000 1 1000 := rfl
  have hs2 : dump_queue_compute_score m sample_fancy_queue 2 1000
      = 0 + m.dump_calc_link_score 1000 500 1000 + m.dump_calc_link_score 1000 499 1000 := rfl
  have hcmp : dump_queue_compute_score m sample_fancy_queue 1 1000
      < dump_queue_compute_score m sample_fancy_queue 2 1000 := by
    rw [hs1, hs2]
    exact add_lt_add_left hlt _
  refine ⟨rfl, by decide, by decide, hcmp, ?_⟩
  have hscan : dump_queue_scan_fancy m sample_fancy_queue 1000
      = some (1, dump_queue_compute_score m sample_fancy_queue 2 1000) := by
    unfold dump_queue_scan_fancy
    show dump_queue_scan_fancy_loop m sample_fancy_queue 1000 0 [1, 2] none = _
    unfold dump_queue_scan_fancy_loop
    simp only
    unfold dump_queue_scan_fancy_loop
    simp only
    rw [if_pos (le_of_lt hcmp)]
    unfold dump_queue_scan_fancy_loop
    rfl
  rw [dump_queue_dequeue_of_scored m sample_fancy_queue 1000
    (dump_queue_distances_defined_of_edges _ _ (by decide))]
  unfold dump_queue_dequeue_scored
  have hf := dump_queue_dequeue_fancy_live m 1000 2 sample_fancy_queue 1 _ hscan (by decide)
  have hlen : sample_fancy_queue.fancy_weight_objects.length + 1 = 2 + 1 := rfl
  rw [hlen, hf]
  simp only [dump_queue_find_score_eq]
  have hn : List.dropWhile
      (fun o => decide (dump_queue_sequence sample_fancy_queue o < 0))
      sample_fancy_queue.one_weight_normal_objects = [2, 1] := by decide
  rw [hn]
  have hs : List.dropWhile
      (fun o => decide (dump_queue_sequence
        { sample_fancy_queue with one_weight_normal_objects := [2, 1] } o < 0))
      sample_fancy_queue.one_weight_strong_objects = [] := by decide
  simp only [hs]
  have hq : dump_queue_sequence sample_fancy_queue
      (sample_fancy_queue.fancy_weight_objects.getD 1 0) = 2 := by decide
  have hq2 : dump_queue_sequence sample_fancy_queue 2 = 2 := by decide
  simp only [hq, hq2, dump_queue_dequeue_best, gt_iff_lt, lt_irrefl, false_or, and_false,
    if_false, Option.map_some']
  rfl
theorem dump_queue_dequeue_twice_queue {S : Type} [LinearOrderedField S] (m : link_score S) :
    dump_queue_enqueue_all dump_queue_init
        [(1, 10, WEIGHT_NORMAL), (1, 10, WEIGHT_NORMAL), (2, 10, WEIGHT_NORMAL)]
        = Except.ok sample_twice_queue
      ∧ (∀ e, e ∈ recorded_edges sample_twice_queue → e.2 = WEIGHT_NORMAL ∧ e.1 ≤ 40)
      ∧ sample_twice_queue.one_weight_normal_objects.dropWhile
          (fun o => decide (dump_queue_sequence sample_twice_queue o < 0)) = [2, 1]
      ∧ dump_queue_dequeue m sample_twice_queue 40
          = Except.ok (1,
              { sample_twice_queue with
                fancy_weight_objects := []
                link_weights := [(2, weight_list.conses [(10, 1000)])]
                sequence_numbers := [(2, 2)] }) := by
  have hpos := m.score_pos 40 10 1000 (by decide) (by decide)
  have hs1 : dump_queue_compute_score m sample_twice_queue 1 40
      = 0 + m.dump_calc_link_score 40 10 1000 + m.dump_calc_link_score 40 10 1000 := rfl
  have hs2 : dump_queue_compute_score m sample_twice_queue 2 40
      = 0 + m.dump_calc_link_score 40 10 1000 := rfl
  have hcmp : dump_queue_compute_score m sample_twice_queue 2 40
      < dump_queue_compute_score m sample_twice_queue 1 40 := by
    rw [hs1, hs2]
    exact lt_add_of_pos_right _ hpos
  refine ⟨rfl, by decide, by decide, ?_⟩
  have hscan : dump_queue_scan_fancy m sample_twice_queue 40
      = some (0, dump_queue_compute_score m sample_twice_queue 1 40) := by
    unfold dump_queue_scan_fancy
    show dump_queue_scan_fancy_loop m sample_twice_queue 40 0 [1] none = _
    unfold dump_queue_scan_fancy_loop
    simp only
    unfold dump_queue_scan_fancy_loop
    rfl
  rw [dump_queue_dequeue_of_scored m sample_twice_queue 40
    (dump_queue_distances_defined_of_edges _ _ (by decide))]
  unfold dump_queue_dequeue_scored
  have hf := dump_queue_dequeue_fancy_live m 40 1 sample_twice_queue 0 _ hscan (by decide)
  have hlen : sample_twice_queue.fancy_weight_objects.length + 1 = 1 + 1 := rfl
  rw [hlen, hf]
  simp only [dump_queue_find_score_eq]
  have hn : List.dropWhile
      (fun o => decide (dump_queue_sequence sample_twice_queue o < 0))
      sample_twice_queue.one_weight_normal_objects = [2, 1] := by decide
  rw [hn]
  have hs : List.dropWhile
      (fun o => decide (dump_queue_sequence
        { sample_twice_queue with one_weight_normal_objects := [2, 1] } o < 0))
      sample_twice_queue.one_weight_strong_objects = [] := by decide
  simp only [hs]
  have hq : dump_queue_sequence sample_twice_queue
      (sample_twice_queue.fancy_weight_objects.getD 0 0) = 1 := by decide
  have hq2 : dump_queue_sequence sample_twice_queue 2 = 2 := by decide
  have hngt : ¬ (dump_queue_compute_score m sample_twice_queue 2 40
      > dump_queue_compute_score m sample_twice_queue 1 40) := not_lt.mpr (le_of_lt hcmp)
  have hne : ¬ (dump_queue_compute_score m sample_twice_queue 2 40
      = dump_queue_compute_score m sample_twice_queue 1 40) := ne_of_lt hcmp
  simp only [hq, hq2, dump_queue_dequeue_best, hngt, hne, false_and, or_self, if_false,
    Option.map_some']
  rfl

/-- Every edge recorded in `sample_twice_queue` has weight `WEIGHT_NORMAL`
and a basis below 40, and object 2 is at the head of the list of objects
with one normal weight; `dump_queue_dequeue` at 40 returns object 1, which
has two edges and is popped from the fancy list. -/
theorem dump_queue_dequeue_normal_counterexample :
    dump_queue_enqueue_all dump_queue_init
        [(1, 10, WEIGHT_NORMAL), (1, 10, WEIGHT_NORMAL), (2, 10, WEIGHT_NORMAL)]
        = Except.ok sample_twice_queue
      ∧ (∀ e, e ∈ recorded_edges sample_twice_queue → e.2 = WEIGHT_NORMAL ∧ e.1 ≤ 40)
      ∧ sample_twice_queue.one_weight_normal_objects.dropWhile
          (fun o => decide (dump_queue_sequence sample_twice_queue o < 0)) = [2, 1]
      ∧ dump_queue_dequeue sample_link_score sample_twice_queue 40
          = Except.ok (1,
              { sample_twice_queue with
                fancy_weight_objects := []
                link_weights := [(2, weight_list.conses [(10, 1000)])]
                sequence_numbers := [(2, 2)] }) :=
  dump_queue_dequeue_twice_queue sample_link_score

/-- C20 (amended): in a queue reached from `dump_queue_init` by dequeues and
by enqueues with `WEIGHT_NORMAL` of objects that have no weights recorded at
the time of the call, every queued object has exactly one edge, of weight
`WEIGHT_NORMAL`, and `dump_queue_dequeue` on it, when it is not empty,
returns at every cursor offset that is not below the basis of any recorded
edge the first object of `one_weight_normal_objects` that has a sequence
number (the head once the stale heads are discarded), leaves the rest of
that list, and removes the object's weights and sequence number. -/
theorem dump_queue_dequeue_normal_only {S : Type} [LinearOrderedField S] (m : link_score S)
    (q : dump_queue) (hrun : normal_run m q) (hne : dump_queue_empty_p q = false)
    (basis : Int) (hbasis : ∀ e ∈ recorded_edges q, e.1 ≤ basis) :
    (∀ o w, (o, w) ∈ q.link_weights → ∃ b, w = weight_list.conses [(b, WEIGHT_NORMAL)])
      ∧ ∃ head rest q1,
          q.one_weight_normal_objects.dropWhile
              (fun o => decide (dump_queue_sequence q o < 0)) = head :: rest
            ∧ 0 ≤ dump_queue_sequence q head
            ∧ dump_queue_dequeue m q basis = Except.ok (head, q1)
            ∧ q1.one_weight_normal_objects = rest
            ∧ q1.link_weights = Fremhash head q.link_weights
            ∧ q1.sequence_numbers = Fremhash head q.sequence_numbers
            ∧ dump_queue_sequence q1 head < 0 := by
  have hinv := normal_run_only m q hrun
  obtain ⟨head, rest, hd, hlive, hdeq, _⟩ := normal_only_dequeue m q basis hinv hne
  rw [← dump_queue_dequeue_of_scored m q basis
    (dump_queue_distances_defined_of_edges q basis hbasis)] at hdeq
  refine ⟨hinv.2.2.2.1, head, rest, _, hd, hlive, hdeq, rfl, rfl, rfl, ?_⟩
  unfold dump_queue_sequence
  have hnone : (Fremhash head q.sequence_numbers).lookup head = none := by
    rw [List.lookup_eq_none_iff]
    intro p hp
    have := (mem_Fremhash _ _ _ hp).2
    simpa using fun h => this h.symm
  simp only [hnone]
  decide

/-- C20 at `sample_normal_queue`, whose edges have the bases 10 and 20, and
the cursor offset 40: object 2, the head of the list, is returned. -/
theorem dump_queue_dequeue_normal_only_witness :
    (∀ o w, (o, w) ∈ sample_normal_queue.link_weights →
        ∃ b, w = weight_list.conses [(b, WEIGHT_NORMAL)])
      ∧ ∃ head rest q1,
          sample_normal_queue.one_weight_normal_objects.dropWhile
              (fun o => decide (dump_queue_sequence sample_normal_queue o < 0)) = head :: rest
            ∧ 0 ≤ dump_queue_sequence sample_normal_queue head
            ∧ dump_queue_dequeue sample_link_score sample_normal_queue 40
                = Except.ok (head, q1)
            ∧ q1.one_weight_normal_objects = rest
            ∧ q1.link_weights = Fremhash head sample_normal_queue.link_weights
            ∧ q1.sequence_numbers = Fremhash head sample_normal_queue.sequence_numbers
            ∧ dump_queue_sequence q1 head < 0 :=
  dump_queue_dequeue_normal_only sample_link_score sample_normal_queue
    (normal_run.enqueue _ _ 2 20
      (normal_run.enqueue _ _ 1 10 normal_run.init rfl
        (show dump_queue_enqueue dump_queue_init 1 10 WEIGHT_NORMAL
          = Except.ok
              { dump_queue_init with
                one_weight_normal_objects := [1]
                link_weights := [(1, weight_list.conses [(10, 1000)])]
                sequence_numbers := [(1, 1)]
                next_sequence_number := 2 } from rfl))
      rfl rfl)
    rfl 40 (by decide)


/-! ### Bignums -/

theorem mpz_getlimbn_lt (bits : Nat) (hbits : 0 < bits) (n : Int) (i : Nat)
    (hi : i < mpz_size bits n) : mpz_getlimbn bits n i < 2 ^ bits := by
  unfold mpz_getlimbn
  unfold mpz_size at hi
  rw [List.getD_eq_getElem _ _ hi]
  have h2 : 1 < 2 ^ bits := Nat.one_lt_two_pow (by omega)
  exact Nat.digits_lt_base h2 (List.getElem_mem _)

theorem mpz_size_pos (bits : Nat) (n : Int) (hn : n ≠ 0) : 0 < mpz_size bits n := by
  unfold mpz_size mpz_limbs
  have h1 : n.natAbs ≠ 0 := Int.natAbs_ne_zero.mpr hn
  have h2 : Nat.digits (2 ^ bits) n.natAbs ≠ [] := Nat.digits_ne_nil_iff_ne_zero.mpr h1
  exact List.length_pos.mpr h2

theorem mpz_roinit_n_limbs (bits : Nat) (n : Int) (xp : Nat → Nat)
    (hxp : ∀ i, i < mpz_size bits n → xp i = mpz_getlimbn bits n i) :
    mpz_roinit_n bits xp (if mpz_sgn n < 0 then -(mpz_size bits n : Int) else mpz_size bits n)
      = n := by
  have hl : (List.range (mpz_size bits n)).map xp = mpz_limbs bits n := by
    apply List.ext_getElem
    · simp [mpz_size]
    · intro i h1 h2
      simp only [List.getElem_map, List.getElem_range]
      have hi : i < mpz_size bits n := by simpa using h1
      rw [hxp i hi]
      unfold mpz_getlimbn
      exact List.getD_eq_getElem _ _ h2
  have hv : Nat.ofDigits (2 ^ bits) (mpz_limbs bits n) = n.natAbs := by
    unfold mpz_limbs
    exact Nat.ofDigits_digits _ _
  unfold mpz_roinit_n mpz_sgn
  rcases lt_trichotomy n 0 with hneg | hzero | hpos
  · have hk := mpz_size_pos bits n (ne_of_lt hneg)
    rw [if_pos (by rw [Int.sign_eq_neg_one_of_neg hneg]; decide)]
    rw [Int.natAbs_neg, Int.natAbs_ofNat, hl, hv]
    have hs : Int.sign (-(mpz_size bits n : Int)) = -1 :=
      Int.sign_eq_neg_one_of_neg (by omega)
    rw [hs]
    omega
  · subst hzero
    simp [mpz_size, mpz_limbs]
  · have hk := mpz_size_pos bits n (ne_of_gt hpos)
    rw [if_neg (by rw [Int.sign_eq_one_of_pos hpos]; decide)]
    rw [Int.natAbs_ofNat, hl, hv]
    have hs : Int.sign ((mpz_size bits n : Nat) : Int) = 1 :=
      Int.sign_eq_one_of_pos (by omega)
    rw [hs]
    omega

theorem to_signed_dump_off (x : Int) (h0 : DUMP_OFF_MIN ≤ x) (h1 : x ≤ DUMP_OFF_MAX) :
    to_signed DUMP_OFF_WIDTH x = x := by
  unfold to_signed DUMP_OFF_WIDTH
  unfold DUMP_OFF_MIN at h0
  unfold DUMP_OFF_MAX at h1
  norm_num at h0 h1 ⊢
  omega

theorem Fgethash_Fputhash {V : Type} (key : Nat) (value : V) (table : List (Nat × V))
    (dflt : V) : Fgethash key (Fputhash key value table) dflt = value := by
  simp [Fgethash, Fputhash, List.lookup]

theorem dump_write_checked_ok (ENABLE_CHECKING : Bool) (ctx : dump_context) (buf : Int → Nat)
    (data : Nat → Nat) (nbyte : Int)
    (hchk : ENABLE_CHECKING = true →
      ctx.obj_offset = 0 ∧ ctx.flags.dump_object_contents = true) :
    dump_write_checked ENABLE_CHECKING ctx buf data nbyte
      = Except.ok (dump_write_bytes ctx buf data nbyte) := by
  unfold dump_write_checked
  rw [if_neg (by
    intro hc
    exact hc.2 (hchk hc.1))]

theorem dump_write_zero_checked_loop_ok (ENABLE_CHECKING : Bool) (fuel : Nat)
    (ctx : dump_context) (buf : Int → Nat) (nbytes : Int)
    (hchk : ENABLE_CHECKING = true →
      ctx.obj_offset = 0 ∧ ctx.flags.dump_object_contents = true) :
    dump_write_zero_checked_loop ENABLE_CHECKING fuel ctx buf nbytes
      = Except.ok (dump_write_zero_loop fuel ctx buf nbytes) := by
  induction fuel generalizing ctx buf nbytes with
  | zero => rfl
  | succ fuel ih =>
    unfold dump_write_zero_checked_loop dump_write_zero_loop
    by_cases hn : nbytes > 0
    · rw [if_pos hn, if_pos hn]
      simp only [bind, Except.bind]
      rw [dump_write_checked_ok ENABLE_CHECKING ctx buf _ _ hchk]
      dsimp only
      exact ih _ _ _ hchk
    · rw [if_neg hn, if_neg hn]

theorem dump_align_output_checked_ok (ENABLE_CHECKING : Bool) (ctx : dump_context)
    (buf : Int → Nat) (alignment : Int)
    (hchk : ENABLE_CHECKING = true →
      ctx.obj_offset = 0 ∧ ctx.flags.dump_object_contents = true) :
    dump_align_output_checked ENABLE_CHECKING ctx buf alignment
      = Except.ok (dump_align_output_bytes ctx buf alignment) := by
  unfold dump_align_output_checked dump_align_output_bytes dump_write_zero_bytes
  split
  · exact dump_write_zero_checked_loop_ok ENABLE_CHECKING _ ctx buf _ hchk
  · rfl

theorem dump_align_output_obj_offset (ctx : dump_context) (alignment : Int) :
    (dump_align_output ctx alignment).obj_offset = ctx.obj_offset := by
  unfold dump_align_output dump_write_zero dump_write
  split
  · split <;> rfl
  · rfl

theorem dump_cold_bignum_loop_spec (ENABLE_CHECKING : Bool) (rp : memory_repr) (n : Int)
    (nlimbs : Int) (fuel : Nat) (i : Nat) (ctx : dump_context) (buf : Int → Nat)
    (hchk : ENABLE_CHECKING = true →
      ctx.obj_offset = 0 ∧ ctx.flags.dump_object_contents = true)
    (hi : (i : Int) ≤ nlimbs) (hfuel : nlimbs - i ≤ fuel) :
    ∃ r, dump_cold_bignum_loop ENABLE_CHECKING rp n nlimbs fuel i ctx buf = Except.ok r
      ∧ r.1.offset = ctx.offset + (nlimbs - i) * rp.sizeof_limb
      ∧ (∀ q, q < ctx.offset → r.2 q = buf q)
      ∧ (∀ m : Nat, i ≤ m → (m : Int) < nlimbs → ∀ j : Nat, j < rp.sizeof_limb →
          r.2 (ctx.offset + ((m : Int) - i) * rp.sizeof_limb + j)
            = rp.limb_byte (mpz_getlimbn rp.GMP_NUMB_BITS n m) j) := by
  induction fuel generalizing i ctx buf with
  | zero =>
    have he : nlimbs = i := by
      have : ((0 : Nat) : Int) = 0 := rfl
      omega
    refine ⟨(ctx, buf), rfl, ?_, fun q _ => rfl, ?_⟩
    · rw [he]; simp
    · intro m h1 h2; omega
  | succ fuel ih =>
    unfold dump_cold_bignum_loop
    by_cases hlt : (i : Int) < nlimbs
    · rw [if_pos hlt]
      simp only [bind, Except.bind]
      rw [dump_write_checked_ok ENABLE_CHECKING ctx buf _ _ hchk]
      dsimp only
      have hnext : ((i : Int) + 1) = ((i + 1 : Nat) : Int) := by push_cast; rfl
      rw [hnext]
      obtain ⟨r, hr, h1, h2, h3⟩ := ih (i + 1)
        (dump_write_bytes ctx buf (rp.limb_byte (mpz_getlimbn rp.GMP_NUMB_BITS n (i : Int).toNat))
          rp.sizeof_limb).1
        (dump_write_bytes ctx buf (rp.limb_byte (mpz_getlimbn rp.GMP_NUMB_BITS n (i : Int).toNat))
          rp.sizeof_limb).2
        hchk (by push_cast; omega) (by push_cast; push_cast at hfuel; omega)
      have hoff : (dump_write_bytes ctx buf
          (rp.limb_byte (mpz_getlimbn rp.GMP_NUMB_BITS n (i : Int).toNat))
          rp.sizeof_limb).1.offset = ctx.offset + rp.sizeof_limb := rfl
      rw [hoff] at h1 h2 h3
      have hsz : (0 : Int) ≤ rp.sizeof_limb := Int.ofNat_nonneg _
      refine ⟨r, hr, ?_, ?_, ?_⟩
      · rw [h1]; push_cast; ring
      · intro q hq
        rw [h2 q (by omega)]
        unfold dump_write_bytes
        dsimp only
        rw [if_neg (by omega)]
      · intro m hm1 hm2 j hj
        by_cases hmi : m = i
        · subst hmi
          have hq : ctx.offset + ((m : Int) - m) * rp.sizeof_limb + j
              < ctx.offset + rp.sizeof_limb := by
            rw [sub_self, zero_mul]; omega
          rw [h2 _ hq]
          unfold dump_write_bytes
          dsimp only
          rw [sub_self, zero_mul, add_zero]
          rw [if_pos (by omega)]
          have hj2 : (ctx.offset + (j : Int) - ctx.offset).toNat = j := by omega
          rw [hj2, Int.toNat_ofNat]
        · have h4 := h3 m (by omega) hm2 j hj
          have haddr : ctx.offset + (rp.sizeof_limb : Int)
              + (((m : Int) - ((i + 1 : Nat) : Int)) * rp.sizeof_limb) + j
              = ctx.offset + ((m : Int) - i) * rp.sizeof_limb + j := by
            push_cast; ring
          rw [haddr] at h4
          exact h4
    · have he : nlimbs = i := by omega
      rw [if_neg hlt]
      refine ⟨(ctx, buf), rfl, ?_, fun q _ => rfl, ?_⟩
      · rw [he]; simp
      · intro m h1 h2; omega

theorem dump_cold_bignum_spec (ENABLE_CHECKING : Bool) (rp : memory_repr) (ctx : dump_context)
    (buf : Int → Nat) (bignum_data : List (Nat × lisp_reloc)) (object : Nat) (n : Int)
    (halign : 0 < rp.alignof_limb)
    (hchk : ENABLE_CHECKING = true →
      ctx.obj_offset = 0 ∧ ctx.flags.dump_object_contents = true)
    (hk : (mpz_size rp.GMP_NUMB_BITS n : Int) < DUMP_OFF_MAX) :
    ∃ ctx1 buf1,
      dump_cold_bignum ENABLE_CHECKING rp ctx buf bignum_data object n
          = Except.ok (ctx1, buf1,
              Fputhash object
                [dump_off_to_lisp (dump_align_output ctx rp.alignof_limb).offset,
                 dump_off_to_lisp (if n < 0 then -(mpz_size rp.GMP_NUMB_BITS n : Int)
                   else mpz_size rp.GMP_NUMB_BITS n)] bignum_data)
        ∧ ctx1.offset = (dump_align_output ctx rp.alignof_limb).offset
            + mpz_size rp.GMP_NUMB_BITS n * rp.sizeof_limb
        ∧ (∀ q, q < ctx.offset → buf1 q = buf q)
        ∧ ∀ i : Nat, i < mpz_size rp.GMP_NUMB_BITS n → ∀ j : Nat, j < rp.sizeof_limb →
            buf1 ((dump_align_output ctx rp.alignof_limb).offset + i * rp.sizeof_limb + j)
              = rp.limb_byte (mpz_getlimbn rp.GMP_NUMB_BITS n i) j := by
  have hk0 : (0 : Int) ≤ mpz_size rp.GMP_NUMB_BITS n := Int.ofNat_nonneg _
  have hcast : to_signed DUMP_OFF_WIDTH (mpz_size rp.GMP_NUMB_BITS n : Int)
      = mpz_size rp.GMP_NUMB_BITS n :=
    to_signed_dump_off _ (by unfold DUMP_OFF_MIN; omega) (le_of_lt hk)
  have hsgn : (mpz_sgn n < 0) ↔ n < 0 := by
    unfold mpz_sgn
    rcases lt_trichotomy n 0 with h1 | h1 | h1
    · simp [Int.sign_eq_neg_one_of_neg h1, h1]
    · subst h1; simp
    · simp [Int.sign_eq_one_of_pos h1]; omega
  obtain ⟨ha1, ha2, _, _⟩ := dump_align_output_bytes_spec ctx buf rp.alignof_limb
    (by exact_mod_cast halign)
  have hchk1 : ENABLE_CHECKING = true →
      (dump_align_output ctx rp.alignof_limb).obj_offset = 0
        ∧ (dump_align_output ctx rp.alignof_limb).flags.dump_object_contents = true := by
    intro hc
    rw [dump_align_output_obj_offset, (dump_align_output_frame ctx _).1]
    exact hchk hc
  obtain ⟨r, hr, hl1, hl2, hl3⟩ := dump_cold_bignum_loop_spec ENABLE_CHECKING rp n
    (mpz_size rp.GMP_NUMB_BITS n) (mpz_size rp.GMP_NUMB_BITS n) 0
    (dump_align_output ctx rp.alignof_limb)
    (dump_align_output_bytes ctx buf rp.alignof_limb).2 hchk1 (by simp) (by simp)
  simp only [Nat.cast_zero, sub_zero] at hr hl1 hl2 hl3
  refine ⟨r.1, r.2, ?_, hl1, ?_, ?_⟩
  · unfold dump_cold_bignum
    dsimp only
    rw [if_neg (by
      intro hc
      exact hc.2 hk)]
    rw [dump_align_output_checked_ok ENABLE_CHECKING ctx buf _ hchk, hcast, Int.toNat_ofNat]
    simp only [bind, Except.bind]
    rw [ha1, hr]
    simp only [hsgn]
  · intro q hq
    have hle := dump_align_output_offset_le ctx rp.alignof_limb
    rw [hl2 q (by omega)]
    exact ha2 q hq
  · intro i hi j hj
    exact hl3 i (Nat.zero_le _) (by exact_mod_cast hi) j hj

theorem dump_do_fixup_bignum (ENABLE_CHECKING : Bool) (pf : platform) (h : host)
    (rp : memory_repr) (heap : Nat → lisp_object) (optr XLI : Nat → Nat)
    (bignum_data : List (Nat × lisp_reloc)) (ctx : dump_context) (buf : Int → Nat)
    (prev_fixup : Option lisp_fixup) (value_offset : Int) (object : Nat)
    (data_location nlimbs : Int)
    (hchk : ENABLE_CHECKING = true →
      ctx.obj_offset = 0 ∧ ctx.flags.dump_object_contents = true
        ∧ dump_fixup_distance_ok h rp prev_fixup value_offset = true)
    (hbig : BIGNUMP (heap object) = true)
    (hdata : Fgethash object bignum_data []
      = [dump_off_to_lisp data_location, dump_off_to_lisp nlimbs]) :
    dump_do_fixup ENABLE_CHECKING pf h rp heap optr XLI bignum_data ctx buf
        [fixup_value.fixnum DUMP_FIXUP_BIGNUM_DATA, fixup_value.fixnum value_offset,
          fixup_value.object object] prev_fixup
      = Except.ok
          ({ ctx with offset := value_offset + 2 * rp.sizeof_dump_off },
           fun q =>
             if value_offset ≤ q ∧ q < value_offset + 2 * rp.sizeof_dump_off then
               bignum_reload_info_byte rp ⟨data_location, nlimbs⟩ (q - value_offset).toNat
             else buf q) := by
  unfold dump_do_fixup
  dsimp only
  rw [if_neg (by
    intro hc
    exact hc.2 (hchk hc.1).2.2), if_neg (by simp)]
  unfold dump_seek
  rw [if_neg (by
    intro hc
    exact hc.2 (hchk hc.1).1)]
  simp only [bind, Except.bind]
  rw [if_neg (by decide), if_neg (by decide), if_pos trivial]
  unfold dump_do_fixup_bignum_data
  rw [if_neg (by simp [hbig]), hdata]
  unfold dump_off_to_lisp
  dsimp only
  rw [if_neg (by simp)]
  exact dump_write_checked_ok ENABLE_CHECKING { ctx with offset := value_offset } buf _ _
    (fun hc => ⟨(hchk hc).1, (hchk hc).2.1⟩)

theorem dump_do_dump_relocation_bignum_spec (pf : platform) (rp : memory_repr)
    (hrp : rp.reads_back) (hbits : 0 < rp.GMP_NUMB_BITS) (reloc : dump_reloc)
    (image : Int → Nat) (n : Int) (d : Int)
    (hd0 : DUMP_OFF_MIN ≤ d) (hd1 : d ≤ DUMP_OFF_MAX)
    (hk : (mpz_size rp.GMP_NUMB_BITS n : Int) < DUMP_OFF_MAX)
    (hinfo : ∀ i : Nat, i < 2 * rp.sizeof_dump_off →
      image (dump_reloc_get_offset reloc + pf.offsetof_bignum_value + i)
        = bignum_reload_info_byte rp
            ⟨d, if n < 0 then -(mpz_size rp.GMP_NUMB_BITS n : Int)
              else mpz_size rp.GMP_NUMB_BITS n⟩ i)
    (hlimbs : ∀ i : Nat, i < mpz_size rp.GMP_NUMB_BITS n → ∀ j : Nat, j < rp.sizeof_limb →
      image (d + i * rp.sizeof_limb + j)
        = rp.limb_byte (mpz_getlimbn rp.GMP_NUMB_BITS n i) j) :
    (rp.dump_off_value fun i =>
        image (dump_reloc_get_offset reloc + pf.offsetof_bignum_value + i)) = d
      ∧ (rp.dump_off_value fun i =>
          image (dump_reloc_get_offset reloc + pf.offsetof_bignum_value + rp.sizeof_dump_off + i))
        = (if n < 0 then -(mpz_size rp.GMP_NUMB_BITS n : Int) else mpz_size rp.GMP_NUMB_BITS n)
      ∧ dump_do_dump_relocation_bignum pf rp reloc image = n := by
  have hk0 : (0 : Int) ≤ mpz_size rp.GMP_NUMB_BITS n := Int.ofNat_nonneg _
  have hloc : (rp.dump_off_value fun i =>
      image (dump_reloc_get_offset reloc + pf.offsetof_bignum_value + i)) = d := by
    apply hrp.2 d _ hd0 hd1
    intro i hi
    rw [hinfo i (by omega)]
    unfold bignum_reload_info_byte
    rw [if_pos hi]
  have hnl : (rp.dump_off_value fun i =>
      image (dump_reloc_get_offset reloc + pf.offsetof_bignum_value + rp.sizeof_dump_off + i))
      = (if n < 0 then -(mpz_size rp.GMP_NUMB_BITS n : Int) else mpz_size rp.GMP_NUMB_BITS n) := by
    apply hrp.2 _ _
    · unfold DUMP_OFF_MIN; unfold DUMP_OFF_MAX at hk; split <;> omega
    · unfold DUMP_OFF_MAX at hk ⊢; split <;> omega
    · intro i hi
      have := hinfo (rp.sizeof_dump_off + i) (by omega)
      rw [add_assoc]
      rw [← Nat.cast_add, this]
      unfold bignum_reload_info_byte
      rw [if_neg (by omega)]
      dsimp only
      rw [Nat.add_sub_cancel_left]
  refine ⟨hloc, hnl, ?_⟩
  unfold dump_do_dump_relocation_bignum
  dsimp only
  rw [hloc, hnl]
  have hsgn : (mpz_sgn n < 0) ↔ n < 0 := by
    unfold mpz_sgn
    rcases lt_trichotomy n 0 with h1 | h1 | h1
    · simp [Int.sign_eq_neg_one_of_neg h1, h1]
    · subst h1; simp
    · simp [Int.sign_eq_one_of_pos h1]; omega
  have := mpz_roinit_n_limbs rp.GMP_NUMB_BITS n
    (fun i => rp.limb_value fun j => image (d + i * rp.sizeof_limb + j))
    (by
      intro i hi
      apply hrp.1 _ _ (mpz_getlimbn_lt _ hbits n i hi)
      intro j hj
      exact hlimbs i hi j hj)
  simp only [hsgn] at this
  exact this

theorem sample_memory_repr_reads_back : sample_memory_repr.reads_back := by
  unfold memory_repr.reads_back sample_memory_repr
  dsimp only
  refine ⟨?_, ?_⟩
  · intro v f hv hf
    rw [hf 0 (by decide), hf 1 (by decide), hf 2 (by decide), hf 3 (by decide),
      hf 4 (by decide), hf 5 (by decide), hf 6 (by decide), hf 7 (by decide)]
    norm_num at hv ⊢
    omega
  · intro v f h0 h1 hf
    rw [hf 0 (by decide), hf 1 (by decide), hf 2 (by decide), hf 3 (by decide)]
    unfold to_signed
    unfold DUMP_OFF_MIN at h0
    unfold DUMP_OFF_MAX at h1
    norm_num at h0 h1 ⊢
    omega

theorem dump_bignum_pushes (pf : platform) (ctx : dump_context) (object : lisp_object)
    (v : vectorlike) (hcontents : ctx.flags.dump_object_contents = true) :
    (dump_bignum pf ctx object v).1.fixups.head?
        = some [fixup_value.fixnum DUMP_FIXUP_BIGNUM_DATA,
            fixup_value.fixnum ((dump_bignum pf ctx object v).2 + pf.offsetof_bignum_value),
            fixup_value.object object.id]
      ∧ ((dump_bignum pf ctx object v).1.dump_relocs reloc_phase.EARLY_RELOCS).head?
        = some [lisp_value.fixnum RELOC_BIGNUM,
            dump_off_to_lisp (dump_bignum pf ctx object v).2] := by
  have hflags : (dump_one_object pf ctx v.nbytes).1.flags = ctx.flags :=
    (dump_one_object_aligned pf ctx v.nbytes).1.1
  unfold dump_bignum
  dsimp only
  rw [if_pos (by rw [hflags]; exact hcontents)]
  unfold push_dump_reloc
  simp

/-- C12: the round trip of a bignum `object` of value `n` with `k` limbs.
`dump_bignum` pushes the fixup for the value field of the stub and the
relocation `RELOC_BIGNUM` for its start.  `dump_cold_bignum`, run beyond the
stub, returns: the limbs start at `d`, the offset `dump_align_output` reaches
for `alignof (mp_limb_t)`, limb `i` lies at `d + i * sizeof (mp_limb_t)`, and
the descriptor recorded is `(d, k)`, or `(d, -k)` when `n < 0`.
`dump_do_fixup` on the fixup returns, and the value field then holds
`data_location = d` and `nlimbs = k` or `-k`.  On these bytes the case
`RELOC_BIGNUM` of the loader gives `n`.  The number of limbs and `d` are
values of `dump_off`, objects read from memory are the objects written, and
with `ENABLE_CHECKING` the `eassert`s on the two contexts hold: no object is
in progress, `dump_object_contents` is on, and the fixup is a pointer's size
beyond the one before it. -/
theorem bignum_round_trip (ENABLE_CHECKING : Bool) (pf : platform) (h : host) (rp : memory_repr)
    (heap : Nat → lisp_object) (optr XLI : Nat → Nat) (object : lisp_object) (v : vectorlike)
    (n : Int) (hot cold fctx : dump_context) (buf : Int → Nat)
    (bignum_data : List (Nat × lisp_reloc)) (prev_fixup : Option lisp_fixup) (reloc : dump_reloc)
    (bignum_offset d : Int) (k : Nat)
    (hrp : rp.reads_back) (hbits : 0 < rp.GMP_NUMB_BITS) (halign : 0 < rp.alignof_limb)
    (hheap : heap object.id = object) (hbody : object.body = lisp_body.vectorlike v)
    (hptype : v.ptype = pvec_type.PVEC_BIGNUM)
    (hcontents : hot.flags.dump_object_contents = true)
    (hstub : (dump_bignum pf hot object v).2 = bignum_offset)
    (hk : mpz_size rp.GMP_NUMB_BITS n = k) (hkmax : (k : Int) < DUMP_OFF_MAX)
    (hcold : bignum_offset + pf.offsetof_bignum_value + 2 * rp.sizeof_dump_off ≤ cold.offset)
    (hcold0 : 0 ≤ cold.offset)
    (hd : (dump_align_output cold rp.alignof_limb).offset = d) (hdmax : d ≤ DUMP_OFF_MAX)
    (hcoldchk : ENABLE_CHECKING = true →
      cold.obj_offset = 0 ∧ cold.flags.dump_object_contents = true)
    (hfixchk : ENABLE_CHECKING = true →
      fctx.obj_offset = 0 ∧ fctx.flags.dump_object_contents = true
        ∧ dump_fixup_distance_ok h rp prev_fixup (bignum_offset + pf.offsetof_bignum_value)
          = true)
    (hreloc : dump_emit_dump_reloc
      [lisp_value.fixnum RELOC_BIGNUM, dump_off_to_lisp bignum_offset] = Except.ok reloc) :
    (dump_bignum pf hot object v).1.fixups.head?
        = some [fixup_value.fixnum DUMP_FIXUP_BIGNUM_DATA,
            fixup_value.fixnum (bignum_offset + pf.offsetof_bignum_value),
            fixup_value.object object.id]
      ∧ ((dump_bignum pf hot object v).1.dump_relocs reloc_phase.EARLY_RELOCS).head?
        = some [lisp_value.fixnum RELOC_BIGNUM, dump_off_to_lisp bignum_offset]
      ∧ cold.offset ≤ d ∧ d % rp.alignof_limb = 0
      ∧ ∃ ctx1 buf1 bignum_data1 ctx2 image,
          dump_cold_bignum ENABLE_CHECKING rp cold buf bignum_data object.id n
              = Except.ok (ctx1, buf1, bignum_data1)
            ∧ ctx1.offset = d + k * rp.sizeof_limb
            ∧ (∀ i : Nat, i < k → ∀ j : Nat, j < rp.sizeof_limb →
                buf1 (d + i * rp.sizeof_limb + j)
                  = rp.limb_byte (mpz_getlimbn rp.GMP_NUMB_BITS n i) j)
            ∧ Fgethash object.id bignum_data1 []
              = [dump_off_to_lisp d, dump_off_to_lisp (if n < 0 then -(k : Int) else k)]
            ∧ dump_do_fixup ENABLE_CHECKING pf h rp heap optr XLI bignum_data1 fctx buf1
                [fixup_value.fixnum DUMP_FIXUP_BIGNUM_DATA,
                  fixup_value.fixnum (bignum_offset + pf.offsetof_bignum_value),
                  fixup_value.object object.id] prev_fixup
              = Except.ok (ctx2, image)
            ∧ (rp.dump_off_value fun i =>
                image (bignum_offset + pf.offsetof_bignum_value + i)) = d
            ∧ (rp.dump_off_value fun i =>
                image (bignum_offset + pf.offsetof_bignum_value + rp.sizeof_dump_off + i))
              = (if n < 0 then -(k : Int) else k)
            ∧ dump_do_dump_relocation_bignum pf rp reloc image = n := by
  subst hk hd hstub
  obtain ⟨hp1, hp2⟩ := dump_bignum_pushes pf hot object v hcontents
  have ha : (0 : Int) < rp.alignof_limb := by exact_mod_cast halign
  have hle := dump_align_output_offset_le cold rp.alignof_limb
  obtain ⟨ctx1, buf1, hc1, hc2, _, hc4⟩ := dump_cold_bignum_spec ENABLE_CHECKING rp cold buf
    bignum_data object.id n halign hcoldchk hkmax
  have hbig : BIGNUMP (heap object.id) = true := by
    rw [hheap]
    unfold BIGNUMP
    rw [hbody]
    simp [hptype]
  have hfix := dump_do_fixup_bignum ENABLE_CHECKING pf h rp heap optr XLI
    (Fputhash object.id
      [dump_off_to_lisp (dump_align_output cold rp.alignof_limb).offset,
       dump_off_to_lisp (if n < 0 then -(mpz_size rp.GMP_NUMB_BITS n : Int)
         else mpz_size rp.GMP_NUMB_BITS n)] bignum_data)
    fctx buf1 prev_fixup ((dump_bignum pf hot object v).2 + pf.offsetof_bignum_value) object.id
    (dump_align_output cold rp.alignof_limb).offset
    (if n < 0 then -(mpz_size rp.GMP_NUMB_BITS n : Int) else mpz_size rp.GMP_NUMB_BITS n)
    hfixchk hbig (Fgethash_Fputhash _ _ _ _)
  have hoff : dump_reloc_get_offset reloc = (dump_bignum pf hot object v).2 :=
    dump_decode_dump_reloc_offset _ _ hreloc
  have hs0 : (0 : Int) ≤ rp.sizeof_limb := Int.ofNat_nonneg _
  obtain ⟨hl1, hl2, hl3⟩ := dump_do_dump_relocation_bignum_spec pf rp hrp hbits reloc
    (fun q =>
      if (dump_bignum pf hot object v).2 + pf.offsetof_bignum_value ≤ q
          ∧ q < (dump_bignum pf hot object v).2 + pf.offsetof_bignum_value
            + 2 * rp.sizeof_dump_off then
        bignum_reload_info_byte rp
          ⟨(dump_align_output cold rp.alignof_limb).offset,
            if n < 0 then -(mpz_size rp.GMP_NUMB_BITS n : Int)
            else mpz_size rp.GMP_NUMB_BITS n⟩
          (q - ((dump_bignum pf hot object v).2 + pf.offsetof_bignum_value)).toNat
      else buf1 q)
    n (dump_align_output cold rp.alignof_limb).offset
    (by unfold DUMP_OFF_MIN; omega) hdmax hkmax
    (by
      intro i hi
      dsimp only
      rw [hoff, if_pos (by omega)]
      congr 1
      omega)
    (by
      intro i hi j hj
      dsimp only
      have hi0 : (0 : Int) ≤ (i : Int) * rp.sizeof_limb :=
        mul_nonneg (Int.ofNat_nonneg _) hs0
      rw [if_neg (by omega)]
      exact hc4 i hi j hj)
  rw [hoff] at hl1 hl2
  exact ⟨hp1, hp2, hle, dump_align_output_offset cold _ ha, ctx1, buf1, _, _, _, hc1, hc2, hc4,
    Fgethash_Fputhash _ _ _ _, hfix, hl1, hl2, hl3⟩

/-- C12 at the bignum `-(2 ^ 64 + 5)` on a little-endian host with limbs of 64
bits: the stub is at 4104, the two limbs 5 and 1 are at 65544 and 65552, the
descriptor is `(65544, -2)`, and the relocation gives the number back. -/
theorem bignum_round_trip_witness :
    (dump_bignum sample_platform sample_idle_context sample_bignum sample_bignum_vector).2 = 4104
      ∧ mpz_size sample_memory_repr.GMP_NUMB_BITS sample_bignum_value = 2
      ∧ (dump_align_output sample_cold_context sample_memory_repr.alignof_limb).offset = 65544
      ∧ ∃ ctx1 buf1 bignum_data1 ctx2 image,
          dump_cold_bignum true sample_memory_repr sample_cold_context (fun _ => 0) []
              sample_bignum.id sample_bignum_value
              = Except.ok (ctx1, buf1, bignum_data1)
            ∧ ctx1.offset = 65544 + (2 : Nat) * sample_memory_repr.sizeof_limb
            ∧ (∀ i : Nat, i < 2 → ∀ j : Nat, j < sample_memory_repr.sizeof_limb →
                buf1 (65544 + i * sample_memory_repr.sizeof_limb + j)
                  = sample_memory_repr.limb_byte
                      (mpz_getlimbn sample_memory_repr.GMP_NUMB_BITS sample_bignum_value i) j)
            ∧ Fgethash sample_bignum.id bignum_data1 []
              = [dump_off_to_lisp 65544,
                 dump_off_to_lisp (if sample_bignum_value < 0 then -((2 : Nat) : Int)
                   else (2 : Nat))]
            ∧ dump_do_fixup true sample_platform sample_host sample_memory_repr
                (fun _ => sample_bignum) (fun _ => 0) (fun _ => 0) bignum_data1
                sample_cold_context buf1
                [fixup_value.fixnum DUMP_FIXUP_BIGNUM_DATA,
                  fixup_value.fixnum (4104 + sample_platform.offsetof_bignum_value),
                  fixup_value.object sample_bignum.id] none
              = Except.ok (ctx2, image)
            ∧ (sample_memory_repr.dump_off_value fun i =>
                image (4104 + sample_platform.offsetof_bignum_value + i)) = 65544
            ∧ (sample_memory_repr.dump_off_value fun i =>
                image (4104 + sample_platform.offsetof_bignum_value
                  + sample_memory_repr.sizeof_dump_off + i))
              = (if sample_bignum_value < 0 then -((2 : Nat) : Int) else (2 : Nat))
            ∧ dump_do_dump_relocation_bignum sample_platform sample_memory_repr ⟨1026, 4⟩ image
              = sample_bignum_value :=
  ⟨by decide, by simp [mpz_size, mpz_limbs, sample_memory_repr, sample_bignum_value], by decide,
    (bignum_round_trip true sample_platform sample_host sample_memory_repr
      (fun _ => sample_bignum) (fun _ => 0) (fun _ => 0) sample_bignum sample_bignum_vector
      sample_bignum_value sample_idle_context sample_cold_context sample_cold_context
      (fun _ => 0) [] none ⟨1026, 4⟩ 4104 65544 2 sample_memory_repr_reads_back (by decide)
      (by decide) rfl rfl rfl rfl (by decide)
      (by simp [mpz_size, mpz_limbs, sample_memory_repr, sample_bignum_value]) (by decide)
      (by decide) (by decide) (by decide) (by decide) (fun _ => ⟨rfl, rfl⟩)
      (fun _ => ⟨rfl, rfl, rfl⟩) rfl).2.2.2.2⟩

/-! ### Growing the output buffer -/

theorem xrealloc_granted (granted : Nat → Bool) (size_width : Nat) (size : Int)
    (hgranted : ∀ s : Nat, s ≤ 2 ^ 30 → granted s = true) (hwidth : 31 ≤ size_width)
    (h0 : 0 ≤ size) (h1 : size ≤ 2 ^ 30) :
    xrealloc granted (to_unsigned size_width size) = Except.ok () := by
  have hp : (2 : Int) ^ 31 ≤ 2 ^ size_width := pow_le_pow_right₀ (by norm_num) hwidth
  have hu : to_unsigned size_width size = size.toNat :=
    to_unsigned_of_range _ _ h0 (lt_of_lt_of_le (by omega) hp)
  unfold xrealloc
  rw [hu, if_pos (hgranted _ (by omega))]

theorem dump_grow_buffer_double (granted : Nat → Bool) (size_width : Nat) (buf_size : Int)
    (hgranted : ∀ s : Nat, s ≤ 2 ^ 30 → granted s = true) (hwidth : 31 ≤ size_width)
    (h0 : 0 < buf_size) (h1 : buf_size ≤ 2 ^ 29) :
    dump_grow_buffer granted size_width buf_size = Except.ok (buf_size * 2) := by
  have hs : to_signed DUMP_OFF_WIDTH (buf_size * 2) = buf_size * 2 :=
    to_signed_dump_off _ (by unfold DUMP_OFF_MIN; omega) (by unfold DUMP_OFF_MAX; omega)
  unfold dump_grow_buffer
  rw [if_pos (by omega), hs]
  dsimp only
  rw [xrealloc_granted granted size_width _ hgranted hwidth (by omega) (by omega)]
  rfl

theorem dump_grow_buffer_first (granted : Nat → Bool) (size_width : Nat)
    (hgranted : ∀ s : Nat, s ≤ 2 ^ 30 → granted s = true) (hwidth : 31 ≤ size_width) :
    dump_grow_buffer granted size_width 0 = Except.ok 8388608 := by
  unfold dump_grow_buffer
  rw [if_neg (by simp)]
  dsimp only
  rw [xrealloc_granted granted size_width _ hgranted hwidth (by norm_num) (by norm_num)]
  rfl

theorem dump_write_grow_loop_pow (granted : Nat → Bool) (size_width : Nat) (needed : Int)
    (hgranted : ∀ s : Nat, s ≤ 2 ^ 30 → granted s = true) (hwidth : 31 ≤ size_width)
    (hneed : needed ≤ 2 ^ 30) (fuel j : Nat) (hj : j ≤ 7) (hfuel : 7 - j ≤ fuel) :
    ∃ i : Nat, j ≤ i ∧ i ≤ 7 ∧ needed ≤ 8388608 * 2 ^ i
      ∧ (needed ≤ 8388608 * 2 ^ j → i = j)
      ∧ dump_write_grow_loop granted size_width needed fuel (8388608 * 2 ^ j)
        = Except.ok (8388608 * 2 ^ i) := by
  induction fuel generalizing j with
  | zero =>
    have hj7 : j = 7 := by omega
    subst hj7
    refine ⟨7, le_refl _, le_refl _, by norm_num; omega, fun _ => rfl, ?_⟩
    unfold dump_write_grow_loop
    rw [if_neg (by norm_num; omega)]
  | succ fuel ih =>
    unfold dump_write_grow_loop
    by_cases hgt : needed > 8388608 * 2 ^ j
    · rw [if_pos hgt]
      have hj6 : j ≤ 6 := by
        by_contra hc
        have hj7 : j = 7 := by omega
        subst hj7
        norm_num at hgt
        omega
      have hpow : (2 : Int) ^ j ≤ 2 ^ 6 := pow_le_pow_right₀ (by norm_num) hj6
      have hpos : (0 : Int) < 2 ^ j := by positivity
      simp only [bind, Except.bind]
      rw [dump_grow_buffer_double granted size_width _ hgranted hwidth (by omega) (by omega)]
      dsimp only
      have hnext : (8388608 : Int) * 2 ^ j * 2 = 8388608 * 2 ^ (j + 1) := by ring
      rw [hnext]
      obtain ⟨i, hi1, hi2, hi3, _, hi5⟩ := ih (j + 1) (by omega) (by omega)
      exact ⟨i, by omega, hi2, hi3, fun hle => absurd hle (by omega), hi5⟩
    · rw [if_neg hgt]
      exact ⟨j, le_refl _, hj, by omega, fun _ => rfl, rfl⟩

theorem dump_write_grow_loop_stuck (granted : Nat → Bool) (size_width : Nat) (fuel : Nat)
    (buf_size : Int) (hs : buf_size ∈ buf_size_values) (r : Int) :
    dump_write_grow_loop granted size_width 1073741825 fuel buf_size ≠ Except.ok r := by
  have hclosed : ∀ s ∈ buf_size_values,
      (if s ≠ 0 then to_signed DUMP_OFF_WIDTH (s * 2) else 8 * 1024 * 1024)
        ∈ buf_size_values := by decide
  have hbelow : ∀ s ∈ buf_size_values, (1073741825 : Int) > s := by decide
  induction fuel generalizing buf_size with
  | zero =>
    unfold dump_write_grow_loop
    rw [if_pos (hbelow _ hs)]
    intro h
    cases h
  | succ fuel ih =>
    unfold dump_write_grow_loop
    rw [if_pos (hbelow _ hs)]
    unfold dump_grow_buffer
    dsimp only
    simp only [bind, Except.bind]
    cases hx : xrealloc granted (to_unsigned size_width
        (if buf_size ≠ 0 then to_signed DUMP_OFF_WIDTH (buf_size * 2) else 8 * 1024 * 1024)) with
    | error e =>
      intro h
      cases h
    | ok u =>
      exact ih _ (hclosed _ hs)

/-- A `dump_write` of `nbyte >= 0` bytes at a write offset that is not
negative, whose `buf_size` is 0 or 8 MiB times a power of two up to 2^7,
that needs `offset + nbyte` of at most 2^30 bytes, with `xrealloc` granting
every size up to 2^30 and, with `ENABLE_CHECKING`, the `eassert`s on the
context holding: the growth loop ends after at most 8 calls of
`dump_grow_buffer`, `buf_size` is then at least `offset + nbyte`, unchanged
when it was large enough and 8 MiB times a power of two otherwise, the bytes
lie at the old write offset, the write offset has moved by `nbyte`, and
every byte outside the range written is as before. -/
theorem dump_write_grows (ENABLE_CHECKING : Bool) (granted : Nat → Bool)
    (size_width fuel : Nat) (ctx : dump_context) (buf : Int → Nat) (buf_size : Int)
    (data : Nat → Nat) (nbyte : Int)
    (hchk : ENABLE_CHECKING = true →
      ctx.obj_offset = 0 ∧ ctx.flags.dump_object_contents = true)
    (hgranted : ∀ s : Nat, s ≤ 2 ^ 30 → granted s = true) (hwidth : 31 ≤ size_width)
    (hfuel : 8 ≤ fuel)
    (hsize : buf_size = 0 ∨ ∃ j : Nat, j ≤ 7 ∧ buf_size = 8388608 * 2 ^ j)
    (hnbyte : 0 ≤ nbyte) (hoffset : 0 ≤ ctx.offset)
    (hneed : ctx.offset + nbyte ≤ 2 ^ 30) :
    ∃ (buf1 : Int → Nat) (buf_size1 : Int),
      dump_write_grow ENABLE_CHECKING granted size_width fuel ctx buf buf_size data nbyte
          = Except.ok ({ ctx with offset := ctx.offset + nbyte }, buf1, buf_size1)
        ∧ ctx.offset + nbyte ≤ buf_size1
        ∧ (ctx.offset + nbyte ≤ buf_size → buf_size1 = buf_size)
        ∧ (buf_size < ctx.offset + nbyte → ∃ i : Nat, i ≤ 7 ∧ buf_size1 = 8388608 * 2 ^ i)
        ∧ (∀ q, ctx.offset ≤ q → q < ctx.offset + nbyte → buf1 q = data (q - ctx.offset).toNat)
        ∧ (∀ q, q < ctx.offset ∨ ctx.offset + nbyte ≤ q → buf1 q = buf q) := by
  have hloop : ∃ buf_size1 : Int,
      dump_write_grow_loop granted size_width (ctx.offset + nbyte) fuel buf_size
          = Except.ok buf_size1
        ∧ ctx.offset + nbyte ≤ buf_size1
        ∧ (ctx.offset + nbyte ≤ buf_size → buf_size1 = buf_size)
        ∧ (buf_size < ctx.offset + nbyte →
            ∃ i : Nat, i ≤ 7 ∧ buf_size1 = 8388608 * 2 ^ i) := by
    rcases hsize with h0 | ⟨j, hj, hjs⟩
    · subst h0
      by_cases hgt : ctx.offset + nbyte > 0
      · obtain ⟨fuel1, rfl⟩ : ∃ fuel1, fuel = fuel1 + 1 := ⟨fuel - 1, by omega⟩
        obtain ⟨i, _, hi2, hi3, _, hi5⟩ := dump_write_grow_loop_pow granted size_width
          (ctx.offset + nbyte) hgranted hwidth hneed fuel1 0 (by omega) (by omega)
        refine ⟨8388608 * 2 ^ i, ?_, hi3, fun hle => absurd hle (by omega),
          fun _ => ⟨i, hi2, rfl⟩⟩
        unfold dump_write_grow_loop
        rw [if_pos hgt]
        dsimp only
        simp only [bind, Except.bind]
        rw [dump_grow_buffer_first granted size_width hgranted hwidth]
        simpa using hi5
      · refine ⟨0, ?_, by omega, fun _ => rfl, fun hlt => absurd hlt (by omega)⟩
        unfold dump_write_grow_loop
        rw [if_neg hgt]
    · subst hjs
      obtain ⟨i, _, hi2, hi3, hi4, hi5⟩ := dump_write_grow_loop_pow granted size_width
        (ctx.offset + nbyte) hgranted hwidth hneed fuel j hj (by omega)
      refine ⟨8388608 * 2 ^ i, hi5, hi3, fun hle => by rw [hi4 hle], fun _ => ⟨i, hi2, rfl⟩⟩
  obtain ⟨buf_size1, hl1, hl2, hl3, hl4⟩ := hloop
  refine ⟨(dump_write_bytes ctx buf data nbyte).2, buf_size1, ?_, hl2, hl3, hl4, ?_, ?_⟩
  · unfold dump_write_grow
    rw [if_neg (by
      intro hc
      exact hc.2 (hchk hc.1)), hl1]
    simp only [bind, Except.bind]
    rw [if_neg (by omega)]
    rfl
  · intro q h1 h2
    unfold dump_write_bytes
    dsimp only
    rw [if_pos ⟨h1, h2⟩]
  · intro q hq
    unfold dump_write_bytes
    dsimp only
    rw [if_neg (by omega)]

/-- A write of 9000000 bytes at offset 65540 into a buffer that has not been
allocated yet: the buffer grows to 16 MiB. -/
theorem dump_write_grows_witness :
    ∃ (buf1 : Int → Nat) (buf_size1 : Int),
      dump_write_grow true (fun s => decide (s ≤ 2 ^ 30)) 64 8 sample_cold_context
          (fun _ => 0) 0 (fun i => i + 1) 9000000
          = Except.ok
              ({ sample_cold_context with offset := sample_cold_context.offset + 9000000 },
                buf1, buf_size1)
        ∧ sample_cold_context.offset + 9000000 ≤ buf_size1
        ∧ (sample_cold_context.offset + 9000000 ≤ 0 → buf_size1 = 0)
        ∧ ((0 : Int) < sample_cold_context.offset + 9000000 →
            ∃ i : Nat, i ≤ 7 ∧ buf_size1 = 8388608 * 2 ^ i)
        ∧ (∀ q, sample_cold_context.offset ≤ q → q < sample_cold_context.offset + 9000000 →
            buf1 q = (fun i => i + 1) (q - sample_cold_context.offset).toNat)
        ∧ (∀ q, q < sample_cold_context.offset ∨ sample_cold_context.offset + 9000000 ≤ q →
            buf1 q = (fun _ => 0) q) :=
  dump_write_grows true (fun s => decide (s ≤ 2 ^ 30)) 64 8 sample_cold_context (fun _ => 0) 0
    (fun i => i + 1) 9000000 (fun _ => ⟨rfl, rfl⟩) (fun s hs => by simpa using hs) (by decide)
    (by decide) (Or.inl rfl) (by decide) (by decide) (by decide)

/-- C30, the call that diverges: a write of one byte at offset 2^30 into a
buffer of 2^30 bytes, which is 8 MiB times 2^7.  `offset + nbyte` is below
`DUMP_OFF_MAX`, and for every `xrealloc` and every bound on the number of
iterations `dump_write` does not return: `buf_size * 2` overflows, and
doubled modulo 2^32 `buf_size` goes through -2^31, 0 and 8 MiB to 2^30 again
and never reaches 2^30 + 1. -/
theorem dump_write_grow_overflows :
    (0 : Int) ≤ 1 ∧ (1073741824 : Int) + 1 ≤ DUMP_OFF_MAX
      ∧ (1073741824 : Int) = 8388608 * 2 ^ 7
      ∧ ∀ (ENABLE_CHECKING : Bool) (granted : Nat → Bool) (size_width fuel : Nat)
          (buf : Int → Nat) (data : Nat → Nat) (r : dump_context × (Int → Nat) × Int),
          dump_write_grow ENABLE_CHECKING granted size_width fuel
              { sample_cold_context with offset := 1073741824 } buf 1073741824 data 1
            ≠ Except.ok r := by
  refine ⟨by decide, by decide, by decide, ?_⟩
  intro ENABLE_CHECKING granted size_width fuel buf data r
  unfold dump_write_grow
  split
  · intro h
    cases h
  · have hneed : ({ sample_cold_context with offset := 1073741824 } : dump_context).offset + 1
        = 1073741825 := rfl
    rw [hneed]
    cases hl : dump_write_grow_loop granted size_width 1073741825 fuel 1073741824 with
    | error e =>
      intro h
      cases h
    | ok v =>
      exact absurd hl (dump_write_grow_loop_stuck granted size_width fuel _ (by decide) v)

/-! ### The dump queue: enqueue policy and order of the lists -/

theorem lookup_Fremhash_self {V : Type} (key : Nat) (table : List (Nat × V)) :
    (Fremhash key table).lookup key = none := by
  unfold Fremhash
  induction table with
  | nil => rfl
  | cons e t ih =>
    rw [List.filter_cons]
    by_cases he : e.1 = key
    · simp [he, ih]
    · have hne : (e.1 != key) = true := by simpa using he
      rw [if_pos hne]
      obtain ⟨k, v⟩ := e
      rw [List.lookup_cons]
      have hk : (key == k) = false := by
        simp only [beq_eq_false_iff_ne, ne_eq]
        exact fun h => he h.symm
      simp only [hk]
      exact ih

theorem lookup_Fremhash_ne {V : Type} (key o : Nat) (table : List (Nat × V)) (h : o ≠ key) :
    (Fremhash key table).lookup o = table.lookup o := by
  unfold Fremhash
  induction table with
  | nil => rfl
  | cons e t ih =>
    obtain ⟨k, v⟩ := e
    rw [List.filter_cons]
    by_cases he : k = key
    · subst he
      have hk : (o == k) = false := by simpa using h
      simp [List.lookup_cons, hk, ih]
    · have hne : ((k, v).1 != key) = true := by simpa using he
      rw [if_pos hne, List.lookup_cons, List.lookup_cons, ih]

theorem lookup_Fputhash_self {V : Type} (key : Nat) (value : V) (table : List (Nat × V)) :
    (Fputhash key value table).lookup key = some value := by
  simp [Fputhash, List.lookup_cons]

theorem lookup_Fputhash_ne {V : Type} (key o : Nat) (value : V) (table : List (Nat × V))
    (h : o ≠ key) : (Fputhash key value table).lookup o = table.lookup o := by
  unfold Fputhash
  have hk : (o == key) = false := by simpa using h
  rw [List.lookup_cons]
  simp only [hk]
  exact lookup_Fremhash_ne key o table h

theorem Fgethash_lookup {V : Type} (key : Nat) (table : List (Nat × V)) (dflt : V) :
    Fgethash key table dflt = (table.lookup key).getD dflt := by
  unfold Fgethash
  cases table.lookup key <;> rfl

theorem dump_queue_push_weight_ne (weights : weight_list) (basis weight : Int) :
    dump_queue_push_weight weights basis weight ≠ weights
      ∧ dump_queue_push_weight weights basis weight ≠ weight_list.conses [] := by
  unfold dump_queue_push_weight
  cases weights with
  | Qt => simp
  | conses l =>
    simp only [ne_eq, weight_list.conses.injEq, List.cons_ne_self, not_false_eq_true,
      reduceCtorEq, and_self]

theorem dump_queue_enqueue_known_eq (q : dump_queue) (object : Nat) (basis weight : Int)
    (hknown : Fgethash object q.link_weights (weight_list.conses []) ≠ weight_list.conses []) :
    (weight = WEIGHT_NONE → dump_queue_enqueue q object basis weight = Except.ok q)
      ∧ (weight = WEIGHT_NORMAL ∨ weight = WEIGHT_STRONG →
          dump_queue_enqueue q object basis weight
            = Except.ok
                { q with
                  one_weight_normal_objects :=
                    if Fgethash object q.link_weights (weight_list.conses []) = weight_list.Qt
                        ∧ weight = WEIGHT_NORMAL then
                      object :: q.one_weight_normal_objects
                    else q.one_weight_normal_objects
                  one_weight_strong_objects :=
                    if Fgethash object q.link_weights (weight_list.conses []) = weight_list.Qt
                        ∧ weight = WEIGHT_STRONG then
                      object :: q.one_weight_strong_objects
                    else q.one_weight_strong_objects
                  fancy_weight_objects :=
                    if (Fgethash object q.link_weights (weight_list.conses [])).one_edge then
                      object :: q.fancy_weight_objects
                    else q.fancy_weight_objects
                  link_weights :=
                    Fputhash object
                      (dump_queue_push_weight
                        (Fgethash object q.link_weights (weight_list.conses [])) basis weight)
                      q.link_weights }) := by
  generalize hw : Fgethash object q.link_weights (weight_list.conses []) = wl at hknown
  refine ⟨?_, ?_⟩
  · intro h0
    unfold dump_queue_enqueue
    dsimp only
    rw [hw, if_neg hknown, if_neg (by simp [h0])]
    simp
  · intro hns
    have hne : weight ≠ WEIGHT_NONE := by
      rcases hns with h | h <;> rw [h] <;> decide
    have hpush := dump_queue_push_weight_ne wl basis weight
    unfold dump_queue_enqueue
    dsimp only
    rw [hw, if_neg hknown, if_pos hne]
    cases wl with
    | Qt =>
      rw [if_pos rfl]
      rcases hns with h | h
      · subst h
        rw [if_pos rfl]
        simp [dump_queue_push_weight, weight_list.one_edge, dump_tailq_prepend, WEIGHT_NORMAL,
          WEIGHT_STRONG]
      · subst h
        rw [if_neg (by decide), if_pos rfl]
        simp [dump_queue_push_weight, weight_list.one_edge, dump_tailq_prepend, WEIGHT_NORMAL,
          WEIGHT_STRONG]
    | conses l =>
      rw [if_neg (by simp)]
      rcases l with _ | ⟨e, _ | ⟨e2, l2⟩⟩
      · exact absurd rfl hknown
      · simp [dump_queue_push_weight, weight_list.one_edge, dump_tailq_prepend]
      · simp [dump_queue_push_weight, weight_list.one_edge]

theorem dump_queue_dequeue_fancy_fields {S : Type} [LinearOrderedField S] (m : link_score S)
    (basis : Int) (fuel : Nat) (q q1 : dump_queue) (s : Option S) (n : Int)
    (h : dump_queue_dequeue_fancy m basis fuel q = some (q1, s, n)) :
    q1 = { q with fancy_weight_objects := q1.fancy_weight_objects }
      ∧ q1.fancy_weight_objects.Sublist q.fancy_weight_objects := by
  induction fuel generalizing q with
  | zero =>
    unfold dump_queue_dequeue_fancy at h
    cases h
  | succ fuel ih =>
    unfold dump_queue_dequeue_fancy at h
    split at h
    · cases h
      exact ⟨rfl, List.Sublist.refl _⟩
    · dsimp only at h
      split at h
      · obtain ⟨h1, h2⟩ := ih _ h
        refine ⟨h1, h2.trans ?_⟩
        exact List.eraseIdx_sublist _ _
      · cases h
        exact ⟨rfl, List.Sublist.refl _⟩

theorem stale_heads_split (q : dump_queue) (l : List Nat) :
    ∃ dropped, l = dropped ++ l.dropWhile (fun o => decide (dump_queue_sequence q o < 0))
      ∧ ∀ o ∈ dropped, dump_queue_sequence q o < 0 := by
  refine ⟨l.takeWhile (fun o => decide (dump_queue_sequence q o < 0)),
    (List.takeWhile_append_dropWhile _ l).symm, ?_⟩
  intro o ho
  have := List.mem_takeWhile_imp ho
  simpa using this

theorem dump_queue_find_score_list {S : Type} [LinearOrderedField S] (m : link_score S)
    (q : dump_queue) (basis : Int) (l : List Nat) :
    (dump_queue_find_score_of_one_weight_queue m q basis l).1
      = l.dropWhile (fun o => decide (dump_queue_sequence q o < 0)) := by
  rw [dump_queue_find_score_eq]
  split <;> rename_i h <;> rw [h]

theorem dump_queue_sequence_fields (q : dump_queue) (z n s f : List Nat) :
    dump_queue_sequence
        { zero_weight_objects := z, one_weight_normal_objects := n,
          one_weight_strong_objects := s, fancy_weight_objects := f,
          link_weights := q.link_weights, sequence_numbers := q.sequence_numbers,
          next_sequence_number := q.next_sequence_number }
      = dump_queue_sequence q := rfl

theorem dump_queue_dequeue_shape {S : Type} [LinearOrderedField S] (m : link_score S)
    (q : dump_queue) (basis : Int) (r : Nat) (q1 : dump_queue)
    (h : dump_queue_dequeue m q basis = Except.ok (r, q1)) :
    q1.link_weights = Fremhash r q.link_weights
      ∧ q1.sequence_numbers = Fremhash r q.sequence_numbers
      ∧ q1.next_sequence_number = q.next_sequence_number
      ∧ (∃ dropped, q.one_weight_normal_objects = dropped ++ q1.one_weight_normal_objects
          ∧ ∀ o ∈ dropped, dump_queue_sequence q o < 0 ∨ o = r)
      ∧ (∃ dropped, q.one_weight_strong_objects = dropped ++ q1.one_weight_strong_objects
          ∧ ∀ o ∈ dropped, dump_queue_sequence q o < 0 ∨ o = r)
      ∧ (∃ dropped, q.zero_weight_objects = dropped ++ q1.zero_weight_objects
          ∧ ∀ o ∈ dropped, o = r)
      ∧ q1.fancy_weight_objects.Sublist q.fancy_weight_objects := by
  have h := (dump_queue_dequeue_scored_of m q basis _ h).1
  unfold dump_queue_dequeue_scored at h
  cases hf : dump_queue_dequeue_fancy m basis (q.fancy_weight_objects.length + 1) q with
  | none =>
    rw [hf] at h
    cases h
  | some res =>
    obtain ⟨qf, s0, n0⟩ := res
    rw [hf] at h
    obtain ⟨hqf, hsub⟩ := dump_queue_dequeue_fancy_fields m basis _ q qf s0 n0 hf
    generalize qf.fancy_weight_objects = fl at hqf hsub
    subst hqf
    dsimp only at h
    rw [dump_queue_find_score_list, dump_queue_find_score_list] at h
    simp only [dump_queue_sequence_fields] at h
    obtain ⟨dn, hdn1, hdn2⟩ := stale_heads_split q q.one_weight_normal_objects
    obtain ⟨ds, hds1, hds2⟩ := stale_heads_split q q.one_weight_strong_objects
    generalize Option.map Prod.fst (@dump_queue_dequeue_best S _ 0 _ none) = best at h
    generalize hnl : List.dropWhile (fun o => decide (dump_queue_sequence q o < 0))
      q.one_weight_normal_objects = nl at h hdn1
    generalize hsl : List.dropWhile (fun o => decide (dump_queue_sequence q o < 0))
      q.one_weight_strong_objects = sl at h hds1
    have hstale_n : ∀ o ∈ dn, dump_queue_sequence q o < 0 ∨ o = r := fun o ho => Or.inl (hdn2 o ho)
    have hstale_s : ∀ o ∈ ds, dump_queue_sequence q o < 0 ∨ o = r := fun o ho => Or.inl (hds2 o ho)
    rcases best with _ | _ | _ | b
    · try dsimp only at h
      cases hz : q.zero_weight_objects with
      | nil =>
        rw [hz] at h
        simp [dump_tailq_pop] at h
      | cons x rest =>
        rw [hz] at h
        simp only [dump_tailq_pop, Option.map_some', Except.ok.injEq, Prod.mk.injEq] at h
        obtain ⟨rfl, rfl⟩ := h
        exact ⟨rfl, rfl, rfl, ⟨dn, hdn1, hstale_n⟩, ⟨ds, hds1, hstale_s⟩,
          ⟨[x], rfl, fun o ho => by simpa using ho⟩, hsub⟩
    · try dsimp only at h
      cases fl with
      | nil => simp [dump_tailq_pop] at h
      | cons x rest =>
        simp only [dump_tailq_pop, Option.map_some', Except.ok.injEq, Prod.mk.injEq] at h
        obtain ⟨rfl, rfl⟩ := h
        exact ⟨rfl, rfl, rfl, ⟨dn, hdn1, hstale_n⟩, ⟨ds, hds1, hstale_s⟩,
          ⟨[], rfl, fun o ho => by simp at ho⟩, (List.sublist_cons_self x rest).trans hsub⟩
    · try dsimp only at h
      cases nl with
      | nil => simp [dump_tailq_pop] at h
      | cons x rest =>
        simp only [dump_tailq_pop, Option.map_some', Except.ok.injEq, Prod.mk.injEq] at h
        obtain ⟨rfl, rfl⟩ := h
        refine ⟨rfl, rfl, rfl, ⟨dn ++ [x], by rw [hdn1]; simp, ?_⟩, ⟨ds, hds1, hstale_s⟩,
          ⟨[], rfl, fun o ho => by simp at ho⟩, hsub⟩
        intro o ho
        rcases List.mem_append.mp ho with h1 | h1
        · exact hstale_n o h1
        · exact Or.inr (by simpa using h1)
    · try dsimp only at h
      cases sl with
      | nil => simp [dump_tailq_pop] at h
      | cons x rest =>
        simp only [dump_tailq_pop, Option.map_some', Except.ok.injEq, Prod.mk.injEq] at h
        obtain ⟨rfl, rfl⟩ := h
        refine ⟨rfl, rfl, rfl, ⟨dn, hdn1, hstale_n⟩, ⟨ds ++ [x], by rw [hds1]; simp, ?_⟩,
          ⟨[], rfl, fun o ho => by simp at ho⟩, hsub⟩
        intro o ho
        rcases List.mem_append.mp ho with h1 | h1
        · exact hstale_s o h1
        · exact Or.inr (by simpa using h1)

theorem dump_queue_enqueue_new_eq (q : dump_queue) (object : Nat) (basis weight : Int)
    (hnew : Fgethash object q.link_weights (weight_list.conses []) = weight_list.conses []) :
    (weight = WEIGHT_NONE →
        dump_queue_enqueue q object basis weight
          = Except.ok
              { q with
                zero_weight_objects := object :: q.zero_weight_objects
                link_weights := Fputhash object weight_list.Qt q.link_weights
                sequence_numbers := Fputhash object q.next_sequence_number q.sequence_numbers
                next_sequence_number := q.next_sequence_number + 1 })
      ∧ (weight = WEIGHT_NORMAL →
          dump_queue_enqueue q object basis weight
            = Except.ok
                { q with
                  one_weight_normal_objects := object :: q.one_weight_normal_objects
                  link_weights :=
                    Fputhash object (weight_list.conses [(basis, weight)]) q.link_weights
                  sequence_numbers := Fputhash object q.next_sequence_number q.sequence_numbers
                  next_sequence_number := q.next_sequence_number + 1 })
      ∧ (weight = WEIGHT_STRONG →
          dump_queue_enqueue q object basis weight
            = Except.ok
                { q with
                  one_weight_strong_objects := object :: q.one_weight_strong_objects
                  link_weights :=
                    Fputhash object (weight_list.conses [(basis, weight)]) q.link_weights
                  sequence_numbers := Fputhash object q.next_sequence_number q.sequence_numbers
                  next_sequence_number := q.next_sequence_number + 1 })
      ∧ (weight ≠ WEIGHT_NONE → weight ≠ WEIGHT_NORMAL → weight ≠ WEIGHT_STRONG →
          dump_queue_enqueue q object basis weight = Except.error dump_error.abort) := by
  refine ⟨?_, ?_, ?_, ?_⟩
  · intro h
    subst h
    unfold dump_queue_enqueue
    dsimp only
    rw [hnew, if_pos rfl, if_pos rfl]
    simp [dump_tailq_prepend]
  · intro h
    subst h
    unfold dump_queue_enqueue
    dsimp only
    rw [hnew, if_pos rfl, if_neg (by decide), if_pos rfl]
    simp [dump_tailq_prepend, dump_queue_push_weight]
  · intro h
    subst h
    unfold dump_queue_enqueue
    dsimp only
    rw [hnew, if_pos rfl, if_neg (by decide), if_neg (by decide), if_pos rfl]
    simp [dump_tailq_prepend, dump_queue_push_weight]
  · intro h0 h1 h2
    unfold dump_queue_enqueue
    dsimp only
    rw [hnew, if_pos rfl, if_neg h0, if_neg h1, if_neg h2]

theorem dump_queue_enqueue_tables (q q1 : dump_queue) (object : Nat) (basis weight : Int)
    (h : dump_queue_enqueue q object basis weight = Except.ok q1) :
    (q1.link_weights = q.link_weights ∧ q1.sequence_numbers = q.sequence_numbers
        ∧ q.link_weights.lookup object ≠ none)
      ∨ ∃ v, v ≠ weight_list.conses []
          ∧ q1.link_weights = Fputhash object v q.link_weights
          ∧ ((q1.sequence_numbers = q.sequence_numbers ∧ q.link_weights.lookup object ≠ none)
            ∨ (q1.sequence_numbers = Fputhash object q.next_sequence_number q.sequence_numbers
              ∧ (q.link_weights.lookup object = none
                ∨ q.link_weights.lookup object = some (weight_list.conses [])))) := by
  by_cases hnew : Fgethash object q.link_weights (weight_list.conses []) = weight_list.conses []
  · obtain ⟨h0, h1, h2, h3⟩ := dump_queue_enqueue_new_eq q object basis weight hnew
    have hlk : q.link_weights.lookup object = none
        ∨ q.link_weights.lookup object = some (weight_list.conses []) := by
      rw [Fgethash_lookup] at hnew
      cases hl : q.link_weights.lookup object with
      | none => exact Or.inl rfl
      | some v =>
        rw [hl] at hnew
        exact Or.inr (by simpa using hnew)
    right
    by_cases hw0 : weight = WEIGHT_NONE
    · rw [h0 hw0] at h
      cases h
      exact ⟨weight_list.Qt, by simp, rfl, Or.inr ⟨rfl, hlk⟩⟩
    · by_cases hw1 : weight = WEIGHT_NORMAL
      · rw [h1 hw1] at h
        cases h
        exact ⟨_, by simp, rfl, Or.inr ⟨rfl, hlk⟩⟩
      · by_cases hw2 : weight = WEIGHT_STRONG
        · rw [h2 hw2] at h
          cases h
          exact ⟨_, by simp, rfl, Or.inr ⟨rfl, hlk⟩⟩
        · rw [h3 hw0 hw1 hw2] at h
          cases h
  · have hlk : q.link_weights.lookup object ≠ none := by
      intro hc
      rw [Fgethash_lookup, hc] at hnew
      exact hnew rfl
    generalize hw : Fgethash object q.link_weights (weight_list.conses []) = wl at hnew
    unfold dump_queue_enqueue at h
    dsimp only at h
    rw [hw, if_neg hnew] at h
    by_cases hw0 : weight = WEIGHT_NONE
    · rw [if_neg (by simpa using hw0), if_neg (by simp)] at h
      cases h
      exact Or.inl ⟨rfl, rfl, hlk⟩
    · rw [if_pos hw0] at h
      by_cases hqt : wl = weight_list.Qt
      · rw [if_pos hqt] at h
        have hp : dump_queue_push_weight (weight_list.conses []) basis weight ≠ wl := by
          rw [hqt]
          simp [dump_queue_push_weight]
        rw [if_pos hp, if_pos hp] at h
        split at h
        · cases h
          exact Or.inr ⟨_, (dump_queue_push_weight_ne _ basis weight).2, rfl, Or.inl ⟨rfl, hlk⟩⟩
        · split at h
          · cases h
            exact Or.inr ⟨_, (dump_queue_push_weight_ne _ basis weight).2, rfl,
              Or.inl ⟨rfl, hlk⟩⟩
          · cases h
      · rw [if_neg hqt, if_pos (dump_queue_push_weight_ne wl basis weight).1] at h
        cases h
        refine Or.inr ⟨_, (dump_queue_push_weight_ne wl basis weight).2, ?_, Or.inl ⟨?_, hlk⟩⟩
        · show Fputhash object (dump_queue_push_weight wl basis weight) _ = _
          congr 1
          split <;> rfl
        · show dump_queue.sequence_numbers _ = _
          split <;> rfl

theorem queue_keys_ok_enqueue (q q1 : dump_queue) (object : Nat) (basis weight : Int)
    (hq : queue_keys_ok q) (h : dump_queue_enqueue q object basis weight = Except.ok q1) :
    queue_keys_ok q1 := by
  intro o
  obtain ⟨hk1, hk2⟩ := hq o
  rcases dump_queue_enqueue_tables q q1 object basis weight h with
    ⟨h1, h2, _⟩ | ⟨v, hv, h1, h2⟩
  · rw [h1, h2]
    exact ⟨hk1, hk2⟩
  · rw [h1]
    by_cases ho : o = object
    · subst ho
      rw [lookup_Fputhash_self]
      refine ⟨?_, by simpa using hv⟩
      rcases h2 with ⟨h2, hl⟩ | ⟨h2, _⟩
      · rw [h2]
        constructor
        · intro hc
          exact absurd (hk1.mp hc) hl
        · intro hc
          cases hc
      · rw [h2, lookup_Fputhash_self]
        simp
    · rw [lookup_Fputhash_ne _ _ _ _ ho]
      refine ⟨?_, hk2⟩
      rcases h2 with ⟨h2, _⟩ | ⟨h2, _⟩
      · rw [h2]
        exact hk1
      · rw [h2, lookup_Fputhash_ne _ _ _ _ ho]
        exact hk1

theorem queue_keys_ok_dequeue {S : Type} [LinearOrderedField S] (m : link_score S)
    (q q1 : dump_queue) (basis : Int) (r : Nat) (hq : queue_keys_ok q)
    (h : dump_queue_dequeue m q basis = Except.ok (r, q1)) : queue_keys_ok q1 := by
  intro o
  obtain ⟨h1, h2, _⟩ := dump_queue_dequeue_shape m q basis r q1 h
  rw [h1, h2]
  by_cases ho : o = r
  · subst ho
    rw [lookup_Fremhash_self, lookup_Fremhash_self]
    simp
  · rw [lookup_Fremhash_ne _ _ _ ho, lookup_Fremhash_ne _ _ _ ho]
    exact hq o

theorem queue_run_keys {S : Type} [LinearOrderedField S] (m : link_score S) (q : dump_queue)
    (h : queue_run m q) : queue_keys_ok q := by
  induction h with
  | init =>
    intro o
    simp [dump_queue_init]
  | enqueue q q1 object basis weight _ he ih =>
    exact queue_keys_ok_enqueue q q1 object basis weight ih he
  | dequeue q q1 basis object _ hd ih => exact queue_keys_ok_dequeue m q q1 basis object ih hd

theorem queue_keys_known (q : dump_queue) (hq : queue_keys_ok q) (object : Nat)
    (hseq : 0 ≤ dump_queue_sequence q object) :
    Fgethash object q.link_weights (weight_list.conses []) ≠ weight_list.conses [] := by
  obtain ⟨hk1, hk2⟩ := hq object
  have hs : q.sequence_numbers.lookup object ≠ none := by
    intro hc
    unfold dump_queue_sequence at hseq
    rw [hc] at hseq
    exact absurd hseq (by decide)
  rw [Fgethash_lookup]
  cases hl : q.link_weights.lookup object with
  | none => exact absurd (hk1.mpr hl) hs
  | some v =>
    rw [hl] at hk2
    simpa using hk2

/-- C25: in a queue reached from `dump_queue_init` by calls of
`dump_queue_enqueue` and `dump_queue_dequeue`, for an object that has a
sequence number: `dump_queue_enqueue` with `WEIGHT_NONE` returns the queue
unchanged; with `WEIGHT_NORMAL` or `WEIGHT_STRONG` it returns, the pair of the
basis and the weight is put in front of the pairs the object had, the pairs of
the other objects, the sequence numbers and the zero-weight list are kept, and
the object is prepended to the single-weight list of the weight when it had
zero weight (`Qt`), to the fancy list when it had exactly one pair, and to no
list otherwise; no list loses an entry. -/
theorem dump_queue_enqueue_known {S : Type} [LinearOrderedField S] (m : link_score S)
    (q : dump_queue) (hrun : queue_run m q) (object : Nat) (basis weight : Int)
    (hseq : 0 ≤ dump_queue_sequence q object) :
    (weight = WEIGHT_NONE → dump_queue_enqueue q object basis weight = Except.ok q)
      ∧ (weight = WEIGHT_NORMAL ∨ weight = WEIGHT_STRONG →
          ∃ q1, dump_queue_enqueue q object basis weight = Except.ok q1
            ∧ (Fgethash object q1.link_weights (weight_list.conses [])).edges
              = (basis, weight)
                  :: (Fgethash object q.link_weights (weight_list.conses [])).edges
            ∧ (∀ o, o ≠ object → q1.link_weights.lookup o = q.link_weights.lookup o)
            ∧ q1.sequence_numbers = q.sequence_numbers
            ∧ q1.next_sequence_number = q.next_sequence_number
            ∧ q1.zero_weight_objects = q.zero_weight_objects
            ∧ q1.one_weight_normal_objects
              = (if Fgethash object q.link_weights (weight_list.conses []) = weight_list.Qt
                    ∧ weight = WEIGHT_NORMAL then
                  object :: q.one_weight_normal_objects
                else q.one_weight_normal_objects)
            ∧ q1.one_weight_strong_objects
              = (if Fgethash object q.link_weights (weight_list.conses []) = weight_list.Qt
                    ∧ weight = WEIGHT_STRONG then
                  object :: q.one_weight_strong_objects
                else q.one_weight_strong_objects)
            ∧ q1.fancy_weight_objects
              = (if (Fgethash object q.link_weights (weight_list.conses [])).one_edge then
                  object :: q.fancy_weight_objects
                else q.fancy_weight_objects)) := by
  have hknown := queue_keys_known q (queue_run_keys m q hrun) object hseq
  obtain ⟨h0, h1⟩ := dump_queue_enqueue_known_eq q object basis weight hknown
  refine ⟨h0, fun hw => ⟨_, h1 hw, ?_, ?_, rfl, rfl, rfl, rfl, rfl, rfl⟩⟩
  · dsimp only
    rw [Fgethash_Fputhash]
    unfold dump_queue_push_weight weight_list.edges
    cases Fgethash object q.link_weights (weight_list.conses []) <;> rfl
  · intro o ho
    exact lookup_Fputhash_ne _ _ _ _ ho

/-- C25 at `sample_promoted_queue`, a second enqueue of object 1, which has
zero weight, with `WEIGHT_STRONG` at basis 30. -/
theorem dump_queue_enqueue_known_witness :
    ∃ q1, dump_queue_enqueue sample_promoted_queue 1 30 WEIGHT_STRONG = Except.ok q1
      ∧ (Fgethash 1 q1.link_weights (weight_list.conses [])).edges
        = (30, WEIGHT_STRONG)
            :: (Fgethash 1 sample_promoted_queue.link_weights (weight_list.conses [])).edges
      ∧ (∀ o, o ≠ 1 → q1.link_weights.lookup o = sample_promoted_queue.link_weights.lookup o)
      ∧ q1.sequence_numbers = sample_promoted_queue.sequence_numbers
      ∧ q1.next_sequence_number = sample_promoted_queue.next_sequence_number
      ∧ q1.zero_weight_objects = sample_promoted_queue.zero_weight_objects
      ∧ q1.one_weight_normal_objects
        = (if Fgethash 1 sample_promoted_queue.link_weights (weight_list.conses [])
              = weight_list.Qt ∧ WEIGHT_STRONG = WEIGHT_NORMAL then
            1 :: sample_promoted_queue.one_weight_normal_objects
          else sample_promoted_queue.one_weight_normal_objects)
      ∧ q1.one_weight_strong_objects
        = (if Fgethash 1 sample_promoted_queue.link_weights (weight_list.conses [])
              = weight_list.Qt ∧ WEIGHT_STRONG = WEIGHT_STRONG then
            1 :: sample_promoted_queue.one_weight_strong_objects
          else sample_promoted_queue.one_weight_strong_objects)
      ∧ q1.fancy_weight_objects
        = (if (Fgethash 1 sample_promoted_queue.link_weights (weight_list.conses [])).one_edge
          then 1 :: sample_promoted_queue.fancy_weight_objects
          else sample_promoted_queue.fancy_weight_objects) :=
  (dump_queue_enqueue_known sample_link_score sample_promoted_queue
    (queue_run.enqueue _ _ 2 20 WEIGHT_NORMAL
      (queue_run.enqueue _ _ 2 10 WEIGHT_NONE
        (queue_run.enqueue _ _ 1 10 WEIGHT_NONE queue_run.init rfl) rfl) rfl)
    1 30 WEIGHT_STRONG (by decide)).2 (Or.inr rfl)

/-- An object with one pair that is enqueued again with `WEIGHT_NORMAL`: it
has a sequence number and did not have zero weight, and the call puts it on
the fancy list, on which it was not before. -/
theorem dump_queue_enqueue_fancy_counterexample :
    dump_queue_enqueue dump_queue_init 1 10 WEIGHT_NORMAL
        = Except.ok
            { dump_queue_init with
              one_weight_normal_objects := [1]
              link_weights := [(1, weight_list.conses [(10, 1000)])]
              sequence_numbers := [(1, 1)]
              next_sequence_number := 2 }
      ∧ 0 ≤ dump_queue_sequence
          { dump_queue_init with
            one_weight_normal_objects := [1]
            link_weights := [(1, weight_list.conses [(10, 1000)])]
            sequence_numbers := [(1, 1)]
            next_sequence_number := 2 } 1
      ∧ dump_queue_enqueue
          { dump_queue_init with
            one_weight_normal_objects := [1]
            link_weights := [(1, weight_list.conses [(10, 1000)])]
            sequence_numbers := [(1, 1)]
            next_sequence_number := 2 } 1 20 WEIGHT_NORMAL
        = Except.ok
            { dump_queue_init with
              one_weight_normal_objects := [1]
              fancy_weight_objects := [1]
              link_weights := [(1, weight_list.conses [(20, 1000), (10, 1000)])]
              sequence_numbers := [(1, 1)]
              next_sequence_number := 2 } :=
  ⟨rfl, by decide, rfl⟩

/-! ### The zero-weight list -/

theorem dump_queue_distances_defined_of_Qt (q : dump_queue) (basis : Int)
    (hqt : ∀ e ∈ q.link_weights, e.2 = weight_list.Qt) (o : Nat) :
    dump_queue_distances_defined q o basis = true := by
  unfold dump_queue_distances_defined
  rcases Fgethash_mem o q.link_weights (weight_list.conses []) with h | h
  · rw [h]
    rfl
  · have := hqt _ h
    simp only at this
    rw [this]

theorem dump_queue_dequeue_zero {S : Type} [LinearOrderedField S] (m : link_score S)
    (q : dump_queue) (basis : Int) (x : Nat) (rest : List Nat)
    (hf : q.fancy_weight_objects = []) (hn : q.one_weight_normal_objects = [])
    (hs : q.one_weight_strong_objects = []) (hz : q.zero_weight_objects = x :: rest)
    (hqt : ∀ e ∈ q.link_weights, e.2 = weight_list.Qt) :
    dump_queue_dequeue m q basis
      = Except.ok (x,
          { q with
            zero_weight_objects := rest
            link_weights := Fremhash x q.link_weights
            sequence_numbers := Fremhash x q.sequence_numbers }) := by
  rw [dump_queue_dequeue_of_scored m q basis (dump_queue_distances_defined_of_Qt q basis hqt)]
  obtain ⟨z, n, s, f, lw, sq, nx⟩ := q
  dsimp only at hf hn hs hz
  subst hf hn hs hz
  rfl

theorem dump_queue_enqueue_all_zero (calls : List (Nat × Int)) (q : dump_queue)
    (hf : q.fancy_weight_objects = []) (hn : q.one_weight_normal_objects = [])
    (hs : q.one_weight_strong_objects = [])
    (hseq : ∀ e ∈ q.sequence_numbers, e.1 ∈ q.zero_weight_objects)
    (hqt : ∀ e ∈ q.link_weights, e.2 = weight_list.Qt)
    (hnew : ∀ o ∈ calls.map Prod.fst, q.link_weights.lookup o = none)
    (hnodup : (calls.map Prod.fst).Nodup) :
    ∃ q1, dump_queue_enqueue_all q (calls.map fun c => (c.1, c.2, WEIGHT_NONE)) = Except.ok q1
      ∧ q1.zero_weight_objects = (calls.map Prod.fst).reverse ++ q.zero_weight_objects
      ∧ q1.fancy_weight_objects = [] ∧ q1.one_weight_normal_objects = []
      ∧ q1.one_weight_strong_objects = []
      ∧ (∀ e ∈ q1.sequence_numbers, e.1 ∈ q1.zero_weight_objects)
      ∧ ∀ e ∈ q1.link_weights, e.2 = weight_list.Qt := by
  induction calls generalizing q with
  | nil => exact ⟨q, rfl, by simp, hf, hn, hs, hseq, hqt⟩
  | cons c calls ih =>
    obtain ⟨o, b⟩ := c
    have ho : Fgethash o q.link_weights (weight_list.conses []) = weight_list.conses [] := by
      rw [Fgethash_lookup, hnew o (by simp)]
      rfl
    have he := (dump_queue_enqueue_new_eq q o b WEIGHT_NONE ho).1 rfl
    simp only [List.map_cons, List.nodup_cons] at hnodup
    obtain ⟨q1, h1, h2, h3, h4, h5, h6, h7⟩ := ih
      { q with
        zero_weight_objects := o :: q.zero_weight_objects
        link_weights := Fputhash o weight_list.Qt q.link_weights
        sequence_numbers := Fputhash o q.next_sequence_number q.sequence_numbers
        next_sequence_number := q.next_sequence_number + 1 }
      hf hn hs
      (by
        intro e hmem
        dsimp only at hmem ⊢
        unfold Fputhash at hmem
        rcases List.mem_cons.mp hmem with h | h
        · rw [h]
          exact List.mem_cons_self _ _
        · exact List.mem_cons_of_mem _ (hseq e (mem_Fremhash _ _ _ h).1))
      (by
        intro e hmem
        dsimp only at hmem
        unfold Fputhash at hmem
        rcases List.mem_cons.mp hmem with h | h
        · rw [h]
        · exact hqt e (mem_Fremhash _ _ _ h).1)
      (by
        intro o1 ho1
        have hne : o1 ≠ o := by
          intro hc
          rw [hc] at ho1
          exact hnodup.1 ho1
        dsimp only
        rw [lookup_Fputhash_ne _ _ _ _ hne]
        exact hnew o1 (by simp [List.mem_map] at ho1 ⊢; exact Or.inr ho1))
      hnodup.2
    refine ⟨q1, ?_, ?_, h3, h4, h5, h6, h7⟩
    · simp only [List.map_cons]
      unfold dump_queue_enqueue_all
      simp only [bind, Except.bind]
      rw [he]
      exact h1
    · rw [h2]
      simp

theorem dump_queue_dequeue_all_zero {S : Type} [LinearOrderedField S] (m : link_score S)
    (l : List Nat) (q : dump_queue) (bases : List Int) (hlen : bases.length = l.length)
    (hf : q.fancy_weight_objects = []) (hn : q.one_weight_normal_objects = [])
    (hs : q.one_weight_strong_objects = []) (hz : q.zero_weight_objects = l)
    (hseq : ∀ e ∈ q.sequence_numbers, e.1 ∈ q.zero_weight_objects)
    (hqt : ∀ e ∈ q.link_weights, e.2 = weight_list.Qt) :
    ∃ q1, dump_queue_dequeue_all m q bases = Except.ok (l, q1)
      ∧ dump_queue_empty_p q1 = true := by
  induction l generalizing q bases with
  | nil =>
    have hb : bases = [] := List.length_eq_zero.mp hlen
    subst hb
    refine ⟨q, rfl, ?_⟩
    rw [hz] at hseq
    have hnil : q.sequence_numbers = [] := by
      cases hq : q.sequence_numbers with
      | nil => rfl
      | cons e t =>
        have := hseq e (by rw [hq]; exact List.mem_cons_self _ _)
        simp at this
    unfold dump_queue_empty_p hash_table_count
    rw [hnil]
    rfl
  | cons x rest ih =>
    obtain ⟨basis, bases1, rfl⟩ : ∃ basis bases1, bases = basis :: bases1 := by
      cases bases with
      | nil => simp at hlen
      | cons basis bases1 => exact ⟨basis, bases1, rfl⟩
    have hd := dump_queue_dequeue_zero m q basis x rest hf hn hs hz hqt
    obtain ⟨q1, h1, h2⟩ := ih
      { q with
        zero_weight_objects := rest
        link_weights := Fremhash x q.link_weights
        sequence_numbers := Fremhash x q.sequence_numbers }
      bases1 (by simpa using hlen) hf hn hs rfl
      (by
        intro e hmem
        dsimp only at hmem ⊢
        obtain ⟨hm1, hm2⟩ := mem_Fremhash _ _ _ hmem
        have := hseq e hm1
        rw [hz] at this
        rcases List.mem_cons.mp this with h | h
        · exact absurd h hm2
        · exact h)
      (by
        intro e hmem
        dsimp only at hmem
        exact hqt e (mem_Fremhash _ _ _ hmem).1)
    refine ⟨q1, ?_, h2⟩
    unfold dump_queue_dequeue_all
    simp only [bind, Except.bind]
    rw [hd]
    dsimp only
    rw [h1]

/-- C26: distinct objects enqueued with `WEIGHT_NONE` on the queue of
`dump_queue_init` are on the zero-weight list in the reverse of the order of
the calls, and as many calls of `dump_queue_dequeue`, at any cursor offsets,
return them in that reverse order, the object enqueued last first, and leave
the queue empty. -/
theorem dump_queue_zero_weight_lifo {S : Type} [LinearOrderedField S] (m : link_score S)
    (calls : List (Nat × Int)) (bases : List Int)
    (hnodup : (calls.map Prod.fst).Nodup) (hlen : bases.length = calls.length) :
    ∃ q q1,
      dump_queue_enqueue_all dump_queue_init (calls.map fun c => (c.1, c.2, WEIGHT_NONE))
          = Except.ok q
        ∧ q.zero_weight_objects = (calls.map Prod.fst).reverse
        ∧ dump_queue_dequeue_all m q bases = Except.ok ((calls.map Prod.fst).reverse, q1)
        ∧ dump_queue_empty_p q1 = true := by
  obtain ⟨q, h1, h2, h3, h4, h5, h6, hqt⟩ := dump_queue_enqueue_all_zero calls dump_queue_init
    rfl rfl rfl (by intro e he; simp [dump_queue_init] at he)
    (by intro e he; simp [dump_queue_init] at he)
    (by intro o _; rfl) hnodup
  have hz : q.zero_weight_objects = (calls.map Prod.fst).reverse := by
    rw [h2]
    simp [dump_queue_init]
  obtain ⟨q1, h7, h8⟩ := dump_queue_dequeue_all_zero m (calls.map Prod.fst).reverse q bases
    (by simpa using hlen) h3 h4 h5 hz h6 hqt
  exact ⟨q, q1, h1, hz, h7, h8⟩

/-- C26 at the objects 1, 2 and 3 enqueued in this order: they are returned
in the order 3, 2, 1. -/
theorem dump_queue_zero_weight_lifo_witness :
    ∃ q q1,
      dump_queue_enqueue_all dump_queue_init
          ([(1, 10), (2, 20), (3, 30)].map fun c => (c.1, c.2, WEIGHT_NONE))
          = Except.ok q
        ∧ q.zero_weight_objects = ([(1, (10 : Int)), (2, 20), (3, 30)].map Prod.fst).reverse
        ∧ dump_queue_dequeue_all sample_link_score q [40, 50, 60]
          = Except.ok (([(1, (10 : Int)), (2, 20), (3, 30)].map Prod.fst).reverse, q1)
        ∧ dump_queue_empty_p q1 = true :=
  dump_queue_zero_weight_lifo sample_link_score [(1, 10), (2, 20), (3, 30)] [40, 50, 60]
    (by decide) rfl

/-- Object 1 and then object 2 are enqueued with `WEIGHT_NONE`; no object has
an edge; the first `dump_queue_dequeue` returns object 2, the one enqueued
last, and the second returns object 1. -/
theorem dump_queue_zero_weight_fifo_counterexample :
    dump_queue_enqueue_all dump_queue_init [(1, 10, WEIGHT_NONE), (2, 20, WEIGHT_NONE)]
        = Except.ok
            { dump_queue_init with
              zero_weight_objects := [2, 1]
              link_weights := [(2, weight_list.Qt), (1, weight_list.Qt)]
              sequence_numbers := [(2, 2), (1, 1)]
              next_sequence_number := 3 }
      ∧ dump_queue_dequeue_all sample_link_score
          { dump_queue_init with
            zero_weight_objects := [2, 1]
            link_weights := [(2, weight_list.Qt), (1, weight_list.Qt)]
            sequence_numbers := [(2, 2), (1, 1)]
            next_sequence_number := 3 } [30, 40]
        = Except.ok ([2, 1], { dump_queue_init with next_sequence_number := 3 }) :=
  ⟨rfl, rfl⟩

/-! ### The score of an edge -/

theorem dump_calc_link_score_is_lt (basis link_basis1 link_basis2 link_weight : Int)
    (s1 s2 : ℝ) (h1 : link_basis1 < link_basis2) (h2 : link_basis2 < basis)
    (hw : 0 < link_weight)
    (hs1 : dump_calc_link_score_is basis link_basis1 link_weight s1)
    (hs2 : dump_calc_link_score_is basis link_basis2 link_weight s2) : 0 < s1 ∧ s1 < s2 := by
  unfold dump_calc_link_score_is at hs1 hs2
  have hd2 : (0 : ℝ) < ((basis - link_basis2 : Int) : ℝ) := by
    exact_mod_cast (by omega : (0 : Int) < basis - link_basis2)
  have hd1 : (0 : ℝ) < ((basis - link_basis1 : Int) : ℝ) := by
    exact_mod_cast (by omega : (0 : Int) < basis - link_basis1)
  have hlt : ((basis - link_basis2 : Int) : ℝ) < ((basis - link_basis1 : Int) : ℝ) := by
    exact_mod_cast (by omega : basis - link_basis2 < basis - link_basis1)
  have hexp : (0 : ℝ) < (link_weight : ℝ) / 1000.0 := by
    have : (0 : ℝ) < (link_weight : ℝ) := by exact_mod_cast hw
    positivity
  have hp1 : 0 < ((basis - link_basis1 : Int) : ℝ) ^ (-0.2 : ℝ) := Real.rpow_pos_of_pos hd1 _
  have hinner : ((basis - link_basis1 : Int) : ℝ) ^ (-0.2 : ℝ)
      < ((basis - link_basis2 : Int) : ℝ) ^ (-0.2 : ℝ) :=
    Real.rpow_lt_rpow_of_neg hd2 hlt (by norm_num)
  rw [hs1, hs2]
  exact ⟨Real.rpow_pos_of_pos hp1 _, Real.rpow_lt_rpow (le_of_lt hp1) hinner hexp⟩

theorem dump_calc_link_score_real :
    ∃ m : link_score ℝ, ∀ basis link_basis link_weight,
      dump_calc_link_score_is basis link_basis link_weight
        (m.dump_calc_link_score basis link_basis link_weight) :=
  ⟨{ dump_calc_link_score := fun basis link_basis link_weight =>
        (((basis - link_basis : Int) : ℝ) ^ (-0.2 : ℝ)) ^ ((link_weight : ℝ) / 1000.0),
      score_pos := fun basis link_basis link_weight h1 h2 =>
        (dump_calc_link_score_is_lt basis (link_basis - 1) link_basis link_weight _ _
          (by omega) h1 h2 rfl rfl).2.trans_le' (le_of_lt
            (dump_calc_link_score_is_lt basis (link_basis - 1) link_basis link_weight _ _
              (by omega) h1 h2 rfl rfl).1),
      score_lt := fun basis lb1 lb2 link_weight h1 h2 h3 =>
        (dump_calc_link_score_is_lt basis lb1 lb2 link_weight _ _ h1 h2 h3 rfl rfl).2 },
    fun _ _ _ => rfl⟩

/-- C28, the divergence: for an edge of positive weight, so for
`WEIGHT_NORMAL` and `WEIGHT_STRONG`, and cursor offsets B1 < B2 beyond the
basis of the edge, the score at B2 is positive and smaller than the score at
B1.  The score falls as the cursor moves away from the referrer, where the
comment of `dump_queue_compute_score` has it grow: "the further an object is
from its referrers, the greater the score". -/
theorem dump_calc_link_score_falls (link_basis link_weight B1 B2 : Int) (s1 s2 : ℝ)
    (hw : 0 < link_weight) (h1 : link_basis < B1) (h2 : B1 < B2)
    (hs1 : dump_calc_link_score_is B1 link_basis link_weight s1)
    (hs2 : dump_calc_link_score_is B2 link_basis link_weight s2) : 0 < s2 ∧ s2 < s1 := by
  unfold dump_calc_link_score_is at hs1 hs2
  have hd1 : (0 : ℝ) < ((B1 - link_basis : Int) : ℝ) := by
    exact_mod_cast (by omega : (0 : Int) < B1 - link_basis)
  have hd2 : (0 : ℝ) < ((B2 - link_basis : Int) : ℝ) := by
    exact_mod_cast (by omega : (0 : Int) < B2 - link_basis)
  have hlt : ((B1 - link_basis : Int) : ℝ) < ((B2 - link_basis : Int) : ℝ) := by
    exact_mod_cast (by omega : B1 - link_basis < B2 - link_basis)
  have hexp : (0 : ℝ) < (link_weight : ℝ) / 1000.0 := by
    have : (0 : ℝ) < (link_weight : ℝ) := by exact_mod_cast hw
    positivity
  have hp2 : 0 < ((B2 - link_basis : Int) : ℝ) ^ (-0.2 : ℝ) := Real.rpow_pos_of_pos hd2 _
  have hinner : ((B2 - link_basis : Int) : ℝ) ^ (-0.2 : ℝ)
      < ((B1 - link_basis : Int) : ℝ) ^ (-0.2 : ℝ) :=
    Real.rpow_lt_rpow_of_neg hd1 hlt (by norm_num)
  rw [hs1, hs2]
  exact ⟨Real.rpow_pos_of_pos hp2 _, Real.rpow_lt_rpow (le_of_lt hp2) hinner hexp⟩

/-- C28 at an edge of `WEIGHT_STRONG` with basis 100 and the cursor offsets
200 and 300. -/
theorem dump_calc_link_score_falls_witness :
    0 < (((300 - 100 : Int) : ℝ) ^ (-0.2 : ℝ)) ^ ((WEIGHT_STRONG : ℝ) / 1000.0)
      ∧ (((300 - 100 : Int) : ℝ) ^ (-0.2 : ℝ)) ^ ((WEIGHT_STRONG : ℝ) / 1000.0)
        < (((200 - 100 : Int) : ℝ) ^ (-0.2 : ℝ)) ^ ((WEIGHT_STRONG : ℝ) / 1000.0) :=
  dump_calc_link_score_falls 100 WEIGHT_STRONG 200 300 _ _ (by decide) (by decide) (by decide)
    rfl rfl

/-- An edge of `WEIGHT_NORMAL` with basis 0: the score is 1 at the cursor
offset 1 and 1/2 at the cursor offset 32, further from the referrer. -/
theorem dump_calc_link_score_rises_counterexample :
    (0 : Int) < 1 ∧ (1 : Int) < 32
      ∧ dump_calc_link_score_is 1 0 WEIGHT_NORMAL 1
      ∧ dump_calc_link_score_is 32 0 WEIGHT_NORMAL (1 / 2)
      ∧ ¬ ((1 / 2 : ℝ) > 1) := by
  refine ⟨by decide, by decide, ?_, ?_, by norm_num⟩
  · unfold dump_calc_link_score_is WEIGHT_NORMAL
    norm_num
  · unfold dump_calc_link_score_is WEIGHT_NORMAL
    have h : (32 : ℝ) ^ (-0.2 : ℝ) = 1 / 2 := by
      have h32 : (32 : ℝ) = (2 : ℝ) ^ (5 : ℕ) := by norm_num
      have e : ((5 : ℕ) : ℝ) * (-0.2 : ℝ) = -1 := by norm_num
      rw [h32, ← Real.rpow_natCast, ← Real.rpow_mul (by norm_num), e, Real.rpow_neg_one]
      norm_num
    have hc : (((32 - 0 : Int)) : ℝ) = 32 := by norm_num
    have he : ((1000 : Int) : ℝ) / 1000.0 = 1 := by norm_num
    rw [hc, he, Real.rpow_one, h]

/-! ### Objects returned by `dump_queue_dequeue` and their sequence numbers -/

theorem Fremhash_keys_sublist {V : Type} (key : Nat) (table : List (Nat × V)) :
    ((Fremhash key table).map Prod.fst).Sublist (table.map Prod.fst) :=
  List.Sublist.map _ (List.filter_sublist _)

theorem Fremhash_not_mem {V : Type} (key : Nat) (table : List (Nat × V)) :
    key ∉ (Fremhash key table).map Prod.fst := by
  intro h
  obtain ⟨e, he, hk⟩ := List.mem_map.mp h
  unfold Fremhash at he
  have := (List.mem_filter.mp he).2
  simp [hk] at this

theorem Fremhash_mem {V : Type} (key : Nat) (table : List (Nat × V)) (e : Nat × V)
    (h : e ∈ Fremhash key table) : e ∈ table :=
  (List.mem_filter.mp h).1

theorem lookup_mem {V : Type} (key : Nat) (v : V) (table : List (Nat × V))
    (h : table.lookup key = some v) : (key, v) ∈ table := by
  induction table with
  | nil => simp at h
  | cons e rest ih =>
    obtain ⟨k, w⟩ := e
    by_cases hk : key = k
    · subst hk
      simp [List.lookup] at h
      subst h
      exact List.mem_cons_self _ _
    · have hb : (key == k) = false := by simpa using hk
      rw [List.lookup, hb] at h
      exact List.mem_cons_of_mem _ (ih h)

theorem Fremhash_of_lookup_none {V : Type} (key : Nat) (table : List (Nat × V))
    (h : table.lookup key = none) : Fremhash key table = table := by
  induction table with
  | nil => rfl
  | cons e rest ih =>
    obtain ⟨k, w⟩ := e
    by_cases hk : key = k
    · subst hk
      simp [List.lookup] at h
    · have hb : (key == k) = false := by simpa using hk
      rw [List.lookup, hb] at h
      have hk2 : k ≠ key := fun hh => hk hh.symm
      unfold Fremhash at ih ⊢
      rw [List.filter_cons_of_pos (by simpa using hk2), ih h]

theorem Fremhash_of_not_mem {V : Type} (key : Nat) (table : List (Nat × V))
    (h : key ∉ table.map Prod.fst) : Fremhash key table = table := by
  unfold Fremhash
  rw [List.filter_eq_self]
  intro e he
  have : e.1 ≠ key := fun hh => h (List.mem_map.mpr ⟨e, he, hh⟩)
  simpa using this

theorem length_Fremhash {V : Type} (key : Nat) (v : V) (table : List (Nat × V))
    (hnodup : (table.map Prod.fst).Nodup) (h : table.lookup key = some v) :
    hash_table_count (Fremhash key table) + 1 = hash_table_count table := by
  unfold hash_table_count
  induction table with
  | nil => simp at h
  | cons e rest ih =>
    obtain ⟨k, w⟩ := e
    rw [List.map_cons, List.nodup_cons] at hnodup
    by_cases hk : key = k
    · subst hk
      have h1 : Fremhash key ((key, w) :: rest) = Fremhash key rest := by
        unfold Fremhash
        rw [List.filter_cons_of_neg (by simp)]
      rw [h1, Fremhash_of_not_mem key rest hnodup.1]
      rfl
    · have hb : (key == k) = false := by simpa using hk
      rw [List.lookup, hb] at h
      have hk2 : k ≠ key := fun hh => hk hh.symm
      have h1 : Fremhash key ((k, w) :: rest) = (k, w) :: Fremhash key rest := by
        unfold Fremhash
        rw [List.filter_cons_of_pos (by simpa using hk2)]
      rw [h1, List.length_cons, List.length_cons, ih hnodup.2 h]

theorem dump_queue_sequence_nonneg (q : dump_queue) (hq : queue_sequences_ok q) (o : Nat) :
    0 ≤ dump_queue_sequence q o ↔ ∃ n, q.sequence_numbers.lookup o = some n := by
  unfold dump_queue_sequence
  cases hl : q.sequence_numbers.lookup o with
  | none => simp
  | some n =>
    have := hq.2.1 o n (lookup_mem o n _ hl)
    simp
    omega

theorem dump_queue_sequence_neg (q : dump_queue) (hq : queue_sequences_ok q) (o : Nat) :
    dump_queue_sequence q o < 0 ↔ q.sequence_numbers.lookup o = none := by
  have h := dump_queue_sequence_nonneg q hq o
  constructor
  · intro hneg
    cases hl : q.sequence_numbers.lookup o with
    | none => rfl
    | some n =>
      have := h.mpr ⟨n, hl⟩
      omega
  · intro hl
    unfold dump_queue_sequence
    rw [hl]
    decide

theorem dump_queue_enqueue_sequence (q q1 : dump_queue) (object : Nat) (basis weight : Int)
    (h : dump_queue_enqueue q object basis weight = Except.ok q1) :
    (q1.sequence_numbers = q.sequence_numbers
        ∧ q1.next_sequence_number = q.next_sequence_number)
      ∨ (q1.sequence_numbers = Fputhash object q.next_sequence_number q.sequence_numbers
        ∧ q1.next_sequence_number = q.next_sequence_number + 1) := by
  by_cases hnew : Fgethash object q.link_weights (weight_list.conses []) = weight_list.conses []
  · obtain ⟨h0, h1, h2, h3⟩ := dump_queue_enqueue_new_eq q object basis weight hnew
    by_cases hw0 : weight = WEIGHT_NONE
    · rw [h0 hw0] at h
      cases h
      exact Or.inr ⟨rfl, rfl⟩
    · by_cases hw1 : weight = WEIGHT_NORMAL
      · rw [h1 hw1] at h
        cases h
        exact Or.inr ⟨rfl, rfl⟩
      · by_cases hw2 : weight = WEIGHT_STRONG
        · rw [h2 hw2] at h
          cases h
          exact Or.inr ⟨rfl, rfl⟩
        · rw [h3 hw0 hw1 hw2] at h
          cases h
  · obtain ⟨h0, h1⟩ := dump_queue_enqueue_known_eq q object basis weight hnew
    by_cases hw0 : weight = WEIGHT_NONE
    · rw [h0 hw0] at h
      cases h
      exact Or.inl ⟨rfl, rfl⟩
    · by_cases hw1 : weight = WEIGHT_NORMAL ∨ weight = WEIGHT_STRONG
      · rw [h1 hw1] at h
        cases h
        exact Or.inl ⟨rfl, rfl⟩
      · unfold dump_queue_enqueue at h
        dsimp only at h
        rw [if_neg hnew, if_pos hw0] at h
        split at h
        · rw [if_neg (fun hh => hw1 (Or.inl hh)), if_neg (fun hh => hw1 (Or.inr hh))] at h
          cases h
        · simp only [Except.ok.injEq] at h
          subst h
          split <;> split <;> exact Or.inl ⟨rfl, rfl⟩

theorem queue_sequences_ok_enqueue (q q1 : dump_queue) (object : Nat) (basis weight : Int)
    (hq : queue_sequences_ok q) (h : dump_queue_enqueue q object basis weight = Except.ok q1) :
    queue_sequences_ok q1 := by
  obtain ⟨hn, hv, hx⟩ := hq
  rcases dump_queue_enqueue_sequence q q1 object basis weight h with ⟨h1, h2⟩ | ⟨h1, h2⟩
  · exact ⟨by rw [h1]; exact hn, by rw [h1]; exact hv, by rw [h2]; exact hx⟩
  · refine ⟨?_, ?_, by rw [h2]; omega⟩
    · rw [h1]
      unfold Fputhash
      rw [List.map_cons, List.nodup_cons]
      exact ⟨Fremhash_not_mem _ _, hn.sublist (Fremhash_keys_sublist _ _)⟩
    · rw [h1]
      intro o n ho
      unfold Fputhash at ho
      rcases List.mem_cons.mp ho with he | he
      · cases he
        exact hx
      · exact hv o n (Fremhash_mem _ _ _ he)

theorem queue_sequences_ok_dequeue {S : Type} [LinearOrderedField S] (m : link_score S)
    (q q1 : dump_queue) (basis : Int) (r : Nat) (hq : queue_sequences_ok q)
    (h : dump_queue_dequeue m q basis = Except.ok (r, q1)) : queue_sequences_ok q1 := by
  obtain ⟨hn, hv, hx⟩ := hq
  obtain ⟨_, h2, h3, _⟩ := dump_queue_dequeue_shape m q basis r q1 h
  refine ⟨?_, ?_, by rw [h3]; exact hx⟩
  · rw [h2]
    exact hn.sublist (Fremhash_keys_sublist _ _)
  · rw [h2]
    intro o n ho
    exact hv o n (Fremhash_mem _ _ _ ho)

theorem queue_run_sequences {S : Type} [LinearOrderedField S] (m : link_score S)
    (q : dump_queue) (h : queue_run m q) : queue_sequences_ok q := by
  induction h with
  | init => exact ⟨List.nodup_nil, fun o n ho => by simp [dump_queue_init] at ho, le_refl _⟩
  | enqueue q q1 object basis weight _ he ih =>
    exact queue_sequences_ok_enqueue q q1 object basis weight ih he
  | dequeue q q1 basis object _ hd ih =>
    exact queue_sequences_ok_dequeue m q q1 basis object ih hd
theorem dropWhile_head_live (q : dump_queue) (l : List Nat) (x : Nat) (rest : List Nat)
    (h : l.dropWhile (fun o => decide (dump_queue_sequence q o < 0)) = x :: rest) :
    0 ≤ dump_queue_sequence q x := by
  have h1 := List.head_dropWhile_not (fun o => decide (dump_queue_sequence q o < 0)) l
    (by rw [h]; exact List.cons_ne_nil _ _)
  simp only [h, List.head_cons] at h1
  simpa using h1

theorem dump_queue_dequeue_source {S : Type} [LinearOrderedField S] (m : link_score S)
    (q : dump_queue) (basis : Int) (r : Nat) (q1 : dump_queue)
    (h : dump_queue_dequeue m q basis = Except.ok (r, q1)) :
    r ∈ q.zero_weight_objects ∨ r ∈ q.fancy_weight_objects ∨ 0 ≤ dump_queue_sequence q r := by
  have h := (dump_queue_dequeue_scored_of m q basis _ h).1
  unfold dump_queue_dequeue_scored at h
  cases hf : dump_queue_dequeue_fancy m basis (q.fancy_weight_objects.length + 1) q with
  | none =>
    rw [hf] at h
    cases h
  | some res =>
    obtain ⟨qf, s0, n0⟩ := res
    rw [hf] at h
    obtain ⟨hqf, hsub⟩ := dump_queue_dequeue_fancy_fields m basis _ q qf s0 n0 hf
    generalize qf.fancy_weight_objects = fl at hqf hsub
    subst hqf
    dsimp only at h
    rw [dump_queue_find_score_list, dump_queue_find_score_list] at h
    simp only [dump_queue_sequence_fields] at h
    generalize Option.map Prod.fst (@dump_queue_dequeue_best S _ 0 _ none) = best at h
    generalize hnl : List.dropWhile (fun o => decide (dump_queue_sequence q o < 0))
      q.one_weight_normal_objects = nl at h
    generalize hsl : List.dropWhile (fun o => decide (dump_queue_sequence q o < 0))
      q.one_weight_strong_objects = sl at h
    rcases best with _ | _ | _ | b
    · try dsimp only at h
      cases hz : q.zero_weight_objects with
      | nil =>
        rw [hz] at h
        simp [dump_tailq_pop] at h
      | cons x rest =>
        rw [hz] at h
        simp only [dump_tailq_pop, Option.map_some', Except.ok.injEq, Prod.mk.injEq] at h
        obtain ⟨rfl, rfl⟩ := h
        exact Or.inl (List.mem_cons_self _ _)
    · try dsimp only at h
      cases fl with
      | nil => simp [dump_tailq_pop] at h
      | cons x rest =>
        simp only [dump_tailq_pop, Option.map_some', Except.ok.injEq, Prod.mk.injEq] at h
        obtain ⟨rfl, rfl⟩ := h
        exact Or.inr (Or.inl (hsub.subset (List.mem_cons_self _ _)))
    · try dsimp only at h
      cases nl with
      | nil => simp [dump_tailq_pop] at h
      | cons x rest =>
        simp only [dump_tailq_pop, Option.map_some', Except.ok.injEq, Prod.mk.injEq] at h
        obtain ⟨rfl, rfl⟩ := h
        exact Or.inr (Or.inr (dropWhile_head_live q _ _ _ hnl))
    · try dsimp only at h
      cases sl with
      | nil => simp [dump_tailq_pop] at h
      | cons x rest =>
        simp only [dump_tailq_pop, Option.map_some', Except.ok.injEq, Prod.mk.injEq] at h
        obtain ⟨rfl, rfl⟩ := h
        exact Or.inr (Or.inr (dropWhile_head_live q _ _ _ hsl))

/-- C29, the run that diverges.  Objects 1 and 2 are enqueued with
`WEIGHT_NONE` and object 2 again with `WEIGHT_NORMAL`, which leaves it on the
zero-weight list and on the list of `WEIGHT_NORMAL`.  The first
`dump_queue_dequeue` returns object 2 and removes its sequence number; the
queue is not empty, and the second call returns object 2 again, from the
head of the zero-weight list, although it has no sequence number and was not
enqueued again; the number of queued objects stays 1. -/
theorem dump_queue_dequeue_returns_stale :
    dump_queue_enqueue_all dump_queue_init
        [(1, 10, WEIGHT_NONE), (2, 10, WEIGHT_NONE), (2, 20, WEIGHT_NORMAL)]
        = Except.ok sample_promoted_queue
      ∧ dump_queue_dequeue sample_link_score sample_promoted_queue 30
        = Except.ok (2,
            { sample_promoted_queue with
              one_weight_normal_objects := []
              link_weights := [(1, weight_list.Qt)]
              sequence_numbers := [(1, 1)] })
      ∧ dump_queue_sequence
          { sample_promoted_queue with
            one_weight_normal_objects := []
            link_weights := [(1, weight_list.Qt)]
            sequence_numbers := [(1, 1)] } 2 < 0
      ∧ dump_queue_empty_p
          { sample_promoted_queue with
            one_weight_normal_objects := []
            link_weights := [(1, weight_list.Qt)]
            sequence_numbers := [(1, 1)] } = false
      ∧ dump_queue_dequeue sample_link_score
          { sample_promoted_queue with
            one_weight_normal_objects := []
            link_weights := [(1, weight_list.Qt)]
            sequence_numbers := [(1, 1)] } 40
        = Except.ok (2,
            { sample_promoted_queue with
              zero_weight_objects := [1]
              one_weight_normal_objects := []
              link_weights := [(1, weight_list.Qt)]
              sequence_numbers := [(1, 1)] })
      ∧ hash_table_count
          ({ sample_promoted_queue with
            zero_weight_objects := [1]
            one_weight_normal_objects := []
            link_weights := [(1, weight_list.Qt)]
            sequence_numbers := [(1, 1)] } : dump_queue).sequence_numbers = 1 :=
  ⟨rfl, rfl, by decide, rfl, rfl, rfl⟩

/-! ### The head of a list of objects with one weight -/

theorem Fgethash_Fputhash_ne {V : Type} (key o : Nat) (value : V) (table : List (Nat × V))
    (dflt : V) (h : o ≠ key) :
    Fgethash o (Fputhash key value table) dflt = Fgethash o table dflt := by
  rw [Fgethash_lookup, Fgethash_lookup, lookup_Fputhash_ne key o value table h]

theorem Fgethash_Fremhash_self {V : Type} (key : Nat) (table : List (Nat × V)) (dflt : V) :
    Fgethash key (Fremhash key table) dflt = dflt := by
  rw [Fgethash_lookup, lookup_Fremhash_self]
  rfl

theorem Fgethash_Fremhash_ne {V : Type} (key o : Nat) (table : List (Nat × V)) (dflt : V)
    (h : o ≠ key) : Fgethash o (Fremhash key table) dflt = Fgethash o table dflt := by
  rw [Fgethash_lookup, Fgethash_lookup, lookup_Fremhash_ne key o table h]

theorem dump_queue_enqueue_known_list (q : dump_queue) (object : Nat) (basis weight : Int)
    (l : List (Int × Int))
    (hl : Fgethash object q.link_weights (weight_list.conses []) = weight_list.conses l)
    (hne : l ≠ []) (hw : weight ≠ WEIGHT_NONE) :
    dump_queue_enqueue q object basis weight
      = Except.ok
          { q with
            fancy_weight_objects :=
              if (weight_list.conses l).one_edge then object :: q.fancy_weight_objects
              else q.fancy_weight_objects
            link_weights :=
              Fputhash object (weight_list.conses ((basis, weight) :: l)) q.link_weights } := by
  unfold dump_queue_enqueue
  dsimp only
  rw [hl, if_neg (by simpa using hne), if_pos hw, if_neg (by simp)]
  rcases l with _ | ⟨e, _ | ⟨e2, l2⟩⟩
  · exact absurd rfl hne
  · simp [dump_queue_push_weight, weight_list.one_edge, dump_tailq_prepend]
  · simp [dump_queue_push_weight, weight_list.one_edge]

theorem dump_queue_enqueue_known_Qt_abort (q : dump_queue) (object : Nat) (basis weight : Int)
    (hl : Fgethash object q.link_weights (weight_list.conses []) = weight_list.Qt)
    (h0 : weight ≠ WEIGHT_NONE) (h1 : weight ≠ WEIGHT_NORMAL) (h2 : weight ≠ WEIGHT_STRONG) :
    dump_queue_enqueue q object basis weight = Except.error dump_error.abort := by
  unfold dump_queue_enqueue
  dsimp only
  rw [hl, if_neg (by simp), if_pos h0, if_pos rfl, if_neg h1, if_neg h2]

theorem dump_queue_enqueue_one_weight (q q1 : dump_queue) (object : Nat) (basis weight : Int)
    (h : dump_queue_enqueue q object basis weight = Except.ok q1) :
    (∀ o, o ≠ object →
        Fgethash o q1.link_weights (weight_list.conses [])
          = Fgethash o q.link_weights (weight_list.conses []))
      ∧ (∀ e ∈ (Fgethash object q1.link_weights (weight_list.conses [])).edges,
          e ∈ (Fgethash object q.link_weights (weight_list.conses [])).edges ∨ e.1 = basis)
      ∧ ∀ W, W = WEIGHT_NORMAL ∨ W = WEIGHT_STRONG →
          (q1.one_weight_objects W = object :: q.one_weight_objects W
              ∧ Fgethash object q1.link_weights (weight_list.conses [])
                = weight_list.conses [(basis, W)])
            ∨ (q1.one_weight_objects W = q.one_weight_objects W
              ∧ (Fgethash object q1.link_weights (weight_list.conses [])
                    = Fgethash object q.link_weights (weight_list.conses [])
                ∨ ∀ b, Fgethash object q1.link_weights (weight_list.conses [])
                    ≠ weight_list.conses [(b, W)])) := by
  have hNS : WEIGHT_NORMAL ≠ WEIGHT_STRONG := by decide
  by_cases hw0 : weight = WEIGHT_NONE
  · -- no weight: a new object gets `Qt`, a known one is left alone
    by_cases hnew :
        Fgethash object q.link_weights (weight_list.conses []) = weight_list.conses []
    · rw [(dump_queue_enqueue_new_eq q object basis weight hnew).1 hw0] at h
      cases h
      refine ⟨fun o ho => Fgethash_Fputhash_ne _ _ _ _ _ ho, ?_, ?_⟩
      · intro e he
        rw [Fgethash_Fputhash] at he
        simp [weight_list.edges] at he
      · intro W _
        refine Or.inr ⟨rfl, Or.inr ?_⟩
        intro b
        rw [Fgethash_Fputhash]
        simp
    · rw [(dump_queue_enqueue_known_eq q object basis weight hnew).1 hw0] at h
      cases h
      exact ⟨fun _ _ => rfl, fun e he => Or.inl he, fun W _ => Or.inr ⟨rfl, Or.inl rfl⟩⟩
  · cases hwl : Fgethash object q.link_weights (weight_list.conses []) with
    | Qt =>
      have hknown :
          Fgethash object q.link_weights (weight_list.conses []) ≠ weight_list.conses [] := by
        rw [hwl]
        simp
      by_cases hw : weight = WEIGHT_NORMAL ∨ weight = WEIGHT_STRONG
      · rw [(dump_queue_enqueue_known_eq q object basis weight hknown).2 hw, hwl] at h
        cases h
        refine ⟨fun o ho => Fgethash_Fputhash_ne _ _ _ _ _ ho, ?_, ?_⟩
        · intro e he
          rw [Fgethash_Fputhash] at he
          simp [dump_queue_push_weight, weight_list.edges] at he
          exact Or.inr (by rw [he])
        · intro W hW
          by_cases hWw : W = weight
          · subst hWw
            refine Or.inl ⟨?_, ?_⟩
            · rcases hW with hW | hW
              · simp [dump_queue.one_weight_objects, hW]
              · simp [dump_queue.one_weight_objects, hW, hNS.symm]
            · rw [Fgethash_Fputhash]
              rfl
          · refine Or.inr ⟨?_, Or.inr ?_⟩
            · rcases hW with hW | hW
              · have : weight ≠ WEIGHT_NORMAL := fun hh => hWw (by rw [hW, hh])
                simp [dump_queue.one_weight_objects, hW, this]
              · have : weight ≠ WEIGHT_STRONG := fun hh => hWw (by rw [hW, hh])
                simp [dump_queue.one_weight_objects, hW, hNS.symm, this]
            · intro b
              rw [Fgethash_Fputhash]
              simp [dump_queue_push_weight]
              intro _ hh
              exact hWw hh.symm
      · rw [dump_queue_enqueue_known_Qt_abort q object basis weight hwl hw0
          (fun hh => hw (Or.inl hh)) (fun hh => hw (Or.inr hh))] at h
        cases h
    | conses l =>
      by_cases hl : l = []
      · subst hl
        obtain ⟨_, h1, h2, h3⟩ := dump_queue_enqueue_new_eq q object basis weight hwl
        by_cases hw1 : weight = WEIGHT_NORMAL
        · rw [h1 hw1] at h
          cases h
          refine ⟨fun o ho => Fgethash_Fputhash_ne _ _ _ _ _ ho, ?_, ?_⟩
          · intro e he
            rw [Fgethash_Fputhash] at he
            simp [weight_list.edges] at he
            exact Or.inr (by rw [he])
          · intro W hW
            rcases hW with hW | hW
            · refine Or.inl ⟨?_, ?_⟩
              · unfold dump_queue.one_weight_objects
                rw [if_pos hW, if_pos hW]
              · rw [Fgethash_Fputhash, hW, hw1]
            · refine Or.inr ⟨?_, Or.inr ?_⟩
              · unfold dump_queue.one_weight_objects
                rw [if_neg (by rw [hW]; exact hNS.symm), if_neg (by rw [hW]; exact hNS.symm)]
              · intro b
                rw [Fgethash_Fputhash, hW, hw1]
                simp
                intro _
                exact hNS
        · by_cases hw2 : weight = WEIGHT_STRONG
          · rw [h2 hw2] at h
            cases h
            refine ⟨fun o ho => Fgethash_Fputhash_ne _ _ _ _ _ ho, ?_, ?_⟩
            · intro e he
              rw [Fgethash_Fputhash] at he
              simp [weight_list.edges] at he
              exact Or.inr (by rw [he])
            · intro W hW
              rcases hW with hW | hW
              · refine Or.inr ⟨?_, Or.inr ?_⟩
                · unfold dump_queue.one_weight_objects
                  rw [if_pos hW, if_pos hW]
                · intro b
                  rw [Fgethash_Fputhash, hW, hw2]
                  simp
                  intro _
                  exact hNS.symm
              · refine Or.inl ⟨?_, ?_⟩
                · unfold dump_queue.one_weight_objects
                  rw [if_neg (by rw [hW]; exact hNS.symm), if_neg (by rw [hW]; exact hNS.symm)]
                · rw [Fgethash_Fputhash, hW, hw2]
          · rw [h3 hw0 hw1 hw2] at h
            cases h
      · rw [dump_queue_enqueue_known_list q object basis weight l hwl hl hw0] at h
        cases h
        refine ⟨fun o ho => Fgethash_Fputhash_ne _ _ _ _ _ ho, ?_, ?_⟩
        · intro e he
          rw [Fgethash_Fputhash] at he
          simp only [weight_list.edges, List.mem_cons] at he
          rcases he with he | he
          · exact Or.inr (by rw [he])
          · exact Or.inl he
        · intro W _
          refine Or.inr ⟨rfl, Or.inr ?_⟩
          intro b
          rw [Fgethash_Fputhash]
          rcases l with _ | ⟨e, l2⟩
          · exact absurd rfl hl
          · simp

theorem one_weight_ordered_init (bmax : Int) : one_weight_ordered dump_queue_init bmax := by
  refine ⟨?_, ?_⟩
  · intro o e he
    simp [dump_queue_init, Fgethash, weight_list.edges] at he
  · intro W _ pre x rest hsplit
    have : dump_queue_init.one_weight_objects W = [] := by
      unfold dump_queue.one_weight_objects dump_queue_init
      split <;> rfl
    rw [this] at hsplit
    simp at hsplit

theorem one_weight_ordered_enqueue (q q1 : dump_queue) (bmax : Int) (object : Nat)
    (basis weight : Int) (hq : one_weight_ordered q bmax) (hb : bmax ≤ basis)
    (h : dump_queue_enqueue q object basis weight = Except.ok q1) :
    one_weight_ordered q1 basis := by
  obtain ⟨hbound, hord⟩ := hq
  obtain ⟨hother, hedges, hlists⟩ := dump_queue_enqueue_one_weight q q1 object basis weight h
  have hbound1 : ∀ o e,
      e ∈ (Fgethash o q1.link_weights (weight_list.conses [])).edges → e.1 ≤ basis := by
    intro o e he
    by_cases ho : o = object
    · subst ho
      rcases hedges e he with h1 | h1
      · exact le_trans (hbound _ e h1) hb
      · rw [h1]
    · rw [hother o ho] at he
      exact le_trans (hbound o e he) hb
  refine ⟨hbound1, ?_⟩
  intro W hW pre x rest hsplit y hy b1 b2 hx1 hy1
  have hy_le : b2 ≤ basis := by
    have := hbound1 y (b2, W) (by rw [hy1]; simp [weight_list.edges])
    exact this
  rcases hlists W hW with ⟨hl, hobj⟩ | ⟨hl, hobj⟩
  · rw [hl] at hsplit
    rcases pre with _ | ⟨p, pre1⟩
    · simp only [List.nil_append, List.cons.injEq] at hsplit
      obtain ⟨hxo, _⟩ := hsplit
      subst hxo
      rw [hobj] at hx1
      simp only [weight_list.conses.injEq, List.cons.injEq, Prod.mk.injEq, and_true] at hx1
      exact Or.inl (by rw [← hx1]; exact hy_le)
    · simp only [List.cons_append, List.cons.injEq] at hsplit
      obtain ⟨hpo, hrest⟩ := hsplit
      subst hpo
      by_cases hyo : y = object
      · exact Or.inr (by rw [hyo]; exact List.mem_cons_self _ _)
      · by_cases hxo : x = object
        · subst hxo
          rw [hobj] at hx1
          simp only [weight_list.conses.injEq, List.cons.injEq, Prod.mk.injEq, and_true] at hx1
          exact Or.inl (by rw [← hx1]; exact hy_le)
        · rw [hother x hxo] at hx1
          rw [hother y hyo] at hy1
          rcases hord W hW pre1 x rest hrest y hy b1 b2 hx1 hy1 with h1 | h1
          · exact Or.inl h1
          · exact Or.inr (List.mem_cons_of_mem _ h1)
  · rw [hl] at hsplit
    have hsame : ∀ o b, Fgethash o q1.link_weights (weight_list.conses [])
          = weight_list.conses [(b, W)] →
        Fgethash o q.link_weights (weight_list.conses []) = weight_list.conses [(b, W)] := by
      intro o b ho
      by_cases hoo : o = object
      · subst hoo
        rcases hobj with h1 | h1
        · rw [← h1]
          exact ho
        · exact absurd ho (h1 b)
      · rw [← hother o hoo]
        exact ho
    exact hord W hW pre x rest hsplit y hy b1 b2 (hsame x b1 hx1) (hsame y b2 hy1)

theorem stale_no_weights (q : dump_queue) (hk : queue_keys_ok q) (hs : queue_sequences_ok q)
    (o : Nat) (h : dump_queue_sequence q o < 0) :
    Fgethash o q.link_weights (weight_list.conses []) = weight_list.conses [] := by
  have h1 := (dump_queue_sequence_neg q hs o).mp h
  have h2 := (hk o).1.mp h1
  rw [Fgethash_lookup, h2]
  rfl

theorem one_weight_objects_dequeue {S : Type} [LinearOrderedField S] (m : link_score S)
    (q q1 : dump_queue) (basis : Int) (r : Nat)
    (h : dump_queue_dequeue m q basis = Except.ok (r, q1)) (W : Int) :
    ∃ dropped, q.one_weight_objects W = dropped ++ q1.one_weight_objects W
      ∧ ∀ o ∈ dropped, dump_queue_sequence q o < 0 ∨ o = r := by
  obtain ⟨_, _, _, hn, hs, _⟩ := dump_queue_dequeue_shape m q basis r q1 h
  unfold dump_queue.one_weight_objects
  split
  · exact hn
  · exact hs

theorem one_weight_ordered_dequeue {S : Type} [LinearOrderedField S] (m : link_score S)
    (q q1 : dump_queue) (bmax basis : Int) (r : Nat) (hk : queue_keys_ok q)
    (hs : queue_sequences_ok q) (hq : one_weight_ordered q bmax)
    (h : dump_queue_dequeue m q basis = Except.ok (r, q1)) : one_weight_ordered q1 bmax := by
  obtain ⟨hbound, hord⟩ := hq
  obtain ⟨hlw, _⟩ := dump_queue_dequeue_shape m q basis r q1 h
  have hsame : ∀ o l, l ≠ [] →
      Fgethash o q1.link_weights (weight_list.conses []) = weight_list.conses l →
      o ≠ r ∧ Fgethash o q.link_weights (weight_list.conses []) = weight_list.conses l := by
    intro o l hl ho
    have hor : o ≠ r := by
      intro hh
      subst hh
      rw [hlw, Fgethash_Fremhash_self] at ho
      simp only [weight_list.conses.injEq] at ho
      exact hl ho.symm
    rw [hlw, Fgethash_Fremhash_ne r o _ _ hor] at ho
    exact ⟨hor, ho⟩
  refine ⟨?_, ?_⟩
  · intro o e he
    by_cases hor : o = r
    · subst hor
      rw [hlw, Fgethash_Fremhash_self] at he
      simp [weight_list.edges] at he
    · rw [hlw, Fgethash_Fremhash_ne r o _ _ hor] at he
      exact hbound o e he
  · intro W hW pre x rest hsplit y hy b1 b2 hx1 hy1
    obtain ⟨dropped, hd1, hd2⟩ := one_weight_objects_dequeue m q q1 basis r h W
    obtain ⟨_, hx2⟩ := hsame x _ (List.cons_ne_nil _ _) hx1
    obtain ⟨hyr, hy2⟩ := hsame y _ (List.cons_ne_nil _ _) hy1
    have hsplit2 : q.one_weight_objects W = (dropped ++ pre) ++ x :: rest := by
      rw [hd1, hsplit, List.append_assoc]
    rcases hord W hW (dropped ++ pre) x rest hsplit2 y hy b1 b2 hx2 hy2 with h1 | h1
    · exact Or.inl h1
    · rcases List.mem_append.mp h1 with h2 | h2
      · exfalso
        rcases hd2 y h2 with h3 | h3
        · rw [stale_no_weights q hk hs y h3] at hy2
          simp at hy2
        · exact hyr h3
      · exact Or.inr h2

theorem ordered_run_queue_run {S : Type} [LinearOrderedField S] (m : link_score S)
    (q : dump_queue) (bmax : Int) (h : ordered_run m q bmax) : queue_run m q := by
  induction h with
  | init _ => exact queue_run.init
  | enqueue q q1 _ object basis weight _ _ he ih => exact queue_run.enqueue q q1 object basis weight ih he
  | dequeue q q1 _ basis object _ hd ih => exact queue_run.dequeue q q1 basis object ih hd

theorem ordered_run_ordered {S : Type} [LinearOrderedField S] (m : link_score S)
    (q : dump_queue) (bmax : Int) (h : ordered_run m q bmax) : one_weight_ordered q bmax := by
  induction h with
  | init bmax => exact one_weight_ordered_init bmax
  | enqueue q q1 bmax object basis weight _ hb he ih =>
    exact one_weight_ordered_enqueue q q1 bmax object basis weight ih hb he
  | dequeue q q1 bmax basis object hrun hd ih =>
    have hqr := ordered_run_queue_run m q bmax hrun
    exact one_weight_ordered_dequeue m q q1 bmax basis object (queue_run_keys m q hqr)
      (queue_run_sequences m q hqr) ih hd

theorem dump_queue_compute_score_one {S : Type} [LinearOrderedField S] (m : link_score S)
    (q : dump_queue) (o : Nat) (basis b w : Int)
    (h : Fgethash o q.link_weights (weight_list.conses []) = weight_list.conses [(b, w)]) :
    dump_queue_compute_score m q o basis = m.dump_calc_link_score basis b w := by
  unfold dump_queue_compute_score
  rw [h]
  simp [dump_queue_compute_score_loop]

/-- Objects are enqueued at bases that do not decrease, with calls of
`dump_queue_dequeue` at any offsets between.  On each of the two lists of
objects with one weight, let `head` be the entry that
`dump_queue_find_score_of_one_weight_queue` stops at, with one pair whose
weight is the weight of the list and with a basis below the cursor offset
`B`.  Then every other entry of the list that has one pair with the weight
of the list has a basis that is not above the basis of `head`, and its
score at `B` is not above the score of `head`, for every
`dump_calc_link_score` that falls with the distance, so for the one read
over the real numbers. -/
theorem one_weight_head_maximal {S : Type} [LinearOrderedField S] (m : link_score S)
    (q : dump_queue) (bmax : Int) (hrun : ordered_run m q bmax) (W : Int)
    (hW : W = WEIGHT_NORMAL ∨ W = WEIGHT_STRONG) (B : Int) (head : Nat) (rest : List Nat)
    (hhead : (dump_queue_find_score_of_one_weight_queue m q B (q.one_weight_objects W)).1
      = head :: rest)
    (b1 : Int)
    (h1 : Fgethash head q.link_weights (weight_list.conses []) = weight_list.conses [(b1, W)])
    (hB : b1 < B) (y : Nat) (hy : y ∈ rest) (b2 : Int)
    (h2 : Fgethash y q.link_weights (weight_list.conses []) = weight_list.conses [(b2, W)]) :
    b2 ≤ b1
      ∧ dump_queue_compute_score m q y B ≤ dump_queue_compute_score m q head B := by
  have hqr := ordered_run_queue_run m q bmax hrun
  have hk := queue_run_keys m q hqr
  have hs := queue_run_sequences m q hqr
  obtain ⟨_, hord⟩ := ordered_run_ordered m q bmax hrun
  rw [dump_queue_find_score_list] at hhead
  obtain ⟨dropped, hd1, hd2⟩ := stale_heads_split q (q.one_weight_objects W)
  rw [hhead] at hd1
  have hle : b2 ≤ b1 := by
    rcases hord W hW dropped head rest hd1 y hy b1 b2 h1 h2 with h3 | h3
    · exact h3
    · exfalso
      rw [stale_no_weights q hk hs y (hd2 y h3)] at h2
      simp at h2
  refine ⟨hle, ?_⟩
  rw [dump_queue_compute_score_one m q y B b2 W h2,
    dump_queue_compute_score_one m q head B b1 W h1]
  have hWpos : 0 < W := by
    rcases hW with h | h <;> rw [h] <;> decide
  rcases lt_or_eq_of_le hle with h3 | h3
  · exact le_of_lt (m.score_lt B b2 b1 W h3 hB hWpos)
  · rw [h3]

/-- At `sample_normal_queue`, reached by enqueuing object 1 at basis 10
and object 2 at basis 20 with `WEIGHT_NORMAL`: at the cursor offset 30 the
head, object 2, has a score that is not below the score of object 1. -/
theorem one_weight_head_maximal_witness :
    (10 : Int) ≤ 20
      ∧ dump_queue_compute_score sample_link_score sample_normal_queue 1 30
        ≤ dump_queue_compute_score sample_link_score sample_normal_queue 2 30 :=
  one_weight_head_maximal sample_link_score sample_normal_queue 20
    (ordered_run.enqueue _ _ 10 2 20 WEIGHT_NORMAL
      (ordered_run.enqueue _ _ 10 1 10 WEIGHT_NORMAL (ordered_run.init 10) (by decide) rfl)
      (by decide) rfl)
    WEIGHT_NORMAL (Or.inl rfl) 30 2 [1] rfl 20 rfl (by decide) 1 (by decide) 10 rfl

theorem dump_queue_dequeue_two_edge {S : Type} [LinearOrderedField S] (m : link_score S) :
    dump_queue_dequeue m sample_two_edge_queue 64 = Except.ok (7, sample_stale_queue) := by
  have hlt := m.score_lt 64 32 48 1000 (by decide) (by decide) (by decide)
  have hpos := m.score_pos 64 16 1000 (by decide) (by decide)
  have hs1 : dump_queue_compute_score m sample_two_edge_queue 7 64
      = 0 + m.dump_calc_link_score 64 48 1000 + m.dump_calc_link_score 64 16 1000 := rfl
  have hs2 : dump_queue_compute_score m sample_two_edge_queue 3 64
      = 0 + m.dump_calc_link_score 64 32 1000 := rfl
  have hcmp : dump_queue_compute_score m sample_two_edge_queue 3 64
      < dump_queue_compute_score m sample_two_edge_queue 7 64 := by
    rw [hs1, hs2]
    linarith
  have hscan : dump_queue_scan_fancy m sample_two_edge_queue 64
      = some (0, dump_queue_compute_score m sample_two_edge_queue 7 64) := by
    unfold dump_queue_scan_fancy
    show dump_queue_scan_fancy_loop m sample_two_edge_queue 64 0 [7] none = _
    unfold dump_queue_scan_fancy_loop
    simp only
    unfold dump_queue_scan_fancy_loop
    rfl
  rw [dump_queue_dequeue_of_scored m sample_two_edge_queue 64
    (dump_queue_distances_defined_of_edges _ _ (by decide))]
  unfold dump_queue_dequeue_scored
  have hf := dump_queue_dequeue_fancy_live m 64 1 sample_two_edge_queue 0 _ hscan (by decide)
  have hlen : sample_two_edge_queue.fancy_weight_objects.length + 1 = 1 + 1 := rfl
  rw [hlen, hf]
  simp only [dump_queue_find_score_eq]
  have hn : List.dropWhile
      (fun o => decide (dump_queue_sequence sample_two_edge_queue o < 0))
      sample_two_edge_queue.one_weight_normal_objects = [3, 7] := by decide
  rw [hn]
  have hs : List.dropWhile
      (fun o => decide (dump_queue_sequence
        { sample_two_edge_queue with one_weight_normal_objects := [3, 7] } o < 0))
      sample_two_edge_queue.one_weight_strong_objects = [] := by decide
  simp only [hs]
  have hq : dump_queue_sequence sample_two_edge_queue
      (sample_two_edge_queue.fancy_weight_objects.getD 0 0) = 1 := by decide
  have hq2 : dump_queue_sequence sample_two_edge_queue 3 = 2 := by decide
  have hngt : ¬ (dump_queue_compute_score m sample_two_edge_queue 3 64
      > dump_queue_compute_score m sample_two_edge_queue 7 64) := not_lt.mpr (le_of_lt hcmp)
  have hne : ¬ (dump_queue_compute_score m sample_two_edge_queue 3 64
      = dump_queue_compute_score m sample_two_edge_queue 7 64) := ne_of_lt hcmp
  simp only [hq, hq2, dump_queue_dequeue_best, hngt, hne, false_and, or_self, if_false,
    Option.map_some']
  rfl

/-- C27, the run that diverges.  The cons named 7, whose car is the cons
itself, is enqueued at the bases 16 and 48 with `WEIGHT_NORMAL` and the
object named 3 at basis 32 between; `dump_queue_dequeue` at offset 64 returns
the cons from the fancy list, and it stays on the list of `WEIGHT_NORMAL`.
`dump_cons` writes it at offset 64 while it is still remembered as
`DUMP_OBJECT_ON_NORMAL_QUEUE`, so `dump_field_lv` of its car enqueues it
again, at basis 64 with `WEIGHT_STRONG`.  At the next cursor offset, 80, the
list of `WEIGHT_NORMAL` is 3, 7; both entries have a sequence number and one
pair, and the score of the head, 48 to the power -0.2, is below the score of
the entry behind it, 16 to the power -0.24, with the scores read over the
real numbers. -/
theorem one_weight_head_not_maximal :
    ∃ m : link_score ℝ,
      (∀ basis link_basis link_weight,
        dump_calc_link_score_is basis link_basis link_weight
          (m.dump_calc_link_score basis link_basis link_weight))
      ∧ dump_queue_enqueue_all dump_queue_init
          [(7, 16, WEIGHT_NORMAL), (3, 32, WEIGHT_NORMAL), (7, 48, WEIGHT_NORMAL)]
        = Except.ok sample_two_edge_queue
      ∧ dump_queue_dequeue m sample_two_edge_queue 64 = Except.ok (7, sample_stale_queue)
      ∧ dump_recall_object sample_queued_cons_context (sample_heap 7)
        = DUMP_OBJECT_ON_NORMAL_QUEUE
      ∧ (∃ ctx1 buf1,
          dump_cons_bytes true true sample_platform sample_memory_repr sample_heap sample_XLI
              sample_queued_cons_context sample_stale_queue (fun _ => 0) 1000 1000 1008 7 2
            = Except.ok (ctx1, sample_mixed_queue, buf1, 64)
          ∧ ctx1.offset = 80)
      ∧ (dump_queue_find_score_of_one_weight_queue m sample_mixed_queue 80
          sample_mixed_queue.one_weight_normal_objects).1 = [3, 7]
      ∧ 0 ≤ dump_queue_sequence sample_mixed_queue 7
      ∧ Fgethash 3 sample_mixed_queue.link_weights (weight_list.conses [])
        = weight_list.conses [(32, WEIGHT_NORMAL)]
      ∧ Fgethash 7 sample_mixed_queue.link_weights (weight_list.conses [])
        = weight_list.conses [(64, WEIGHT_STRONG)]
      ∧ dump_queue_compute_score m sample_mixed_queue 3 80
        < dump_queue_compute_score m sample_mixed_queue 7 80 := by
  obtain ⟨m, hm⟩ := dump_calc_link_score_real
  refine ⟨m, hm, rfl, dump_queue_dequeue_two_edge m, rfl, ⟨_, _, rfl, rfl⟩, ?_, by decide, rfl,
    rfl, ?_⟩
  · rw [dump_queue_find_score_list]
    decide
  · rw [dump_queue_compute_score_one m sample_mixed_queue 3 80 32 WEIGHT_NORMAL rfl,
      dump_queue_compute_score_one m sample_mixed_queue 7 80 64 WEIGHT_STRONG rfl]
    have h2 := hm 80 32 WEIGHT_NORMAL
    have h1 := hm 80 64 WEIGHT_STRONG
    unfold dump_calc_link_score_is at h1 h2
    rw [h1, h2]
    have hc1 : (((80 - 32 : Int)) : ℝ) = 48 := by norm_num
    have hc2 : (((80 - 64 : Int)) : ℝ) = 16 := by norm_num
    have he1 : ((WEIGHT_NORMAL : Int) : ℝ) / 1000.0 = 1 := by
      unfold WEIGHT_NORMAL
      norm_num
    have he2 : ((WEIGHT_STRONG : Int) : ℝ) / 1000.0 = 1.2 := by
      unfold WEIGHT_STRONG
      norm_num
    have h32 : (32 : ℝ) ^ (-0.2 : ℝ) = 1 / 2 := by
      have h : (32 : ℝ) = (2 : ℝ) ^ (5 : ℕ) := by norm_num
      have e : ((5 : ℕ) : ℝ) * (-0.2 : ℝ) = -1 := by norm_num
      rw [h, ← Real.rpow_natCast, ← Real.rpow_mul (by norm_num), e, Real.rpow_neg_one]
      norm_num
    have h48 : (48 : ℝ) ^ (-0.2 : ℝ) < 1 / 2 := by
      rw [← h32]
      exact Real.rpow_lt_rpow_of_exponent_neg (by norm_num) (by norm_num) (by norm_num)
    have h16 : (1 / 2 : ℝ) < ((16 : ℝ) ^ (-0.2 : ℝ)) ^ (1.2 : ℝ) := by
      have h : (16 : ℝ) = (2 : ℝ) ^ (4 : ℕ) := by norm_num
      have e : ((4 : ℕ) : ℝ) * ((-0.2 : ℝ) * (1.2 : ℝ)) = -0.96 := by norm_num
      have hhalf : (1 / 2 : ℝ) = (2 : ℝ) ^ (-1 : ℝ) := by
        rw [Real.rpow_neg_one]
        norm_num
      rw [h, ← Real.rpow_natCast, ← Real.rpow_mul (by norm_num), ← Real.rpow_mul (by norm_num),
        e, hhalf]
      exact Real.rpow_lt_rpow_of_exponent_lt (by norm_num) (by norm_num)
    rw [hc1, hc2, he1, he2, Real.rpow_one]
    exact lt_trans h48 h16

/-! ### The field helper for `Lisp_Object` fields -/

theorem field_relpos_ok (ENABLE_CHECKING : Bool) (in_start in_field : Int)
    (hstart : in_start ≤ in_field) (hsize : in_field - in_start < PDUMPER_MAX_OBJECT_SIZE) :
    field_relpos ENABLE_CHECKING in_start in_field = Except.ok (in_field - in_start) := by
  unfold field_relpos
  rw [if_neg (fun hc => hc.2 hstart)]
  dsimp only
  rw [if_neg (fun hc => hc.2 hsize)]
  unfold PDUMPER_MAX_OBJECT_SIZE at hsize
  rw [to_signed_dump_off _ (by unfold DUMP_OFF_MIN; omega) (by unfold DUMP_OFF_MAX; omega)]

theorem dump_queue_enqueue_ok (q : dump_queue) (object : Nat) (basis weight : Int)
    (hw : weight = WEIGHT_NONE ∨ weight = WEIGHT_NORMAL ∨ weight = WEIGHT_STRONG) :
    ∃ q1, dump_queue_enqueue q object basis weight = Except.ok q1 := by
  by_cases hnew : Fgethash object q.link_weights (weight_list.conses []) = weight_list.conses []
  · obtain ⟨h0, h1, h2, _⟩ := dump_queue_enqueue_new_eq q object basis weight hnew
    rcases hw with hw | hw | hw
    · exact ⟨_, h0 hw⟩
    · exact ⟨_, h1 hw⟩
    · exact ⟨_, h2 hw⟩
  · obtain ⟨h0, h1⟩ := dump_queue_enqueue_known_eq q object basis weight hnew
    rcases hw with hw | hw | hw
    · exact ⟨_, h0 hw⟩
    · exact ⟨_, h1 (Or.inl hw)⟩
    · exact ⟨_, h1 (Or.inr hw)⟩

theorem dump_enqueue_object_spec (ENABLE_CHECKING have_current_referrer : Bool)
    (ctx : dump_context) (q : dump_queue) (object : lisp_object) (weight : Int)
    (hneeds : dump_object_needs_dumping_p object = true)
    (hchk : ENABLE_CHECKING = true →
      have_current_referrer = true
        ∧ (ctx.flags.assert_already_seen = true → 0 < dump_recall_object ctx object))
    (hw : weight = WEIGHT_NONE ∨ weight = WEIGHT_NORMAL ∨ weight = WEIGHT_STRONG) :
    ∃ q1,
      dump_enqueue_object ENABLE_CHECKING have_current_referrer ctx q object weight
        = Except.ok
            (if dump_recall_object ctx object = DUMP_OBJECT_NOT_SEEN then
              dump_remember_object ctx object DUMP_OBJECT_ON_NORMAL_QUEUE
             else ctx, q1)
      ∧ (dump_recall_object ctx object = DUMP_OBJECT_NOT_SEEN
            ∨ dump_recall_object ctx object = DUMP_OBJECT_ON_NORMAL_QUEUE →
          dump_queue_enqueue q object.id ctx.offset weight = Except.ok q1)
      ∧ (dump_recall_object ctx object ≠ DUMP_OBJECT_NOT_SEEN →
          dump_recall_object ctx object ≠ DUMP_OBJECT_ON_NORMAL_QUEUE → q1 = q) := by
  have href : ¬ (ENABLE_CHECKING = true ∧ ¬ have_current_referrer = true) :=
    fun hc => hc.2 (hchk hc.1).1
  have hseen : ¬ (ENABLE_CHECKING = true ∧ ctx.flags.assert_already_seen = true
      ∧ ¬ decide (dump_recall_object ctx object > DUMP_OBJECT_NOT_SEEN) = true) := by
    intro hc
    apply hc.2.2
    have := (hchk hc.1).2 hc.2.1
    unfold DUMP_OBJECT_NOT_SEEN
    simpa using this
  unfold dump_enqueue_object
  rw [if_pos hneeds]
  dsimp only
  rw [if_neg hseen]
  generalize hstate : dump_recall_object ctx object = state
  by_cases h0 : state = DUMP_OBJECT_NOT_SEEN
  · obtain ⟨q1, hq1⟩ := dump_queue_enqueue_ok q object.id ctx.offset weight hw
    refine ⟨q1, ?_, fun _ => hq1, fun hne _ => absurd h0 hne⟩
    subst h0
    have hoff : (dump_remember_object ctx object DUMP_OBJECT_ON_NORMAL_QUEUE).offset
        = ctx.offset := rfl
    simp only [DUMP_OBJECT_NOT_SEEN, gt_iff_lt, lt_self_iff_false, decide_False, Bool.not_false,
      if_true, hoff, hq1, bind, Except.bind, if_neg href]
  · by_cases h1 : state = DUMP_OBJECT_ON_NORMAL_QUEUE
    · obtain ⟨q1, hq1⟩ := dump_queue_enqueue_ok q object.id ctx.offset weight hw
      refine ⟨q1, ?_, fun _ => hq1, fun _ hne => absurd h1 hne⟩
      subst h1
      have hd : decide (DUMP_OBJECT_ON_NORMAL_QUEUE > DUMP_OBJECT_NOT_SEEN) = false := by decide
      rw [hd, if_neg h0]
      simp only [Bool.not_false, if_true, if_neg h0, hq1, bind, Except.bind, if_neg href]
    · refine ⟨q, ?_, fun hh => absurd hh (by simp [h0, h1]), fun _ _ => rfl⟩
      rw [if_neg h0, if_neg h0]
      by_cases hpos : state > DUMP_OBJECT_NOT_SEEN
      · simp only [hpos, decide_True, Bool.not_true, Bool.false_eq_true, if_false, bind,
          Except.bind, if_neg href]
      · simp only [hpos, decide_False, Bool.not_false, if_true, if_neg h0, if_neg h1, bind,
          Except.bind, if_neg href]

theorem dump_field_lv_self (ENABLE_CHECKING have_current_referrer : Bool) (rp : memory_repr)
    (heap : Nat → lisp_object) (XLI : Nat → Nat) (ctx : dump_context) (q : dump_queue)
    (out : Int → Nat) (in_start in_field : Int) (value : Nat) (weight : Int)
    (hchk : ENABLE_CHECKING = true → 0 < ctx.obj_offset)
    (hstart : in_start ≤ in_field) (hsize : in_field - in_start < PDUMPER_MAX_OBJECT_SIZE)
    (hself : dump_object_self_representing_p (heap value) = true) :
    dump_field_lv ENABLE_CHECKING have_current_referrer rp heap XLI ctx q out in_start in_field
        value weight
      = Except.ok (ctx, q,
          memcpy_out out (in_field - in_start) (rp.lv_byte (XLI value)) rp.sizeof_lv) := by
  unfold dump_field_lv dump_field_lv_or_rawptr
  rw [if_neg (fun hc => hc.2 (hchk hc.1)), field_relpos_ok ENABLE_CHECKING _ _ hstart hsize]
  simp only [bind, Except.bind, hself, if_true]

theorem dump_field_lv_other (ENABLE_CHECKING have_current_referrer : Bool) (rp : memory_repr)
    (heap : Nat → lisp_object) (XLI : Nat → Nat) (ctx : dump_context) (q : dump_queue)
    (out : Int → Nat) (in_start in_field : Int) (value : Nat) (weight : Int)
    (hchk : ENABLE_CHECKING = true →
      0 < ctx.obj_offset ∧ have_current_referrer = true
        ∧ (ctx.flags.assert_already_seen = true → 0 < dump_recall_object ctx (heap value)))
    (hstart : in_start ≤ in_field) (hsize : in_field - in_start < PDUMPER_MAX_OBJECT_SIZE)
    (hw : weight = WEIGHT_NONE ∨ weight = WEIGHT_NORMAL ∨ weight = WEIGHT_STRONG)
    (hself : dump_object_self_representing_p (heap value) = false) :
    ∃ q1,
      dump_field_lv ENABLE_CHECKING have_current_referrer rp heap XLI ctx q out in_start
          in_field value weight
        = Except.ok
            (if dump_recall_object ctx (heap value) = DUMP_OBJECT_NOT_SEEN then
              dump_remember_object
                (dump_remember_fixup_lv ctx (ctx.obj_offset + (in_field - in_start)) value
                  dump_lv_fixup_type.LV_FIXUP_LISP_OBJECT)
                (heap value) DUMP_OBJECT_ON_NORMAL_QUEUE
             else
              dump_remember_fixup_lv ctx (ctx.obj_offset + (in_field - in_start)) value
                dump_lv_fixup_type.LV_FIXUP_LISP_OBJECT,
             q1,
             memcpy_out out (in_field - in_start) (rp.intptr_byte (placeholder_value rp))
               rp.sizeof_intptr)
      ∧ (dump_recall_object ctx (heap value) = DUMP_OBJECT_NOT_SEEN
            ∨ dump_recall_object ctx (heap value) = DUMP_OBJECT_ON_NORMAL_QUEUE →
          dump_queue_enqueue q (heap value).id ctx.offset weight = Except.ok q1)
      ∧ (dump_recall_object ctx (heap value) ≠ DUMP_OBJECT_NOT_SEEN →
          dump_recall_object ctx (heap value) ≠ DUMP_OBJECT_ON_NORMAL_QUEUE → q1 = q) := by
  have hneeds : dump_object_needs_dumping_p (heap value) = true := by
    unfold dump_object_self_representing_p at hself
    unfold dump_object_needs_dumping_p
    cases hf : FIXNUMP (heap value)
    · rfl
    · rw [hf] at hself
      simp at hself
  have hrec : ∀ off t, dump_recall_object (dump_remember_fixup_lv ctx off value t) (heap value)
      = dump_recall_object ctx (heap value) := by
    intro off t
    unfold dump_remember_fixup_lv dump_recall_object
    split <;> rfl
  have hoffs : ∀ off t, (dump_remember_fixup_lv ctx off value t).offset = ctx.offset := by
    intro off t
    unfold dump_remember_fixup_lv
    split <;> rfl
  have hflags : ∀ off t, (dump_remember_fixup_lv ctx off value t).flags = ctx.flags := by
    intro off t
    unfold dump_remember_fixup_lv
    split <;> rfl
  obtain ⟨q1, h1, h2, h3⟩ := dump_enqueue_object_spec ENABLE_CHECKING have_current_referrer
    (dump_remember_fixup_lv ctx (ctx.obj_offset + (in_field - in_start)) value
      dump_lv_fixup_type.LV_FIXUP_LISP_OBJECT) q (heap value) weight hneeds
    (fun hc => ⟨(hchk hc).2.1, fun ha => by
      rw [hrec]
      rw [hflags] at ha
      exact (hchk hc).2.2 ha⟩) hw
  rw [hrec] at h1 h2 h3
  rw [hoffs] at h2
  refine ⟨q1, ?_, h2, h3⟩
  unfold dump_field_lv dump_field_lv_or_rawptr
  rw [if_neg (fun hc => hc.2 (hchk hc.1).1), field_relpos_ok ENABLE_CHECKING _ _ hstart hsize]
  simp only [bind, Except.bind, hself, Bool.false_eq_true, if_false, h1]

theorem memcpy_out_other (out : Int → Nat) (pos : Int) (src : Nat → Nat) (n m : Nat) (p : Int)
    (hn : n ≤ m) (hp : p < pos ∨ pos + m ≤ p) : memcpy_out out pos src n p = out p := by
  unfold memcpy_out
  rw [if_neg]
  intro hc
  have : (n : Int) ≤ m := by exact_mod_cast hn
  omega

theorem dump_remember_fixup_lv_fixups (ctx : dump_context) (dump_offset : Int) (value : Nat) :
    (dump_remember_fixup_lv ctx dump_offset value dump_lv_fixup_type.LV_FIXUP_LISP_OBJECT).fixups
      = (if ctx.flags.dump_object_contents then
          [fixup_value.fixnum DUMP_FIXUP_LISP_OBJECT, fixup_value.fixnum dump_offset,
            fixup_value.object value] :: ctx.fixups
        else ctx.fixups) := by
  unfold dump_remember_fixup_lv
  cases ctx.flags.dump_object_contents <;> simp

theorem dump_remember_fixup_lv_relocs (ctx : dump_context) (dump_offset : Int) (value : Nat)
    (t : dump_lv_fixup_type) :
    (dump_remember_fixup_lv ctx dump_offset value t).dump_relocs = ctx.dump_relocs := by
  unfold dump_remember_fixup_lv
  split <;> rfl

/-- C23: `dump_field_lv` for a `Lisp_Object` field at `in_field` of the
object at `in_start`, with a weight that is `WEIGHT_NONE`, `WEIGHT_NORMAL` or
`WEIGHT_STRONG`, the `eassert`s holding.  For a self-representing value it
returns with the bits of the value copied to the position of the field, the
context and the queue as they were.  For another value it returns with the
bytes of `(intptr_t) 0xDEADF00D` at that position, one fixup
`DUMP_FIXUP_LISP_OBJECT` for `obj_offset` plus the position and the value
pushed when `dump_object_contents` is on, and no relocation; the value is
enqueued at the write offset with the weight when no offset is remembered for
it or it is on the normal queue, and the queue is left as it was otherwise.
No byte of the out-object outside the field is changed. -/
theorem dump_field_lv_spec (ENABLE_CHECKING have_current_referrer : Bool) (rp : memory_repr)
    (heap : Nat → lisp_object) (XLI : Nat → Nat) (ctx : dump_context) (q : dump_queue)
    (out : Int → Nat) (in_start in_field : Int) (value : Nat) (weight : Int)
    (hchk : ENABLE_CHECKING = true →
      0 < ctx.obj_offset ∧ have_current_referrer = true
        ∧ (ctx.flags.assert_already_seen = true → 0 < dump_recall_object ctx (heap value)))
    (hstart : in_start ≤ in_field) (hsize : in_field - in_start < PDUMPER_MAX_OBJECT_SIZE)
    (hw : weight = WEIGHT_NONE ∨ weight = WEIGHT_NORMAL ∨ weight = WEIGHT_STRONG) :
    (dump_object_self_representing_p (heap value) = true →
        dump_field_lv ENABLE_CHECKING have_current_referrer rp heap XLI ctx q out in_start
            in_field value weight
          = Except.ok (ctx, q,
              memcpy_out out (in_field - in_start) (rp.lv_byte (XLI value)) rp.sizeof_lv))
      ∧ (dump_object_self_representing_p (heap value) = false →
          ∃ ctx1 q1,
            dump_field_lv ENABLE_CHECKING have_current_referrer rp heap XLI ctx q out in_start
                in_field value weight
              = Except.ok (ctx1, q1,
                  memcpy_out out (in_field - in_start) (rp.intptr_byte (placeholder_value rp))
                    rp.sizeof_intptr)
            ∧ ctx1.fixups
              = (if ctx.flags.dump_object_contents then
                  [fixup_value.fixnum DUMP_FIXUP_LISP_OBJECT,
                    fixup_value.fixnum (ctx.obj_offset + (in_field - in_start)),
                    fixup_value.object value] :: ctx.fixups
                else ctx.fixups)
            ∧ ctx1.dump_relocs = ctx.dump_relocs
            ∧ (dump_recall_object ctx (heap value) = DUMP_OBJECT_NOT_SEEN
                  ∨ dump_recall_object ctx (heap value) = DUMP_OBJECT_ON_NORMAL_QUEUE →
                dump_queue_enqueue q (heap value).id ctx.offset weight = Except.ok q1)
            ∧ (dump_recall_object ctx (heap value) ≠ DUMP_OBJECT_NOT_SEEN →
                dump_recall_object ctx (heap value) ≠ DUMP_OBJECT_ON_NORMAL_QUEUE → q1 = q))
      ∧ (∀ r,
          dump_field_lv ENABLE_CHECKING have_current_referrer rp heap XLI ctx q out in_start
              in_field value weight = Except.ok r →
          ∀ p, p < in_field - in_start
              ∨ in_field - in_start + max rp.sizeof_lv rp.sizeof_intptr ≤ p →
            r.2.2 p = out p) := by
  have hself := dump_field_lv_self ENABLE_CHECKING have_current_referrer rp heap XLI ctx q out
    in_start in_field value weight (fun hc => (hchk hc).1) hstart hsize
  have hother := dump_field_lv_other ENABLE_CHECKING have_current_referrer rp heap XLI ctx q out
    in_start in_field value weight hchk hstart hsize hw
  refine ⟨hself, ?_, ?_⟩
  · intro hs
    obtain ⟨q1, h1, h2, h3⟩ := hother hs
    refine ⟨_, q1, h1, ?_, ?_, h2, h3⟩
    · split
      · exact dump_remember_fixup_lv_fixups ctx _ value
      · exact dump_remember_fixup_lv_fixups ctx _ value
    · split
      · exact dump_remember_fixup_lv_relocs ctx _ value _
      · exact dump_remember_fixup_lv_relocs ctx _ value _
  · intro r hr p hp
    cases hs : dump_object_self_representing_p (heap value) with
    | true =>
      rw [hself hs] at hr
      cases hr
      exact memcpy_out_other out _ _ _ _ p (le_max_left _ _) (by push_cast at hp ⊢; exact hp)
    | false =>
      obtain ⟨q1, h1, _⟩ := hother hs
      rw [h1] at hr
      cases hr
      exact memcpy_out_other out _ _ _ _ p (le_max_right _ _) (by push_cast at hp ⊢; exact hp)

/-- C23 at the field at position 8 of an object started at offset 4096, for
the cons named 7, which has no offset remembered, and `WEIGHT_NORMAL`. -/
theorem dump_field_lv_spec_witness :
    ∃ ctx1 q1,
      dump_field_lv true true sample_memory_repr sample_heap sample_XLI sample_context
          dump_queue_init (fun _ => 0) 1000 1008 7 WEIGHT_NORMAL
        = Except.ok (ctx1, q1,
            memcpy_out (fun _ => 0) (1008 - 1000)
              (sample_memory_repr.intptr_byte (placeholder_value sample_memory_repr))
              sample_memory_repr.sizeof_intptr)
      ∧ ctx1.fixups
        = (if sample_context.flags.dump_object_contents then
            [fixup_value.fixnum DUMP_FIXUP_LISP_OBJECT,
              fixup_value.fixnum (sample_context.obj_offset + (1008 - 1000)),
              fixup_value.object 7] :: sample_context.fixups
          else sample_context.fixups)
      ∧ ctx1.dump_relocs = sample_context.dump_relocs
      ∧ (dump_recall_object sample_context (sample_heap 7) = DUMP_OBJECT_NOT_SEEN
            ∨ dump_recall_object sample_context (sample_heap 7) = DUMP_OBJECT_ON_NORMAL_QUEUE →
          dump_queue_enqueue dump_queue_init (sample_heap 7).id sample_context.offset
            WEIGHT_NORMAL = Except.ok q1)
      ∧ (dump_recall_object sample_context (sample_heap 7) ≠ DUMP_OBJECT_NOT_SEEN →
          dump_recall_object sample_context (sample_heap 7) ≠ DUMP_OBJECT_ON_NORMAL_QUEUE →
          q1 = dump_queue_init) :=
  (dump_field_lv_spec true true sample_memory_repr sample_heap sample_XLI sample_context
    dump_queue_init (fun _ => 0) 1000 1008 7 WEIGHT_NORMAL
    (fun _ => ⟨by decide, rfl, fun h => absurd h (by decide)⟩) (by decide) (by decide)
    (Or.inr (Or.inl rfl))).2.1 rfl

/-- The cons named 7 is remembered at offset 512 when `dump_field_lv` meets
it in a field: the placeholder is written and the fixup pushed, but
`dump_enqueue_object` leaves the queue empty, so the value is not
enqueued. -/
theorem dump_field_lv_dumped_counterexample :
    dump_object_self_representing_p (sample_heap 7) = false
      ∧ dump_field_lv true true sample_memory_repr sample_heap sample_XLI sample_dumped_context
          dump_queue_init (fun _ => 0) 1000 1008 7 WEIGHT_NORMAL
        = Except.ok
            (dump_remember_fixup_lv sample_dumped_context 4104 7
              dump_lv_fixup_type.LV_FIXUP_LISP_OBJECT,
             dump_queue_init,
             memcpy_out (fun _ => 0) 8
              (sample_memory_repr.intptr_byte (placeholder_value sample_memory_repr)) 8)
      ∧ dump_queue_empty_p dump_queue_init = true
      ∧ dump_queue_sequence dump_queue_init 7 < 0 := by
  refine ⟨rfl, ?_, rfl, by decide⟩
  obtain ⟨q1, h1, _, h3⟩ := dump_field_lv_other true true sample_memory_repr sample_heap
    sample_XLI sample_dumped_context dump_queue_init (fun _ => 0) 1000 1008 7 WEIGHT_NORMAL
    (fun _ => ⟨by decide, rfl, fun h => absurd h (by decide)⟩) (by decide) (by decide)
    (Or.inr (Or.inl rfl)) rfl
  have hq : q1 = dump_queue_init := h3 (by decide) (by decide)
  rw [hq] at h1
  rw [h1]
  rfl

/-! ### A cons whose car is a built-in symbol -/

theorem dump_align_output_eq (ctx : dump_context) (a : Int) :
    dump_align_output ctx a = { ctx with offset := (dump_align_output ctx a).offset } := by
  unfold dump_align_output dump_write_zero dump_write
  split
  · split <;> rfl
  · rfl

theorem dump_object_start_bytes_ok (ENABLE_CHECKING : Bool) (pf : platform) (ctx : dump_context)
    (buf : Int → Nat) (hchk : ENABLE_CHECKING = true → ctx.obj_offset = 0) :
    ∃ offset buf0,
      dump_object_start_bytes ENABLE_CHECKING pf ctx buf
        = Except.ok ({ ctx with offset := offset, obj_offset := offset }, buf0, fun _ => 0)
      ∧ ctx.offset ≤ offset := by
  unfold dump_object_start_bytes
  rw [if_neg (fun hc => hc.2 (hchk hc.1))]
  dsimp only
  cases hcont : ctx.flags.dump_object_contents with
  | false =>
    refine ⟨ctx.offset, buf, ?_, le_refl _⟩
    simp only [Bool.false_eq_true, if_false, bind, Except.bind]
  | true =>
    rw [if_pos rfl, dump_align_output_checked_ok ENABLE_CHECKING ctx buf _
      (fun hc => ⟨hchk hc, hcont⟩)]
    generalize ha : (if ctx.flags.pack_objects = true then (1 : Int)
      else (DUMP_ALIGNMENT pf.GCALIGNMENT : Int)) = a
    have h1 : (dump_align_output_bytes ctx buf a).1 = dump_align_output ctx a := by
      unfold dump_align_output_bytes dump_align_output dump_write_zero_bytes dump_write_zero
      split
      · exact (dump_write_zero_loop_spec _ ctx buf _ (Int.self_le_toNat _)).1
      · rfl
    refine ⟨(dump_align_output ctx a).offset, (dump_align_output_bytes ctx buf a).2, ?_,
      dump_align_output_offset_le ctx a⟩
    simp only [bind, Except.bind]
    rw [h1]
    conv_lhs => rw [dump_align_output_eq ctx a]

theorem dump_field_lv_frame (ENABLE_CHECKING have_current_referrer : Bool) (rp : memory_repr)
    (heap : Nat → lisp_object) (XLI : Nat → Nat) (ctx : dump_context) (q : dump_queue)
    (out : Int → Nat) (in_start in_field : Int) (value : Nat) (weight : Int)
    (hchk : ENABLE_CHECKING = true →
      0 < ctx.obj_offset ∧ have_current_referrer = true
        ∧ (ctx.flags.assert_already_seen = true → 0 < dump_recall_object ctx (heap value)))
    (hstart : in_start ≤ in_field) (hsize : in_field - in_start < PDUMPER_MAX_OBJECT_SIZE)
    (hw : weight = WEIGHT_NONE ∨ weight = WEIGHT_NORMAL ∨ weight = WEIGHT_STRONG) :
    ∃ ctx1 q1 out1,
      dump_field_lv ENABLE_CHECKING have_current_referrer rp heap XLI ctx q out in_start
          in_field value weight = Except.ok (ctx1, q1, out1)
      ∧ ctx1.offset = ctx.offset ∧ ctx1.obj_offset = ctx.obj_offset ∧ ctx1.flags = ctx.flags
      ∧ ctx1.dump_relocs = ctx.dump_relocs
      ∧ (∀ fixup ∈ ctx1.fixups, fixup ∈ ctx.fixups
          ∨ fixup = [fixup_value.fixnum DUMP_FIXUP_LISP_OBJECT,
              fixup_value.fixnum (ctx.obj_offset + (in_field - in_start)),
              fixup_value.object value])
      ∧ (∀ p, p < in_field - in_start
            ∨ in_field - in_start + max rp.sizeof_lv rp.sizeof_intptr ≤ p → out1 p = out p) := by
  cases hs : dump_object_self_representing_p (heap value) with
  | true =>
    refine ⟨ctx, q, _, dump_field_lv_self ENABLE_CHECKING have_current_referrer rp heap XLI ctx q
      out in_start in_field value weight (fun hc => (hchk hc).1) hstart hsize hs, rfl, rfl, rfl,
      rfl, fun f hf => Or.inl hf, ?_⟩
    intro p hp
    exact memcpy_out_other out _ _ _ _ p (le_max_left _ _) (by push_cast at hp ⊢; exact hp)
  | false =>
    obtain ⟨q1, h1, _⟩ := dump_field_lv_other ENABLE_CHECKING have_current_referrer rp heap XLI
      ctx q out in_start in_field value weight hchk hstart hsize hw hs
    refine ⟨_, q1, _, h1, ?_, ?_, ?_, ?_, ?_, ?_⟩
    · unfold dump_remember_fixup_lv dump_remember_object
      split <;> split <;> rfl
    · unfold dump_remember_fixup_lv dump_remember_object
      split <;> split <;> rfl
    · unfold dump_remember_fixup_lv dump_remember_object
      split <;> split <;> rfl
    · unfold dump_remember_fixup_lv dump_remember_object
      split <;> split <;> rfl
    · intro f hf
      have hfix : f ∈ (dump_remember_fixup_lv ctx (ctx.obj_offset + (in_field - in_start)) value
          dump_lv_fixup_type.LV_FIXUP_LISP_OBJECT).fixups := by
        revert hf
        unfold dump_remember_object
        split <;> exact fun h => h
      rw [dump_remember_fixup_lv_fixups] at hfix
      split at hfix
      · rcases List.mem_cons.mp hfix with h | h
        · exact Or.inr h
        · exact Or.inl h
      · exact Or.inl hfix
    · intro p hp
      exact memcpy_out_other out _ _ _ _ p (le_max_right _ _) (by push_cast at hp ⊢; exact hp)

theorem dump_builtin_symbol_not_subr (object : lisp_object)
    (h : dump_builtin_symbol_p object = true) :
    SUBRP object = false ∧ dump_object_self_representing_p object = true := by
  unfold dump_builtin_symbol_p at h
  unfold SUBRP dump_object_self_representing_p dump_builtin_symbol_p
  cases hb : object.body <;> rw [hb] at h <;> simp_all

/-- C22: `dump_cons` for a cons whose car is a built-in symbol, the `eassert`s
holding and the cdr field lying behind the car field, within the cons.  The
call returns, and it pushes no relocation: `dump_relocs` is as before.  Every
fixup it pushes is the one for the cdr field, so none is for the car slot.
With `dump_object_contents` on, the bytes of the car slot in the dump are the
bits of the symbol's own `Lisp_Object`.  `dump_reloc_dump_to_emacs_lv` stops
the dump when it is called for `Lisp_Symbol`, and `dump_do_fixup` for a
`DUMP_FIXUP_LISP_OBJECT` fixup of the symbol writes these same bits and
pushes no relocation either. -/
theorem dump_cons_builtin_symbol_car (ENABLE_CHECKING have_current_referrer : Bool)
    (pf : platform) (h : host) (rp : memory_repr) (heap : Nat → lisp_object)
    (optr XLI : Nat → Nat) (ctx : dump_context) (q : dump_queue) (buf : Int → Nat)
    (cons car_field cdr_field : Int) (car cdr : Nat)
    (hcar : dump_builtin_symbol_p (heap car) = true)
    (hchk : ENABLE_CHECKING = true →
      ctx.obj_offset = 0 ∧ 0 < ctx.offset ∧ have_current_referrer = true
        ∧ (ctx.flags.assert_already_seen = true → 0 < dump_recall_object ctx (heap cdr)))
    (hcar_field : cons ≤ car_field) (hcdr_field : car_field + rp.sizeof_lv ≤ cdr_field)
    (hcdr_size : cdr_field - cons < PDUMPER_MAX_OBJECT_SIZE)
    (hsize : cdr_field - cons ≤ pf.sizeof_Lisp_Cons) :
    (∃ ctx1 q1 buf1 offset,
        dump_cons_bytes ENABLE_CHECKING have_current_referrer pf rp heap XLI ctx q buf cons
            car_field cdr_field car cdr = Except.ok (ctx1, q1, buf1, offset)
        ∧ ctx1.dump_relocs = ctx.dump_relocs
        ∧ (∀ fixup ∈ ctx1.fixups, fixup ∈ ctx.fixups
            ∨ fixup = [fixup_value.fixnum DUMP_FIXUP_LISP_OBJECT,
                fixup_value.fixnum (offset + (cdr_field - cons)), fixup_value.object cdr])
        ∧ (ctx.flags.dump_object_contents = true → ∀ i : Nat, i < rp.sizeof_lv →
            buf1 (offset + (car_field - cons) + i) = rp.lv_byte (XLI car) i))
      ∧ (ctx.flags.dump_object_contents = true → ∀ dump_offset,
          dump_reloc_dump_to_emacs_lv ctx dump_offset Lisp_Type.Lisp_Symbol
            = Except.error dump_error.abort)
      ∧ (∀ (c : dump_context) (b : Int → Nat),
          dump_do_fixup_lisp_object ENABLE_CHECKING pf h rp heap optr XLI c b
              DUMP_FIXUP_LISP_OBJECT car
            = dump_write_checked ENABLE_CHECKING c b (rp.lv_byte (XLI car)) rp.sizeof_lv) := by
  obtain ⟨hsubr, hself⟩ := dump_builtin_symbol_not_subr (heap car) hcar
  have hlv : (0 : Int) ≤ rp.sizeof_lv := Int.natCast_nonneg _
  refine ⟨?_, ?_, ?_⟩
  · obtain ⟨off0, buf0, hstart, hoff0⟩ := dump_object_start_bytes_ok ENABLE_CHECKING pf ctx buf
      (fun hc => (hchk hc).1)
    have hcar1 := dump_field_lv_self ENABLE_CHECKING have_current_referrer rp heap XLI
      { ctx with offset := off0, obj_offset := off0 } q (fun _ => 0) cons car_field car
      WEIGHT_STRONG (fun hc => lt_of_lt_of_le (hchk hc).2.1 hoff0) hcar_field
      (by unfold PDUMPER_MAX_OBJECT_SIZE at hcdr_size ⊢; omega) hself
    obtain ⟨ctx2, q2, out2, hcdr1, ho, hoo, hfl, hrel, hfix, hout⟩ :=
      dump_field_lv_frame ENABLE_CHECKING have_current_referrer rp heap XLI
        { ctx with offset := off0, obj_offset := off0 } q
        (memcpy_out (fun _ => 0) (car_field - cons) (rp.lv_byte (XLI car)) rp.sizeof_lv)
        cons cdr_field cdr WEIGHT_NORMAL
        (fun hc => ⟨lt_of_lt_of_le (hchk hc).2.1 hoff0, (hchk hc).2.2.1, (hchk hc).2.2.2⟩)
        (by omega) hcdr_size (Or.inr (Or.inl rfl))
    have hoff2 : ctx2.offset = off0 := ho
    have hobj2 : ctx2.obj_offset = off0 := hoo
    have hflags2 : ctx2.flags = ctx.flags := hfl
    unfold dump_cons_bytes
    rw [hstart]
    simp only [bind, Except.bind]
    rw [hcar1]
    dsimp only
    rw [hcdr1]
    dsimp only
    unfold dump_object_finish_bytes
    dsimp only
    rw [if_neg (by
      intro hc
      apply hc.2
      rw [hobj2, hoff2]
      exact ⟨lt_of_lt_of_le (hchk hc.1).2.1 hoff0, rfl⟩)]
    cases hcont : ctx.flags.dump_object_contents with
    | false =>
      rw [if_neg (by rw [hflags2, hcont]; simp)]
      refine ⟨_, q2, buf0, ctx2.obj_offset, rfl, hrel, ?_, fun hh => absurd hh (by simp)⟩
      rw [hobj2]
      exact hfix
    | true =>
      rw [if_pos (by rw [hflags2, hcont])]
      rw [dump_write_checked_ok ENABLE_CHECKING { ctx2 with obj_offset := 0 } buf0 _ _
        (fun _ => ⟨rfl, by rw [hflags2, hcont]⟩)]
      refine ⟨_, q2, _, ctx2.obj_offset, rfl, hrel, ?_, ?_⟩
      · rw [hobj2]
        exact hfix
      · intro _ i hi
        unfold dump_write_bytes
        dsimp only
        have hi2 : (i : Int) < rp.sizeof_lv := by exact_mod_cast hi
        have hi0 : (0 : Int) ≤ i := Int.natCast_nonneg _
        rw [hobj2, hoff2, if_pos (by constructor <;> omega)]
        have hpos : ((off0 + (car_field - cons) + (i : Int) - off0).toNat : Int)
            = car_field - cons + i := by
          rw [Int.toNat_of_nonneg (by omega)]
          ring
        rw [hpos, hout _ (Or.inl (by omega))]
        unfold memcpy_out
        rw [if_pos (by constructor <;> omega)]
        congr 1
        have : car_field - cons + (i : Int) - (car_field - cons) = (i : Int) := by ring
        rw [this, Int.toNat_ofNat]
  · intro hcont dump_offset
    unfold dump_reloc_dump_to_emacs_lv
    rw [hcont]
    rfl
  · intro c b
    unfold dump_do_fixup_lisp_object
    dsimp only
    rw [if_neg (by rw [hsubr]; simp), if_pos hcar, if_pos rfl]

/-- C22 at a cons at address 1000 whose car, at 1000, is the built-in symbol
named 1 and whose cdr, at 1008, is the cons named 7, dumped from
`sample_cold_context`. -/
theorem dump_cons_builtin_symbol_car_witness :
    ∃ ctx1 q1 buf1 offset,
      dump_cons_bytes true true sample_platform sample_memory_repr sample_heap sample_XLI
          sample_cold_context dump_queue_init (fun _ => 0) 1000 1000 1008 1 7
        = Except.ok (ctx1, q1, buf1, offset)
      ∧ ctx1.dump_relocs = sample_cold_context.dump_relocs
      ∧ (∀ fixup ∈ ctx1.fixups, fixup ∈ sample_cold_context.fixups
          ∨ fixup = [fixup_value.fixnum DUMP_FIXUP_LISP_OBJECT,
              fixup_value.fixnum (offset + (1008 - 1000)), fixup_value.object 7])
      ∧ (sample_cold_context.flags.dump_object_contents = true →
          ∀ i : Nat, i < sample_memory_repr.sizeof_lv →
            buf1 (offset + (1000 - 1000) + i) = sample_memory_repr.lv_byte (sample_XLI 1) i) :=
  (dump_cons_builtin_symbol_car true true sample_platform sample_host sample_memory_repr
    sample_heap (fun _ => 0) sample_XLI sample_cold_context dump_queue_init (fun _ => 0)
    1000 1000 1008 1 7 rfl
    (fun _ => ⟨rfl, by decide, rfl, fun h => absurd h (by decide)⟩) (by decide) (by decide)
    (by decide) (by decide)).1

/-- The cons of the witness: `dump_cons` returns the offset 65544 and leaves
no relocation at all, so none of the kind `RELOC_DUMP_TO_EMACS_LV` plus
`Lisp_Symbol` at the car slot; the one fixup is for the cdr slot at 65552,
and the first byte of the car slot is the low byte of the symbol's own
bits. -/
theorem dump_cons_symbol_reloc_counterexample :
    ∃ ctx1 q1 buf1,
      dump_cons_bytes true true sample_platform sample_memory_repr sample_heap sample_XLI
          sample_cold_context dump_queue_init (fun _ => 0) 1000 1000 1008 1 7
        = Except.ok (ctx1, q1, buf1, 65544)
      ∧ (∀ phase, ctx1.dump_relocs phase = [])
      ∧ ctx1.fixups
        = [[fixup_value.fixnum DUMP_FIXUP_LISP_OBJECT, fixup_value.fixnum 65552,
            fixup_value.object 7]]
      ∧ buf1 65544 = sample_XLI 1 % 256 :=
  ⟨_, _, _, rfl, fun _ => rfl, rfl, rfl⟩

/-! ### Fixups of `Lisp_Object` fields -/

theorem dump_reloc_dump_to_dump_lv_ok (ctx : dump_context) (dump_offset : Int)
    (object : lisp_object) (hcont : ctx.flags.dump_object_contents = true)
    (hfix : FIXNUMP object = false) :
    dump_reloc_dump_to_dump_lv ctx dump_offset (XTYPE object)
      = Except.ok (push_dump_reloc ctx reloc_phase.EARLY_RELOCS
          [lisp_value.fixnum ((RELOC_DUMP_TO_DUMP_LV : Int) + (XTYPE object).code),
            dump_off_to_lisp dump_offset]) := by
  unfold dump_reloc_dump_to_dump_lv
  rw [hcont]
  unfold FIXNUMP at hfix
  unfold XTYPE
  cases hb : object.body <;> rw [hb] at hfix <;> simp_all

theorem dump_do_fixup_lisp_object_resolved (ENABLE_CHECKING : Bool) (pf : platform) (h : host)
    (rp : memory_repr) (heap : Nat → lisp_object) (optr XLI : Nat → Nat)
    (bignum_data : List (Nat × lisp_reloc)) (ctx : dump_context) (buf : Int → Nat)
    (prev_fixup : Option lisp_fixup) (f : Int) (v : Nat)
    (hcont : ctx.flags.dump_object_contents = true)
    (hfix : FIXNUMP (heap v) = false)
    (hsubr : ¬ (SUBRP (heap v) = true
      ∧ ¬ NATIVE_COMP_FUNCTIONP pf.HAVE_NATIVE_COMP (heap v) = true))
    (hsym : dump_builtin_symbol_p (heap v) = false)
    (hchk : ENABLE_CHECKING = true →
      dump_fixup_distance_ok h rp prev_fixup f = true ∧ ctx.obj_offset = 0
        ∧ dump_object_emacs_ptr pf.HAVE_NATIVE_COMP (heap v) = false) :
    dump_do_fixup ENABLE_CHECKING pf h rp heap optr XLI bignum_data ctx buf
        [fixup_value.fixnum DUMP_FIXUP_LISP_OBJECT, fixup_value.fixnum f, fixup_value.object v]
        prev_fixup
      = if dump_recall_object ctx (heap v) ≤ 0 then
          Except.error (dump_error.error "fixup object not dumped")
        else
          Except.ok
            (dump_write_bytes
              (push_dump_reloc { ctx with offset := f } reloc_phase.EARLY_RELOCS
                [lisp_value.fixnum ((RELOC_DUMP_TO_DUMP_LV : Int) + (XTYPE (heap v)).code),
                  dump_off_to_lisp f])
              buf (rp.intptr_byte (dump_recall_object ctx (heap v))) rp.sizeof_intptr) := by
  unfold dump_do_fixup
  dsimp only
  rw [if_neg (fun hc => hc.2 (hchk hc.1).1), if_neg (fun hc => hc.2 rfl)]
  unfold dump_seek
  rw [if_neg (fun hc => hc.2 (hchk hc.1).2.1)]
  simp only [bind, Except.bind]
  rw [if_pos (Or.inl trivial)]
  unfold dump_do_fixup_lisp_object
  dsimp only
  rw [if_neg hsubr, if_neg (by rw [hsym]; simp),
    if_neg (fun hc => by
      have := (hchk hc.1).2.2
      rw [this] at hc
      exact absurd hc.2 (by simp))]
  have hrec : dump_recall_object { ctx with offset := f } (heap v)
      = dump_recall_object ctx (heap v) := rfl
  rw [hrec]
  by_cases hle : dump_recall_object ctx (heap v) ≤ 0
  · rw [if_pos hle, if_pos hle]
  · rw [if_neg hle, if_neg hle, if_pos rfl,
      dump_reloc_dump_to_dump_lv_ok { ctx with offset := f } f (heap v) hcont hfix]
    simp only [bind, Except.bind]
    exact dump_write_checked_ok ENABLE_CHECKING _ buf _ _
      (fun hc => ⟨(hchk hc).2.1, hcont⟩)

theorem dump_do_fixups_loop_ok (ENABLE_CHECKING : Bool) (pf : platform) (h : host)
    (rp : memory_repr) (heap : Nat → lisp_object) (optr XLI : Nat → Nat)
    (bignum_data : List (Nat × lisp_reloc)) (fixups : List lisp_fixup) :
    ∀ (ctx : dump_context) (buf : Int → Nat) (prev_fixup : Option lisp_fixup),
      ctx.flags.dump_object_contents = true →
      (ENABLE_CHECKING = true → ctx.obj_offset = 0) →
      (ENABLE_CHECKING = true → fixups_spaced h rp prev_fixup fixups = true) →
      (∀ fixup ∈ fixups, fixup_resolvable ENABLE_CHECKING pf heap ctx.objects_dumped fixup) →
      ∃ r, dump_do_fixups_loop ENABLE_CHECKING pf h rp heap optr XLI bignum_data ctx buf
            fixups prev_fixup = Except.ok r
        ∧ r.1.obj_offset = ctx.obj_offset ∧ r.1.fixups = ctx.fixups := by
  induction fixups with
  | nil =>
    intro ctx buf prev_fixup _ _ _ _
    exact ⟨(ctx, buf), rfl, rfl, rfl⟩
  | cons fixup rest ih =>
    intro ctx buf prev_fixup hcont hobj hsp hres
    obtain ⟨f, v, hfx, hfix, hsubr, hsym, hptr, hpos⟩ := hres fixup (List.mem_cons_self _ _)
    subst hfx
    have hsp1 : ENABLE_CHECKING = true →
        dump_fixup_distance_ok h rp prev_fixup f = true
          ∧ fixups_spaced h rp
            (some [fixup_value.fixnum DUMP_FIXUP_LISP_OBJECT, fixup_value.fixnum f,
              fixup_value.object v]) rest = true := by
      intro hc
      have := hsp hc
      unfold fixups_spaced at this
      simpa [lisp_fixup_offset] using this
    have hstep := dump_do_fixup_lisp_object_resolved ENABLE_CHECKING pf h rp heap optr XLI
      bignum_data ctx buf prev_fixup f v hcont hfix hsubr hsym
      (fun hc => ⟨(hsp1 hc).1, hobj hc, hptr hc⟩)
    rw [if_neg (by
      have : dump_recall_object ctx (heap v) = ctx.objects_dumped (heap v).id := rfl
      rw [this]
      omega)] at hstep
    unfold dump_do_fixups_loop
    rw [hstep]
    simp only [bind, Except.bind]
    obtain ⟨r, hr, hr1, hr2⟩ := ih
      (dump_write_bytes
        (push_dump_reloc { ctx with offset := f } reloc_phase.EARLY_RELOCS
          [lisp_value.fixnum ((RELOC_DUMP_TO_DUMP_LV : Int) + (XTYPE (heap v)).code),
            dump_off_to_lisp f])
        buf (rp.intptr_byte (dump_recall_object ctx (heap v))) rp.sizeof_intptr).1
      (dump_write_bytes
        (push_dump_reloc { ctx with offset := f } reloc_phase.EARLY_RELOCS
          [lisp_value.fixnum ((RELOC_DUMP_TO_DUMP_LV : Int) + (XTYPE (heap v)).code),
            dump_off_to_lisp f])
        buf (rp.intptr_byte (dump_recall_object ctx (heap v))) rp.sizeof_intptr).2
      (some [fixup_value.fixnum DUMP_FIXUP_LISP_OBJECT, fixup_value.fixnum f,
        fixup_value.object v])
      hcont hobj (fun hc => (hsp1 hc).2)
      (fun fx hfx => hres fx (List.mem_cons_of_mem _ hfx))
    exact ⟨r, hr, hr1, hr2⟩

theorem mem_Fsort_fixups (l : List lisp_fixup) (fixup : lisp_fixup) :
    fixup ∈ Fsort_fixups l ↔ fixup ∈ l := by
  unfold Fsort_fixups
  exact (List.perm_insertionSort _ l).mem_iff

/-- C24: a fixup of type `DUMP_FIXUP_LISP_OBJECT` for the slot at offset `f`
and the object `v`, which is not a fixnum, a primitive subr or a built-in
symbol, with `dump_object_contents` on and the `eassert`s holding.
`dump_do_fixup` raises "fixup object not dumped" exactly when the offset
remembered for `v` is not above 0.  Otherwise it returns: the bytes of the
word at `f` are those of the remembered offset, no other byte of the buffer
changes, and one relocation of type `RELOC_DUMP_TO_DUMP_LV` plus the type of
`v` for the offset `f` is pushed on the early relocations; nothing asks that
`v` be another object than the one that holds the slot.  `dump_do_fixups`
returns, with the write offset it started with and no fixup left, when every
fixup is one that resolves and the sorted fixups are spaced as the `eassert`
asks; and whenever it returns, the write offset is the one it started
with. -/
theorem dump_do_fixup_resolves (ENABLE_CHECKING : Bool) (pf : platform) (h : host)
    (rp : memory_repr) (heap : Nat → lisp_object) (optr XLI : Nat → Nat)
    (bignum_data : List (Nat × lisp_reloc)) (ctx : dump_context) (buf : Int → Nat)
    (prev_fixup : Option lisp_fixup) (f : Int) (v : Nat)
    (hcont : ctx.flags.dump_object_contents = true)
    (hfix : FIXNUMP (heap v) = false)
    (hsubr : ¬ (SUBRP (heap v) = true
      ∧ ¬ NATIVE_COMP_FUNCTIONP pf.HAVE_NATIVE_COMP (heap v) = true))
    (hsym : dump_builtin_symbol_p (heap v) = false)
    (hchk : ENABLE_CHECKING = true →
      dump_fixup_distance_ok h rp prev_fixup f = true ∧ ctx.obj_offset = 0
        ∧ dump_object_emacs_ptr pf.HAVE_NATIVE_COMP (heap v) = false) :
    (dump_do_fixup ENABLE_CHECKING pf h rp heap optr XLI bignum_data ctx buf
          [fixup_value.fixnum DUMP_FIXUP_LISP_OBJECT, fixup_value.fixnum f, fixup_value.object v]
          prev_fixup = Except.error (dump_error.error "fixup object not dumped")
        ↔ dump_recall_object ctx (heap v) ≤ 0)
      ∧ (0 < dump_recall_object ctx (heap v) →
          ∃ ctx1 buf1,
            dump_do_fixup ENABLE_CHECKING pf h rp heap optr XLI bignum_data ctx buf
                [fixup_value.fixnum DUMP_FIXUP_LISP_OBJECT, fixup_value.fixnum f,
                  fixup_value.object v] prev_fixup = Except.ok (ctx1, buf1)
            ∧ (∀ i : Nat, i < rp.sizeof_intptr →
                buf1 (f + i) = rp.intptr_byte (dump_recall_object ctx (heap v)) i)
            ∧ (∀ p, p < f ∨ f + rp.sizeof_intptr ≤ p → buf1 p = buf p)
            ∧ ctx1.dump_relocs reloc_phase.EARLY_RELOCS
              = [lisp_value.fixnum ((RELOC_DUMP_TO_DUMP_LV : Int) + (XTYPE (heap v)).code),
                  dump_off_to_lisp f] :: ctx.dump_relocs reloc_phase.EARLY_RELOCS
            ∧ (∀ phase, phase ≠ reloc_phase.EARLY_RELOCS →
                ctx1.dump_relocs phase = ctx.dump_relocs phase))
      ∧ ((ENABLE_CHECKING = true →
            fixups_spaced h rp none (Fsort_fixups ctx.fixups.reverse) = true) →
          (∀ fixup ∈ ctx.fixups,
            fixup_resolvable ENABLE_CHECKING pf heap ctx.objects_dumped fixup) →
          ∃ r, dump_do_fixups ENABLE_CHECKING pf h rp heap optr XLI bignum_data ctx buf
                = Except.ok r
            ∧ r.1.offset = ctx.offset ∧ r.1.fixups = [])
      ∧ (∀ r, dump_do_fixups ENABLE_CHECKING pf h rp heap optr XLI bignum_data ctx buf
            = Except.ok r → r.1.offset = ctx.offset) := by
  have hstep := dump_do_fixup_lisp_object_resolved ENABLE_CHECKING pf h rp heap optr XLI
    bignum_data ctx buf prev_fixup f v hcont hfix hsubr hsym hchk
  refine ⟨?_, ?_, ?_, ?_⟩
  · rw [hstep]
    constructor
    · intro he
      by_contra hle
      rw [if_neg hle] at he
      cases he
    · intro hle
      rw [if_pos hle]
  · intro hpos
    rw [hstep, if_neg (by omega)]
    refine ⟨_, _, rfl, ?_, ?_, ?_, ?_⟩
    · intro i hi
      simp only [push_dump_reloc]
      have hi2 : (i : Int) < rp.sizeof_intptr := by exact_mod_cast hi
      have hi0 : (0 : Int) ≤ i := Int.natCast_nonneg _
      rw [if_pos (by constructor <;> omega)]
      congr 1
      have : f + (i : Int) - f = (i : Int) := by ring
      rw [this, Int.toNat_ofNat]
    · intro p hp
      simp only [push_dump_reloc]
      rw [if_neg (by omega)]
    · simp [push_dump_reloc, dump_write]
    · intro phase hphase
      simp [push_dump_reloc, dump_write, hphase]
  · intro hsp hres
    obtain ⟨r, hr, hr1, hr2⟩ := dump_do_fixups_loop_ok ENABLE_CHECKING pf h rp heap optr XLI
      bignum_data (Fsort_fixups ctx.fixups.reverse) { ctx with fixups := [] } buf none hcont
      (fun hc => (hchk hc).2.1) hsp
      (fun fx hfx => hres fx (by
        rw [mem_Fsort_fixups, List.mem_reverse] at hfx
        exact hfx))
    unfold dump_do_fixups
    dsimp only
    rw [hr]
    unfold dump_seek
    simp only [bind, Except.bind]
    rw [if_neg (fun hc => hc.2 (by rw [hr1]; exact (hchk hc.1).2.1))]
    exact ⟨_, rfl, rfl, hr2⟩
  · intro r hr
    unfold dump_do_fixups at hr
    dsimp only at hr
    cases hl : dump_do_fixups_loop ENABLE_CHECKING pf h rp heap optr XLI bignum_data
        { ctx with fixups := [] } buf (Fsort_fixups ctx.fixups.reverse) none with
    | error e =>
      rw [hl] at hr
      cases hr
    | ok r1 =>
      rw [hl] at hr
      unfold dump_seek at hr
      simp only [bind, Except.bind] at hr
      by_cases hc : ENABLE_CHECKING = true ∧ r1.1.obj_offset ≠ 0
      · rw [if_pos hc] at hr
        cases hr
      · rw [if_neg hc] at hr
        cases hr
        rfl

/-- C24 at `sample_self_cons_context`: the cons named 7 is remembered at
offset 4096 and the fixup is for its own cdr field at 4104. -/
theorem dump_do_fixup_resolves_witness :
    (∃ ctx1 buf1,
        dump_do_fixup true sample_platform sample_host sample_memory_repr sample_heap
            (fun _ => 0) sample_XLI [] sample_self_cons_context (fun _ => 0)
            [fixup_value.fixnum DUMP_FIXUP_LISP_OBJECT, fixup_value.fixnum 4104,
              fixup_value.object 7] none = Except.ok (ctx1, buf1)
        ∧ (∀ i : Nat, i < sample_memory_repr.sizeof_intptr →
            buf1 (4104 + i)
              = sample_memory_repr.intptr_byte
                  (dump_recall_object sample_self_cons_context (sample_heap 7)) i)
        ∧ (∀ p : Int, p < 4104 ∨ 4104 + sample_memory_repr.sizeof_intptr ≤ p →
            buf1 p = (fun _ => 0) p)
        ∧ ctx1.dump_relocs reloc_phase.EARLY_RELOCS
          = [lisp_value.fixnum
                ((RELOC_DUMP_TO_DUMP_LV : Int) + (XTYPE (sample_heap 7)).code),
              dump_off_to_lisp 4104]
              :: sample_self_cons_context.dump_relocs reloc_phase.EARLY_RELOCS
        ∧ (∀ phase, phase ≠ reloc_phase.EARLY_RELOCS →
            ctx1.dump_relocs phase = sample_self_cons_context.dump_relocs phase))
      ∧ (∃ r, dump_do_fixups true sample_platform sample_host sample_memory_repr sample_heap
              (fun _ => 0) sample_XLI [] sample_self_cons_context (fun _ => 0) = Except.ok r
          ∧ r.1.offset = sample_self_cons_context.offset ∧ r.1.fixups = []) :=
  ⟨(dump_do_fixup_resolves true sample_platform sample_host sample_memory_repr sample_heap
      (fun _ => 0) sample_XLI [] sample_self_cons_context (fun _ => 0) none 4104 7 rfl rfl
      (by decide) rfl (fun _ => ⟨rfl, rfl, rfl⟩)).2.1 (by decide),
    (dump_do_fixup_resolves true sample_platform sample_host sample_memory_repr sample_heap
      (fun _ => 0) sample_XLI [] sample_self_cons_context (fun _ => 0) none 4104 7 rfl rfl
      (by decide) rfl (fun _ => ⟨rfl, rfl, rfl⟩)).2.2.1 (fun _ => rfl)
      (fun fixup hfixup =>
        ⟨4104, 7, List.mem_singleton.mp hfixup, rfl, by decide, rfl, fun _ => rfl,
          by decide⟩)⟩

/-! ### Hash tables are written when `dump_object` meets them -/

theorem dump_one_object_fields (pf : platform) (ctx : dump_context) (sz : Int) :
    (dump_one_object pf ctx sz).1.hash_tables = ctx.hash_tables
      ∧ (dump_one_object pf ctx sz).1.deferred_hash_tables = ctx.deferred_hash_tables
      ∧ (dump_one_object pf ctx sz).1.objects_dumped = ctx.objects_dumped
      ∧ (dump_one_object pf ctx sz).1.flags = ctx.flags
      ∧ ctx.offset ≤ (dump_one_object pf ctx sz).2
      ∧ (ctx.flags.dump_object_contents = true →
          (dump_one_object pf ctx sz).1.offset = (dump_one_object pf ctx sz).2 + sz) := by
  unfold dump_one_object dump_object_finish dump_object_start
  dsimp only
  cases hcont : ctx.flags.dump_object_contents with
  | false =>
    simp [hcont]
  | true =>
    rw [if_pos rfl]
    generalize ha : (if ctx.flags.pack_objects = true then (1 : Int)
      else (DUMP_ALIGNMENT pf.GCALIGNMENT : Int)) = a
    have hle := dump_align_output_offset_le ctx a
    rw [dump_align_output_eq ctx a] at hle ⊢
    simp [hcont, dump_write]
    exact hle

theorem dump_lisp_words_fields (pf : platform) (n : Nat) (ctx : dump_context) :
    (dump_lisp_words pf n ctx).hash_tables = ctx.hash_tables
      ∧ (dump_lisp_words pf n ctx).deferred_hash_tables = ctx.deferred_hash_tables
      ∧ (dump_lisp_words pf n ctx).objects_dumped = ctx.objects_dumped
      ∧ (dump_lisp_words pf n ctx).flags = ctx.flags := by
  induction n generalizing ctx with
  | zero => exact ⟨rfl, rfl, rfl, rfl⟩
  | succ n ih =>
    rw [dump_lisp_words]
    obtain ⟨h1, h2, h3, h4, _⟩ := dump_one_object_fields pf ctx pf.sizeof_Lisp_Object
    obtain ⟨i1, i2, i3, i4⟩ := ih (dump_one_object pf ctx pf.sizeof_Lisp_Object).1
    exact ⟨i1.trans h1, i2.trans h2, i3.trans h3, i4.trans h4⟩

theorem dump_packed_slots_fields (pf : platform) (ctx : dump_context) (n : Int) :
    (dump_packed_slots pf ctx n).hash_tables = ctx.hash_tables
      ∧ (dump_packed_slots pf ctx n).deferred_hash_tables = ctx.deferred_hash_tables
      ∧ (dump_packed_slots pf ctx n).objects_dumped = ctx.objects_dumped
      ∧ (dump_packed_slots pf ctx n).flags = ctx.flags := by
  unfold dump_packed_slots
  dsimp only
  generalize hc : dump_align_output ctx (DUMP_ALIGNMENT pf.GCALIGNMENT : Int) = c
  have he := dump_align_output_eq ctx (DUMP_ALIGNMENT pf.GCALIGNMENT : Int)
  rw [hc] at he
  obtain ⟨i1, i2, i3, _⟩ := dump_lisp_words_fields pf n.toNat
    { c with flags := { c.flags with pack_objects := true } }
  refine ⟨i1.trans ?_, i2.trans ?_, i3.trans ?_, ?_⟩
  · rw [he]
  · rw [he]
  · rw [he]
  · rw [he]

theorem dump_hash_table_fields (pf : platform) (hpf : pf.sizes_ok) (ctx : dump_context)
    (object : lisp_object) (v : vectorlike) (htest : v.hash_std_test = true) :
    ∃ w, dump_hash_table pf ctx object v = Except.ok w
      ∧ w.1.hash_tables = object.id :: ctx.hash_tables
      ∧ w.1.deferred_hash_tables = ctx.deferred_hash_tables
      ∧ w.1.objects_dumped = ctx.objects_dumped
      ∧ w.1.flags = ctx.flags
      ∧ ctx.offset ≤ w.2
      ∧ (ctx.flags.dump_object_contents = true → w.2 + v.nbytes ≤ w.1.offset) := by
  unfold dump_hash_table
  dsimp only
  rw [htest]
  obtain ⟨h1, h2, h3, h4, h5, h6⟩ := dump_one_object_fields pf
    { ctx with hash_tables := object.id :: ctx.hash_tables } v.nbytes
  cases hkv : v.hash_key_and_value with
  | false =>
    refine ⟨_, rfl, h1, h2, h3, h4, h5, ?_⟩
    intro hc
    exact le_of_eq (h6 hc).symm
  | true =>
    obtain ⟨p1, p2, p3, p4⟩ := dump_packed_slots_fields pf
      (dump_one_object pf { ctx with hash_tables := object.id :: ctx.hash_tables } v.nbytes).1
      (2 * v.hash_count)
    refine ⟨_, rfl, p1.trans h1, p2.trans h2, p3.trans h3, p4.trans h4, h5, ?_⟩
    intro hc
    have := dump_packed_slots_offset_le pf hpf
      (dump_one_object pf { ctx with hash_tables := object.id :: ctx.hash_tables } v.nbytes).1
      (2 * v.hash_count)
    have h7 := h6 hc
    simp only [Bool.true_eq_false, if_false, if_true] at this ⊢
    omega

/-- C21: `dump_object` on a hash table with a standard test that has no
offset remembered, with `dump_object_contents` on and the write offset above
0, whatever `defer_hash_tables` is.  The call returns an offset above 0, so
not `DUMP_OBJECT_ON_HASH_TABLE_QUEUE`; the table is written at once, at that
offset, which is not below the write offset before, and the write offset moves
past it; the offset is remembered for the table, the table is pushed on
`hash_tables`, and `deferred_hash_tables` and the flags are as before.
`dump_drain_deferred_hash_tables` on an empty `deferred_hash_tables` returns
the context unchanged. -/
theorem dump_object_hash_table_at_once (pf : platform) (hpf : pf.sizes_ok)
    (heap : Nat → lisp_object) (fuel : Nat) (ctx : dump_context) (object : lisp_object)
    (v : vectorlike) (hbody : object.body = lisp_body.vectorlike v)
    (htype : v.ptype = pvec_type.PVEC_HASH_TABLE) (htest : v.hash_std_test = true)
    (hnot : dump_recall_object ctx object ≤ 0) (hoff : 0 < ctx.offset)
    (hcont : ctx.flags.dump_object_contents = true) :
    (∃ ctx1 offset,
        dump_object pf (fuel + 1) ctx object = Except.ok (ctx1, offset)
        ∧ 0 < offset ∧ offset ≠ DUMP_OBJECT_ON_HASH_TABLE_QUEUE
        ∧ ctx.offset ≤ offset ∧ offset + v.nbytes ≤ ctx1.offset
        ∧ dump_recall_object ctx1 object = offset
        ∧ ctx1.hash_tables = object.id :: ctx.hash_tables
        ∧ ctx1.deferred_hash_tables = ctx.deferred_hash_tables
        ∧ ctx1.flags = ctx.flags)
      ∧ (ctx.deferred_hash_tables = [] →
          dump_drain_deferred_hash_tables pf heap fuel ctx = Except.ok ctx) := by
  refine ⟨?_, ?_⟩
  · obtain ⟨w, hw, w1, w2, w3, w4, w5, w6⟩ :=
      dump_hash_table_fields pf hpf ctx object v htest
    have hcold : cold_object_p object = false := by
      unfold cold_object_p
      rw [hbody]
      simp [htype]
    have hptr : dump_object_emacs_ptr pf.HAVE_NATIVE_COMP object = false := by
      unfold dump_object_emacs_ptr
      rw [hbody]
      simp [htype]
    have hwpos : 0 < w.2 := lt_of_lt_of_le hoff w5
    rw [dump_object]
    dsimp only
    rw [if_neg (by omega), if_neg (by rw [hcold]; simp), if_neg (by rw [hptr]; simp), hbody]
    dsimp only
    unfold dump_vectorlike
    rw [htype]
    dsimp only
    rw [hw]
    simp only [bind, Except.bind]
    rw [if_pos ⟨by rw [w4]; exact hcont, by unfold DUMP_OBJECT_NOT_SEEN; omega⟩]
    have hne : w.2 ≠ DUMP_OBJECT_ON_HASH_TABLE_QUEUE := by
      unfold DUMP_OBJECT_ON_HASH_TABLE_QUEUE
      omega
    split
    · refine ⟨_, w.2, rfl, hwpos, hne, w5, w6 hcont, ?_, w1, w2, w4⟩
      simp [dump_recall_object, dump_remember_object]
    · refine ⟨_, w.2, rfl, hwpos, hne, w5, w6 hcont, ?_, w1, w2, w4⟩
      simp [dump_recall_object, dump_remember_object]
  · intro hnil
    unfold dump_drain_deferred_hash_tables
    dsimp only
    rw [hnil]
    simp only [List.reverse_nil, dump_drain_deferred_hash_tables_loop, bind, Except.bind]
    rw [← hnil]

/-- C21 at `sample_hash_table` and `sample_cold_context`, in which
`defer_hash_tables` is set. -/
theorem dump_object_hash_table_at_once_witness :
    (∃ ctx1 offset,
        dump_object sample_platform 1 sample_cold_context sample_hash_table
          = Except.ok (ctx1, offset)
        ∧ 0 < offset ∧ offset ≠ DUMP_OBJECT_ON_HASH_TABLE_QUEUE
        ∧ sample_cold_context.offset ≤ offset
        ∧ offset + sample_hash_table_vector.nbytes ≤ ctx1.offset
        ∧ dump_recall_object ctx1 sample_hash_table = offset
        ∧ ctx1.hash_tables = sample_hash_table.id :: sample_cold_context.hash_tables
        ∧ ctx1.deferred_hash_tables = sample_cold_context.deferred_hash_tables
        ∧ ctx1.flags = sample_cold_context.flags)
      ∧ (sample_cold_context.deferred_hash_tables = [] →
          dump_drain_deferred_hash_tables sample_platform sample_heap 0 sample_cold_context
            = Except.ok sample_cold_context) :=
  dump_object_hash_table_at_once sample_platform (by unfold platform.sizes_ok; decide)
    sample_heap 0 sample_cold_context sample_hash_table sample_hash_table_vector rfl rfl rfl
    (by decide) (by decide) rfl

/-- The hash table `sample_hash_table` has no offset remembered and
`defer_hash_tables` is set: `dump_object` returns the offset 65544, where it
has written the table, not `DUMP_OBJECT_ON_HASH_TABLE_QUEUE`; it remembers
that offset and leaves `deferred_hash_tables` empty. -/
theorem dump_object_hash_table_deferred_counterexample :
    sample_cold_context.flags.defer_hash_tables = true
      ∧ dump_recall_object sample_cold_context sample_hash_table = DUMP_OBJECT_NOT_SEEN
      ∧ ∃ ctx1,
          dump_object sample_platform 1 sample_cold_context sample_hash_table
            = Except.ok (ctx1, 65544)
          ∧ dump_recall_object ctx1 sample_hash_table = 65544
          ∧ ctx1.offset = 65600
          ∧ ctx1.hash_tables = [31]
          ∧ ctx1.deferred_hash_tables = [] :=
  ⟨rfl, rfl, _, rfl, rfl, rfl, rfl, rfl⟩

end Pdumper
